import Mathlib

/-!
# RISC-V IOMMU hardware performance monitor (drivers/iommu/riscv/iommu-pmu.c)

A shallow embedding of the counter-bank driver: the register access layer, the
slot allocator (`riscv_iommu_pmu_add` / `riscv_iommu_pmu_del`), the period
programmer (`riscv_iommu_pmu_set_period`), the delta rule
(`riscv_iommu_pmu_update`), the request lifecycle (`riscv_iommu_pmu_event_init`,
`riscv_iommu_pmu_start`, `riscv_iommu_pmu_stop`), the bank-wide operations
(`riscv_iommu_pmu_start_all`, `riscv_iommu_pmu_stop_all`,
`riscv_iommu_pmu_uninit`) and the overflow handler
(`riscv_iommu_pmu_handle_irq`), followed by theorems about them.

Conventions of the embedding

* C integers are `Nat` (unsigned) or `Int` (signed) with the wrap-around written
  out: `toU32`, `toU64`, `toS32`, `toS64` are the C conversions to `u32`, `u64`,
  `int` and `s64`.
* A `struct perf_event *` is a handle (`Nat`) into `State.event`; the NULL
  pointer of the slot table `pmu->events[]` is `none`.  Dereferencing NULL and
  indexing the tables with a negative `int` have no C meaning: the functions
  that can do so return `Option`, and `none` is that fault.
* The device registers are addressed by their byte offset from `pmu->reg` and
  accessed at their declared width: `readq`/`writeq` on the 64-bit registers,
  `readl`/`writel` on the 32-bit ones.
* `for_each_set_bit` is a fold over the list `set_bits` of the set bits below
  the bound, in increasing order.
* The sample consumer `perf_event_overflow` belongs to the perf core: the
  handler takes its answer from a parameter `overflow` and records the samples
  it hands over in a list.
* `perf_event_update_userpage` touches nothing the driver reads back and is
  left out.  The `do { } while (local64_cmpxchg ...)` loop of
  `riscv_iommu_pmu_update` is taken in a single context, where its first
  compare-and-swap succeeds.
-/

namespace RiscvIommuPmu

/-! ## Constants of the headers -/

/-- The constants the driver names from `iommu-bits.h`, `linux/perf_event.h`
and `errno.h`.  Those headers are not part of the source set, so the values
are parameters of every definition below. -/
structure Consts where
  /-- Offset of the 32-bit overflow-status register. -/
  RISCV_IOMMU_REG_IOCOUNTOVF : Nat
  /-- Offset of the 32-bit inhibit register. -/
  RISCV_IOMMU_REG_IOCOUNTINH : Nat
  /-- Offset of the cycles counter, the first entry of the counter array. -/
  RISCV_IOMMU_REG_IOHPMCYCLES : Nat
  /-- Offset of the event-selector array (selector of slot 1 first). -/
  RISCV_IOMMU_REG_IOHPMEVT_BASE : Nat
  /-- Field mask of the count inside a counter register. -/
  RISCV_IOMMU_IOHPMCTR_COUNTER : Nat
  /-- Overflow bit inside the cycles counter register. -/
  RISCV_IOMMU_IOHPMCYCLES_OF : Nat
  /-- Overflow bit inside an event-selector register. -/
  RISCV_IOMMU_IOHPMEVT_OF : Nat
  /-- Field mask of the event id inside a configuration word. -/
  RISCV_IOMMU_IOHPMEVT_EVENTID : Nat
  /-- Event id of the cycle-count event. -/
  RISCV_IOMMU_HPMEVENT_CYCLE : Nat
  /-- Event id of the do-not-count event. -/
  RISCV_IOMMU_HPMEVENT_INVALID : Nat
  /-- Flag of `hw.state`: the counter is stopped. -/
  PERF_HES_STOPPED : Nat
  /-- Flag of `hw.state`: the accumulated total is up to date. -/
  PERF_HES_UPTODATE : Nat
  /-- Flag of `add`: start the event once it is scheduled. -/
  PERF_EF_START : Nat
  /-- Flag of `start`: reload the counter. -/
  PERF_EF_RELOAD : Nat
  /-- Flag of `stop`: update the total when stopping. -/
  PERF_EF_UPDATE : Nat
  /-- Error number returned (negated) when no slot is free. -/
  EAGAIN : Nat
  /-- Error number returned (negated) for an invalid argument. -/
  EINVAL : Nat

/-- One assignment of the constants, used to evaluate the driver on concrete
inputs: the register offsets and overflow bits (`BIT_ULL(63)`) of the RISC-V
IOMMU register layout, a 64-bit counter field, the event id in bits 0-14 as
`PMU_FORMAT_ATTR(event, "config:0-14")` says, and the flag values of
`linux/perf_event.h`.  The id given to the cycle event is one id distinct from
the do-not-count id. -/
def sampleConsts : Consts where
  RISCV_IOMMU_REG_IOCOUNTOVF := 0x58
  RISCV_IOMMU_REG_IOCOUNTINH := 0x5C
  RISCV_IOMMU_REG_IOHPMCYCLES := 0x60
  RISCV_IOMMU_REG_IOHPMEVT_BASE := 0x160
  RISCV_IOMMU_IOHPMCTR_COUNTER := 0xFFFFFFFFFFFFFFFF
  RISCV_IOMMU_IOHPMCYCLES_OF := 0x8000000000000000
  RISCV_IOMMU_IOHPMEVT_OF := 0x8000000000000000
  RISCV_IOMMU_IOHPMEVT_EVENTID := 0x7FFF
  RISCV_IOMMU_HPMEVENT_CYCLE := 0x4000
  RISCV_IOMMU_HPMEVENT_INVALID := 0
  PERF_HES_STOPPED := 1
  PERF_HES_UPTODATE := 2
  PERF_EF_START := 1
  PERF_EF_RELOAD := 2
  PERF_EF_UPDATE := 4
  EAGAIN := 11
  EINVAL := 22

/-! ## C integer conversions -/

/-- Conversion of an integer to `u32`. -/
@[irreducible] def toU32 (i : Int) : Nat := (i % 4294967296).toNat

/-- Conversion of an integer to `u64`. -/
@[irreducible] def toU64 (i : Int) : Nat := (i % 18446744073709551616).toNat

/-- Conversion of an integer to `int` (two's complement, 32 bits). -/
@[irreducible] def toS32 (i : Int) : Int := (i + 2147483648) % 4294967296 - 2147483648

/-- Conversion of an integer to `s64` (two's complement, 64 bits). -/
@[irreducible] def toS64 (i : Int) : Int :=
  (i + 9223372036854775808) % 18446744073709551616 - 9223372036854775808

/-- Complement of a `u64`: `~x`. -/
@[irreducible] def u64_not (x : Nat) : Nat := 18446744073709551615 - x % 18446744073709551616

/-- Modelled from the spec: the kernel macro `BIT(nr)`, `1UL << nr`, is not
part of the source set; it is the one bit of a slot in the inhibit bitmask.  C
defines the shift for `nr < 64` only; the 32-bit write that follows drops any
bit from 32 on. -/
def BIT (nr : Nat) : Nat := 2 ^ nr

/-- Number of trailing zero bits of `mask`, looking at `fuel` bits. -/
def bf_shf_aux : Nat → Nat → Nat
  | 0, _ => 0
  | fuel + 1, mask => if mask % 2 = 1 then 0 else bf_shf_aux fuel (mask / 2) + 1

/-- Modelled from the spec: the shift `__bf_shf(mask)` of `linux/bitfield.h`,
not part of the source set: the position of the lowest set bit of a 64-bit
field mask. -/
def bf_shf (mask : Nat) : Nat := bf_shf_aux 64 mask

/-- Modelled from the spec: the kernel macro `FIELD_GET(mask, reg)`, not part
of the source set: the field of `reg` selected by `mask` (the event id of a
configuration word, the count of a counter register), shifted down to bit 0. -/
def FIELD_GET (mask reg : Nat) : Nat := (reg &&& mask) >>> bf_shf mask

/-- Modelled from the spec: the kernel macro `FIELD_PREP(mask, val)`, not part
of the source set: `val` shifted up into the field selected by `mask`, in
64-bit arithmetic. -/
def FIELD_PREP (mask val : Nat) : Nat :=
  ((val <<< bf_shf mask) % 18446744073709551616) &&& mask

/-! ## Data model -/

/-- The fields of `struct hw_perf_event` the driver uses. -/
structure hw_perf_event where
  /-- Assigned slot (`int`), `-1` when unassigned. -/
  idx : Int
  /-- Event descriptor (`u64`). -/
  config : Nat
  /-- State flags (`PERF_HES_*`). -/
  state : Nat
  /-- Sample period (`u64`). -/
  sample_period : Nat
  /-- Period of the sample being collected (`u64`). -/
  last_period : Nat
  /-- Events left until the period ends (`local64_t`, read as `s64`). -/
  period_left : Int
  /-- Previous snapshot of the counter (`local64_t`, read as `u64`). -/
  prev_count : Nat

/-- The fields of `struct perf_event` the driver uses. -/
structure perf_event where
  /-- The descriptor `attr.config` (`u64`). -/
  attr_config : Nat
  /-- The requested period `attr.sample_period` (`u64`). -/
  attr_sample_period : Nat
  /-- Accumulated total (`local64_t`, kept as its 64-bit pattern). -/
  count : Nat
  /-- Hardware-specific part. -/
  hw : hw_perf_event

/-- The device registers behind `pmu->reg`, by byte offset. -/
structure Regs where
  /-- The 64-bit registers (`readq` / `writeq`). -/
  q : Nat → Nat
  /-- The 32-bit registers (`readl` / `writel`). -/
  l : Nat → Nat

/-- The counter bank, `struct riscv_iommu_pmu`. -/
structure riscv_iommu_pmu where
  /-- Device registers. -/
  reg : Regs
  /-- Number of slots. -/
  num_counters : Nat
  /-- Counter bit mask (`u64`). -/
  mask_counter : Nat
  /-- Slot table: the request of each slot, `none` for NULL. -/
  events : Nat → Option Nat
  /-- Occupancy bitmap. -/
  used_counters : Nat → Bool

/-- The bank together with the requests that exist. -/
structure State where
  /-- The counter bank. -/
  pmu : riscv_iommu_pmu
  /-- The request behind each handle. -/
  event : Nat → perf_event

/-! ## Register access -/

/-- Modelled from the spec: `readq`, the 64-bit register read the device
layer provides. -/
def readq (r : Regs) (addr : Nat) : Nat := r.q addr % 18446744073709551616

/-- Modelled from the spec: `writeq`, the 64-bit register write the device
layer provides. -/
def writeq (r : Regs) (value addr : Nat) : Regs :=
  { r with q := Function.update r.q addr (value % 18446744073709551616) }

/-- Modelled from the spec: `readl`, the 32-bit register read the device
layer provides. -/
def readl (r : Regs) (addr : Nat) : Nat := r.l addr % 4294967296

/-- Modelled from the spec: `writel`, the 32-bit register write the device
layer provides. -/
def writel (r : Regs) (value addr : Nat) : Regs :=
  { r with l := Function.update r.l addr (value % 4294967296) }

/-- The extractor `get_event` (lines 16-22): the event id of a request, a `u32`. -/
def get_event (c : Consts) (event : perf_event) : Nat :=
  FIELD_GET c.RISCV_IOMMU_IOHPMEVT_EVENTID event.attr_config % 4294967296

/-- Address `pmu->reg + RISCV_IOMMU_REG_IOHPMCYCLES + idx * 8` of the counter
of slot `idx`; `idx * 8` is a `u32` product. -/
def counter_addr (c : Consts) (idx : Nat) : Nat :=
  c.RISCV_IOMMU_REG_IOHPMCYCLES + idx * 8 % 4294967296

/-- Address `pmu->reg + RISCV_IOMMU_REG_IOHPMEVT_BASE + (idx - 1) * 8` of the
event selector of slot `idx`, in `u32` arithmetic. -/
def event_addr (c : Consts) (idx : Nat) : Nat :=
  c.RISCV_IOMMU_REG_IOHPMEVT_BASE + toU32 ((idx : Int) - 1) * 8 % 4294967296

/-- Lines 114-123. -/
def riscv_iommu_pmu_set_counter (c : Consts) (pmu : riscv_iommu_pmu) (idx value : Nat) :
    riscv_iommu_pmu :=
  if idx > pmu.num_counters then pmu
  else
    { pmu with reg := writeq pmu.reg (FIELD_PREP c.RISCV_IOMMU_IOHPMCTR_COUNTER value)
                        (counter_addr c idx) }

/-- Lines 125-136. -/
def riscv_iommu_pmu_get_counter (c : Consts) (pmu : riscv_iommu_pmu) (idx : Nat) : Nat :=
  if idx > pmu.num_counters then toU64 (-(c.EINVAL : Int))
  else FIELD_GET c.RISCV_IOMMU_IOHPMCTR_COUNTER (readq pmu.reg (counter_addr c idx))

/-- Lines 138-150. -/
def riscv_iommu_pmu_get_event (c : Consts) (pmu : riscv_iommu_pmu) (idx : Nat) : Nat :=
  if idx > pmu.num_counters then 0
  else if idx = 0 then 0
  else readq pmu.reg (event_addr c idx)

/-- Lines 152-165. -/
def riscv_iommu_pmu_set_event (c : Consts) (pmu : riscv_iommu_pmu) (idx value : Nat) :
    riscv_iommu_pmu :=
  if idx > pmu.num_counters then pmu
  else if idx = 0 then pmu
  else { pmu with reg := writeq pmu.reg value (event_addr c idx) }

/-- Lines 167-173: clear the inhibit bit of slot `idx`. -/
def riscv_iommu_pmu_enable_counter (c : Consts) (pmu : riscv_iommu_pmu) (idx : Nat) :
    riscv_iommu_pmu :=
  let value := readl pmu.reg c.RISCV_IOMMU_REG_IOCOUNTINH
  { pmu with reg := writel pmu.reg (value &&& u64_not (BIT idx)) c.RISCV_IOMMU_REG_IOCOUNTINH }

/-- Lines 175-181: set the inhibit bit of slot `idx`. -/
def riscv_iommu_pmu_disable_counter (c : Consts) (pmu : riscv_iommu_pmu) (idx : Nat) :
    riscv_iommu_pmu :=
  let value := readl pmu.reg c.RISCV_IOMMU_REG_IOCOUNTINH
  { pmu with reg := writel pmu.reg (value ||| BIT idx) c.RISCV_IOMMU_REG_IOCOUNTINH }

/-- Lines 183-194: arm the overflow interrupt of slot `idx`.  The request is
reached through `pmu->events[idx]`; `none` when that entry is NULL. -/
def riscv_iommu_pmu_enable_ovf_intr (c : Consts) (s : State) (idx : Nat) : Option State :=
  match s.pmu.events idx with
  | none => none
  | some ev =>
    if get_event c (s.event ev) = c.RISCV_IOMMU_HPMEVENT_CYCLE then
      let value := riscv_iommu_pmu_get_counter c s.pmu idx &&& u64_not c.RISCV_IOMMU_IOHPMCYCLES_OF
      some { s with pmu := { s.pmu with
        reg := writeq s.pmu.reg value c.RISCV_IOMMU_REG_IOHPMCYCLES } }
    else
      let value := riscv_iommu_pmu_get_event c s.pmu idx &&& u64_not c.RISCV_IOMMU_IOHPMEVT_OF
      some { s with pmu := { s.pmu with reg := writeq s.pmu.reg value (event_addr c idx) } }

/-- Lines 196-207: disarm the overflow interrupt of slot `idx`. -/
def riscv_iommu_pmu_disable_ovf_intr (c : Consts) (s : State) (idx : Nat) : Option State :=
  match s.pmu.events idx with
  | none => none
  | some ev =>
    if get_event c (s.event ev) = c.RISCV_IOMMU_HPMEVENT_CYCLE then
      let value := riscv_iommu_pmu_get_counter c s.pmu idx ||| c.RISCV_IOMMU_IOHPMCYCLES_OF
      some { s with pmu := { s.pmu with
        reg := writeq s.pmu.reg value c.RISCV_IOMMU_REG_IOHPMCYCLES } }
    else
      let value := riscv_iommu_pmu_get_event c s.pmu idx ||| c.RISCV_IOMMU_IOHPMEVT_OF
      some { s with pmu := { s.pmu with reg := writeq s.pmu.reg value (event_addr c idx) } }

/-! ## Period programming and the delta rule -/

/-- The locals of `riscv_iommu_pmu_set_period` that its steps change,
together with the hardware part `hwc` of the request they write to. -/
structure PeriodLocals where
  /-- The hardware part of the request, `event->hw`. -/
  hwc : hw_perf_event
  /-- The local `s64 left`. -/
  left : Int
  /-- The local `int ret`. -/
  ret : Int

/-- Lines 235-240 of `riscv_iommu_pmu_set_period`: the first rearm step, for
the local `s64 period`. -/
def set_period_drift (period : Int) (l : PeriodLocals) : PeriodLocals :=
  if l.left ≤ toS64 (-period) then
    { hwc := { l.hwc with period_left := period, last_period := toU64 period },
      left := period, ret := 1 }
  else l

/-- Lines 242-247 of `riscv_iommu_pmu_set_period`: the second rearm step. -/
def set_period_rearm (period : Int) (l : PeriodLocals) : PeriodLocals :=
  if l.left ≤ 0 then
    { hwc := { l.hwc with period_left := toS64 (l.left + period), last_period := toU64 period },
      left := toS64 (l.left + period), ret := 1 }
  else l

/-- Lines 255-256 of `riscv_iommu_pmu_set_period`: the clamp of the local
`left`; the comparison of the `s64` with the `u64` is unsigned. -/
def set_period_clamp (max_period : Nat) (l : PeriodLocals) : PeriodLocals :=
  if toU64 l.left > max_period >>> 1 then { l with left := toS64 (max_period >>> 1) } else l

/-- Lines 230-256 of `riscv_iommu_pmu_set_period`: the locals after the two
rearm steps and the clamp. -/
def set_period_locals (hwc : hw_perf_event) (max_period : Nat) : PeriodLocals :=
  set_period_clamp max_period
    (set_period_rearm (toS64 hwc.sample_period)
      (set_period_drift (toS64 hwc.sample_period)
        { hwc := hwc, left := hwc.period_left, ret := 0 }))

/-- Lines 258-262 of `riscv_iommu_pmu_set_period`, for the locals `l` the
steps before have left: the snapshot and the counter are written, `ret` is
returned. -/
def set_period_program (c : Consts) (s : State) (event : Nat) (l : PeriodLocals) :
    State × Int :=
  let e := s.event event
  let max_period := s.pmu.mask_counter
  let hwc := { l.hwc with prev_count := toU64 (-l.left) }
  ({ pmu := riscv_iommu_pmu_set_counter c s.pmu (toU32 hwc.idx)
             (toU64 (-l.left) &&& max_period),
     event := Function.update s.event event { e with hw := hwc } }, l.ret)

/-- Lines 226-263.  Gives the new state and the return value. -/
def riscv_iommu_pmu_set_period (c : Consts) (s : State) (event : Nat) : State × Int :=
  set_period_program c s event (set_period_locals (s.event event).hw s.pmu.mask_counter)

/-- Lines 288-303. -/
def riscv_iommu_pmu_update (c : Consts) (s : State) (event : Nat) : State :=
  let e := s.event event
  let hwc := e.hw
  let idx := toU32 hwc.idx
  let prev := hwc.prev_count
  let now := riscv_iommu_pmu_get_counter c s.pmu idx
  let delta := FIELD_GET c.RISCV_IOMMU_IOHPMCTR_COUNTER (toU64 ((now : Int) - prev))
                 &&& s.pmu.mask_counter
  let e1 : perf_event :=
    { e with
      count := (e.count + delta) % 18446744073709551616,
      hw := { hwc with prev_count := now, period_left := toS64 (hwc.period_left - delta) } }
  { s with event := Function.update s.event event e1 }

/-! ## Request lifecycle -/

/-- Lines 318-320 of `riscv_iommu_pmu_start`, on the state `s` that
`riscv_iommu_pmu_set_period` has left: the descriptor is written, the overflow
interrupt armed and the counter enabled.  `none` when the interrupt is armed
through a NULL slot-table entry. -/
def start_program (c : Consts) (s : State) (event : Nat) : Option State :=
  let hwc := (s.event event).hw
  let s3 : State :=
    { s with pmu := riscv_iommu_pmu_set_event c s.pmu (toU32 hwc.idx) hwc.config }
  match riscv_iommu_pmu_enable_ovf_intr c s3 (toU32 hwc.idx) with
  | none => none
  | some s4 =>
    some { s4 with pmu := riscv_iommu_pmu_enable_counter c s4.pmu (toU32 hwc.idx) }

/-- Line 316 of `riscv_iommu_pmu_start`: `hwc->state = 0`. -/
def start_clear_state (s : State) (event : Nat) : State :=
  { s with event := (Function.update s.event event
      { s.event event with hw := { (s.event event).hw with state := 0 } }) }

/-- Lines 305-323.  A request that is not stopped is left alone (line 310);
the check of line 314 only warns. -/
def riscv_iommu_pmu_start (c : Consts) (s : State) (event : Nat) (_flags : Nat) :
    Option State :=
  if (s.event event).hw.state &&& c.PERF_HES_STOPPED = 0 then some s
  else start_program c (riscv_iommu_pmu_set_period c (start_clear_state s event) event).1 event

/-- Lines 333-334 of `riscv_iommu_pmu_stop`: the do-not-count event is
written to the event selector and the counter is inhibited. -/
def stop_quiesce (c : Consts) (s : State) (event : Nat) : State :=
  { s with pmu := (riscv_iommu_pmu_disable_counter c
      (riscv_iommu_pmu_set_event c s.pmu (toU32 (s.event event).hw.idx)
        c.RISCV_IOMMU_HPMEVENT_INVALID)
      (toU32 (s.event event).hw.idx)) }

/-- Line 339 of `riscv_iommu_pmu_stop`:
`hwc->state |= PERF_HES_STOPPED | PERF_HES_UPTODATE`. -/
def stop_mark (c : Consts) (s : State) (event : Nat) : State :=
  { s with event := (Function.update s.event event
      { s.event event with hw := { (s.event event).hw with
          state := (s.event event).hw.state
            ||| (c.PERF_HES_STOPPED ||| c.PERF_HES_UPTODATE) } }) }

/-- Lines 325-340. -/
def riscv_iommu_pmu_stop (c : Consts) (s : State) (event : Nat) (flags : Nat) : State :=
  if (s.event event).hw.state &&& c.PERF_HES_STOPPED ≠ 0 then s
  else
    let s2 := stop_quiesce c s event
    let s3 :=
      if flags &&& c.PERF_EF_UPDATE ≠ 0 ∧ (s.event event).hw.state &&& c.PERF_HES_UPTODATE = 0 then
        riscv_iommu_pmu_update c s2 event
      else s2
    stop_mark c s3 event

/-- Modelled from the spec: the bitmap helper `find_next_zero_bit` is not part
of the source set.  `find_zero_from bm fuel i` scans `fuel` slots from `i`
upwards for the lowest-index free one and gives `i + fuel` if none is free. -/
def find_zero_from (bm : Nat → Bool) : Nat → Nat → Nat
  | 0, i => i
  | fuel + 1, i => if bm i = false then i else find_zero_from bm fuel (i + 1)

/-- Modelled from the spec: `find_next_zero_bit(addr, size, offset)`, not part
of the source set, scans slots `[offset, size)` for the lowest-index free slot
and gives `size` if none is free. -/
def find_next_zero_bit (bm : Nat → Bool) (size offset : Nat) : Nat :=
  if size ≤ offset then size else find_zero_from bm (size - offset) offset

/-- Lines 358-362 of `riscv_iommu_pmu_add`: slot `idx` is marked occupied,
the slot table refers to the request, the request records the slot and is
stopped and up to date. -/
def add_assign (c : Consts) (s : State) (event : Nat) (idx : Int) : State :=
  let e := s.event event
  let e1 : perf_event :=
    { e with hw := { e.hw with
        idx := idx,
        state := c.PERF_HES_STOPPED ||| c.PERF_HES_UPTODATE } }
  { pmu := { s.pmu with
      used_counters := Function.update s.pmu.used_counters idx.toNat true,
      events := Function.update s.pmu.events idx.toNat (some event) },
    event := Function.update s.event event e1 }

/-- Lines 355-370 of `riscv_iommu_pmu_add`, for the slot `idx` chosen before.
Gives the new state and the return value; `none` when `idx` is negative. -/
def add_at (c : Consts) (s : State) (event : Nat) (flags : Nat) (idx : Int) :
    Option (State × Int) :=
  if toU32 idx = s.pmu.num_counters then some (s, -(c.EAGAIN : Int))
  else if idx < 0 then none
  else if flags &&& c.PERF_EF_START ≠ 0 then
    (riscv_iommu_pmu_start c (add_assign c s event idx) event flags).map (fun s2 => (s2, 0))
  else some (add_assign c s event idx, 0)

/-- Lines 342-371.  The slot is 0 for the cycle event and the lowest free
slot from 1 on otherwise (`int idx`). -/
def riscv_iommu_pmu_add (c : Consts) (s : State) (event : Nat) (flags : Nat) :
    Option (State × Int) :=
  add_at c s event flags
    (if get_event c (s.event event) = c.RISCV_IOMMU_HPMEVENT_CYCLE then 0
     else toS32 (find_next_zero_bit s.pmu.used_counters s.pmu.num_counters 1))

/-- Lines 373-376. -/
def riscv_iommu_pmu_read (c : Consts) (s : State) (event : Nat) : State :=
  riscv_iommu_pmu_update c s event

/-- Lines 385-386 of `riscv_iommu_pmu_del`: slot `idx` is released. -/
def del_release (s : State) (idx : Int) : State :=
  { s with pmu := { s.pmu with
      events := Function.update s.pmu.events idx.toNat none,
      used_counters := Function.update s.pmu.used_counters idx.toNat false } }

/-- Lines 378-388.  `none` when the slot index is negative. -/
def riscv_iommu_pmu_del (c : Consts) (s : State) (event : Nat) (_flags : Nat) :
    Option State :=
  let idx := (s.event event).hw.idx
  if idx < 0 then none
  else some (del_release (riscv_iommu_pmu_stop c s event c.PERF_EF_UPDATE) idx)

/-! ## Bank-wide operations and the overflow handler -/

/-- Modelled from the spec: the helper `is_sampling_event` of
`linux/perf_event.h` is not part of the source set: whether sampling is
enabled for the request, that is whether a sample period was requested. -/
def is_sampling_event (event : perf_event) : Bool :=
  decide (event.attr_sample_period ≠ 0)

/-- Line 270-271 of `riscv_iommu_pmu_event_init`: the slot is unassigned, the
configuration is the descriptor. -/
def event_init_base (s : State) (event : Nat) : State :=
  { s with event := (Function.update s.event event
      { s.event event with hw := { (s.event event).hw with
          idx := -1, config := (s.event event).attr_config } }) }

/-- Lines 280-282 of `riscv_iommu_pmu_event_init`: the default period of a
request that does not sample. -/
def event_init_period (s : State) (event : Nat) : State :=
  { s with event := (Function.update s.event event
      { s.event event with hw := { (s.event event).hw with
          sample_period := s.pmu.mask_counter >>> 1,
          last_period := s.pmu.mask_counter >>> 1,
          period_left := toS64 (s.pmu.mask_counter >>> 1) } }) }

/-- Lines 265-286.  Gives the new state and the return value. -/
def riscv_iommu_pmu_event_init (s : State) (event : Nat) : State × Int :=
  if is_sampling_event (s.event event) = false then
    (event_init_period (event_init_base s event) event, 0)
  else (event_init_base s event, 0)

/-- Modelled from the spec: the iteration `for_each_set_bit(idx, addr, size)`
is not part of the source set: the indices of `[0, size)` whose bit is set, in
increasing order. -/
def set_bits (bm : Nat → Bool) (size : Nat) : List Nat :=
  (List.range size).filter (fun i => bm i)

/-- Lines 214-215: the body of the loop of `riscv_iommu_pmu_start_all`. -/
def start_all_step (c : Consts) (s : State) (idx : Nat) : Option State :=
  match riscv_iommu_pmu_enable_ovf_intr c s idx with
  | none => none
  | some s1 => some { s1 with pmu := riscv_iommu_pmu_enable_counter c s1.pmu idx }

/-- Lines 209-217.  `none` when an occupied slot has a NULL slot-table
entry. -/
def riscv_iommu_pmu_start_all (c : Consts) (s : State) : Option State :=
  (set_bits s.pmu.used_counters s.pmu.num_counters).foldlM (start_all_step c) s

/-- Modelled from the spec: the kernel macro `GENMASK_ULL(h, l)`, not part of
the source set: the 64-bit mask with the bits `l` to `h` set; C defines it for
`l ≤ h ≤ 63`. -/
def GENMASK_ULL (h l : Nat) : Nat := 2 ^ (h + 1) - 2 ^ l

/-- Lines 219-223: every slot is inhibited by one write; `num_counters` is
at least 1. -/
def riscv_iommu_pmu_stop_all (c : Consts) (s : State) : State :=
  { s with pmu := { s.pmu with
      reg := writel s.pmu.reg (GENMASK_ULL (s.pmu.num_counters - 1) 0)
        c.RISCV_IOMMU_REG_IOCOUNTINH } }

/-- Modelled from the spec: the return values of an interrupt handler on a
shared line, `irqreturn_t` of `linux/irqreturn.h`: not handled, handled. -/
inductive irqreturn_t where
  | IRQ_NONE
  | IRQ_HANDLED
  deriving DecidableEq

/-- A sample handed to the consumer: the request and the period
`perf_sample_data_init` has recorded. -/
structure Sample where
  /-- The request. -/
  event : Nat
  /-- The period of the sample, `data.period`. -/
  period : Nat
  deriving DecidableEq

/-- The state of the handler loop: the bank and the samples emitted so far. -/
structure IrqLoop where
  /-- The bank and the requests. -/
  st : State
  /-- The samples emitted, oldest first. -/
  samples : List Sample

/-- Lines 418-419 of `riscv_iommu_pmu_handle_irq`, for the state `s` and the
return value `ret` of `riscv_iommu_pmu_set_period`: with `ret = 0` nothing is
emitted; otherwise the sample goes to the consumer `overflow` (modelled from
the spec: the sample delivery callback `perf_event_overflow`, which answers
stop or continue), and on stop the request is stopped with flags 0. -/
def handle_irq_emit (c : Consts) (overflow : State → Sample → Bool) (samples : List Sample)
    (event period : Nat) (s : State) (ret : Int) : IrqLoop :=
  if ret = 0 then { st := s, samples := samples }
  else if overflow s { event := event, period := period } then
    { st := riscv_iommu_pmu_stop c s event 0,
      samples := samples ++ [{ event := event, period := period }] }
  else { st := s, samples := samples ++ [{ event := event, period := period }] }

/-- Lines 411-419 of `riscv_iommu_pmu_handle_irq`, for a sampling request
`event`, on the state `s` that `riscv_iommu_pmu_update` has left: the period
of the sample is `hwc->last_period` as read before
`riscv_iommu_pmu_set_period` runs. -/
def handle_irq_sample (c : Consts) (overflow : State → Sample → Bool) (samples : List Sample)
    (event : Nat) (s : State) : IrqLoop :=
  handle_irq_emit c overflow samples event (s.event event).hw.last_period
    (riscv_iommu_pmu_set_period c s event).1 (riscv_iommu_pmu_set_period c s event).2

/-- Lines 405-419: the body of the loop of `riscv_iommu_pmu_handle_irq` for
the overflowed slot `idx`. -/
def handle_irq_step (c : Consts) (overflow : State → Sample → Bool) (l : IrqLoop) (idx : Nat) :
    IrqLoop :=
  match l.st.pmu.events idx with
  | none => l
  | some event =>
    if is_sampling_event (l.st.event event) = false then l
    else handle_irq_sample c overflow l.samples event (riscv_iommu_pmu_update c l.st event)

/-- Lines 400-421 of `riscv_iommu_pmu_handle_irq`, for a non-zero overflow
status `ovf`: freeze, then the loop over the set bits of `ovf` below
`num_counters`.  `ovf` is a `u32`: it has no bit from 32 on. -/
def handle_irq_loop (c : Consts) (overflow : State → Sample → Bool) (s : State) (ovf : Nat) :
    IrqLoop :=
  (set_bits (fun i => ovf.testBit i) s.pmu.num_counters).foldl
    (handle_irq_step c overflow) { st := riscv_iommu_pmu_stop_all c s, samples := [] }

/-- Lines 400-424 of `riscv_iommu_pmu_handle_irq`, for a non-zero overflow
status `ovf`: freeze, the loop, unfreeze. -/
def handle_irq_body (c : Consts) (overflow : State → Sample → Bool) (s : State) (ovf : Nat) :
    Option IrqLoop :=
  match riscv_iommu_pmu_start_all c (handle_irq_loop c overflow s ovf).st with
  | none => none
  | some s' => some { st := s', samples := (handle_irq_loop c overflow s ovf).samples }

/-- Lines 390-425.  Gives the new state, the samples emitted and the return
value; `none` when `riscv_iommu_pmu_start_all` meets a NULL slot-table
entry. -/
def riscv_iommu_pmu_handle_irq (c : Consts) (overflow : State → Sample → Bool) (s : State) :
    Option (IrqLoop × irqreturn_t) :=
  if readl s.pmu.reg c.RISCV_IOMMU_REG_IOCOUNTOVF = 0 then
    some ({ st := s, samples := [] }, irqreturn_t.IRQ_NONE)
  else
    match handle_irq_body c overflow s (readl s.pmu.reg c.RISCV_IOMMU_REG_IOCOUNTOVF) with
    | none => none
    | some l => some (l, irqreturn_t.IRQ_HANDLED)

/-- Lines 474-475: the body of the loop of `riscv_iommu_pmu_uninit`. -/
def uninit_step (c : Consts) (s : State) (idx : Nat) : Option State :=
  riscv_iommu_pmu_disable_ovf_intr c
    { s with pmu := riscv_iommu_pmu_disable_counter c s.pmu idx } idx

/-- Lines 468-479; `perf_pmu_unregister` is outside the bank.  `none` when
an occupied slot has a NULL slot-table entry. -/
def riscv_iommu_pmu_uninit (c : Consts) (s : State) : Option State :=
  (set_bits s.pmu.used_counters s.pmu.num_counters).foldlM (uninit_step c) s

/-! ## Auxiliary notions for the statements -/

/-- The allocation view of a state is the same in `s'` as in `s`: slot table,
occupancy bitmap, bank parameters, and of every request the slot, the
descriptor and the sample period. -/
def Frame (s s' : State) : Prop :=
  s'.pmu.events = s.pmu.events ∧ s'.pmu.used_counters = s.pmu.used_counters ∧
  s'.pmu.num_counters = s.pmu.num_counters ∧ s'.pmu.mask_counter = s.pmu.mask_counter ∧
  ∀ h, (s'.event h).hw.idx = (s.event h).hw.idx ∧
       (s'.event h).attr_config = (s.event h).attr_config ∧
       (s'.event h).attr_sample_period = (s.event h).attr_sample_period ∧
       (s'.event h).hw.config = (s.event h).hw.config ∧
       (s'.event h).hw.sample_period = (s.event h).hw.sample_period

/-- The amount `riscv_iommu_pmu_update` adds for request `ev` (line 300). -/
def update_delta (c : Consts) (s : State) (ev : Nat) : Nat :=
  FIELD_GET c.RISCV_IOMMU_IOHPMCTR_COUNTER
      (toU64 ((riscv_iommu_pmu_get_counter c s.pmu (toU32 (s.event ev).hw.idx) : Int)
        - (s.event ev).hw.prev_count))
    &&& s.pmu.mask_counter

/-- The slot `riscv_iommu_pmu_add` chooses (lines 350-353), as a natural
number: 0 for the cycle event, the lowest free slot from 1 on otherwise, and
`num_counters` when there is none. -/
def add_slot (c : Consts) (s : State) (ev : Nat) : Nat :=
  if get_event c (s.event ev) = c.RISCV_IOMMU_HPMEVENT_CYCLE then 0
  else find_next_zero_bit s.pmu.used_counters s.pmu.num_counters 1

/-- A register file with every register zero. -/
def sampleRegs : Regs := { q := fun _ => 0, l := fun _ => 0 }

/-- A request as the perf core hands it over before `add`: descriptor
`config`, sample period 1000, no slot yet. -/
def sampleEvent (config : Nat) : perf_event :=
  { attr_config := config, attr_sample_period := 1000, count := 0,
    hw := { idx := -1, config := config, state := 0, sample_period := 1000,
            last_period := 1000, period_left := 1000, prev_count := 0 } }

/-- An empty bank of 8 slots with a 32-bit counter mask; the request behind
handle `h` has descriptor `h`. -/
def sampleState : State :=
  { pmu := { reg := sampleRegs, num_counters := 8, mask_counter := 0xFFFFFFFF,
             events := fun _ => none, used_counters := fun _ => false },
    event := sampleEvent }

/-- The request behind handle `h` is not a cycle-count request. -/
def NonCycle (c : Consts) (s : State) (h : Nat) : Prop :=
  get_event c (s.event h) ≠ c.RISCV_IOMMU_HPMEVENT_CYCLE

/-- The bank states reachable from an empty bank by `add` and `del` calls,
each with the list of open requests: those added with success (return value 0)
and not deleted since.  `add` is called on requests that are not open, `del`
on requests that are.  The number of slots of the bank fits a C `int`. -/
inductive Reach (c : Consts) : State → List Nat → Prop
  | empty (s : State) (hnum : s.pmu.num_counters < 2147483648)
      (hused : ∀ i, s.pmu.used_counters i = false)
      (hevents : ∀ i, s.pmu.events i = none) : Reach c s []
  | add_ok (s s' : State) (opn : List Nat) (ev flags : Nat) (hr : Reach c s opn)
      (hev : ev ∉ opn) (hadd : riscv_iommu_pmu_add c s ev flags = some (s', 0)) :
      Reach c s' (ev :: opn)
  | add_fail (s s' : State) (opn : List Nat) (ev flags : Nat) (r : Int) (hr : Reach c s opn)
      (hev : ev ∉ opn) (hadd : riscv_iommu_pmu_add c s ev flags = some (s', r)) (hret : r ≠ 0) :
      Reach c s' opn
  | del (s s' : State) (opn : List Nat) (ev flags : Nat) (hr : Reach c s opn)
      (hev : ev ∈ opn) (hdel : riscv_iommu_pmu_del c s ev flags = some s') :
      Reach c s' (opn.erase ev)

/-- The open requests that are not cycle-count requests. -/
def nonCycleOpen (c : Consts) (s : State) (opn : List Nat) : List Nat :=
  opn.filter (fun h => decide (get_event c (s.event h) ≠ c.RISCV_IOMMU_HPMEVENT_CYCLE))

/-- The allocation invariant of the slots `[1, num_counters)`: the open
non-cycle requests hold distinct slots of that range, the open cycle requests
hold slot 0, and a bit of the range is set exactly when an open non-cycle
request holds that slot. -/
structure AllocInv (c : Consts) (s : State) (opn : List Nat) : Prop where
  /-- The number of slots fits a C `int`. -/
  num : s.pmu.num_counters < 2147483648
  /-- No request is open twice. -/
  nodup : opn.Nodup
  /-- Open non-cycle requests hold a slot of `[1, num_counters)`. -/
  range : ∀ h ∈ opn, NonCycle c s h →
    1 ≤ (s.event h).hw.idx ∧ (s.event h).hw.idx < s.pmu.num_counters
  /-- Open cycle requests hold slot 0. -/
  cyc : ∀ h ∈ opn, ¬ NonCycle c s h → (s.event h).hw.idx = 0
  /-- Open non-cycle requests hold distinct slots. -/
  inj : ∀ h1 ∈ opn, ∀ h2 ∈ opn, NonCycle c s h1 → NonCycle c s h2 →
    (s.event h1).hw.idx = (s.event h2).hw.idx → h1 = h2
  /-- A bit of `[1, num_counters)` is set exactly when the slot is held. -/
  used : ∀ i : Nat, 1 ≤ i → i < s.pmu.num_counters →
    (s.pmu.used_counters i = true ↔
      ∃ h ∈ opn, NonCycle c s h ∧ (s.event h).hw.idx = (i : Int))

/-- The sample bank after requests 1 and 2 have been added without the
start flag: they hold slots 1 and 2. -/
def sampleStateAB : State :=
  add_assign sampleConsts (add_assign sampleConsts sampleState 1 1) 2 2

/-- The sample bank after the two cycle-count requests `0x4000` and `0xC000`
(same event id, bit 15 differs) have been added without the start flag. -/
def sampleStateCC : State :=
  add_assign sampleConsts (add_assign sampleConsts sampleState 0x4000 0) 0xC000 0

/-- A bank of 8 slots with a 32-bit counter mask in which every request holds
slot 1 with previous snapshot `0xFFFFFFF0`, and counter 1 (offset `0x68`) has
wrapped around to `0x10`. -/
def sampleStateWrap : State :=
  { pmu := { reg := { q := fun a => if a = 0x68 then 0x10 else 0, l := fun _ => 0 },
             num_counters := 8, mask_counter := 0xFFFFFFFF,
             events := fun i => if i = 1 then some 1 else none,
             used_counters := fun i => decide (i = 1) },
    event := fun h =>
      { attr_config := h, attr_sample_period := 1000, count := 5,
        hw := { idx := 1, config := h, state := 0, sample_period := 1000,
                last_period := 1000, period_left := 1000, prev_count := 0xFFFFFFF0 } } }

/-- The sample bank after request 1 has been added with the start flag: it
holds slot 1 and is running. -/
def sampleStateRun : State :=
  match riscv_iommu_pmu_add sampleConsts sampleState 1 sampleConsts.PERF_EF_START with
  | some r => r.1
  | none => sampleState

/-- A bank of 32 slots with the sample register layout, all registers zero
and no request assigned. -/
def sampleState32 : State :=
  { pmu := { reg := sampleRegs, num_counters := 32, mask_counter := 0xFFFFFFFF,
             events := fun _ => none, used_counters := fun _ => false },
    event := sampleEvent }

/-- The sample bank with counting (non-sampling) requests: `attr.sample_period`
is 0 for every request. -/
def sampleStateCounting : State :=
  { sampleState with event := fun h => { sampleEvent h with attr_sample_period := 0 } }

/-- Every occupied slot of the bank has a live request: a set bit of
`used_counters` below `num_counters` comes with a non-NULL `events` entry. -/
def OccupiedLive (s : State) : Prop :=
  ∀ i, i < s.pmu.num_counters → s.pmu.used_counters i = true → ∃ ev, s.pmu.events i = some ev

/-- The sample bank with request 1 running at slot 1, after the counter of
the slot (offset `0x68`) has wrapped to 0 and bit 1 of the overflow-status
register (offset `0x58`) has been raised. -/
def sampleStateOvf : State :=
  { sampleStateRun with pmu := { sampleStateRun.pmu with
      reg := writel (writeq sampleStateRun.pmu.reg 0 0x68) 2 0x58 } }

/-- The register that carries the overflow bit of slot `idx` (lines 187-193
and 200-206): the cycle counter for slot 0, entry `idx - 1` of the selector
array for the other slots. -/
def ovf_addr (c : Consts) (idx : Nat) : Nat :=
  if idx = 0 then c.RISCV_IOMMU_REG_IOHPMCYCLES
  else c.RISCV_IOMMU_REG_IOHPMEVT_BASE + 8 * (idx - 1)

/-- The requests of the occupied slots have the kind of their slot: the
request of slot 0 is a cycle-count request, the requests of the other slots
are not. -/
def SlotsTyped (c : Consts) (s : State) : Prop :=
  ∀ i e, i < s.pmu.num_counters → s.pmu.used_counters i = true → s.pmu.events i = some e →
    (get_event c (s.event e) = c.RISCV_IOMMU_HPMEVENT_CYCLE ↔ i = 0)

/-- The sample bank with three of its eight slots occupied: the cycle-count
request `0x4000` at slot 0 and the requests 1 and 2 at slots 1 and 2. -/
def sampleStateABC : State := add_assign sampleConsts sampleStateAB 0x4000 0

/-- Modelled from the spec: the hardware side of an overflow, which the
repository has no code for.  The counter of slot `idx`, as wide as
`mask_counter`, advances by `p` events, and the overflow-status register
reports slot `idx` and no other. -/
def counter_advance (c : Consts) (s : State) (idx p : Nat) : State :=
  { s with pmu := { s.pmu with
      reg := writel (writeq s.pmu.reg
          ((readq s.pmu.reg (counter_addr c idx) + p) &&& s.pmu.mask_counter)
          (counter_addr c idx))
        (BIT idx) c.RISCV_IOMMU_REG_IOCOUNTOVF } }

/-- A bank of 8 slots with every slot occupied: slot `i` holds request `i`. -/
def sampleStateFull : State :=
  { sampleState with pmu := { sampleState.pmu with
      used_counters := fun _ => true, events := fun i => some i } }

/-- The sample bank with requests 1 and 2 stopped at slots 1 and 2, each with
the sample period `0xC0000000`, which is more than half the counter mask
`0xFFFFFFFF`. -/
def sampleStateLong : State :=
  { sampleStateAB with event := fun h =>
      { sampleStateAB.event h with
        attr_sample_period := 0xC0000000,
        hw := { (sampleStateAB.event h).hw with
          sample_period := 0xC0000000, last_period := 0xC0000000,
          period_left := 0xC0000000 } } }

/-- The sample bank after requests 1 and 2 have been added with the start
flag and request 2 has been stopped again: request 1 runs at slot 1, request 2
is stopped at slot 2 with its inhibit bit set. -/
def sampleStateStopped2 : State :=
  match riscv_iommu_pmu_add sampleConsts sampleStateRun 2 sampleConsts.PERF_EF_START with
  | some r => riscv_iommu_pmu_stop sampleConsts r.1 2 sampleConsts.PERF_EF_UPDATE
  | none => sampleStateRun

/-- The requests of the slot table know their slot: the request recorded at
slot `i` has `hw.idx = i`. -/
def SlotsIndexed (s : State) : Prop :=
  ∀ i e, i < s.pmu.num_counters → s.pmu.events i = some e → (s.event e).hw.idx = (i : Int)

/-- The sample bank with the counting request 1 (it does not sample) at slot
1 and bit 1 of the overflow-status register (offset `0x58`) raised. -/
def sampleStateCountOvf : State :=
  { add_assign sampleConsts sampleStateCounting 1 1 with
    pmu := { (add_assign sampleConsts sampleStateCounting 1 1).pmu with
      reg := writel sampleRegs 2 0x58 } }

/-- The bitmap agrees with the slot table: for every slot below
`num_counters`, the bit of `used_counters` is set exactly when the entry of
`events` is not NULL. -/
def BitmapMatchesTable (s : State) : Prop :=
  ∀ i, i < s.pmu.num_counters → (s.pmu.used_counters i = true ↔ s.pmu.events i ≠ none)

/-- An empty bank of 8 slots with a 64-bit counter mask, the mask that line
435 (`pmu->mask_counter = RISCV_IOMMU_IOHPMCTR_COUNTER`) gives a bank whose
counter field is the whole register; the request behind handle `h` has
descriptor `h`. -/
def sampleState64 : State :=
  { sampleState with pmu := { sampleState.pmu with mask_counter := 0xFFFFFFFFFFFFFFFF } }

/-- The bank `sampleState64` after `add` of the cycle-count request `0x4000`,
which holds slot 0 and is stopped. -/
def sampleStateCycle64 : State :=
  match riscv_iommu_pmu_add sampleConsts sampleState64 0x4000 0 with
  | some r => r.1
  | none => sampleState64

/-- The bank `sampleStateCycle64` after `start` of its cycle-count request. -/
def sampleStateCycle64Run : State :=
  match riscv_iommu_pmu_start sampleConsts sampleStateCycle64 0x4000 0 with
  | some s => s
  | none => sampleStateCycle64

theorem Frame.refl (s : State) : Frame s s :=
  ⟨rfl, rfl, rfl, rfl, fun _ => ⟨rfl, rfl, rfl, rfl, rfl⟩⟩

theorem Frame.trans {s1 s2 s3 : State} (h12 : Frame s1 s2) (h23 : Frame s2 s3) : Frame s1 s3 := by
  obtain ⟨a1, a2, a3, a4, a5⟩ := h12
  obtain ⟨b1, b2, b3, b4, b5⟩ := h23
  refine ⟨b1.trans a1, b2.trans a2, b3.trans a3, b4.trans a4, fun h => ?_⟩
  obtain ⟨x1, x2, x3, x4, x5⟩ := a5 h
  obtain ⟨y1, y2, y3, y4, y5⟩ := b5 h
  exact ⟨y1.trans x1, y2.trans x2, y3.trans x3, y4.trans x4, y5.trans x5⟩

theorem set_period_drift_fields (period : Int) (l : PeriodLocals) :
    (set_period_drift period l).hwc.idx = l.hwc.idx ∧
    (set_period_drift period l).hwc.config = l.hwc.config ∧
    (set_period_drift period l).hwc.sample_period = l.hwc.sample_period ∧
    (set_period_drift period l).hwc.state = l.hwc.state ∧
    (set_period_drift period l).hwc.prev_count = l.hwc.prev_count := by
  simp only [set_period_drift]
  split_ifs
  · exact ⟨rfl, rfl, rfl, rfl, rfl⟩
  · exact ⟨rfl, rfl, rfl, rfl, rfl⟩

theorem set_period_rearm_fields (period : Int) (l : PeriodLocals) :
    (set_period_rearm period l).hwc.idx = l.hwc.idx ∧
    (set_period_rearm period l).hwc.config = l.hwc.config ∧
    (set_period_rearm period l).hwc.sample_period = l.hwc.sample_period ∧
    (set_period_rearm period l).hwc.state = l.hwc.state ∧
    (set_period_rearm period l).hwc.prev_count = l.hwc.prev_count := by
  simp only [set_period_rearm]
  split_ifs
  · exact ⟨rfl, rfl, rfl, rfl, rfl⟩
  · exact ⟨rfl, rfl, rfl, rfl, rfl⟩

theorem set_period_clamp_hwc (M : Nat) (l : PeriodLocals) :
    (set_period_clamp M l).hwc = l.hwc ∧ (set_period_clamp M l).ret = l.ret := by
  simp only [set_period_clamp]
  split_ifs
  · exact ⟨rfl, rfl⟩
  · exact ⟨rfl, rfl⟩

theorem frame_set_counter (c : Consts) (pmu : riscv_iommu_pmu) (idx v : Nat) :
    (riscv_iommu_pmu_set_counter c pmu idx v).events = pmu.events ∧
    (riscv_iommu_pmu_set_counter c pmu idx v).used_counters = pmu.used_counters ∧
    (riscv_iommu_pmu_set_counter c pmu idx v).num_counters = pmu.num_counters ∧
    (riscv_iommu_pmu_set_counter c pmu idx v).mask_counter = pmu.mask_counter := by
  simp only [riscv_iommu_pmu_set_counter]
  split_ifs
  · exact ⟨rfl, rfl, rfl, rfl⟩
  · exact ⟨rfl, rfl, rfl, rfl⟩

theorem frame_set_event (c : Consts) (pmu : riscv_iommu_pmu) (idx v : Nat) :
    (riscv_iommu_pmu_set_event c pmu idx v).events = pmu.events ∧
    (riscv_iommu_pmu_set_event c pmu idx v).used_counters = pmu.used_counters ∧
    (riscv_iommu_pmu_set_event c pmu idx v).num_counters = pmu.num_counters ∧
    (riscv_iommu_pmu_set_event c pmu idx v).mask_counter = pmu.mask_counter := by
  simp only [riscv_iommu_pmu_set_event]
  split_ifs
  · exact ⟨rfl, rfl, rfl, rfl⟩
  · exact ⟨rfl, rfl, rfl, rfl⟩
  · exact ⟨rfl, rfl, rfl, rfl⟩

theorem set_period_locals_fields (hwc : hw_perf_event) (M : Nat) :
    (set_period_locals hwc M).hwc.idx = hwc.idx ∧
    (set_period_locals hwc M).hwc.config = hwc.config ∧
    (set_period_locals hwc M).hwc.sample_period = hwc.sample_period ∧
    (set_period_locals hwc M).hwc.state = hwc.state ∧
    (set_period_locals hwc M).hwc.prev_count = hwc.prev_count := by
  simp only [set_period_locals, (set_period_clamp_hwc _ _).1]
  obtain ⟨d1, d2, d3, d4, d5⟩ := set_period_drift_fields (toS64 hwc.sample_period)
    { hwc := hwc, left := hwc.period_left, ret := 0 }
  obtain ⟨r1, r2, r3, r4, r5⟩ := set_period_rearm_fields (toS64 hwc.sample_period)
    (set_period_drift (toS64 hwc.sample_period)
      { hwc := hwc, left := hwc.period_left, ret := 0 })
  exact ⟨r1.trans d1, r2.trans d2, r3.trans d3, r4.trans d4, r5.trans d5⟩

theorem set_period_program_event_ne (c : Consts) (s : State) (ev h : Nat) (l : PeriodLocals)
    (hh : h ≠ ev) : (set_period_program c s ev l).1.event h = s.event h :=
  Function.update_noteq hh _ _

theorem set_period_program_event_same (c : Consts) (s : State) (ev : Nat) (l : PeriodLocals) :
    (set_period_program c s ev l).1.event ev =
      { s.event ev with hw := { l.hwc with prev_count := toU64 (-l.left) } } :=
  Function.update_same _ _ _

theorem set_period_program_pmu (c : Consts) (s : State) (ev : Nat) (l : PeriodLocals) :
    (set_period_program c s ev l).1.pmu =
      riscv_iommu_pmu_set_counter c s.pmu (toU32 l.hwc.idx)
        (toU64 (-l.left) &&& s.pmu.mask_counter) := rfl

theorem frame_set_period_program (c : Consts) (s : State) (ev : Nat) (l : PeriodLocals)
    (h1 : l.hwc.idx = (s.event ev).hw.idx) (h2 : l.hwc.config = (s.event ev).hw.config)
    (h3 : l.hwc.sample_period = (s.event ev).hw.sample_period) :
    Frame s (set_period_program c s ev l).1 := by
  rw [Frame, set_period_program_pmu]
  obtain ⟨f1, f2, f3, f4⟩ := frame_set_counter c s.pmu (toU32 l.hwc.idx)
    (toU64 (-l.left) &&& s.pmu.mask_counter)
  refine ⟨f1, f2, f3, f4, fun h => ?_⟩
  by_cases hh : h = ev
  · subst hh
    rw [set_period_program_event_same]
    exact ⟨h1, rfl, rfl, h2, h3⟩
  · rw [set_period_program_event_ne c s ev h l hh]
    exact ⟨rfl, rfl, rfl, rfl, rfl⟩

theorem frame_set_period (c : Consts) (s : State) (ev : Nat) :
    Frame s (riscv_iommu_pmu_set_period c s ev).1 := by
  obtain ⟨r1, r2, r3, -, -⟩ := set_period_locals_fields (s.event ev).hw s.pmu.mask_counter
  rw [riscv_iommu_pmu_set_period]
  exact frame_set_period_program c s ev _ r1 r2 r3

theorem update_event_ne (c : Consts) (s : State) (ev h : Nat) (hh : h ≠ ev) :
    (riscv_iommu_pmu_update c s ev).event h = s.event h :=
  Function.update_noteq hh _ _

theorem update_pmu (c : Consts) (s : State) (ev : Nat) :
    (riscv_iommu_pmu_update c s ev).pmu = s.pmu := rfl

theorem update_event_same (c : Consts) (s : State) (ev : Nat) :
    (riscv_iommu_pmu_update c s ev).event ev =
      { s.event ev with
        count := ((s.event ev).count + update_delta c s ev) % 18446744073709551616,
        hw := { (s.event ev).hw with
          prev_count := riscv_iommu_pmu_get_counter c s.pmu (toU32 (s.event ev).hw.idx),
          period_left := toS64 ((s.event ev).hw.period_left - update_delta c s ev) } } :=
  Function.update_same _ _ _

theorem frame_update (c : Consts) (s : State) (ev : Nat) :
    Frame s (riscv_iommu_pmu_update c s ev) := by
  refine ⟨rfl, rfl, rfl, rfl, fun h => ?_⟩
  by_cases hh : h = ev
  · subst hh
    rw [update_event_same]
    exact ⟨rfl, rfl, rfl, rfl, rfl⟩
  · rw [update_event_ne c s ev h hh]
    exact ⟨rfl, rfl, rfl, rfl, rfl⟩

theorem frame_enable_ovf_intr (c : Consts) (s s' : State) (idx : Nat)
    (h : riscv_iommu_pmu_enable_ovf_intr c s idx = some s') :
    Frame s s' ∧ s'.event = s.event := by
  simp only [riscv_iommu_pmu_enable_ovf_intr] at h
  split at h
  · exact absurd h (by simp)
  · split_ifs at h <;>
    · simp only [Option.some.injEq] at h
      subst h
      exact ⟨⟨rfl, rfl, rfl, rfl, fun _ => ⟨rfl, rfl, rfl, rfl, rfl⟩⟩, rfl⟩

theorem enable_ovf_intr_isSome (c : Consts) (s : State) (idx ev : Nat)
    (h : s.pmu.events idx = some ev) :
    ∃ s', riscv_iommu_pmu_enable_ovf_intr c s idx = some s' := by
  simp only [riscv_iommu_pmu_enable_ovf_intr, h]
  split_ifs
  · exact ⟨_, rfl⟩
  · exact ⟨_, rfl⟩

theorem frame_with_state (s : State) (ev st : Nat) :
    Frame s { s with event := (Function.update s.event ev
      { s.event ev with hw := { (s.event ev).hw with state := st } }) } := by
  refine ⟨rfl, rfl, rfl, rfl, fun h => ?_⟩
  by_cases hh : h = ev
  · subst hh
    simp only [Function.update_same, and_self]
  · simp only [Function.update_noteq hh, and_self]

theorem frame_with_pmu (s : State) (pmu : riscv_iommu_pmu)
    (h : pmu.events = s.pmu.events ∧ pmu.used_counters = s.pmu.used_counters ∧
      pmu.num_counters = s.pmu.num_counters ∧ pmu.mask_counter = s.pmu.mask_counter) :
    Frame s { s with pmu := pmu } :=
  ⟨h.1, h.2.1, h.2.2.1, h.2.2.2, fun _ => ⟨rfl, rfl, rfl, rfl, rfl⟩⟩

theorem frame_disable_counter (c : Consts) (pmu : riscv_iommu_pmu) (idx : Nat) :
    (riscv_iommu_pmu_disable_counter c pmu idx).events = pmu.events ∧
    (riscv_iommu_pmu_disable_counter c pmu idx).used_counters = pmu.used_counters ∧
    (riscv_iommu_pmu_disable_counter c pmu idx).num_counters = pmu.num_counters ∧
    (riscv_iommu_pmu_disable_counter c pmu idx).mask_counter = pmu.mask_counter :=
  ⟨rfl, rfl, rfl, rfl⟩

theorem frame_enable_counter (c : Consts) (pmu : riscv_iommu_pmu) (idx : Nat) :
    (riscv_iommu_pmu_enable_counter c pmu idx).events = pmu.events ∧
    (riscv_iommu_pmu_enable_counter c pmu idx).used_counters = pmu.used_counters ∧
    (riscv_iommu_pmu_enable_counter c pmu idx).num_counters = pmu.num_counters ∧
    (riscv_iommu_pmu_enable_counter c pmu idx).mask_counter = pmu.mask_counter :=
  ⟨rfl, rfl, rfl, rfl⟩

theorem stop_eq_update (c : Consts) (s : State) (ev flags : Nat)
    (h1 : (s.event ev).hw.state &&& c.PERF_HES_STOPPED = 0)
    (h2 : flags &&& c.PERF_EF_UPDATE ≠ 0) (h3 : (s.event ev).hw.state &&& c.PERF_HES_UPTODATE = 0) :
    riscv_iommu_pmu_stop c s ev flags
      = stop_mark c (riscv_iommu_pmu_update c (stop_quiesce c s ev) ev) ev := by
  rw [riscv_iommu_pmu_stop, if_neg (not_not.mpr h1)]
  simp only [if_pos (And.intro h2 h3)]

theorem stop_eq_plain (c : Consts) (s : State) (ev flags : Nat)
    (h1 : (s.event ev).hw.state &&& c.PERF_HES_STOPPED = 0)
    (h2 : ¬ (flags &&& c.PERF_EF_UPDATE ≠ 0 ∧ (s.event ev).hw.state &&& c.PERF_HES_UPTODATE = 0)) :
    riscv_iommu_pmu_stop c s ev flags = stop_mark c (stop_quiesce c s ev) ev := by
  rw [riscv_iommu_pmu_stop, if_neg (not_not.mpr h1)]
  simp only [if_neg h2]

theorem stop_eq_stopped (c : Consts) (s : State) (ev flags : Nat)
    (h1 : (s.event ev).hw.state &&& c.PERF_HES_STOPPED ≠ 0) :
    riscv_iommu_pmu_stop c s ev flags = s := by
  rw [riscv_iommu_pmu_stop, if_pos h1]

theorem frame_stop_quiesce (c : Consts) (s : State) (ev : Nat) :
    Frame s (stop_quiesce c s ev) := by
  apply frame_with_pmu
  obtain ⟨a1, a2, a3, a4⟩ := frame_set_event c s.pmu (toU32 (s.event ev).hw.idx)
    c.RISCV_IOMMU_HPMEVENT_INVALID
  obtain ⟨b1, b2, b3, b4⟩ := frame_disable_counter c
    (riscv_iommu_pmu_set_event c s.pmu (toU32 (s.event ev).hw.idx)
      c.RISCV_IOMMU_HPMEVENT_INVALID) (toU32 (s.event ev).hw.idx)
  exact ⟨b1.trans a1, b2.trans a2, b3.trans a3, b4.trans a4⟩

theorem frame_stop_mark (c : Consts) (s : State) (ev : Nat) : Frame s (stop_mark c s ev) :=
  frame_with_state s ev _

theorem frame_stop (c : Consts) (s : State) (ev flags : Nat) :
    Frame s (riscv_iommu_pmu_stop c s ev flags) := by
  by_cases h1 : (s.event ev).hw.state &&& c.PERF_HES_STOPPED = 0
  · by_cases h2 : flags &&& c.PERF_EF_UPDATE ≠ 0 ∧
        (s.event ev).hw.state &&& c.PERF_HES_UPTODATE = 0
    · rw [stop_eq_update c s ev flags h1 h2.1 h2.2]
      exact ((frame_stop_quiesce c s ev).trans (frame_update c _ ev)).trans
        (frame_stop_mark c _ ev)
    · rw [stop_eq_plain c s ev flags h1 h2]
      exact (frame_stop_quiesce c s ev).trans (frame_stop_mark c _ ev)
  · rw [stop_eq_stopped c s ev flags h1]
    exact Frame.refl s

theorem start_program_spec (c : Consts) (s : State) (ev e' : Nat)
    (hev : s.pmu.events (toU32 (s.event ev).hw.idx) = some e') :
    ∃ s', start_program c s ev = some s' ∧ Frame s s' := by
  have hf3 : Frame s { s with pmu := (riscv_iommu_pmu_set_event c s.pmu
      (toU32 (s.event ev).hw.idx) (s.event ev).hw.config) } :=
    frame_with_pmu s _ (frame_set_event c s.pmu _ _)
  have hev3 : (riscv_iommu_pmu_set_event c s.pmu (toU32 (s.event ev).hw.idx)
      (s.event ev).hw.config).events (toU32 (s.event ev).hw.idx) = some e' := by
    rw [(frame_set_event c s.pmu _ _).1]; exact hev
  obtain ⟨s4, h4⟩ := enable_ovf_intr_isSome c
    { s with pmu := (riscv_iommu_pmu_set_event c s.pmu
      (toU32 (s.event ev).hw.idx) (s.event ev).hw.config) }
    (toU32 (s.event ev).hw.idx) e' hev3
  have hf4 := (frame_enable_ovf_intr c _ s4 _ h4).1
  refine ⟨{ s4 with pmu := (riscv_iommu_pmu_enable_counter c s4.pmu
    (toU32 (s.event ev).hw.idx)) }, ?_, ?_⟩
  · rw [start_program]
    simp only [h4]
  · exact (hf3.trans hf4).trans (frame_with_pmu s4 _ (frame_enable_counter c s4.pmu _))

theorem start_spec (c : Consts) (s : State) (ev flags e' : Nat)
    (hev : s.pmu.events (toU32 (s.event ev).hw.idx) = some e') :
    ∃ s', riscv_iommu_pmu_start c s ev flags = some s' ∧ Frame s s' := by
  rw [riscv_iommu_pmu_start]
  split_ifs with h1
  · exact ⟨s, rfl, Frame.refl s⟩
  · have hf1 : Frame s (start_clear_state s ev) := frame_with_state s ev 0
    have hf2 := hf1.trans (frame_set_period c (start_clear_state s ev) ev)
    generalize (riscv_iommu_pmu_set_period c (start_clear_state s ev) ev).1 = s2 at hf2 ⊢
    have hev2 : s2.pmu.events (toU32 (s2.event ev).hw.idx) = some e' := by
      rw [hf2.1, (hf2.2.2.2.2 ev).1]; exact hev
    obtain ⟨s', hs', hf'⟩ := start_program_spec c s2 ev e' hev2
    exact ⟨s', hs', hf2.trans hf'⟩

theorem toU32_of_nonneg (i : Int) (h0 : 0 ≤ i) (h1 : i < 4294967296) : toU32 i = i.toNat := by
  simp only [toU32]
  omega

theorem toS32_of_lt (n : Nat) (h : n < 2147483648) : toS32 (n : Int) = n := by
  simp only [toS32]
  omega

theorem add_assign_pmu (c : Consts) (s : State) (ev : Nat) (idx : Int) :
    (add_assign c s ev idx).pmu.used_counters
        = Function.update s.pmu.used_counters idx.toNat true ∧
    (add_assign c s ev idx).pmu.events
        = Function.update s.pmu.events idx.toNat (some ev) ∧
    (add_assign c s ev idx).pmu.num_counters = s.pmu.num_counters ∧
    (add_assign c s ev idx).pmu.mask_counter = s.pmu.mask_counter ∧
    (add_assign c s ev idx).pmu.reg = s.pmu.reg :=
  ⟨rfl, rfl, rfl, rfl, rfl⟩

theorem add_assign_event_same (c : Consts) (s : State) (ev : Nat) (idx : Int) :
    (add_assign c s ev idx).event ev =
      { s.event ev with hw := { (s.event ev).hw with
          idx := idx, state := c.PERF_HES_STOPPED ||| c.PERF_HES_UPTODATE } } :=
  Function.update_same _ _ _

theorem add_assign_event_ne (c : Consts) (s : State) (ev h : Nat) (idx : Int) (hh : h ≠ ev) :
    (add_assign c s ev idx).event h = s.event h :=
  Function.update_noteq hh _ _

theorem add_at_busy (c : Consts) (s : State) (ev flags : Nat) (idx : Int)
    (h : toU32 idx = s.pmu.num_counters) :
    add_at c s ev flags idx = some (s, -(c.EAGAIN : Int)) := by
  rw [add_at, if_pos h]

theorem add_at_ok (c : Consts) (s : State) (ev flags : Nat) (idx : Int)
    (h1 : toU32 idx ≠ s.pmu.num_counters) (h2 : 0 ≤ idx) (h3 : idx < 4294967296) :
    ∃ s', add_at c s ev flags idx = some (s', 0) ∧ Frame (add_assign c s ev idx) s' ∧
      (flags &&& c.PERF_EF_START = 0 → s' = add_assign c s ev idx) := by
  rw [add_at, if_neg h1, if_neg (not_lt.mpr h2)]
  split_ifs with hs
  · have hidx : ((add_assign c s ev idx).event ev).hw.idx = idx := by
      rw [add_assign_event_same]
    have hev : (add_assign c s ev idx).pmu.events
        (toU32 ((add_assign c s ev idx).event ev).hw.idx) = some ev := by
      rw [hidx, (add_assign_pmu c s ev idx).2.1, toU32_of_nonneg idx h2 h3,
        Function.update_same]
    obtain ⟨s', hs', hf'⟩ := start_spec c (add_assign c s ev idx) ev flags ev hev
    refine ⟨s', ?_, hf', fun h0 => absurd h0 hs⟩
    rw [hs']; rfl
  · exact ⟨_, rfl, Frame.refl _, fun _ => rfl⟩

theorem del_spec (c : Consts) (s : State) (ev flags : Nat) (h : 0 ≤ (s.event ev).hw.idx) :
    riscv_iommu_pmu_del c s ev flags =
      some (del_release (riscv_iommu_pmu_stop c s ev c.PERF_EF_UPDATE) (s.event ev).hw.idx) := by
  rw [riscv_iommu_pmu_del]
  simp only [if_neg (not_lt.mpr h)]

theorem find_zero_from_spec (bm : Nat → Bool) (fuel : Nat) : ∀ i : Nat,
    i ≤ find_zero_from bm fuel i ∧ find_zero_from bm fuel i ≤ i + fuel ∧
    (∀ j, i ≤ j → j < find_zero_from bm fuel i → bm j = true) ∧
    (find_zero_from bm fuel i < i + fuel → bm (find_zero_from bm fuel i) = false) := by
  induction fuel with
  | zero =>
    intro i
    simp only [find_zero_from]
    exact ⟨le_rfl, le_rfl, fun j h1 h2 => absurd h2 (by omega), fun h => absurd h (by omega)⟩
  | succ fuel ih =>
    intro i
    simp only [find_zero_from]
    split_ifs with hb
    · exact ⟨le_rfl, by omega, fun j h1 h2 => absurd h2 (by omega), fun _ => hb⟩
    · obtain ⟨a1, a2, a3, a4⟩ := ih (i + 1)
      refine ⟨by omega, by omega, fun j h1 h2 => ?_, fun h => a4 (by omega)⟩
      by_cases hj : j = i
      · subst hj
        simpa using hb
      · exact a3 j (by omega) h2

theorem find_next_zero_bit_spec (bm : Nat → Bool) (size offset : Nat) :
    find_next_zero_bit bm size offset ≤ size ∧
    (offset ≤ size → offset ≤ find_next_zero_bit bm size offset) ∧
    (∀ j, offset ≤ j → j < find_next_zero_bit bm size offset → bm j = true) ∧
    (find_next_zero_bit bm size offset < size →
      bm (find_next_zero_bit bm size offset) = false) := by
  simp only [find_next_zero_bit]
  split_ifs with h
  · exact ⟨le_rfl, fun h' => h', fun j h1 h2 => absurd h2 (by omega),
      fun h' => absurd h' (by omega)⟩
  · obtain ⟨a1, a2, a3, a4⟩ := find_zero_from_spec bm (size - offset) offset
    exact ⟨by omega, fun _ => a1, a3, fun h' => a4 (by omega)⟩

theorem toU32_natCast (n : Nat) (h : n < 4294967296) : toU32 (n : Int) = n := by
  simp only [toU32]
  omega

theorem add_slot_le (c : Consts) (s : State) (ev : Nat) :
    add_slot c s ev ≤ s.pmu.num_counters := by
  rw [add_slot]
  split_ifs
  · exact Nat.zero_le _
  · exact (find_next_zero_bit_spec _ _ _).1

theorem add_eq_add_at (c : Consts) (s : State) (ev flags : Nat)
    (hn : s.pmu.num_counters < 2147483648) :
    riscv_iommu_pmu_add c s ev flags = add_at c s ev flags (add_slot c s ev : Int) := by
  have hle := (find_next_zero_bit_spec s.pmu.used_counters s.pmu.num_counters 1).1
  rw [riscv_iommu_pmu_add, add_slot]
  split_ifs with hc
  · rw [Nat.cast_zero]
  · rw [toS32_of_lt _ (lt_of_le_of_lt hle hn)]

theorem add_busy (c : Consts) (s : State) (ev flags : Nat)
    (hn : s.pmu.num_counters < 2147483648) (h : add_slot c s ev = s.pmu.num_counters) :
    riscv_iommu_pmu_add c s ev flags = some (s, -(c.EAGAIN : Int)) := by
  rw [add_eq_add_at c s ev flags hn]
  apply add_at_busy
  rw [toU32_natCast _ (by omega)]
  exact h

theorem add_ok (c : Consts) (s : State) (ev flags : Nat)
    (hn : s.pmu.num_counters < 2147483648) (h : add_slot c s ev ≠ s.pmu.num_counters) :
    ∃ s', riscv_iommu_pmu_add c s ev flags = some (s', 0) ∧
      Frame (add_assign c s ev (add_slot c s ev : Int)) s' ∧
      (flags &&& c.PERF_EF_START = 0 → s' = add_assign c s ev (add_slot c s ev : Int)) := by
  have hle := add_slot_le c s ev
  rw [add_eq_add_at c s ev flags hn]
  apply add_at_ok
  · rw [toU32_natCast _ (by omega)]
    exact h
  · exact Int.natCast_nonneg _
  · omega

/-- What a successful `add` leaves: the tables and the request as
`add_assign` sets them, everything else of the allocation view as before. -/
theorem add_ok_view (c : Consts) (s : State) (ev flags : Nat)
    (hn : s.pmu.num_counters < 2147483648) (h : add_slot c s ev ≠ s.pmu.num_counters) :
    ∃ s', riscv_iommu_pmu_add c s ev flags = some (s', 0) ∧
      s'.pmu.used_counters = Function.update s.pmu.used_counters (add_slot c s ev) true ∧
      s'.pmu.events = Function.update s.pmu.events (add_slot c s ev) (some ev) ∧
      s'.pmu.num_counters = s.pmu.num_counters ∧
      (s'.event ev).hw.idx = (add_slot c s ev : Int) ∧
      (∀ h, h ≠ ev → (s'.event h).hw.idx = (s.event h).hw.idx) ∧
      (∀ h, (s'.event h).attr_config = (s.event h).attr_config) := by
  obtain ⟨s', h1, ⟨f1, f2, f3, -, f5⟩, -⟩ := add_ok c s ev flags hn h
  obtain ⟨a1, a2, a3, -, -⟩ := add_assign_pmu c s ev (add_slot c s ev : Int)
  rw [Int.toNat_ofNat] at a1 a2
  refine ⟨s', h1, f2.trans a1, f1.trans a2, f3.trans a3, ?_, fun h hh => ?_, fun h => ?_⟩
  · rw [(f5 ev).1, add_assign_event_same]
  · rw [(f5 h).1, add_assign_event_ne c s ev h _ hh]
  · rw [(f5 h).2.1]
    by_cases hh : h = ev
    · subst hh
      rw [add_assign_event_same]
    · rw [add_assign_event_ne c s ev h _ hh]

/-! ## The sample bank -/

theorem sample_add_1 :
    riscv_iommu_pmu_add sampleConsts sampleState 1 0
      = some (add_assign sampleConsts sampleState 1 1, 0) := by
  obtain ⟨s', h, -, hs⟩ := add_ok sampleConsts sampleState 1 0 (by decide) (by decide)
  rw [h, hs (by decide)]
  rfl

theorem sample_add_2 :
    riscv_iommu_pmu_add sampleConsts (add_assign sampleConsts sampleState 1 1) 2 0
      = some (sampleStateAB, 0) := by
  obtain ⟨s', h, -, hs⟩ := add_ok sampleConsts (add_assign sampleConsts sampleState 1 1) 2 0
    (by decide) (by decide)
  rw [h, hs (by decide)]
  rfl

theorem sample_reach_AB : Reach sampleConsts sampleStateAB [2, 1] :=
  Reach.add_ok _ _ [1] 2 0
    (Reach.add_ok _ _ [] 1 0 (Reach.empty _ (by decide) (fun _ => rfl) (fun _ => rfl))
      (by decide) sample_add_1)
    (by decide) sample_add_2

/-! ## The slot allocator -/

theorem get_event_low15 (c : Consts) (e : perf_event)
    (hid : c.RISCV_IOMMU_IOHPMEVT_EVENTID = 0x7FFF) :
    get_event c e = e.attr_config % 32768 := by
  have hs : bf_shf 32767 = 0 := by decide
  have hm := Nat.and_pow_two_sub_one_eq_mod e.attr_config 15
  norm_num at hm
  rw [get_event, FIELD_GET, hid, hs, Nat.shiftRight_zero, hm]
  omega

/-- C1: a successful `add` (return value 0) assigns slot 0 exactly when the
event id of the request, bits 0-14 of its configuration, is the cycle event;
a non-cycle request that is assigned a slot gets one in `[1, num_counters)`.
`add` always returns. -/
theorem add_slot_zero_iff_cycle (c : Consts) (s : State) (ev flags : Nat)
    (hn : s.pmu.num_counters < 2147483648) (hE : 0 < c.EAGAIN)
    (hid : c.RISCV_IOMMU_IOHPMEVT_EVENTID = 0x7FFF) :
    get_event c (s.event ev) = (s.event ev).attr_config % 32768 ∧
    (∃ r, riscv_iommu_pmu_add c s ev flags = some r) ∧
    ∀ s', riscv_iommu_pmu_add c s ev flags = some (s', 0) →
      ((s'.event ev).hw.idx = 0 ↔
        (s.event ev).attr_config % 32768 = c.RISCV_IOMMU_HPMEVENT_CYCLE) ∧
      ((s.event ev).attr_config % 32768 ≠ c.RISCV_IOMMU_HPMEVENT_CYCLE →
        1 ≤ (s'.event ev).hw.idx ∧ (s'.event ev).hw.idx < s.pmu.num_counters) := by
  have hg := get_event_low15 c (s.event ev) hid
  refine ⟨hg, ?_⟩
  rw [← hg]
  have hfs := find_next_zero_bit_spec s.pmu.used_counters s.pmu.num_counters 1
  by_cases hb : add_slot c s ev = s.pmu.num_counters
  · have h := add_busy c s ev flags hn hb
    refine ⟨⟨_, h⟩, fun s' hs' => ?_⟩
    rw [h] at hs'
    simp only [Option.some.injEq, Prod.mk.injEq] at hs'
    omega
  · obtain ⟨s0, h0, -, -, -, hidx, -, -⟩ := add_ok_view c s ev flags hn hb
    refine ⟨⟨_, h0⟩, fun s' hs' => ?_⟩
    rw [h0] at hs'
    simp only [Option.some.injEq, Prod.mk.injEq, and_true] at hs'
    subst hs'
    rw [hidx]
    rw [add_slot] at hb ⊢
    split_ifs with hc
    · exact ⟨⟨fun _ => hc, fun _ => rfl⟩, fun h => absurd hc h⟩
    · rw [if_neg hc] at hb
      have h1 : 1 ≤ find_next_zero_bit s.pmu.used_counters s.pmu.num_counters 1 := by
        apply hfs.2.1
        have := hfs.1
        omega
      have h2 := hfs.1
      refine ⟨⟨fun h => ?_, fun h => absurd h hc⟩, fun _ => ⟨?_, ?_⟩⟩
      · omega
      · omega
      · omega

/-- Witness for C1: on the empty sample bank of 8 slots the request with event
id 1 is added; the call returns 0 and the request holds slot 1. -/
theorem add_slot_zero_iff_cycle_witness :
    (sampleState.pmu.num_counters < 2147483648 ∧ 0 < sampleConsts.EAGAIN ∧
      sampleConsts.RISCV_IOMMU_IOHPMEVT_EVENTID = 0x7FFF) ∧
    riscv_iommu_pmu_add sampleConsts sampleState 1 0
      = some (add_assign sampleConsts sampleState 1 1, 0) ∧
    ((((add_assign sampleConsts sampleState 1 1).event 1).hw.idx = 0 ↔
        (sampleState.event 1).attr_config % 32768 = sampleConsts.RISCV_IOMMU_HPMEVENT_CYCLE) ∧
      ((sampleState.event 1).attr_config % 32768 ≠ sampleConsts.RISCV_IOMMU_HPMEVENT_CYCLE →
        1 ≤ ((add_assign sampleConsts sampleState 1 1).event 1).hw.idx ∧
        ((add_assign sampleConsts sampleState 1 1).event 1).hw.idx
          < sampleState.pmu.num_counters)) :=
  ⟨⟨by decide, by decide, rfl⟩, sample_add_1,
    (add_slot_zero_iff_cycle sampleConsts sampleState 1 0 (by decide) (by decide) rfl).2.2 _
      sample_add_1⟩

theorem or_and_self_left (a b : Nat) : (a ||| b) &&& a = a := by
  apply Nat.eq_of_testBit_eq
  intro i
  simp only [Nat.testBit_and, Nat.testBit_or]
  cases a.testBit i <;> simp

/-- C2: for a non-cycle request and flags without `PERF_EF_START`, `add`
returns 0 with the smallest free index `i` of `[1, num_counters)`: afterwards
bit `i` is set, slot table entry `i` is the request, the request's slot is `i`
and its state is stopped (`PERF_HES_STOPPED | PERF_HES_UPTODATE`).  If every
index of `[1, num_counters)` is occupied, `add` returns `-EAGAIN`. -/
theorem add_lowest_free_or_busy (c : Consts) (s : State) (ev flags : Nat)
    (hn : s.pmu.num_counters < 2147483648)
    (hnc : get_event c (s.event ev) ≠ c.RISCV_IOMMU_HPMEVENT_CYCLE)
    (hf : flags &&& c.PERF_EF_START = 0) :
    (∀ i, 1 ≤ i → i < s.pmu.num_counters → s.pmu.used_counters i = false →
      (∀ j, 1 ≤ j → j < i → s.pmu.used_counters j = true) →
      ∃ s', riscv_iommu_pmu_add c s ev flags = some (s', 0) ∧
        s'.pmu.used_counters i = true ∧ s'.pmu.events i = some ev ∧
        (s'.event ev).hw.idx = (i : Int) ∧
        (s'.event ev).hw.state = c.PERF_HES_STOPPED ||| c.PERF_HES_UPTODATE ∧
        (s'.event ev).hw.state &&& c.PERF_HES_STOPPED = c.PERF_HES_STOPPED) ∧
    ((∀ i, 1 ≤ i → i < s.pmu.num_counters → s.pmu.used_counters i = true) →
      riscv_iommu_pmu_add c s ev flags = some (s, -(c.EAGAIN : Int))) := by
  obtain ⟨f1, f2, f3, f4⟩ := find_next_zero_bit_spec s.pmu.used_counters s.pmu.num_counters 1
  have hslot : add_slot c s ev = find_next_zero_bit s.pmu.used_counters s.pmu.num_counters 1 := by
    rw [add_slot, if_neg hnc]
  constructor
  · intro i hi1 hin hfree hbelow
    have hri : find_next_zero_bit s.pmu.used_counters s.pmu.num_counters 1 = i := by
      have h1 := f2 (by omega)
      rcases Nat.lt_trichotomy (find_next_zero_bit s.pmu.used_counters s.pmu.num_counters 1) i
        with hlt | heq | hgt
      · have := f4 (by omega)
        rw [hbelow _ h1 hlt] at this
        exact absurd this (by simp)
      · exact heq
      · have := f3 i hi1 hgt
        rw [hfree] at this
        exact absurd this (by simp)
    have hb : add_slot c s ev ≠ s.pmu.num_counters := by
      rw [hslot, hri]; omega
    obtain ⟨s', h1, -, hs'⟩ := add_ok c s ev flags hn hb
    have hs := hs' hf
    rw [hslot, hri] at hs
    subst hs
    obtain ⟨a1, a2, -, -, -⟩ := add_assign_pmu c s ev (i : Int)
    refine ⟨_, h1, ?_, ?_, ?_, ?_, ?_⟩
    · rw [a1, Int.toNat_ofNat, Function.update_same]
    · rw [a2, Int.toNat_ofNat, Function.update_same]
    · rw [add_assign_event_same]
    · rw [add_assign_event_same]
    · rw [add_assign_event_same]
      exact or_and_self_left _ _
  · intro hall
    apply add_busy c s ev flags hn
    rw [hslot]
    by_contra hne
    have hlt : find_next_zero_bit s.pmu.used_counters s.pmu.num_counters 1
        < s.pmu.num_counters := by omega
    have := f4 hlt
    rw [hall _ (f2 (by omega)) hlt] at this
    exact absurd this (by simp)

/-- Witness for C2: the sample bank with slots 1 and 2 occupied; request 3 is
added without the start flag and gets slot 3, the lowest free one. -/
theorem add_lowest_free_or_busy_witness :
    (sampleStateAB.pmu.num_counters < 2147483648 ∧
      get_event sampleConsts (sampleStateAB.event 3) ≠ sampleConsts.RISCV_IOMMU_HPMEVENT_CYCLE ∧
      0 &&& sampleConsts.PERF_EF_START = 0 ∧ 1 ≤ 3 ∧ 3 < sampleStateAB.pmu.num_counters ∧
      sampleStateAB.pmu.used_counters 3 = false ∧
      (∀ j, 1 ≤ j → j < 3 → sampleStateAB.pmu.used_counters j = true)) ∧
    ∃ s', riscv_iommu_pmu_add sampleConsts sampleStateAB 3 0 = some (s', 0) ∧
      s'.pmu.used_counters 3 = true ∧ s'.pmu.events 3 = some 3 ∧
      (s'.event 3).hw.idx = ((3 : Nat) : Int) ∧
      (s'.event 3).hw.state = sampleConsts.PERF_HES_STOPPED ||| sampleConsts.PERF_HES_UPTODATE ∧
      (s'.event 3).hw.state &&& sampleConsts.PERF_HES_STOPPED = sampleConsts.PERF_HES_STOPPED :=
  ⟨⟨by decide, by decide, by decide, by decide, by decide, by decide,
      fun j h1 h2 => by interval_cases j <;> decide⟩,
    (add_lowest_free_or_busy sampleConsts sampleStateAB 3 0 (by decide) (by decide)
      (by decide)).1 3 (by decide) (by decide) (by decide)
      (fun j h1 h2 => by interval_cases j <;> decide)⟩

theorem get_event_congr (c : Consts) (e e' : perf_event) (h : e'.attr_config = e.attr_config) :
    get_event c e' = get_event c e := by
  rw [get_event, get_event, h]

theorem nonCycle_congr (c : Consts) (s s' : State) (h : Nat)
    (hc : (s'.event h).attr_config = (s.event h).attr_config) :
    NonCycle c s' h ↔ NonCycle c s h := by
  rw [NonCycle, NonCycle, get_event_congr c _ _ hc]

theorem del_release_pmu (s : State) (idx : Int) :
    (del_release s idx).pmu.used_counters
        = Function.update s.pmu.used_counters idx.toNat false ∧
    (del_release s idx).pmu.events = Function.update s.pmu.events idx.toNat none ∧
    (del_release s idx).pmu.num_counters = s.pmu.num_counters ∧
    (del_release s idx).pmu.mask_counter = s.pmu.mask_counter ∧
    (del_release s idx).pmu.reg = s.pmu.reg ∧
    (del_release s idx).event = s.event :=
  ⟨rfl, rfl, rfl, rfl, rfl, rfl⟩

/-- What `del` leaves, for a request with a slot: the slot is released, the
rest of the allocation view is as before. -/
theorem del_view (c : Consts) (s : State) (ev flags : Nat) (h : 0 ≤ (s.event ev).hw.idx) :
    ∃ s', riscv_iommu_pmu_del c s ev flags = some s' ∧
      s'.pmu.used_counters
        = Function.update s.pmu.used_counters (s.event ev).hw.idx.toNat false ∧
      s'.pmu.events = Function.update s.pmu.events (s.event ev).hw.idx.toNat none ∧
      s'.pmu.num_counters = s.pmu.num_counters ∧
      (∀ h, (s'.event h).hw.idx = (s.event h).hw.idx) ∧
      (∀ h, (s'.event h).attr_config = (s.event h).attr_config) := by
  rw [del_spec c s ev flags h]
  obtain ⟨f1, f2, f3, -, f5⟩ := frame_stop c s ev c.PERF_EF_UPDATE
  generalize riscv_iommu_pmu_stop c s ev c.PERF_EF_UPDATE = s1 at f1 f2 f3 f5 ⊢
  obtain ⟨d1, d2, d3, -, -, d6⟩ := del_release_pmu s1 (s.event ev).hw.idx
  refine ⟨del_release s1 (s.event ev).hw.idx, rfl, ?_, ?_, d3.trans f3, fun h => ?_, fun h => ?_⟩
  · rw [d1, f2]
  · rw [d2, f1]
  · rw [d6]; exact (f5 h).1
  · rw [d6]; exact (f5 h).2.1

theorem allocInv_empty (c : Consts) (s : State) (hnum : s.pmu.num_counters < 2147483648)
    (hused : ∀ i, s.pmu.used_counters i = false) : AllocInv c s [] where
  num := hnum
  nodup := List.nodup_nil
  range := fun h hh => absurd hh (List.not_mem_nil h)
  cyc := fun h hh => absurd hh (List.not_mem_nil h)
  inj := fun h1 hh => absurd hh (List.not_mem_nil h1)
  used := fun i _ _ => by
    rw [hused i]
    constructor
    · intro h; exact absurd h (by simp)
    · rintro ⟨h, hh, -⟩; exact absurd hh (List.not_mem_nil h)

/-- The slot chosen for a non-cycle request is free and lies in
`[1, num_counters)`, unless it is `num_counters`. -/
theorem add_slot_nonCycle (c : Consts) (s : State) (ev : Nat) (hnc : NonCycle c s ev)
    (hb : add_slot c s ev ≠ s.pmu.num_counters) :
    1 ≤ add_slot c s ev ∧ add_slot c s ev < s.pmu.num_counters ∧
    s.pmu.used_counters (add_slot c s ev) = false := by
  obtain ⟨f1, f2, -, f4⟩ := find_next_zero_bit_spec s.pmu.used_counters s.pmu.num_counters 1
  have hslot : add_slot c s ev = find_next_zero_bit s.pmu.used_counters s.pmu.num_counters 1 := by
    rw [add_slot, if_neg hnc]
  rw [hslot] at hb ⊢
  have hlt : find_next_zero_bit s.pmu.used_counters s.pmu.num_counters 1
      < s.pmu.num_counters := by omega
  exact ⟨f2 (by omega), hlt, f4 hlt⟩

theorem add_slot_cycle (c : Consts) (s : State) (ev : Nat) (hc : ¬ NonCycle c s ev) :
    add_slot c s ev = 0 := by
  rw [NonCycle, not_not] at hc
  rw [add_slot, if_pos hc]

theorem allocInv_add (c : Consts) (s s' : State) (opn : List Nat) (ev flags : Nat)
    (hE : 0 < c.EAGAIN) (inv : AllocInv c s opn) (hev : ev ∉ opn)
    (hadd : riscv_iommu_pmu_add c s ev flags = some (s', 0)) :
    AllocInv c s' (ev :: opn) := by
  have hn := inv.num
  by_cases hb : add_slot c s ev = s.pmu.num_counters
  · rw [add_busy c s ev flags hn hb] at hadd
    simp only [Option.some.injEq, Prod.mk.injEq] at hadd
    omega
  obtain ⟨s0, h0, hu, -, hnum, hidx, hother, hcfg⟩ := add_ok_view c s ev flags hn hb
  rw [h0] at hadd
  simp only [Option.some.injEq, Prod.mk.injEq, and_true] at hadd
  subst hadd
  have hnc : ∀ h, NonCycle c s0 h ↔ NonCycle c s h := fun h => nonCycle_congr c s s0 h (hcfg h)
  have hne : ∀ h ∈ opn, h ≠ ev := fun h hh heq => hev (heq ▸ hh)
  refine ⟨by rw [hnum]; exact hn, List.nodup_cons.mpr ⟨hev, inv.nodup⟩, ?_, ?_, ?_, ?_⟩
  · intro h hh hnch
    rw [hnum]
    rcases List.mem_cons.mp hh with rfl | hh
    · obtain ⟨a1, a2, -⟩ := add_slot_nonCycle c s h ((hnc h).mp hnch) hb
      rw [hidx]
      omega
    · rw [hother h (hne h hh)]
      exact inv.range h hh ((hnc h).mp hnch)
  · intro h hh hch
    rcases List.mem_cons.mp hh with rfl | hh
    · rw [hidx, add_slot_cycle c s h (fun x => hch ((hnc h).mpr x))]
      rfl
    · rw [hother h (hne h hh)]
      exact inv.cyc h hh (fun x => hch ((hnc h).mpr x))
  · intro h1 hh1 h2 hh2 n1 n2 heq
    rcases List.mem_cons.mp hh1 with e1 | m1 <;> rcases List.mem_cons.mp hh2 with e2 | m2
    · rw [e1, e2]
    · exfalso
      subst e1
      obtain ⟨a1, a2, a3⟩ := add_slot_nonCycle c s h1 ((hnc h1).mp n1) hb
      rw [hidx, hother h2 (hne h2 m2)] at heq
      have := (inv.used _ a1 a2).mpr ⟨h2, m2, (hnc h2).mp n2, heq.symm⟩
      rw [a3] at this
      exact absurd this (by simp)
    · exfalso
      subst e2
      obtain ⟨a1, a2, a3⟩ := add_slot_nonCycle c s h2 ((hnc h2).mp n2) hb
      rw [hidx, hother h1 (hne h1 m1)] at heq
      have := (inv.used _ a1 a2).mpr ⟨h1, m1, (hnc h1).mp n1, heq⟩
      rw [a3] at this
      exact absurd this (by simp)
    · rw [hother h1 (hne h1 m1), hother h2 (hne h2 m2)] at heq
      exact inv.inj h1 m1 h2 m2 ((hnc h1).mp n1) ((hnc h2).mp n2) heq
  · intro i hi1 hin
    rw [hnum] at hin
    rw [hu]
    by_cases hi : i = add_slot c s ev
    · subst hi
      rw [Function.update_same]
      refine ⟨fun _ => ?_, fun _ => rfl⟩
      have hncev : NonCycle c s ev := by
        by_contra hcyc
        rw [add_slot_cycle c s ev hcyc] at hi1
        omega
      exact ⟨ev, List.mem_cons_self _ _, (hnc ev).mpr hncev, hidx⟩
    · rw [Function.update_noteq hi, inv.used i hi1 hin]
      constructor
      · rintro ⟨h, hh, n1, e1⟩
        exact ⟨h, List.mem_cons_of_mem _ hh, (hnc h).mpr n1, by rw [hother h (hne h hh)]; exact e1⟩
      · rintro ⟨h, hh, n1, e1⟩
        rcases List.mem_cons.mp hh with rfl | hh
        · rw [hidx] at e1
          exact absurd (Int.ofNat_inj.mp e1).symm hi
        · exact ⟨h, hh, (hnc h).mp n1, by rw [← hother h (hne h hh)]; exact e1⟩

theorem allocInv_del (c : Consts) (s s' : State) (opn : List Nat) (ev flags : Nat)
    (inv : AllocInv c s opn) (hev : ev ∈ opn)
    (hdel : riscv_iommu_pmu_del c s ev flags = some s') :
    AllocInv c s' (opn.erase ev) := by
  have hidx0 : 0 ≤ (s.event ev).hw.idx := by
    by_cases hnc : NonCycle c s ev
    · have := (inv.range ev hev hnc).1
      omega
    · rw [inv.cyc ev hev hnc]
  obtain ⟨s0, h0, hu, -, hnum, hidx, hcfg⟩ := del_view c s ev flags hidx0
  rw [h0] at hdel
  simp only [Option.some.injEq] at hdel
  subst hdel
  have hnc : ∀ h, NonCycle c s0 h ↔ NonCycle c s h := fun h => nonCycle_congr c s s0 h (hcfg h)
  have hmem : ∀ h, h ∈ opn.erase ev → h ∈ opn := fun h hh => List.mem_of_mem_erase hh
  refine ⟨by rw [hnum]; exact inv.num, inv.nodup.erase ev, ?_, ?_, ?_, ?_⟩
  · intro h hh hnch
    rw [hnum, hidx h]
    exact inv.range h (hmem h hh) ((hnc h).mp hnch)
  · intro h hh hch
    rw [hidx h]
    exact inv.cyc h (hmem h hh) (fun x => hch ((hnc h).mpr x))
  · intro h1 hh1 h2 hh2 n1 n2 heq
    rw [hidx h1, hidx h2] at heq
    exact inv.inj h1 (hmem h1 hh1) h2 (hmem h2 hh2) ((hnc h1).mp n1) ((hnc h2).mp n2) heq
  · intro i hi1 hin
    rw [hnum] at hin
    rw [hu]
    by_cases hi : i = (s.event ev).hw.idx.toNat
    · rw [hi, Function.update_same]
      refine ⟨fun h => absurd h (by simp), ?_⟩
      rintro ⟨h, hh, n1, e1⟩
      exfalso
      rw [hidx h] at e1
      have hev_nc : NonCycle c s ev := by
        by_contra hcyc
        have := inv.cyc ev hev hcyc
        rw [this] at hi
        simp at hi
        omega
      have heq : (s.event h).hw.idx = (s.event ev).hw.idx := by
        rw [e1, Int.toNat_of_nonneg hidx0]
      have := inv.inj h (hmem h hh) ev hev ((hnc h).mp n1) hev_nc heq
      rw [this] at hh
      exact absurd hh (inv.nodup.not_mem_erase)
    · rw [Function.update_noteq hi, inv.used i hi1 hin]
      constructor
      · rintro ⟨h, hh, n1, e1⟩
        refine ⟨h, ?_, (hnc h).mpr n1, by rw [hidx h]; exact e1⟩
        apply (List.mem_erase_of_ne ?_).mpr hh
        rintro rfl
        rw [e1] at hi
        simp at hi
      · rintro ⟨h, hh, n1, e1⟩
        exact ⟨h, hmem h hh, (hnc h).mp n1, by rw [← hidx h]; exact e1⟩

theorem add_fail_same (c : Consts) (s s' : State) (ev flags : Nat) (r : Int)
    (hn : s.pmu.num_counters < 2147483648)
    (hadd : riscv_iommu_pmu_add c s ev flags = some (s', r)) (hret : r ≠ 0) : s' = s := by
  by_cases hb : add_slot c s ev = s.pmu.num_counters
  · rw [add_busy c s ev flags hn hb] at hadd
    simp only [Option.some.injEq, Prod.mk.injEq] at hadd
    exact hadd.1.symm
  · obtain ⟨s0, h0, -⟩ := add_ok c s ev flags hn hb
    rw [h0] at hadd
    simp only [Option.some.injEq, Prod.mk.injEq] at hadd
    exact absurd hadd.2.symm hret

/-- Every reachable state satisfies the allocation invariant. -/
theorem reach_allocInv (c : Consts) (hE : 0 < c.EAGAIN) (s : State) (opn : List Nat)
    (hr : Reach c s opn) : AllocInv c s opn := by
  induction hr with
  | empty s hnum hused _ => exact allocInv_empty c s hnum hused
  | add_ok s s' opn ev flags _ hev hadd ih => exact allocInv_add c s s' opn ev flags hE ih hev hadd
  | add_fail s s' opn ev flags r _ _ hadd hret ih =>
    rw [add_fail_same c s s' ev flags r ih.num hadd hret]
    exact ih
  | del s s' opn ev flags _ hev hdel ih => exact allocInv_del c s s' opn ev flags ih hev hdel

theorem mem_nonCycleOpen (c : Consts) (s : State) (opn : List Nat) (h : Nat) :
    h ∈ nonCycleOpen c s opn ↔ h ∈ opn ∧ NonCycle c s h := by
  rw [nonCycleOpen, List.mem_filter, NonCycle, decide_eq_true_iff]

/-- Under the allocation invariant the set bits of `[1, num_counters)` are as
many as the open non-cycle requests: a free slot exists exactly when fewer than
`num_counters - 1` of them are open. -/
theorem allocInv_count (c : Consts) (s : State) (opn : List Nat) (inv : AllocInv c s opn) :
    (nonCycleOpen c s opn).length ≤ s.pmu.num_counters - 1 ∧
    ((nonCycleOpen c s opn).length < s.pmu.num_counters - 1 →
      ∃ i, 1 ≤ i ∧ i < s.pmu.num_counters ∧ s.pmu.used_counters i = false) ∧
    ((nonCycleOpen c s opn).length = s.pmu.num_counters - 1 →
      ∀ i, 1 ≤ i → i < s.pmu.num_counters → s.pmu.used_counters i = true) := by
  have hmem := mem_nonCycleOpen c s opn
  have hnodup : (nonCycleOpen c s opn).Nodup := inv.nodup.filter _
  have hinj : ∀ x ∈ nonCycleOpen c s opn, ∀ y ∈ nonCycleOpen c s opn,
      (s.event x).hw.idx.toNat = (s.event y).hw.idx.toNat → x = y := by
    intro x hx y hy hxy
    obtain ⟨mx, nx⟩ := (hmem x).mp hx
    obtain ⟨my, ny⟩ := (hmem y).mp hy
    have rx := (inv.range x mx nx).1
    have ry := (inv.range y my ny).1
    exact inv.inj x mx y my nx ny (by omega)
  have hcard : ((nonCycleOpen c s opn).map (fun h => (s.event h).hw.idx.toNat)).toFinset.card
      = (nonCycleOpen c s opn).length := by
    rw [List.toFinset_card_of_nodup (List.Nodup.map_on hinj hnodup), List.length_map]
  have hsub : ((nonCycleOpen c s opn).map (fun h => (s.event h).hw.idx.toNat)).toFinset
      ⊆ Finset.Ico 1 s.pmu.num_counters := by
    intro x hx
    rw [List.mem_toFinset, List.mem_map] at hx
    obtain ⟨h, hh, rfl⟩ := hx
    obtain ⟨mh, nh⟩ := (hmem h).mp hh
    have := inv.range h mh nh
    rw [Finset.mem_Ico]
    omega
  have hused : ∀ i, 1 ≤ i → i < s.pmu.num_counters → (s.pmu.used_counters i = true ↔
      i ∈ ((nonCycleOpen c s opn).map (fun h => (s.event h).hw.idx.toNat)).toFinset) := by
    intro i hi1 hin
    rw [inv.used i hi1 hin, List.mem_toFinset, List.mem_map]
    constructor
    · rintro ⟨h, mh, nh, e⟩
      exact ⟨h, (hmem h).mpr ⟨mh, nh⟩, by rw [e]; rfl⟩
    · rintro ⟨h, hh, e⟩
      obtain ⟨mh, nh⟩ := (hmem h).mp hh
      have := (inv.range h mh nh).1
      exact ⟨h, mh, nh, by omega⟩
  have hico : (Finset.Ico 1 s.pmu.num_counters).card = s.pmu.num_counters - 1 := Nat.card_Ico _ _
  refine ⟨?_, fun hlt => ?_, fun heq i hi1 hin => ?_⟩
  · rw [← hcard, ← hico]
    exact Finset.card_le_card hsub
  · rw [← hcard, ← hico] at hlt
    by_contra hall
    have hsup : Finset.Ico 1 s.pmu.num_counters
        ⊆ ((nonCycleOpen c s opn).map (fun h => (s.event h).hw.idx.toNat)).toFinset := by
      intro i hi
      rw [Finset.mem_Ico] at hi
      rw [← hused i hi.1 hi.2]
      by_contra hfree
      exact hall ⟨i, hi.1, hi.2, by simpa using hfree⟩
    have := Finset.card_le_card hsup
    omega
  · rw [← hcard, ← hico] at heq
    have hEq := Finset.eq_of_subset_of_card_le hsub (le_of_eq heq.symm)
    rw [hused i hi1 hin, hEq, Finset.mem_Ico]
    exact ⟨hi1, hin⟩

/-- C3: in every state reached from an empty bank by `add` and `del` calls,
an `add` of a non-cycle request returns 0 whenever fewer than
`num_counters - 1` non-cycle requests are open, and returns `-EAGAIN`, leaving
the state as it is, when `num_counters - 1` of them are open; more are never
open. -/
theorem add_succeeds_until_full (c : Consts) (hE : 0 < c.EAGAIN) (s : State) (opn : List Nat)
    (hr : Reach c s opn) (ev flags : Nat) (hnc : NonCycle c s ev) :
    (nonCycleOpen c s opn).length ≤ s.pmu.num_counters - 1 ∧
    ((nonCycleOpen c s opn).length < s.pmu.num_counters - 1 →
      ∃ s', riscv_iommu_pmu_add c s ev flags = some (s', 0)) ∧
    ((nonCycleOpen c s opn).length = s.pmu.num_counters - 1 →
      riscv_iommu_pmu_add c s ev flags = some (s, -(c.EAGAIN : Int))) := by
  have inv := reach_allocInv c hE s opn hr
  obtain ⟨k1, k2, k3⟩ := allocInv_count c s opn inv
  obtain ⟨f1, f2, f3, f4⟩ := find_next_zero_bit_spec s.pmu.used_counters s.pmu.num_counters 1
  have hslot : add_slot c s ev = find_next_zero_bit s.pmu.used_counters s.pmu.num_counters 1 := by
    rw [add_slot, if_neg hnc]
  refine ⟨k1, fun hlt => ?_, fun heq => ?_⟩
  · obtain ⟨i, hi1, hin, hfree⟩ := k2 hlt
    have hb : add_slot c s ev ≠ s.pmu.num_counters := by
      rw [hslot]
      intro hfull
      have := f3 i hi1 (by omega)
      rw [hfree] at this
      exact absurd this (by simp)
    obtain ⟨s', h', -⟩ := add_ok c s ev flags inv.num hb
    exact ⟨s', h'⟩
  · apply add_busy c s ev flags inv.num
    rw [hslot]
    by_contra hne
    have hlt : find_next_zero_bit s.pmu.used_counters s.pmu.num_counters 1
        < s.pmu.num_counters := by omega
    have := f4 hlt
    rw [k3 heq _ (f2 (by omega)) hlt] at this
    exact absurd this (by simp)

/-- Witness for C3: the sample bank of 8 slots with requests 1 and 2 open;
fewer than 7 non-cycle requests are open and the `add` of request 3 returns
0. -/
theorem add_succeeds_until_full_witness :
    (0 < sampleConsts.EAGAIN ∧ Reach sampleConsts sampleStateAB [2, 1] ∧
      NonCycle sampleConsts sampleStateAB 3 ∧
      (nonCycleOpen sampleConsts sampleStateAB [2, 1]).length
        < sampleStateAB.pmu.num_counters - 1) ∧
    ∃ s', riscv_iommu_pmu_add sampleConsts sampleStateAB 3 0 = some (s', 0) :=
  ⟨⟨by decide, sample_reach_AB, by rw [NonCycle]; decide, by decide⟩,
    (add_succeeds_until_full sampleConsts (by decide) sampleStateAB [2, 1] sample_reach_AB 3 0
      (by rw [NonCycle]; decide)).2.1 (by decide)⟩

theorem find_next_zero_bit_eq (bm : Nat → Bool) (n i : Nat) (hi1 : 1 ≤ i) (hin : i < n)
    (hfree : bm i = false) (hbelow : ∀ j, 1 ≤ j → j < i → bm j = true) :
    find_next_zero_bit bm n 1 = i := by
  obtain ⟨f1, f2, f3, f4⟩ := find_next_zero_bit_spec bm n 1
  have h1 := f2 (by omega)
  rcases Nat.lt_trichotomy (find_next_zero_bit bm n 1) i with hlt | heq | hgt
  · have := f4 (by omega)
    rw [hbelow _ h1 hlt] at this
    exact absurd this (by simp)
  · exact heq
  · have := f3 i hi1 hgt
    rw [hfree] at this
    exact absurd this (by simp)

/-- Deleting the request of slot `i`, when the slots below `i` are occupied,
and then adding a non-cycle request gives that request slot `i`. -/
theorem del_add_reuse (c : Consts) (s : State) (ev ev' flags flags' i : Nat)
    (hn : s.pmu.num_counters < 2147483648) (hidx : (s.event ev).hw.idx = (i : Int))
    (hi1 : 1 ≤ i) (hin : i < s.pmu.num_counters)
    (hbelow : ∀ j, 1 ≤ j → j < i → s.pmu.used_counters j = true)
    (hnc : NonCycle c s ev') :
    ∃ s1 s2, riscv_iommu_pmu_del c s ev flags = some s1 ∧
      riscv_iommu_pmu_add c s1 ev' flags' = some (s2, 0) ∧
      (s2.event ev').hw.idx = (i : Int) ∧ s2.pmu.events i = some ev' ∧
      s2.pmu.used_counters i = true := by
  obtain ⟨s1, h1, hu, -, hnum, -, hcfg⟩ := del_view c s ev flags (by rw [hidx]; omega)
  rw [hidx, Int.toNat_ofNat] at hu
  have hnc1 : NonCycle c s1 ev' := (nonCycle_congr c s s1 ev' (hcfg ev')).mpr hnc
  have hslot : add_slot c s1 ev' = i := by
    rw [add_slot, if_neg hnc1, hnum]
    apply find_next_zero_bit_eq _ _ _ hi1 hin
    · rw [hu, Function.update_same]
    · intro j hj1 hji
      rw [hu, Function.update_noteq (by omega)]
      exact hbelow j hj1 hji
  obtain ⟨s2, h2, hu2, he2, -, hidx2, -, -⟩ := add_ok_view c s1 ev' flags'
    (by rw [hnum]; exact hn) (by rw [hslot, hnum]; omega)
  rw [hslot] at hu2 he2 hidx2
  exact ⟨s1, s2, h1, h2, hidx2, by rw [he2, Function.update_same],
    by rw [hu2, Function.update_same]⟩

/-- C4: in a reachable state, for an open non-cycle request at slot `i` with
all slots of `[1, i)` occupied, `del` of that request followed by `add` of a
non-cycle request gives the new request slot `i`. -/
theorem del_then_add_gets_released_slot (c : Consts) (hE : 0 < c.EAGAIN) (s : State)
    (opn : List Nat) (hr : Reach c s opn) (ev ev' flags flags' i : Nat)
    (hev : ev ∈ opn) (hnc : NonCycle c s ev) (hidx : (s.event ev).hw.idx = (i : Int))
    (hbelow : ∀ j, 1 ≤ j → j < i → s.pmu.used_counters j = true)
    (hnc' : NonCycle c s ev') :
    ∃ s1 s2, riscv_iommu_pmu_del c s ev flags = some s1 ∧
      riscv_iommu_pmu_add c s1 ev' flags' = some (s2, 0) ∧
      (s2.event ev').hw.idx = (i : Int) ∧ s2.pmu.events i = some ev' ∧
      s2.pmu.used_counters i = true := by
  have inv := reach_allocInv c hE s opn hr
  have hrange := inv.range ev hev hnc
  rw [hidx] at hrange
  exact del_add_reuse c s ev ev' flags flags' i inv.num hidx (by omega) (by omega) hbelow hnc'

/-- Witness for C4: 8 slots, requests 1 and 2 open at slots 1 and 2; request 1
is deleted and request 3 added, which receives slot 1. -/
theorem del_then_add_gets_released_slot_witness :
    (0 < sampleConsts.EAGAIN ∧ Reach sampleConsts sampleStateAB [2, 1] ∧ 1 ∈ [2, 1] ∧
      NonCycle sampleConsts sampleStateAB 1 ∧ (sampleStateAB.event 1).hw.idx = ((1 : Nat) : Int) ∧
      (∀ j, 1 ≤ j → j < 1 → sampleStateAB.pmu.used_counters j = true) ∧
      NonCycle sampleConsts sampleStateAB 3) ∧
    ∃ s1 s2, riscv_iommu_pmu_del sampleConsts sampleStateAB 1 0 = some s1 ∧
      riscv_iommu_pmu_add sampleConsts s1 3 0 = some (s2, 0) ∧
      (s2.event 3).hw.idx = ((1 : Nat) : Int) ∧ s2.pmu.events 1 = some 3 ∧
      s2.pmu.used_counters 1 = true :=
  ⟨⟨by decide, sample_reach_AB, by decide, by rw [NonCycle]; decide, by decide,
      fun j h1 h2 => absurd h1 (by omega), by rw [NonCycle]; decide⟩,
    del_then_add_gets_released_slot sampleConsts (by decide) sampleStateAB [2, 1]
      sample_reach_AB 1 3 0 0 1 (by decide) (by rw [NonCycle]; decide) (by decide)
      (fun j h1 h2 => absurd h1 (by omega)) (by rw [NonCycle]; decide)⟩

theorem sample_add_cycle_1 :
    riscv_iommu_pmu_add sampleConsts sampleState 0x4000 0
      = some (add_assign sampleConsts sampleState 0x4000 0, 0) := by
  obtain ⟨s', h, -, hs⟩ := add_ok sampleConsts sampleState 0x4000 0 (by decide) (by decide)
  rw [h, hs (by decide)]
  rfl

theorem sample_add_cycle_2 :
    riscv_iommu_pmu_add sampleConsts (add_assign sampleConsts sampleState 0x4000 0) 0xC000 0
      = some (sampleStateCC, 0) := by
  obtain ⟨s', h, -, hs⟩ := add_ok sampleConsts (add_assign sampleConsts sampleState 0x4000 0)
    0xC000 0 (by decide) (by decide)
  rw [h, hs (by decide)]
  rfl

/-- C5, evaluated on the code: on an empty bank of 8 slots two distinct
cycle-count requests are added one after the other; both calls return 0, the
resulting state is reachable with both requests open, and both hold slot 0
(the slot table keeps the second only). -/
theorem two_cycle_requests_share_slot_zero :
    riscv_iommu_pmu_add sampleConsts sampleState 0x4000 0
      = some (add_assign sampleConsts sampleState 0x4000 0, 0) ∧
    riscv_iommu_pmu_add sampleConsts (add_assign sampleConsts sampleState 0x4000 0) 0xC000 0
      = some (sampleStateCC, 0) ∧
    Reach sampleConsts sampleStateCC [0xC000, 0x4000] ∧
    (sampleStateCC.event 0x4000).hw.idx = 0 ∧ (sampleStateCC.event 0xC000).hw.idx = 0 ∧
    sampleStateCC.pmu.events 0 = some 0xC000 ∧ sampleStateCC.pmu.used_counters 0 = true :=
  ⟨sample_add_cycle_1, sample_add_cycle_2,
    Reach.add_ok _ _ [0x4000] 0xC000 0
      (Reach.add_ok _ _ [] 0x4000 0 (Reach.empty _ (by decide) (fun _ => rfl) (fun _ => rfl))
        (by decide) sample_add_cycle_1)
      (by decide) sample_add_cycle_2,
    by decide, by decide, by decide, by decide⟩

/-! ## Bit fields and the delta rule -/

theorem bf_shf_low (j : Nat) (hj : 1 ≤ j) : bf_shf (2 ^ j - 1) = 0 := by
  have hodd : (2 ^ j - 1) % 2 = 1 := by
    obtain ⟨i, rfl⟩ : ∃ i, j = i + 1 := ⟨j - 1, by omega⟩
    have := Nat.one_le_two_pow (n := i)
    rw [pow_succ]
    omega
  rw [bf_shf, show (64 : Nat) = 63 + 1 from rfl, bf_shf_aux, if_pos hodd]

theorem FIELD_GET_low (j x : Nat) (hj : 1 ≤ j) : FIELD_GET (2 ^ j - 1) x = x % 2 ^ j := by
  rw [FIELD_GET, bf_shf_low j hj, Nat.shiftRight_zero, Nat.and_pow_two_sub_one_eq_mod]

theorem FIELD_PREP_low (j x : Nat) (hj : 1 ≤ j) (hj64 : j ≤ 64) :
    FIELD_PREP (2 ^ j - 1) x = x % 2 ^ j := by
  rw [FIELD_PREP, bf_shf_low j hj, Nat.shiftLeft_zero, Nat.and_pow_two_sub_one_eq_mod,
    show (18446744073709551616 : Nat) = 2 ^ 64 from rfl,
    Nat.mod_mod_of_dvd _ (pow_dvd_pow 2 hj64)]

theorem toU64_sub_cast (n p : Nat) (hp : p ≤ 18446744073709551616) :
    toU64 ((n : Int) - p) = (n + 18446744073709551616 - p) % 18446744073709551616 := by
  simp only [toU64]
  omega

/-- The masked 64-bit difference of a counter value and a snapshot below
`2 ^ k` is their difference modulo `2 ^ k`. -/
theorem masked_delta (k j n p : Nat) (hk : k ≤ 64) (hkj : k ≤ j) (hj : 1 ≤ j)
    (hp : p < 2 ^ k) :
    FIELD_GET (2 ^ j - 1) (toU64 ((n : Int) - p)) &&& (2 ^ k - 1)
      = (((n : Int) - p) % ((2 ^ k - 1 : Nat) + 1 : Int)).toNat := by
  have hP64 : 2 ^ k ∣ 2 ^ 64 := pow_dvd_pow 2 hk
  have hPle : 2 ^ k ≤ 2 ^ 64 := Nat.pow_le_pow_right (by norm_num) hk
  have hpos : 0 < 2 ^ k := Nat.two_pow_pos k
  have h64 : (18446744073709551616 : Nat) = 2 ^ 64 := rfl
  rw [FIELD_GET_low j _ hj, Nat.and_pow_two_sub_one_eq_mod,
    Nat.mod_mod_of_dvd _ (pow_dvd_pow 2 hkj), toU64_sub_cast n p (by omega), h64,
    Nat.mod_mod_of_dvd _ hP64]
  have hcast : (((2 ^ k - 1 : Nat) : Int) + 1) = ((2 ^ k : Nat) : Int) := by
    rw [Nat.cast_sub hpos]; simp
  rw [hcast]
  obtain ⟨q, hq⟩ := hP64
  rw [hq]
  have hq1 : 1 ≤ q := by
    rcases q with _ | q
    · simp at hq
    · omega
  by_cases hle : p ≤ n
  · have e1 : n + 2 ^ k * q - p = (n - p) + 2 ^ k * q := by omega
    have e2 : ((n : Int) - p) = ((n - p : Nat) : Int) := by omega
    rw [e1, Nat.add_mul_mod_self_left, e2, ← Int.natCast_mod, Int.toNat_ofNat]
  · have e1 : n + 2 ^ k * q - p = (n + 2 ^ k - p) + 2 ^ k * (q - 1) := by
      have : 2 ^ k * q = 2 ^ k + 2 ^ k * (q - 1) := by
        obtain ⟨r, rfl⟩ : ∃ r, q = r + 1 := ⟨q - 1, by omega⟩
        rw [Nat.add_sub_cancel, Nat.mul_succ, Nat.add_comm]
      omega
    have e2 : ((n : Int) - p) = ((n + 2 ^ k - p : Nat) : Int) + ((2 ^ k : Nat) : Int) * (-1) := by
      rw [Nat.cast_sub (by omega)]
      push_cast
      ring
    rw [e1, Nat.add_mul_mod_self_left, e2, Int.add_mul_emod_self_left, ← Int.natCast_mod,
      Int.toNat_ofNat]

/-- C6: for a counter mask `M = 2 ^ k - 1` (`1 ≤ k ≤ 63`), a previous snapshot
`p` in `[0, M]` and a counter reading `n` (in `[0, M]` or not), `update` adds
`d = (n - p) mod (M + 1)` to the accumulated total and subtracts it from
`period_left` (both in 64-bit arithmetic, so exactly when the result fits),
and leaves the snapshot equal to `n`.  The counter field of the register is
`2 ^ j - 1` with `k ≤ j ≤ 64`. -/
theorem update_adds_masked_delta (c : Consts) (s : State) (ev k j M p n : Nat)
    (hk1 : 1 ≤ k) (hk : k ≤ 63) (hkj : k ≤ j) (hj : j ≤ 64)
    (hctr : c.RISCV_IOMMU_IOHPMCTR_COUNTER = 2 ^ j - 1) (hM : M = 2 ^ k - 1)
    (hmask : s.pmu.mask_counter = M) (hprev : (s.event ev).hw.prev_count = p)
    (hnow : riscv_iommu_pmu_get_counter c s.pmu (toU32 (s.event ev).hw.idx) = n)
    (hp : p ≤ M) :
    ∃ d : Nat, (d : Int) = ((n : Int) - p) % ((M : Int) + 1) ∧
      ((riscv_iommu_pmu_update c s ev).event ev).count
        = ((s.event ev).count + d) % 18446744073709551616 ∧
      ((s.event ev).count + d < 18446744073709551616 →
        ((riscv_iommu_pmu_update c s ev).event ev).count = (s.event ev).count + d) ∧
      ((riscv_iommu_pmu_update c s ev).event ev).hw.period_left
        = toS64 ((s.event ev).hw.period_left - d) ∧
      (-9223372036854775808 ≤ (s.event ev).hw.period_left - d →
        (s.event ev).hw.period_left - d < 9223372036854775808 →
        ((riscv_iommu_pmu_update c s ev).event ev).hw.period_left
          = (s.event ev).hw.period_left - d) ∧
      ((riscv_iommu_pmu_update c s ev).event ev).hw.prev_count = n := by
  subst hM
  have hpos : 0 < 2 ^ k := Nat.two_pow_pos k
  have hd : update_delta c s ev
      = (((n : Int) - p) % ((2 ^ k - 1 : Nat) + 1 : Int)).toNat := by
    rw [update_delta, hnow, hprev, hctr, hmask]
    exact masked_delta k j n p (by omega) hkj (by omega) (by omega)
  have hnn : 0 ≤ ((n : Int) - p) % ((2 ^ k - 1 : Nat) + 1 : Int) :=
    Int.emod_nonneg _ (by omega)
  refine ⟨update_delta c s ev, ?_, ?_, ?_, ?_, ?_, ?_⟩
  · rw [hd, Int.toNat_of_nonneg hnn]
  · rw [update_event_same]
  · intro hlt
    rw [update_event_same]
    exact Nat.mod_eq_of_lt hlt
  · rw [update_event_same]
  · intro h1 h2
    rw [update_event_same]
    generalize ((s.event ev).hw.period_left - (update_delta c s ev : Int)) = x at h1 h2 ⊢
    simp only [toS64]
    omega
  · rw [update_event_same]
    exact hnow

/-- Witness for C6: mask `2 ^ 32 - 1`, snapshot `0xFFFFFFF0`, counter reading
`0x10` after a wrap-around (the delta is `0x20`). -/
theorem update_adds_masked_delta_witness :
    ((1 ≤ 32 ∧ 32 ≤ 63 ∧ 32 ≤ 64 ∧ 64 ≤ 64) ∧
      sampleConsts.RISCV_IOMMU_IOHPMCTR_COUNTER = 2 ^ 64 - 1 ∧ 4294967295 = 2 ^ 32 - 1 ∧
      sampleStateWrap.pmu.mask_counter = 4294967295 ∧
      (sampleStateWrap.event 1).hw.prev_count = 4294967280 ∧
      riscv_iommu_pmu_get_counter sampleConsts sampleStateWrap.pmu
        (toU32 (sampleStateWrap.event 1).hw.idx) = 16 ∧ 4294967280 ≤ 4294967295) ∧
    ∃ d : Nat, (d : Int) = ((16 : Nat) - (4294967280 : Nat) : Int) % ((4294967295 : Nat) + 1 : Int) ∧
      ((riscv_iommu_pmu_update sampleConsts sampleStateWrap 1).event 1).count
        = ((sampleStateWrap.event 1).count + d) % 18446744073709551616 ∧
      ((sampleStateWrap.event 1).count + d < 18446744073709551616 →
        ((riscv_iommu_pmu_update sampleConsts sampleStateWrap 1).event 1).count
          = (sampleStateWrap.event 1).count + d) ∧
      ((riscv_iommu_pmu_update sampleConsts sampleStateWrap 1).event 1).hw.period_left
        = toS64 ((sampleStateWrap.event 1).hw.period_left - d) ∧
      (-9223372036854775808 ≤ (sampleStateWrap.event 1).hw.period_left - d →
        (sampleStateWrap.event 1).hw.period_left - d < 9223372036854775808 →
        ((riscv_iommu_pmu_update sampleConsts sampleStateWrap 1).event 1).hw.period_left
          = (sampleStateWrap.event 1).hw.period_left - d) ∧
      ((riscv_iommu_pmu_update sampleConsts sampleStateWrap 1).event 1).hw.prev_count = 16 :=
  ⟨⟨by decide, by decide, by decide, by decide, by decide, by with_unfolding_all decide,
      by decide⟩,
    update_adds_masked_delta sampleConsts sampleStateWrap 1 32 64 4294967295 4294967280 16
      (by decide) (by decide) (by decide) (by decide) (by decide) (by decide) (by decide)
      (by decide) (by with_unfolding_all decide) (by decide)⟩

/-! ## The period programmer -/

theorem toS64_of_range (x : Int) (h1 : -9223372036854775808 ≤ x)
    (h2 : x < 9223372036854775808) : toS64 x = x := by
  simp only [toS64]
  omega

theorem toU64_of_nonneg (x : Int) (h1 : 0 ≤ x) (h2 : x < 18446744073709551616) :
    toU64 x = x.toNat := by
  simp only [toU64]
  omega

theorem set_period_drift_pos (period : Int) (l : PeriodLocals) (h : l.left ≤ toS64 (-period)) :
    set_period_drift period l =
      { hwc := { l.hwc with period_left := period, last_period := toU64 period },
        left := period, ret := 1 } := by
  rw [set_period_drift, if_pos h]

theorem set_period_drift_neg (period : Int) (l : PeriodLocals)
    (h : ¬ l.left ≤ toS64 (-period)) : set_period_drift period l = l := by
  rw [set_period_drift, if_neg h]

theorem set_period_rearm_pos (period : Int) (l : PeriodLocals) (h : l.left ≤ 0) :
    set_period_rearm period l =
      { hwc := { l.hwc with period_left := toS64 (l.left + period),
                            last_period := toU64 period },
        left := toS64 (l.left + period), ret := 1 } := by
  rw [set_period_rearm, if_pos h]

theorem set_period_rearm_neg (period : Int) (l : PeriodLocals) (h : ¬ l.left ≤ 0) :
    set_period_rearm period l = l := by
  rw [set_period_rearm, if_neg h]

/-- The two rearm steps for a positive sample period `P` and a signed
`period_left` `L`: the three cases, and `left` is positive afterwards. -/
theorem set_period_rearm_cases (hwc : hw_perf_event) (P : Nat) (L : Int)
    (hP : hwc.sample_period = P) (hL : hwc.period_left = L)
    (hP1 : 1 ≤ P) (hP2 : P < 9223372036854775808)
    (hL1 : -9223372036854775808 ≤ L) (hL2 : L < 9223372036854775808) :
    ∃ l : PeriodLocals,
      set_period_rearm (toS64 hwc.sample_period)
        (set_period_drift (toS64 hwc.sample_period)
          { hwc := hwc, left := hwc.period_left, ret := 0 }) = l ∧
      0 < l.left ∧ l.left < 9223372036854775808 ∧
      l.hwc.idx = hwc.idx ∧
      (L ≤ -(P : Int) → l.hwc.period_left = P ∧ l.hwc.last_period = P ∧ l.ret = 1 ∧ l.left = P) ∧
      (-(P : Int) < L → L ≤ 0 →
        l.hwc.period_left = L + P ∧ l.hwc.last_period = P ∧ l.ret = 1 ∧ l.left = L + P) ∧
      (0 < L → l.hwc.period_left = L ∧ l.hwc.last_period = hwc.last_period ∧ l.ret = 0 ∧
        l.left = L) := by
  have hp : toS64 (P : Int) = P := toS64_of_range _ (by omega) (by omega)
  have hnp : toS64 (-(P : Int)) = -(P : Int) := toS64_of_range _ (by omega) (by omega)
  have hup : toU64 (P : Int) = P := by
    rw [toU64_of_nonneg _ (by omega) (by omega), Int.toNat_ofNat]
  rw [hP, hL, hp]
  by_cases h1 : L ≤ -(P : Int)
  · have hd : ({ hwc := hwc, left := L, ret := 0 } : PeriodLocals).left ≤ toS64 (-(P : Int)) := by
      rw [hnp]; exact h1
    rw [set_period_drift_pos _ _ hd, set_period_rearm_neg _ _ (by simp only []; omega), hup]
    exact ⟨_, rfl, by simp only []; omega, by simp only []; omega, rfl,
      fun _ => ⟨rfl, rfl, rfl, rfl⟩, fun h => absurd h1 (by omega), fun h => absurd h1 (by omega)⟩
  · have hd : ¬ ({ hwc := hwc, left := L, ret := 0 } : PeriodLocals).left ≤ toS64 (-(P : Int)) := by
      rw [hnp]; exact h1
    rw [set_period_drift_neg _ _ hd]
    by_cases h2 : L ≤ 0
    · have hs : toS64 (L + P) = L + P := toS64_of_range _ (by omega) (by omega)
      rw [set_period_rearm_pos _ _ (by simp only []; exact h2), hup]
      simp only [hs]
      exact ⟨_, rfl, by simp only []; omega, by simp only []; omega, rfl,
        fun h => absurd h h1, fun _ _ => ⟨rfl, rfl, rfl, rfl⟩, fun h => absurd h2 (by omega)⟩
    · rw [set_period_rearm_neg _ _ (by simp only []; exact h2)]
      exact ⟨_, rfl, by simp only []; omega, by simp only []; exact hL2, rfl,
        fun h => absurd h h1, fun _ h => absurd h h2, fun _ => ⟨hL, rfl, rfl, rfl⟩⟩

theorem set_period_locals_eq (hwc : hw_perf_event) (M : Nat) :
    set_period_locals hwc M =
      set_period_clamp M
        (set_period_rearm (toS64 hwc.sample_period)
          (set_period_drift (toS64 hwc.sample_period)
            { hwc := hwc, left := hwc.period_left, ret := 0 })) := by
  rw [set_period_locals]

theorem set_period_program_ret (c : Consts) (s : State) (ev : Nat) (l : PeriodLocals) :
    (set_period_program c s ev l).2 = l.ret := rfl

/-- What `riscv_iommu_pmu_set_period` leaves, in terms of the locals `l`. -/
theorem set_period_result (c : Consts) (s : State) (ev : Nat) (l : PeriodLocals)
    (hl : set_period_locals (s.event ev).hw s.pmu.mask_counter = l) :
    ((riscv_iommu_pmu_set_period c s ev).1.event ev).hw.period_left = l.hwc.period_left ∧
    ((riscv_iommu_pmu_set_period c s ev).1.event ev).hw.last_period = l.hwc.last_period ∧
    ((riscv_iommu_pmu_set_period c s ev).1.event ev).hw.prev_count = toU64 (-l.left) ∧
    ((riscv_iommu_pmu_set_period c s ev).1.event ev).hw.idx = l.hwc.idx ∧
    (riscv_iommu_pmu_set_period c s ev).2 = l.ret ∧
    (riscv_iommu_pmu_set_period c s ev).1.pmu =
      riscv_iommu_pmu_set_counter c s.pmu (toU32 l.hwc.idx)
        (toU64 (-l.left) &&& s.pmu.mask_counter) := by
  rw [riscv_iommu_pmu_set_period, hl, set_period_program_event_same]
  exact ⟨rfl, rfl, rfl, rfl, rfl, rfl⟩

theorem shiftRight_one_eq (M : Nat) : M >>> 1 = M / 2 := by
  rw [Nat.shiftRight_eq_div_pow, pow_one]

/-- The clamp on a positive `left`: the result is the smaller of `left` and
`max_period / 2`. -/
theorem set_period_clamp_left (M : Nat) (l : PeriodLocals) (h0 : 0 < l.left)
    (h1 : l.left < 9223372036854775808) (hM : M < 18446744073709551616) :
    (set_period_clamp M l).hwc = l.hwc ∧ (set_period_clamp M l).ret = l.ret ∧
    ((M / 2 : Nat) < l.left → (set_period_clamp M l).left = (M / 2 : Nat)) ∧
    (l.left ≤ (M / 2 : Nat) → (set_period_clamp M l).left = l.left) := by
  have hu : toU64 l.left = l.left.toNat := toU64_of_nonneg _ (by omega) (by omega)
  have hs : toS64 ((M / 2 : Nat) : Int) = (M / 2 : Nat) :=
    toS64_of_range _ (by omega) (by omega)
  rw [set_period_clamp, hu, shiftRight_one_eq, hs]
  split_ifs with hc
  · exact ⟨rfl, rfl, fun _ => rfl, fun h => absurd hc (by omega)⟩
  · exact ⟨rfl, rfl, fun h => absurd hc (by omega), fun _ => rfl⟩

/-- C8: for a positive sample period `P` and a signed `period_left` `L`,
`set_period` is the three-way case split: for `L ≤ -P` the stored
`period_left` becomes `P`, `last_period` becomes `P` and 1 is returned; else
for `L ≤ 0` the stored `period_left` becomes `L + P`, `last_period` becomes `P`
and 1 is returned; otherwise both are unchanged and 0 is returned. -/
theorem set_period_three_cases (c : Consts) (s : State) (ev P : Nat) (L : Int)
    (hP : (s.event ev).hw.sample_period = P) (hL : (s.event ev).hw.period_left = L)
    (hP1 : 1 ≤ P) (hP2 : P < 9223372036854775808)
    (hL1 : -9223372036854775808 ≤ L) (hL2 : L < 9223372036854775808) :
    (L ≤ -(P : Int) →
      ((riscv_iommu_pmu_set_period c s ev).1.event ev).hw.period_left = P ∧
      ((riscv_iommu_pmu_set_period c s ev).1.event ev).hw.last_period = P ∧
      (riscv_iommu_pmu_set_period c s ev).2 = 1) ∧
    (-(P : Int) < L → L ≤ 0 →
      ((riscv_iommu_pmu_set_period c s ev).1.event ev).hw.period_left = L + P ∧
      ((riscv_iommu_pmu_set_period c s ev).1.event ev).hw.last_period = P ∧
      (riscv_iommu_pmu_set_period c s ev).2 = 1) ∧
    (0 < L →
      ((riscv_iommu_pmu_set_period c s ev).1.event ev).hw.period_left = L ∧
      ((riscv_iommu_pmu_set_period c s ev).1.event ev).hw.last_period
        = (s.event ev).hw.last_period ∧
      (riscv_iommu_pmu_set_period c s ev).2 = 0) := by
  obtain ⟨l, hl, -, -, -, c1, c2, c3⟩ :=
    set_period_rearm_cases (s.event ev).hw P L hP hL hP1 hP2 hL1 hL2
  obtain ⟨k1, k2⟩ := set_period_clamp_hwc s.pmu.mask_counter l
  have hloc : set_period_locals (s.event ev).hw s.pmu.mask_counter
      = set_period_clamp s.pmu.mask_counter l := by
    rw [set_period_locals_eq, hl]
  obtain ⟨r1, r2, -, -, r5, -⟩ := set_period_result c s ev _ hloc
  rw [r1, r2, r5, k1, k2]
  exact ⟨fun h => ⟨(c1 h).1, (c1 h).2.1, (c1 h).2.2.1⟩,
    fun h h' => ⟨(c2 h h').1, (c2 h h').2.1, (c2 h h').2.2.1⟩,
    fun h => ⟨(c3 h).1, (c3 h).2.1, (c3 h).2.2.1⟩⟩

/-- Witness for C8: the sample request, with `P = 1000` and `L = 1000`; the
third case applies. -/
theorem set_period_three_cases_witness :
    ((sampleState.event 1).hw.sample_period = 1000 ∧
      (sampleState.event 1).hw.period_left = 1000 ∧ 1 ≤ 1000 ∧
      1000 < 9223372036854775808 ∧ (-9223372036854775808 : Int) ≤ 1000 ∧
      (1000 : Int) < 9223372036854775808 ∧ (0 : Int) < 1000) ∧
    (((riscv_iommu_pmu_set_period sampleConsts sampleState 1).1.event 1).hw.period_left = 1000 ∧
      ((riscv_iommu_pmu_set_period sampleConsts sampleState 1).1.event 1).hw.last_period
        = (sampleState.event 1).hw.last_period ∧
      (riscv_iommu_pmu_set_period sampleConsts sampleState 1).2 = 0) :=
  ⟨⟨by decide, by decide, by decide, by decide, by decide, by decide, by decide⟩,
    (set_period_three_cases sampleConsts sampleState 1 1000 1000
      (by decide) (by decide) (by decide) (by decide) (by decide) (by decide)).2.2
      (by decide)⟩

theorem readq_writeq_same (r : Regs) (x a : Nat) :
    readq (writeq r x a) a = x % 18446744073709551616 := by
  simp only [readq, writeq, Function.update_same, Nat.mod_mod]

/-- A value below the counter field, written to the counter of a slot that
passes the range check, is what the register holds and what
`riscv_iommu_pmu_get_counter` reads back. -/
theorem set_counter_readback (c : Consts) (pmu : riscv_iommu_pmu) (idx v j : Nat)
    (hctr : c.RISCV_IOMMU_IOHPMCTR_COUNTER = 2 ^ j - 1) (hj1 : 1 ≤ j) (hj : j ≤ 64)
    (hidx : idx ≤ pmu.num_counters) (hv : v < 2 ^ j) :
    readq (riscv_iommu_pmu_set_counter c pmu idx v).reg (counter_addr c idx) = v ∧
    riscv_iommu_pmu_get_counter c (riscv_iommu_pmu_set_counter c pmu idx v) idx = v := by
  have hle : 2 ^ j ≤ 2 ^ 64 := Nat.pow_le_pow_right (by norm_num) hj
  have h64 : (18446744073709551616 : Nat) = 2 ^ 64 := rfl
  have hguard : ¬ idx > pmu.num_counters := by omega
  have hpmu : riscv_iommu_pmu_set_counter c pmu idx v =
      { pmu with reg := (writeq pmu.reg (FIELD_PREP c.RISCV_IOMMU_IOHPMCTR_COUNTER v)
          (counter_addr c idx)) } := by
    rw [riscv_iommu_pmu_set_counter, if_neg hguard]
  have hread : readq (riscv_iommu_pmu_set_counter c pmu idx v).reg (counter_addr c idx) = v := by
    rw [hpmu]
    simp only []
    rw [readq_writeq_same, hctr, FIELD_PREP_low j v hj1 hj, Nat.mod_eq_of_lt hv,
      Nat.mod_eq_of_lt (by omega)]
  refine ⟨hread, ?_⟩
  rw [riscv_iommu_pmu_get_counter, (frame_set_counter c pmu idx v).2.2.1, if_neg hguard, hread,
    hctr, FIELD_GET_low j v hj1, Nat.mod_eq_of_lt hv]

/-- The value loaded for a remaining count `f` in `[1, 2 ^ k)`:
`(-f) & (2 ^ k - 1) = 2 ^ k - f`. -/
theorem neg_and_mask (k : Nat) (f : Int) (hk : k ≤ 64) (hf1 : 1 ≤ f) (hf2 : f < 2 ^ k) :
    toU64 (-f) &&& (2 ^ k - 1) = 2 ^ k - f.toNat := by
  have hP64 : 2 ^ k ∣ 2 ^ 64 := pow_dvd_pow 2 hk
  have hPle : 2 ^ k ≤ 2 ^ 64 := Nat.pow_le_pow_right (by norm_num) hk
  have h64 : (18446744073709551616 : Nat) = 2 ^ 64 := rfl
  have hf3 : f.toNat < 2 ^ k := by
    have : ((f.toNat : Nat) : Int) = f := Int.toNat_of_nonneg (by omega)
    have h2 : ((f.toNat : Nat) : Int) < ((2 ^ k : Nat) : Int) := by
      rw [this]; exact_mod_cast hf2
    exact_mod_cast h2
  have hf4 : 1 ≤ f.toNat := by omega
  have hu : toU64 (-f) = 18446744073709551616 - f.toNat := by
    simp only [toU64]
    omega
  rw [Nat.and_pow_two_sub_one_eq_mod, hu, h64]
  obtain ⟨q, hq⟩ := hP64
  have hq1 : 1 ≤ q := by
    rcases q with _ | q
    · simp at hq
    · omega
  obtain ⟨r, rfl⟩ : ∃ r, q = r + 1 := ⟨q - 1, by omega⟩
  have e : 2 ^ 64 - f.toNat = (2 ^ k - f.toNat) + 2 ^ k * r := by
    rw [hq, Nat.mul_succ]
    omega
  rw [e, Nat.add_mul_mod_self_left, Nat.mod_eq_of_lt (by omega)]

/-- C7: for a counter mask `M = 2 ^ k - 1` (`2 ≤ k ≤ 63`), a positive sample
period and any signed `period_left`, the value `v` that `set_period` passes to
`riscv_iommu_pmu_set_counter` satisfies `1 ≤ M + 1 - v ≤ M / 2`; for a slot
that passes the range check it is the value the counter register then holds.
The counter field of the register is `2 ^ j - 1` with `k ≤ j ≤ 64`. -/
theorem set_period_load_bound (c : Consts) (s : State) (ev k j M P : Nat) (L : Int)
    (hk2 : 2 ≤ k) (hk : k ≤ 63) (hkj : k ≤ j) (hj : j ≤ 64)
    (hctr : c.RISCV_IOMMU_IOHPMCTR_COUNTER = 2 ^ j - 1) (hM : M = 2 ^ k - 1)
    (hmask : s.pmu.mask_counter = M)
    (hP : (s.event ev).hw.sample_period = P) (hL : (s.event ev).hw.period_left = L)
    (hP1 : 1 ≤ P) (hP2 : P < 9223372036854775808)
    (hL1 : -9223372036854775808 ≤ L) (hL2 : L < 9223372036854775808) :
    ∃ v : Nat,
      (riscv_iommu_pmu_set_period c s ev).1.pmu
        = riscv_iommu_pmu_set_counter c s.pmu (toU32 (s.event ev).hw.idx) v ∧
      1 ≤ M + 1 - v ∧ M + 1 - v ≤ M / 2 ∧
      (toU32 (s.event ev).hw.idx ≤ s.pmu.num_counters →
        readq (riscv_iommu_pmu_set_period c s ev).1.pmu.reg
          (counter_addr c (toU32 (s.event ev).hw.idx)) = v) := by
  subst hM
  have hP4 : 4 ≤ 2 ^ k := by
    have := Nat.pow_le_pow_right (show 0 < 2 by norm_num) hk2
    omega
  have hPle : 2 ^ k ≤ 2 ^ 63 := Nat.pow_le_pow_right (by norm_num) hk
  have hPj : 2 ^ k ≤ 2 ^ j := Nat.pow_le_pow_right (by norm_num) hkj
  have h63 : (2 : Nat) ^ 63 = 9223372036854775808 := by norm_num
  obtain ⟨l, hl, l0, l1, lidx, -, -, -⟩ :=
    set_period_rearm_cases (s.event ev).hw P L hP hL hP1 hP2 hL1 hL2
  obtain ⟨k1, -, k3, k4⟩ := set_period_clamp_left (2 ^ k - 1) l l0 l1 (by omega)
  have hloc : set_period_locals (s.event ev).hw s.pmu.mask_counter
      = set_period_clamp (2 ^ k - 1) l := by
    rw [set_period_locals_eq, hl, hmask]
  obtain ⟨-, -, -, -, -, r6⟩ := set_period_result c s ev _ hloc
  rw [k1, lidx, hmask] at r6
  have hf : 1 ≤ (set_period_clamp (2 ^ k - 1) l).left ∧
      (set_period_clamp (2 ^ k - 1) l).left ≤ (((2 ^ k - 1) / 2 : Nat) : Int) := by
    by_cases hc : l.left ≤ (((2 ^ k - 1) / 2 : Nat) : Int)
    · rw [k4 hc]; omega
    · rw [k3 (by omega)]; omega
  generalize (set_period_clamp (2 ^ k - 1) l).left = f at r6 hf
  have hflt : f < ((2 ^ k : Nat) : Int) := by omega
  have hv := neg_and_mask k f (by omega) hf.1 (by exact_mod_cast hflt)
  rw [hv] at r6
  refine ⟨2 ^ k - f.toNat, r6, by omega, by omega, fun hidx => ?_⟩
  rw [r6]
  exact (set_counter_readback c s.pmu _ _ j hctr (by omega) hj hidx (by omega)).1

/-- Witness for C7: the sample request at slot 1 of the sample bank (mask
`2 ^ 32 - 1`, period 1000, 1000 events left). -/
theorem set_period_load_bound_witness :
    ((2 ≤ 32 ∧ 32 ≤ 63 ∧ 32 ≤ 64 ∧ 64 ≤ 64) ∧
      sampleConsts.RISCV_IOMMU_IOHPMCTR_COUNTER = 2 ^ 64 - 1 ∧ 4294967295 = 2 ^ 32 - 1 ∧
      sampleStateAB.pmu.mask_counter = 4294967295 ∧
      (sampleStateAB.event 1).hw.sample_period = 1000 ∧
      (sampleStateAB.event 1).hw.period_left = 1000 ∧ 1 ≤ 1000 ∧
      1000 < 9223372036854775808 ∧ (-9223372036854775808 : Int) ≤ 1000 ∧
      (1000 : Int) < 9223372036854775808) ∧
    ∃ v : Nat,
      (riscv_iommu_pmu_set_period sampleConsts sampleStateAB 1).1.pmu
        = riscv_iommu_pmu_set_counter sampleConsts sampleStateAB.pmu
            (toU32 (sampleStateAB.event 1).hw.idx) v ∧
      1 ≤ 4294967295 + 1 - v ∧ 4294967295 + 1 - v ≤ 4294967295 / 2 ∧
      (toU32 (sampleStateAB.event 1).hw.idx ≤ sampleStateAB.pmu.num_counters →
        readq (riscv_iommu_pmu_set_period sampleConsts sampleStateAB 1).1.pmu.reg
          (counter_addr sampleConsts (toU32 (sampleStateAB.event 1).hw.idx)) = v) :=
  ⟨⟨by decide, by decide, by decide, by decide, by decide, by decide, by decide, by decide,
      by decide, by decide⟩,
    set_period_load_bound sampleConsts sampleStateAB 1 32 64 4294967295 1000 1000
      (by decide) (by decide) (by decide) (by decide) (by decide) (by decide) (by decide)
      (by decide) (by decide) (by decide) (by decide) (by decide) (by decide)⟩

theorem toU64_lt (x : Int) : toU64 x < 18446744073709551616 := by
  simp only [toU64]
  omega

/-- A counter value that is the snapshot reduced modulo `2 ^ k` gives a
masked difference of zero. -/
theorem masked_delta_zero (k j X : Nat) (hk : k ≤ 64) (hkj : k ≤ j) (hj1 : 1 ≤ j)
    (hX : X < 18446744073709551616) :
    FIELD_GET (2 ^ j - 1) (toU64 (((X % 2 ^ k : Nat) : Int) - X)) &&& (2 ^ k - 1) = 0 := by
  have hP64 : 2 ^ k ∣ 2 ^ 64 := pow_dvd_pow 2 hk
  have h64 : (18446744073709551616 : Nat) = 2 ^ 64 := rfl
  rw [FIELD_GET_low j _ hj1, Nat.and_pow_two_sub_one_eq_mod,
    Nat.mod_mod_of_dvd _ (pow_dvd_pow 2 hkj), toU64_sub_cast _ X (by omega), h64,
    Nat.mod_mod_of_dvd _ hP64]
  obtain ⟨q, hq⟩ := hP64
  have hdm := Nat.div_add_mod X (2 ^ k)
  have hle : 2 ^ k * (X / 2 ^ k) ≤ 2 ^ k * q := by
    rw [← hq]
    omega
  have e : X % 2 ^ k + 2 ^ 64 - X = 2 ^ k * (q - X / 2 ^ k) := by
    rw [Nat.mul_sub, ← hq]
    omega
  rw [e, Nat.mul_mod_right]

/-- C9: for a request at a slot of `[0, num_counters)` and a counter mask
`M = 2 ^ k - 1`, after `set_period` the counter of the slot reads back as
`(-left) & M`, `left` being the local after the clamp, the recorded snapshot
is the 64-bit two's complement of `left`, the two agree modulo `M + 1`, and an
`update` on that state computes a delta of zero.  The counter field of the
register is `2 ^ j - 1` with `k ≤ j ≤ 64`. -/
theorem set_period_snapshot_agrees (c : Consts) (s : State) (ev k j M : Nat)
    (hkj : k ≤ j) (hj1 : 1 ≤ j) (hj : j ≤ 64)
    (hctr : c.RISCV_IOMMU_IOHPMCTR_COUNTER = 2 ^ j - 1) (hM : M = 2 ^ k - 1)
    (hmask : s.pmu.mask_counter = M)
    (hidx0 : 0 ≤ (s.event ev).hw.idx) (hidx : (s.event ev).hw.idx < s.pmu.num_counters)
    (hn : s.pmu.num_counters < 4294967296) :
    riscv_iommu_pmu_get_counter c (riscv_iommu_pmu_set_period c s ev).1.pmu
        (toU32 (s.event ev).hw.idx)
      = toU64 (-(set_period_locals (s.event ev).hw M).left) &&& M ∧
    ((riscv_iommu_pmu_set_period c s ev).1.event ev).hw.prev_count
      = toU64 (-(set_period_locals (s.event ev).hw M).left) ∧
    ((riscv_iommu_pmu_set_period c s ev).1.event ev).hw.prev_count % (M + 1)
      = riscv_iommu_pmu_get_counter c (riscv_iommu_pmu_set_period c s ev).1.pmu
          (toU32 (s.event ev).hw.idx) % (M + 1) ∧
    update_delta c (riscv_iommu_pmu_set_period c s ev).1 ev = 0 := by
  subst hM
  have hPj : 2 ^ k ≤ 2 ^ j := Nat.pow_le_pow_right (by norm_num) hkj
  have hpos : 0 < 2 ^ k := Nat.two_pow_pos k
  have hP1 : 2 ^ k - 1 + 1 = 2 ^ k := by omega
  have hslot : toU32 (s.event ev).hw.idx ≤ s.pmu.num_counters := by
    rw [toU32_of_nonneg _ hidx0 (by omega)]
    omega
  obtain ⟨i1, -, -, -, -⟩ := set_period_locals_fields (s.event ev).hw s.pmu.mask_counter
  obtain ⟨-, -, r3, r4, -, r6⟩ := set_period_result c s ev _ rfl
  rw [i1] at r4 r6
  rw [hmask] at r3 r6
  generalize (set_period_locals (s.event ev).hw (2 ^ k - 1)).left = left at r3 r6 ⊢
  have hXlt := toU64_lt (-left)
  generalize toU64 (-left) = X at r3 r6 hXlt ⊢
  rw [Nat.and_pow_two_sub_one_eq_mod] at r6 ⊢
  have hvlt : X % 2 ^ k < 2 ^ j := lt_of_lt_of_le (Nat.mod_lt _ hpos) hPj
  obtain ⟨-, hget⟩ := set_counter_readback c s.pmu (toU32 (s.event ev).hw.idx) (X % 2 ^ k) j
    hctr hj1 hj hslot hvlt
  have hmask' := (frame_set_counter c s.pmu (toU32 (s.event ev).hw.idx) (X % 2 ^ k)).2.2.2
  rw [← r6] at hget hmask'
  generalize (riscv_iommu_pmu_set_period c s ev).1 = s' at r3 r4 hget hmask' ⊢
  refine ⟨hget, r3, ?_, ?_⟩
  · rw [hget, r3, hP1, Nat.mod_mod]
  · rw [update_delta, r4, hget, r3, hctr, hmask', hmask]
    exact masked_delta_zero k j X (by omega) hkj hj1 hXlt

/-- Witness for C9: the sample request at slot 1 of the sample bank. -/
theorem set_period_snapshot_agrees_witness :
    (32 ≤ 64 ∧ 1 ≤ 64 ∧ 64 ≤ 64 ∧
      sampleConsts.RISCV_IOMMU_IOHPMCTR_COUNTER = 2 ^ 64 - 1 ∧ 4294967295 = 2 ^ 32 - 1 ∧
      sampleStateAB.pmu.mask_counter = 4294967295 ∧ 0 ≤ (sampleStateAB.event 1).hw.idx ∧
      (sampleStateAB.event 1).hw.idx < sampleStateAB.pmu.num_counters ∧
      sampleStateAB.pmu.num_counters < 4294967296) ∧
    (riscv_iommu_pmu_get_counter sampleConsts
        (riscv_iommu_pmu_set_period sampleConsts sampleStateAB 1).1.pmu
        (toU32 (sampleStateAB.event 1).hw.idx)
      = toU64 (-(set_period_locals (sampleStateAB.event 1).hw 4294967295).left)
          &&& 4294967295 ∧
    ((riscv_iommu_pmu_set_period sampleConsts sampleStateAB 1).1.event 1).hw.prev_count
      = toU64 (-(set_period_locals (sampleStateAB.event 1).hw 4294967295).left) ∧
    ((riscv_iommu_pmu_set_period sampleConsts sampleStateAB 1).1.event 1).hw.prev_count
        % (4294967295 + 1)
      = riscv_iommu_pmu_get_counter sampleConsts
          (riscv_iommu_pmu_set_period sampleConsts sampleStateAB 1).1.pmu
          (toU32 (sampleStateAB.event 1).hw.idx) % (4294967295 + 1) ∧
    update_delta sampleConsts (riscv_iommu_pmu_set_period sampleConsts sampleStateAB 1).1 1
      = 0) :=
  ⟨⟨by decide, by decide, by decide, by decide, by decide, by decide, by decide, by decide,
      by decide⟩,
    set_period_snapshot_agrees sampleConsts sampleStateAB 1 32 64 4294967295
      (by decide) (by decide) (by decide) (by decide) (by decide) (by decide) (by decide)
      (by decide) (by decide)⟩

theorem toS64_idem (x : Int) : toS64 (toS64 x) = toS64 x := by
  simp only [toS64]
  omega

theorem toU64_zero : toU64 0 = 0 := by
  simp only [toU64]
  omega

theorem FIELD_GET_zero (mask : Nat) : FIELD_GET mask 0 = 0 := by
  rw [FIELD_GET, Nat.zero_and, Nat.zero_shiftRight]

theorem stop_mark_event_same (c : Consts) (s : State) (ev : Nat) :
    (stop_mark c s ev).event ev =
      { s.event ev with hw := { (s.event ev).hw with
          state := (s.event ev).hw.state
            ||| (c.PERF_HES_STOPPED ||| c.PERF_HES_UPTODATE) } } :=
  Function.update_same _ _ _

theorem stop_mark_pmu (c : Consts) (s : State) (ev : Nat) : (stop_mark c s ev).pmu = s.pmu := rfl

/-- After an `update` the snapshot is the counter reading, so a further
`update` on unchanged registers computes a delta of zero; the same holds
after `stop_mark`. -/
theorem update_delta_after_update (c : Consts) (s : State) (ev : Nat) :
    update_delta c (stop_mark c (riscv_iommu_pmu_update c s ev) ev) ev = 0 := by
  rw [update_delta, stop_mark_event_same, stop_mark_pmu, update_pmu, update_event_same]
  simp only [sub_self]
  rw [toU64_zero, FIELD_GET_zero, Nat.zero_and]

/-- C10: for a running request (neither `PERF_HES_STOPPED` nor
`PERF_HES_UPTODATE` set), after `stop` with `PERF_EF_UPDATE` a `read` on the
unchanged registers computes a delta of zero and leaves the accumulated total
and `period_left` as `stop` left them. -/
theorem read_after_stop_adds_nothing (c : Consts) (s : State) (ev flags : Nat)
    (hrun : (s.event ev).hw.state &&& c.PERF_HES_STOPPED = 0)
    (hutd : (s.event ev).hw.state &&& c.PERF_HES_UPTODATE = 0)
    (hflag : flags &&& c.PERF_EF_UPDATE ≠ 0) :
    update_delta c (riscv_iommu_pmu_stop c s ev flags) ev = 0 ∧
    ((riscv_iommu_pmu_read c (riscv_iommu_pmu_stop c s ev flags) ev).event ev).count
      = ((riscv_iommu_pmu_stop c s ev flags).event ev).count ∧
    ((riscv_iommu_pmu_read c (riscv_iommu_pmu_stop c s ev flags) ev).event ev).hw.period_left
      = ((riscv_iommu_pmu_stop c s ev flags).event ev).hw.period_left := by
  have hd := update_delta_after_update c (stop_quiesce c s ev) ev
  have hcount : ((stop_mark c (riscv_iommu_pmu_update c (stop_quiesce c s ev) ev) ev).event ev).count
      % 18446744073709551616
      = ((stop_mark c (riscv_iommu_pmu_update c (stop_quiesce c s ev) ev) ev).event ev).count := by
    rw [stop_mark_event_same, update_event_same]
    exact Nat.mod_mod _ _
  have hleft : toS64
      ((stop_mark c (riscv_iommu_pmu_update c (stop_quiesce c s ev) ev) ev).event ev).hw.period_left
      = ((stop_mark c (riscv_iommu_pmu_update c (stop_quiesce c s ev) ev) ev).event ev).hw.period_left := by
    rw [stop_mark_event_same, update_event_same]
    exact toS64_idem _
  rw [stop_eq_update c s ev flags hrun hflag hutd]
  generalize stop_mark c (riscv_iommu_pmu_update c (stop_quiesce c s ev) ev) ev = s1
    at hd hcount hleft ⊢
  refine ⟨hd, ?_, ?_⟩
  · rw [riscv_iommu_pmu_read, update_event_same, hd]
    exact hcount
  · rw [riscv_iommu_pmu_read, update_event_same, hd]
    simp only [Nat.cast_zero, sub_zero]
    exact hleft

/-- Witness for C10: request 1 of the sample bank, added with the start flag
and so running at slot 1, is stopped with `PERF_EF_UPDATE`. -/
theorem read_after_stop_adds_nothing_witness :
    ((sampleStateRun.event 1).hw.state &&& sampleConsts.PERF_HES_STOPPED = 0 ∧
      (sampleStateRun.event 1).hw.state &&& sampleConsts.PERF_HES_UPTODATE = 0 ∧
      sampleConsts.PERF_EF_UPDATE &&& sampleConsts.PERF_EF_UPDATE ≠ 0) ∧
    (update_delta sampleConsts
        (riscv_iommu_pmu_stop sampleConsts sampleStateRun 1 sampleConsts.PERF_EF_UPDATE) 1 = 0 ∧
    ((riscv_iommu_pmu_read sampleConsts
        (riscv_iommu_pmu_stop sampleConsts sampleStateRun 1 sampleConsts.PERF_EF_UPDATE)
        1).event 1).count
      = ((riscv_iommu_pmu_stop sampleConsts sampleStateRun 1
          sampleConsts.PERF_EF_UPDATE).event 1).count ∧
    ((riscv_iommu_pmu_read sampleConsts
        (riscv_iommu_pmu_stop sampleConsts sampleStateRun 1 sampleConsts.PERF_EF_UPDATE)
        1).event 1).hw.period_left
      = ((riscv_iommu_pmu_stop sampleConsts sampleStateRun 1
          sampleConsts.PERF_EF_UPDATE).event 1).hw.period_left) :=
  ⟨⟨by with_unfolding_all decide, by with_unfolding_all decide, by decide⟩,
    read_after_stop_adds_nothing sampleConsts sampleStateRun 1 sampleConsts.PERF_EF_UPDATE
      (by with_unfolding_all decide) (by with_unfolding_all decide) (by decide)⟩

/-! ## The register access layer -/

/-- C15, evaluated on the code: the range check of the accessors is
`idx > num_counters`, so the index `idx = num_counters` passes it.  On the
sample bank of 8 slots `set_counter(8, 5)` and `set_event(8, 5)` each change a
register; on a bank of 32 slots with the sample layout `set_counter(32, 5)`
writes the word at offset `0x160`, which is the event selector of slot 1.
Indices above `num_counters` do leave the bank as it is. -/
theorem set_counter_at_num_counters_writes :
    (riscv_iommu_pmu_set_counter sampleConsts sampleState.pmu 8 5).reg.q 0xA0 = 5 ∧
    sampleState.pmu.reg.q 0xA0 = 0 ∧
    (riscv_iommu_pmu_set_event sampleConsts sampleState.pmu 8 5).reg.q 0x198 = 5 ∧
    sampleState.pmu.reg.q 0x198 = 0 ∧
    riscv_iommu_pmu_get_event sampleConsts sampleState32.pmu 1 = 0 ∧
    riscv_iommu_pmu_get_event sampleConsts
      (riscv_iommu_pmu_set_counter sampleConsts sampleState32.pmu 32 5) 1 = 5 ∧
    (∀ (c : Consts) (pmu : riscv_iommu_pmu) (idx v : Nat), pmu.num_counters < idx →
      riscv_iommu_pmu_set_counter c pmu idx v = pmu ∧
      riscv_iommu_pmu_set_event c pmu idx v = pmu) := by
  refine ⟨by with_unfolding_all decide, by decide, by with_unfolding_all decide, by decide,
    by with_unfolding_all decide, by with_unfolding_all decide, fun c pmu idx v h => ?_⟩
  rw [riscv_iommu_pmu_set_counter, riscv_iommu_pmu_set_event, if_pos h, if_pos h]
  exact ⟨rfl, rfl⟩

theorem event_addr_eq (c : Consts) (i : Nat) (h1 : 1 ≤ i) (h2 : i ≤ 536870912) :
    event_addr c i = c.RISCV_IOMMU_REG_IOHPMEVT_BASE + 8 * (i - 1) := by
  have h : toU32 ((i : Int) - 1) = i - 1 := by
    simp only [toU32]
    omega
  rw [event_addr, h]
  omega

theorem counter_addr_eq (c : Consts) (i : Nat) (h2 : i < 536870912) :
    counter_addr c i = c.RISCV_IOMMU_REG_IOHPMCYCLES + 8 * i := by
  rw [counter_addr]
  omega

/-- C16: `get_event(0)` returns 0 and `set_event(0, v)` leaves the bank as it
is; for a slot `i` of `[1, num_counters)` the selector is the word at
`RISCV_IOMMU_REG_IOHPMEVT_BASE + 8 * (i - 1)`, the `(i - 1)`-th entry of the
selector array, and `set_event(i, v)` followed by `get_event(i)` returns the
`u64` `v`. -/
theorem event_selector_access (c : Consts) (pmu : riscv_iommu_pmu) (i v : Nat)
    (hi1 : 1 ≤ i) (hin : i < pmu.num_counters) (hn : pmu.num_counters ≤ 536870912)
    (hv : v < 18446744073709551616) :
    riscv_iommu_pmu_get_event c pmu 0 = 0 ∧ riscv_iommu_pmu_set_event c pmu 0 v = pmu ∧
    riscv_iommu_pmu_get_event c pmu i
      = readq pmu.reg (c.RISCV_IOMMU_REG_IOHPMEVT_BASE + 8 * (i - 1)) ∧
    (riscv_iommu_pmu_set_event c pmu i v).reg
      = writeq pmu.reg v (c.RISCV_IOMMU_REG_IOHPMEVT_BASE + 8 * (i - 1)) ∧
    riscv_iommu_pmu_get_event c (riscv_iommu_pmu_set_event c pmu i v) i = v := by
  have hg : ¬ i > pmu.num_counters := by omega
  have h0 : ¬ (0 > pmu.num_counters) := by omega
  have hi0 : ¬ i = 0 := by omega
  have ha := event_addr_eq c i hi1 (by omega)
  have hset : riscv_iommu_pmu_set_event c pmu i v
      = { pmu with reg := (writeq pmu.reg v (event_addr c i)) } := by
    rw [riscv_iommu_pmu_set_event, if_neg hg, if_neg hi0]
  refine ⟨?_, ?_, ?_, ?_, ?_⟩
  · rw [riscv_iommu_pmu_get_event, if_neg h0, if_pos rfl]
  · rw [riscv_iommu_pmu_set_event, if_neg h0, if_pos rfl]
  · rw [riscv_iommu_pmu_get_event, if_neg hg, if_neg hi0, ha]
  · rw [hset, ha]
  · rw [riscv_iommu_pmu_get_event, (frame_set_event c pmu i v).2.2.1, if_neg hg, if_neg hi0,
      hset]
    simp only []
    rw [readq_writeq_same, Nat.mod_eq_of_lt hv]

/-- Witness for C16: slot 3 of the sample bank of 8 slots. -/
theorem event_selector_access_witness :
    (1 ≤ 3 ∧ 3 < sampleState.pmu.num_counters ∧ sampleState.pmu.num_counters ≤ 536870912 ∧
      77 < 18446744073709551616) ∧
    (riscv_iommu_pmu_get_event sampleConsts sampleState.pmu 0 = 0 ∧
    riscv_iommu_pmu_set_event sampleConsts sampleState.pmu 0 77 = sampleState.pmu ∧
    riscv_iommu_pmu_get_event sampleConsts sampleState.pmu 3
      = readq sampleState.pmu.reg (sampleConsts.RISCV_IOMMU_REG_IOHPMEVT_BASE + 8 * (3 - 1)) ∧
    (riscv_iommu_pmu_set_event sampleConsts sampleState.pmu 3 77).reg
      = writeq sampleState.pmu.reg 77 (sampleConsts.RISCV_IOMMU_REG_IOHPMEVT_BASE + 8 * (3 - 1)) ∧
    riscv_iommu_pmu_get_event sampleConsts
      (riscv_iommu_pmu_set_event sampleConsts sampleState.pmu 3 77) 3 = 77) :=
  ⟨⟨by decide, by decide, by decide, by decide⟩,
    event_selector_access sampleConsts sampleState.pmu 3 77 (by decide) (by decide) (by decide)
      (by decide)⟩

theorem testBit_u64_not_BIT (idx j : Nat) (hidx : idx < 64) :
    (u64_not (BIT idx)).testBit j = (decide (j < 64) && !decide (idx = j)) := by
  have hlt : 2 ^ idx < 2 ^ 64 := Nat.pow_lt_pow_right (by decide) hidx
  have h : u64_not (BIT idx) = 2 ^ 64 - (2 ^ idx + 1) := by
    have e : (2 : Nat) ^ 64 = 18446744073709551616 := by norm_num
    rw [e] at hlt ⊢
    simp only [u64_not, BIT]
    rw [Nat.mod_eq_of_lt hlt]
    omega
  rw [h, Nat.testBit_two_pow_sub_succ hlt, Nat.testBit_two_pow]

theorem testBit_mod32 (x j : Nat) :
    (x % 4294967296).testBit j = (decide (j < 32) && x.testBit j) :=
  Nat.testBit_mod_two_pow x 32 j

theorem readl_writel_same (r : Regs) (v a : Nat) :
    readl (writel r v a) a = v % 4294967296 := by
  simp [readl, writel]

theorem testBit_readl (r : Regs) (a j : Nat) :
    (readl r a).testBit j = (decide (j < 32) && (r.l a).testBit j) := by
  rw [readl]
  exact Nat.testBit_mod_two_pow (r.l a) 32 j

theorem enable_counter_reg (c : Consts) (pmu : riscv_iommu_pmu) (idx : Nat) :
    (riscv_iommu_pmu_enable_counter c pmu idx).reg.q = pmu.reg.q ∧
    (∀ a, a ≠ c.RISCV_IOMMU_REG_IOCOUNTINH →
      (riscv_iommu_pmu_enable_counter c pmu idx).reg.l a = pmu.reg.l a) := by
  simp only [riscv_iommu_pmu_enable_counter, writel]
  refine ⟨trivial, fun a ha => ?_⟩
  simp [Function.update, ha]

theorem disable_counter_reg (c : Consts) (pmu : riscv_iommu_pmu) (idx : Nat) :
    (riscv_iommu_pmu_disable_counter c pmu idx).reg.q = pmu.reg.q ∧
    (∀ a, a ≠ c.RISCV_IOMMU_REG_IOCOUNTINH →
      (riscv_iommu_pmu_disable_counter c pmu idx).reg.l a = pmu.reg.l a) := by
  simp only [riscv_iommu_pmu_disable_counter, writel]
  refine ⟨trivial, fun a ha => ?_⟩
  simp [Function.update, ha]

theorem enable_counter_bit (c : Consts) (pmu : riscv_iommu_pmu) (idx j : Nat) (hidx : idx < 32) :
    (readl (riscv_iommu_pmu_enable_counter c pmu idx).reg c.RISCV_IOMMU_REG_IOCOUNTINH).testBit j
      = ((readl pmu.reg c.RISCV_IOMMU_REG_IOCOUNTINH).testBit j && !decide (j = idx)) := by
  simp only [riscv_iommu_pmu_enable_counter]
  rw [readl_writel_same, testBit_mod32, Nat.testBit_and,
    testBit_u64_not_BIT idx j (by omega), testBit_readl]
  generalize (pmu.reg.l c.RISCV_IOMMU_REG_IOCOUNTINH).testBit j = b
  by_cases h1 : j < 32
  · have h64 : j < 64 := by omega
    by_cases h2 : idx = j
    · subst h2
      cases b <;> simp only [h1, h64, decide_True, Bool.true_and, Bool.and_true, Bool.not_true,
        Bool.and_false, Bool.or_true, Bool.false_and, Bool.not_false, Bool.or_false,
        Bool.false_or, Bool.true_or]
    · have h3 : ¬ j = idx := fun h => h2 h.symm
      cases b <;> simp only [h1, h64, h2, h3, decide_True, decide_False, Bool.true_and,
        Bool.and_true, Bool.not_true, Bool.and_false, Bool.or_true, Bool.false_and,
        Bool.not_false, Bool.or_false, Bool.false_or, Bool.true_or]
  · have h2 : ¬ idx = j := by omega
    have h3 : ¬ j = idx := by omega
    simp only [h1, h2, h3, decide_False, Bool.false_and, Bool.and_false, Bool.or_false,
      Bool.false_or]

theorem disable_counter_bit (c : Consts) (pmu : riscv_iommu_pmu) (idx j : Nat) (hidx : idx < 32) :
    (readl (riscv_iommu_pmu_disable_counter c pmu idx).reg c.RISCV_IOMMU_REG_IOCOUNTINH).testBit j
      = ((readl pmu.reg c.RISCV_IOMMU_REG_IOCOUNTINH).testBit j || decide (j = idx)) := by
  simp only [riscv_iommu_pmu_disable_counter]
  rw [readl_writel_same, testBit_mod32, Nat.testBit_or, BIT, Nat.testBit_two_pow,
    testBit_readl]
  generalize (pmu.reg.l c.RISCV_IOMMU_REG_IOCOUNTINH).testBit j = b
  by_cases h1 : j < 32
  · have h64 : j < 64 := by omega
    by_cases h2 : idx = j
    · subst h2
      cases b <;> simp only [h1, h64, decide_True, Bool.true_and, Bool.and_true, Bool.not_true,
        Bool.and_false, Bool.or_true, Bool.false_and, Bool.not_false, Bool.or_false,
        Bool.false_or, Bool.true_or]
    · have h3 : ¬ j = idx := fun h => h2 h.symm
      cases b <;> simp only [h1, h64, h2, h3, decide_True, decide_False, Bool.true_and,
        Bool.and_true, Bool.not_true, Bool.and_false, Bool.or_true, Bool.false_and,
        Bool.not_false, Bool.or_false, Bool.false_or, Bool.true_or]
  · have h2 : ¬ idx = j := by omega
    have h3 : ¬ j = idx := by omega
    simp only [h1, h2, h3, decide_False, Bool.false_and, Bool.and_false, Bool.or_false,
      Bool.false_or]

/-- C17: for `idx` in `[0, 32)` and every content of the inhibit register,
`enable_counter(idx)` clears bit `idx` of the register and `disable_counter(idx)`
sets it; every other bit of the register, every 64-bit register, every other
32-bit register and the rest of the bank are as before. -/
theorem enable_disable_counter_bit (c : Consts) (pmu : riscv_iommu_pmu) (idx : Nat)
    (hidx : idx < 32) :
    (∀ j, (readl (riscv_iommu_pmu_enable_counter c pmu idx).reg
        c.RISCV_IOMMU_REG_IOCOUNTINH).testBit j
      = if j = idx then false else (readl pmu.reg c.RISCV_IOMMU_REG_IOCOUNTINH).testBit j) ∧
    (∀ j, (readl (riscv_iommu_pmu_disable_counter c pmu idx).reg
        c.RISCV_IOMMU_REG_IOCOUNTINH).testBit j
      = if j = idx then true else (readl pmu.reg c.RISCV_IOMMU_REG_IOCOUNTINH).testBit j) ∧
    (riscv_iommu_pmu_enable_counter c pmu idx).reg.q = pmu.reg.q ∧
    (riscv_iommu_pmu_disable_counter c pmu idx).reg.q = pmu.reg.q ∧
    (∀ a, a ≠ c.RISCV_IOMMU_REG_IOCOUNTINH →
      (riscv_iommu_pmu_enable_counter c pmu idx).reg.l a = pmu.reg.l a ∧
      (riscv_iommu_pmu_disable_counter c pmu idx).reg.l a = pmu.reg.l a) ∧
    (riscv_iommu_pmu_enable_counter c pmu idx).events = pmu.events ∧
    (riscv_iommu_pmu_enable_counter c pmu idx).used_counters = pmu.used_counters ∧
    (riscv_iommu_pmu_disable_counter c pmu idx).events = pmu.events ∧
    (riscv_iommu_pmu_disable_counter c pmu idx).used_counters = pmu.used_counters := by
  refine ⟨fun j => ?_, fun j => ?_, (enable_counter_reg c pmu idx).1,
    (disable_counter_reg c pmu idx).1,
    fun a ha => ⟨(enable_counter_reg c pmu idx).2 a ha, (disable_counter_reg c pmu idx).2 a ha⟩,
    rfl, rfl, rfl, rfl⟩
  · rw [enable_counter_bit c pmu idx j hidx]
    by_cases h : j = idx <;> simp [h]
  · rw [disable_counter_bit c pmu idx j hidx]
    by_cases h : j = idx <;> simp [h]

/-- Witness for C17: slot 3 of the sample bank. -/
theorem enable_disable_counter_bit_witness :
    3 < 32 ∧
    (readl (riscv_iommu_pmu_enable_counter sampleConsts sampleState.pmu 3).reg
        sampleConsts.RISCV_IOMMU_REG_IOCOUNTINH).testBit 3 = false ∧
    (readl (riscv_iommu_pmu_disable_counter sampleConsts sampleState.pmu 3).reg
        sampleConsts.RISCV_IOMMU_REG_IOCOUNTINH).testBit 3 = true ∧
    (readl (riscv_iommu_pmu_disable_counter sampleConsts sampleState.pmu 3).reg
        sampleConsts.RISCV_IOMMU_REG_IOCOUNTINH).testBit 2
      = (readl sampleState.pmu.reg sampleConsts.RISCV_IOMMU_REG_IOCOUNTINH).testBit 2 :=
  ⟨by decide,
    (enable_disable_counter_bit sampleConsts sampleState.pmu 3 (by decide)).1 3,
    (enable_disable_counter_bit sampleConsts sampleState.pmu 3 (by decide)).2.1 3,
    (enable_disable_counter_bit sampleConsts sampleState.pmu 3 (by decide)).2.1 2⟩

/-! ## Request initialisation and the lifecycle no-ops -/

theorem event_init_base_fields (s : State) (event : Nat) :
    ((event_init_base s event).event event).hw.idx = -1 ∧
    ((event_init_base s event).event event).hw.config = (s.event event).attr_config ∧
    ((event_init_base s event).event event).hw.sample_period = (s.event event).hw.sample_period ∧
    ((event_init_base s event).event event).hw.last_period = (s.event event).hw.last_period ∧
    ((event_init_base s event).event event).hw.period_left = (s.event event).hw.period_left ∧
    ((event_init_base s event).event event).hw.state = (s.event event).hw.state ∧
    ((event_init_base s event).event event).count = (s.event event).count ∧
    ((event_init_base s event).event event).attr_config = (s.event event).attr_config ∧
    ((event_init_base s event).event event).attr_sample_period
      = (s.event event).attr_sample_period ∧
    (event_init_base s event).pmu = s.pmu ∧
    (∀ e, e ≠ event → (event_init_base s event).event e = s.event e) := by
  simp only [event_init_base, Function.update_same, true_and]
  intro e he
  simp [Function.update, he]

theorem event_init_period_fields (s : State) (event : Nat) :
    ((event_init_period s event).event event).hw.idx = (s.event event).hw.idx ∧
    ((event_init_period s event).event event).hw.config = (s.event event).hw.config ∧
    ((event_init_period s event).event event).hw.sample_period = s.pmu.mask_counter >>> 1 ∧
    ((event_init_period s event).event event).hw.last_period = s.pmu.mask_counter >>> 1 ∧
    ((event_init_period s event).event event).hw.period_left
      = toS64 (s.pmu.mask_counter >>> 1) ∧
    ((event_init_period s event).event event).hw.state = (s.event event).hw.state ∧
    ((event_init_period s event).event event).count = (s.event event).count ∧
    (event_init_period s event).pmu = s.pmu ∧
    (∀ e, e ≠ event → (event_init_period s event).event e = s.event e) := by
  simp only [event_init_period, Function.update_same, true_and]
  intro e he
  simp [Function.update, he]

/-- C18: `event_init` returns 0, sets the slot of the request to -1 and its
`config` to the descriptor `attr.config`.  For a non-sampling request
(`attr.sample_period = 0`) it sets `sample_period`, `last_period` and
`period_left` to `mask_counter >> 1`, which is `mask_counter / 2`; for a
sampling request it leaves `sample_period`, `last_period` and `period_left`
as they are.  The bank and every other request are unchanged. -/
theorem event_init_spec (s : State) (event : Nat)
    (hM : s.pmu.mask_counter < 18446744073709551616) :
    (riscv_iommu_pmu_event_init s event).2 = 0 ∧
    (((riscv_iommu_pmu_event_init s event).1.event event).hw.idx = -1) ∧
    (((riscv_iommu_pmu_event_init s event).1.event event).hw.config
      = (s.event event).attr_config) ∧
    ((s.event event).attr_sample_period = 0 →
      ((riscv_iommu_pmu_event_init s event).1.event event).hw.sample_period
        = s.pmu.mask_counter / 2 ∧
      ((riscv_iommu_pmu_event_init s event).1.event event).hw.last_period
        = s.pmu.mask_counter / 2 ∧
      ((riscv_iommu_pmu_event_init s event).1.event event).hw.period_left
        = ((s.pmu.mask_counter / 2 : Nat) : Int) ∧
      s.pmu.mask_counter >>> 1 = s.pmu.mask_counter / 2) ∧
    ((s.event event).attr_sample_period ≠ 0 →
      ((riscv_iommu_pmu_event_init s event).1.event event).hw.sample_period
        = (s.event event).hw.sample_period ∧
      ((riscv_iommu_pmu_event_init s event).1.event event).hw.last_period
        = (s.event event).hw.last_period ∧
      ((riscv_iommu_pmu_event_init s event).1.event event).hw.period_left
        = (s.event event).hw.period_left) ∧
    (riscv_iommu_pmu_event_init s event).1.pmu = s.pmu ∧
    (∀ e, e ≠ event → (riscv_iommu_pmu_event_init s event).1.event e = s.event e) := by
  have hb := event_init_base_fields s event
  have hp := event_init_period_fields (event_init_base s event) event
  have hsh : s.pmu.mask_counter >>> 1 = s.pmu.mask_counter / 2 := shiftRight_one_eq _
  by_cases hs : (s.event event).attr_sample_period = 0
  · have h : is_sampling_event (s.event event) = false := by
      simp [is_sampling_event, hs]
    rw [riscv_iommu_pmu_event_init, if_pos h]
    simp only []
    rw [hb.2.2.2.2.2.2.2.2.2.1] at hp
    refine ⟨trivial, hp.1.trans hb.1, hp.2.1.trans hb.2.1, fun _ => ⟨hp.2.2.1.trans hsh,
      hp.2.2.2.1.trans hsh, ?_, hsh⟩, fun h' => absurd hs h', hp.2.2.2.2.2.2.2.1.trans
      hb.2.2.2.2.2.2.2.2.2.1, fun e he => (hp.2.2.2.2.2.2.2.2 e he).trans
      (hb.2.2.2.2.2.2.2.2.2.2 e he)⟩
    rw [hp.2.2.2.2.1, hsh]
    exact toS64_of_range _ (by omega) (by omega)
  · have h : ¬ is_sampling_event (s.event event) = false := by
      simp [is_sampling_event, hs]
    rw [riscv_iommu_pmu_event_init, if_neg h]
    exact ⟨rfl, hb.1, hb.2.1, fun h2 => absurd h2 hs, fun _ => ⟨hb.2.2.1, hb.2.2.2.1,
      hb.2.2.2.2.1⟩, hb.2.2.2.2.2.2.2.2.2.1, hb.2.2.2.2.2.2.2.2.2.2⟩

/-- Witness for C18: a counting request on the sample bank, whose mask is
`0xFFFFFFFF`. -/
theorem event_init_spec_witness :
    sampleStateCounting.pmu.mask_counter < 18446744073709551616 ∧
    (riscv_iommu_pmu_event_init sampleStateCounting 1).2 = 0 ∧
    (((riscv_iommu_pmu_event_init sampleStateCounting 1).1.event 1).hw.idx = -1) ∧
    ((riscv_iommu_pmu_event_init sampleStateCounting 1).1.event 1).hw.sample_period
        = sampleStateCounting.pmu.mask_counter / 2 ∧
    ((riscv_iommu_pmu_event_init sampleStateCounting 1).1.event 1).hw.period_left
        = ((sampleStateCounting.pmu.mask_counter / 2 : Nat) : Int) :=
  ⟨by decide, (event_init_spec sampleStateCounting 1 (by decide)).1,
    (event_init_spec sampleStateCounting 1 (by decide)).2.1,
    ((event_init_spec sampleStateCounting 1 (by decide)).2.2.2.1 (by decide)).1,
    ((event_init_spec sampleStateCounting 1 (by decide)).2.2.2.1 (by decide)).2.2.1⟩

theorem or_or_and_self (a s u : Nat) : (a ||| (s ||| u)) &&& s = s := by
  apply Nat.eq_of_testBit_eq
  intro i
  simp only [Nat.testBit_and, Nat.testBit_or]
  cases a.testBit i <;> cases s.testBit i <;> cases u.testBit i <;> rfl

theorem stop_state_stopped (c : Consts) (s : State) (event flags : Nat) :
    ((riscv_iommu_pmu_stop c s event flags).event event).hw.state &&& c.PERF_HES_STOPPED
      = c.PERF_HES_STOPPED ∨
    riscv_iommu_pmu_stop c s event flags = s ∧
      (s.event event).hw.state &&& c.PERF_HES_STOPPED ≠ 0 := by
  by_cases hst : (s.event event).hw.state &&& c.PERF_HES_STOPPED ≠ 0
  · exact Or.inr ⟨stop_eq_stopped c s event flags hst, hst⟩
  · left
    have hst0 : (s.event event).hw.state &&& c.PERF_HES_STOPPED = 0 := not_not.mp hst
    by_cases hu : flags &&& c.PERF_EF_UPDATE ≠ 0 ∧
        (s.event event).hw.state &&& c.PERF_HES_UPTODATE = 0
    · rw [stop_eq_update c s event flags hst0 hu.1 hu.2, stop_mark_event_same c _ event]
      exact or_or_and_self _ _ _
    · rw [stop_eq_plain c s event flags hst0 hu, stop_mark_event_same c _ event]
      exact or_or_and_self _ _ _

/-- C20: `start` on a request whose STOPPED bit is clear (a Running request)
returns the state it was given, and `stop` on a request whose STOPPED bit is
set returns the state it was given: request fields, registers, bitmap and slot
table are all unchanged.  Hence `stop` is idempotent: a second `stop` returns
the state the first one produced. -/
theorem start_running_stop_stopped_noop (c : Consts) (s : State) (event flags flags2 : Nat)
    (hS : c.PERF_HES_STOPPED ≠ 0) :
    ((s.event event).hw.state &&& c.PERF_HES_STOPPED = 0 →
      riscv_iommu_pmu_start c s event flags = some s) ∧
    ((s.event event).hw.state &&& c.PERF_HES_STOPPED ≠ 0 →
      riscv_iommu_pmu_stop c s event flags = s) ∧
    riscv_iommu_pmu_stop c (riscv_iommu_pmu_stop c s event flags) event flags2
      = riscv_iommu_pmu_stop c s event flags := by
  refine ⟨fun h => ?_, fun h => stop_eq_stopped c s event flags h, ?_⟩
  · rw [riscv_iommu_pmu_start, if_pos h]
  · rcases stop_state_stopped c s event flags with h | ⟨h1, h2⟩
    · exact stop_eq_stopped c _ event flags2 (by rw [h]; exact hS)
    · rw [h1]
      exact stop_eq_stopped c s event flags2 h2

/-- Witness for C20: the running request 1 of the sample bank is started
again, then stopped twice. -/
theorem start_running_stop_stopped_noop_witness :
    sampleConsts.PERF_HES_STOPPED ≠ 0 ∧
    (sampleStateRun.event 1).hw.state &&& sampleConsts.PERF_HES_STOPPED = 0 ∧
    riscv_iommu_pmu_start sampleConsts sampleStateRun 1 0 = some sampleStateRun ∧
    riscv_iommu_pmu_stop sampleConsts
        (riscv_iommu_pmu_stop sampleConsts sampleStateRun 1 sampleConsts.PERF_EF_UPDATE) 1 0
      = riscv_iommu_pmu_stop sampleConsts sampleStateRun 1 sampleConsts.PERF_EF_UPDATE :=
  ⟨by decide, by with_unfolding_all decide,
    (start_running_stop_stopped_noop sampleConsts sampleStateRun 1 0 0 (by decide)).1
      (by with_unfolding_all decide),
    (start_running_stop_stopped_noop sampleConsts sampleStateRun 1 sampleConsts.PERF_EF_UPDATE 0
      (by decide)).2.2⟩

/-! ## Starting a request -/

theorem set_event_eq (c : Consts) (pmu : riscv_iommu_pmu) (i v : Nat) (h1 : 1 ≤ i)
    (h2 : i ≤ pmu.num_counters) :
    riscv_iommu_pmu_set_event c pmu i v
      = { pmu with reg := (writeq pmu.reg v (event_addr c i)) } := by
  rw [riscv_iommu_pmu_set_event, if_neg (by omega), if_neg (by omega)]

theorem get_event_eq (c : Consts) (pmu : riscv_iommu_pmu) (i : Nat) (h1 : 1 ≤ i)
    (h2 : i ≤ pmu.num_counters) :
    riscv_iommu_pmu_get_event c pmu i = readq pmu.reg (event_addr c i) := by
  rw [riscv_iommu_pmu_get_event, if_neg (by omega), if_neg (by omega)]

theorem set_counter_eq (c : Consts) (pmu : riscv_iommu_pmu) (i v : Nat)
    (h2 : i ≤ pmu.num_counters) :
    riscv_iommu_pmu_set_counter c pmu i v
      = { pmu with reg := (writeq pmu.reg (FIELD_PREP c.RISCV_IOMMU_IOHPMCTR_COUNTER v)
          (counter_addr c i)) } := by
  rw [riscv_iommu_pmu_set_counter, if_neg (by omega)]

theorem get_counter_eq (c : Consts) (pmu : riscv_iommu_pmu) (i : Nat)
    (h2 : i ≤ pmu.num_counters) :
    riscv_iommu_pmu_get_counter c pmu i
      = FIELD_GET c.RISCV_IOMMU_IOHPMCTR_COUNTER (readq pmu.reg (counter_addr c i)) := by
  rw [riscv_iommu_pmu_get_counter, if_neg (by omega)]

/-- Arming the overflow interrupt of a slot `i ≥ 1` that holds a non-cycle
request: the event selector of the slot is rewritten with the overflow bit
cleared, nothing else changes. -/
theorem enable_ovf_intr_noncycle (c : Consts) (s : State) (i ev : Nat) (h1 : 1 ≤ i)
    (h2 : i ≤ s.pmu.num_counters) (hev : s.pmu.events i = some ev) (hnc : NonCycle c s ev) :
    riscv_iommu_pmu_enable_ovf_intr c s i
      = some { s with pmu := { s.pmu with reg := (writeq s.pmu.reg
          (readq s.pmu.reg (event_addr c i) &&& u64_not c.RISCV_IOMMU_IOHPMEVT_OF)
          (event_addr c i)) } } := by
  rw [riscv_iommu_pmu_enable_ovf_intr]
  simp only [hev]
  rw [if_neg hnc, get_event_eq c s.pmu i h1 h2]

/-- Disarming the overflow interrupt of a slot `i ≥ 1` that holds a non-cycle
request. -/
theorem disable_ovf_intr_noncycle (c : Consts) (s : State) (i ev : Nat) (h1 : 1 ≤ i)
    (h2 : i ≤ s.pmu.num_counters) (hev : s.pmu.events i = some ev) (hnc : NonCycle c s ev) :
    riscv_iommu_pmu_disable_ovf_intr c s i
      = some { s with pmu := { s.pmu with reg := (writeq s.pmu.reg
          (readq s.pmu.reg (event_addr c i) ||| c.RISCV_IOMMU_IOHPMEVT_OF)
          (event_addr c i)) } } := by
  rw [riscv_iommu_pmu_disable_ovf_intr]
  simp only [hev]
  rw [if_neg hnc, get_event_eq c s.pmu i h1 h2]

/-- The register part of `riscv_iommu_pmu_start` for a non-cycle request at
slot `i ≥ 1`: the 64-bit word of the selector of slot `i` and the inhibit
register are the only registers written. -/
theorem start_program_regs (c : Consts) (s : State) (ev i : Nat)
    (hidx : (s.event ev).hw.idx = (i : Int)) (h1 : 1 ≤ i) (h2 : i ≤ s.pmu.num_counters)
    (h3 : i < 4294967296) (hev : s.pmu.events i = some ev) (hnc : NonCycle c s ev) :
    ∃ s', start_program c s ev = some s' ∧ s'.event = s.event ∧
      s'.pmu.events = s.pmu.events ∧ s'.pmu.used_counters = s.pmu.used_counters ∧
      s'.pmu.num_counters = s.pmu.num_counters ∧ s'.pmu.mask_counter = s.pmu.mask_counter ∧
      s'.pmu.reg.q = Function.update s.pmu.reg.q (event_addr c i)
        (((s.event ev).hw.config % 18446744073709551616
          &&& u64_not c.RISCV_IOMMU_IOHPMEVT_OF) % 18446744073709551616) ∧
      s'.pmu.reg.l = Function.update s.pmu.reg.l c.RISCV_IOMMU_REG_IOCOUNTINH
        ((readl s.pmu.reg c.RISCV_IOMMU_REG_IOCOUNTINH &&& u64_not (BIT i)) % 4294967296) := by
  have hi32 : toU32 (s.event ev).hw.idx = i := by
    rw [hidx]
    exact toU32_natCast i h3
  rw [start_program]
  simp only [hi32]
  rw [set_event_eq c s.pmu i _ h1 h2,
    enable_ovf_intr_noncycle c { s with pmu := { s.pmu with
      reg := (writeq s.pmu.reg (s.event ev).hw.config (event_addr c i)) } } i ev h1 h2 hev hnc]
  simp only [readq_writeq_same]
  refine ⟨_, rfl, rfl, rfl, rfl, rfl, rfl, ?_, ?_⟩
  · simp only [riscv_iommu_pmu_enable_counter, writeq, writel, Function.update_idem]
  · simp only [riscv_iommu_pmu_enable_counter, writeq, writel, readl]

theorem set_period_drift_state (p : Int) (st : Nat) (l : PeriodLocals) :
    set_period_drift p { hwc := { l.hwc with state := st }, left := l.left, ret := l.ret }
      = { hwc := { (set_period_drift p l).hwc with state := st },
          left := (set_period_drift p l).left, ret := (set_period_drift p l).ret } := by
  simp only [set_period_drift]
  split_ifs <;> rfl

theorem set_period_rearm_state (p : Int) (st : Nat) (l : PeriodLocals) :
    set_period_rearm p { hwc := { l.hwc with state := st }, left := l.left, ret := l.ret }
      = { hwc := { (set_period_rearm p l).hwc with state := st },
          left := (set_period_rearm p l).left, ret := (set_period_rearm p l).ret } := by
  simp only [set_period_rearm]
  split_ifs <;> rfl

theorem set_period_clamp_state (M st : Nat) (l : PeriodLocals) :
    set_period_clamp M { hwc := { l.hwc with state := st }, left := l.left, ret := l.ret }
      = { hwc := { (set_period_clamp M l).hwc with state := st },
          left := (set_period_clamp M l).left, ret := (set_period_clamp M l).ret } := by
  simp only [set_period_clamp]
  split_ifs <;> rfl

/-- The locals of `set_period` do not depend on the `state` field of the
request. -/
theorem set_period_locals_state (hwc : hw_perf_event) (st M : Nat) :
    set_period_locals { hwc with state := st } M
      = { hwc := { (set_period_locals hwc M).hwc with state := st },
          left := (set_period_locals hwc M).left, ret := (set_period_locals hwc M).ret } := by
  have h0 : ({ hwc := { hwc with state := st }, left := hwc.period_left, ret := 0 }
      : PeriodLocals)
      = { hwc := { ({ hwc := hwc, left := hwc.period_left, ret := 0 } : PeriodLocals).hwc
            with state := st },
          left := ({ hwc := hwc, left := hwc.period_left, ret := 0 } : PeriodLocals).left,
          ret := ({ hwc := hwc, left := hwc.period_left, ret := 0 } : PeriodLocals).ret } := rfl
  rw [set_period_locals_eq, set_period_locals_eq]
  simp only []
  rw [h0, set_period_drift_state, set_period_rearm_state, set_period_clamp_state]

theorem u64_not_bit63 : u64_not 9223372036854775808 = 2 ^ 63 - 1 := by
  simp only [u64_not]
  norm_num

theorem and_not_bit63 (x : Nat) :
    (x % 18446744073709551616 &&& u64_not 9223372036854775808) % 18446744073709551616
      = x % 9223372036854775808 := by
  rw [u64_not_bit63, Nat.and_pow_two_sub_one_eq_mod,
    show (18446744073709551616 : Nat) = 2 ^ 64 from rfl,
    Nat.mod_mod_of_dvd _ (pow_dvd_pow 2 (by norm_num : 63 ≤ 64))]
  have h : x % 2 ^ 63 < 2 ^ 63 := Nat.mod_lt _ (by norm_num)
  rw [show (9223372036854775808 : Nat) = 2 ^ 63 from rfl]
  exact Nat.mod_eq_of_lt (lt_of_lt_of_le h (by norm_num))

/-- What `start` leaves for a stopped non-cycle request recorded at a slot
`i ≥ 1`, in terms of the two register maps. -/
theorem start_regs (c : Consts) (s : State) (ev i flags : Nat) (L0 : PeriodLocals)
    (hL0 : set_period_locals (s.event ev).hw s.pmu.mask_counter = L0)
    (hst : (s.event ev).hw.state &&& c.PERF_HES_STOPPED ≠ 0)
    (hidx : (s.event ev).hw.idx = (i : Int)) (h1 : 1 ≤ i) (h2 : i ≤ s.pmu.num_counters)
    (h3 : i < 4294967296) (hev : s.pmu.events i = some ev) (hnc : NonCycle c s ev) :
    ∃ s', riscv_iommu_pmu_start c s ev flags = some s' ∧
      s'.pmu.events = s.pmu.events ∧ s'.pmu.used_counters = s.pmu.used_counters ∧
      s'.pmu.num_counters = s.pmu.num_counters ∧ s'.pmu.mask_counter = s.pmu.mask_counter ∧
      (∀ h, h ≠ ev → s'.event h = s.event h) ∧
      (s'.event ev).hw.state = 0 ∧
      s'.pmu.reg.q = Function.update
        (Function.update s.pmu.reg.q (counter_addr c i)
          (FIELD_PREP c.RISCV_IOMMU_IOHPMCTR_COUNTER
            (toU64 (-L0.left) &&& s.pmu.mask_counter) % 18446744073709551616))
        (event_addr c i)
        (((s.event ev).hw.config % 18446744073709551616
          &&& u64_not c.RISCV_IOMMU_IOHPMEVT_OF) % 18446744073709551616) ∧
      s'.pmu.reg.l = Function.update s.pmu.reg.l c.RISCV_IOMMU_REG_IOCOUNTINH
        ((readl s.pmu.reg c.RISCV_IOMMU_REG_IOCOUNTINH &&& u64_not (BIT i)) % 4294967296) := by
  rw [riscv_iommu_pmu_start, if_neg hst]
  have hs1e : (start_clear_state s ev).event ev
      = { s.event ev with hw := { (s.event ev).hw with state := 0 } } :=
    Function.update_same _ _ _
  have hs1ne : ∀ h, h ≠ ev → (start_clear_state s ev).event h = s.event h :=
    fun h hh => Function.update_noteq hh _ _
  have hs1p : (start_clear_state s ev).pmu = s.pmu := rfl
  have hf1 : Frame s (start_clear_state s ev) := frame_with_state s ev 0
  have hf2 := hf1.trans (frame_set_period c (start_clear_state s ev) ev)
  have hloc : set_period_locals ((start_clear_state s ev).event ev).hw
      (start_clear_state s ev).pmu.mask_counter
      = { hwc := { L0.hwc with state := 0 }, left := L0.left, ret := L0.ret } := by
    rw [hs1e, hs1p, ← hL0]
    exact set_period_locals_state (s.event ev).hw 0 s.pmu.mask_counter
  have hlidx : L0.hwc.idx = (s.event ev).hw.idx := by
    rw [← hL0]
    exact (set_period_locals_fields (s.event ev).hw s.pmu.mask_counter).1
  have hne2 : ∀ h, h ≠ ev →
      (riscv_iommu_pmu_set_period c (start_clear_state s ev) ev).1.event h = s.event h := by
    intro h hh
    rw [riscv_iommu_pmu_set_period, set_period_program_event_ne c _ ev h _ hh]
    exact hs1ne h hh
  have hst2 : ((riscv_iommu_pmu_set_period c (start_clear_state s ev) ev).1.event ev).hw.state
      = 0 := by
    rw [riscv_iommu_pmu_set_period, set_period_program_event_same, hloc]
  have hpmu2 : (riscv_iommu_pmu_set_period c (start_clear_state s ev) ev).1.pmu
      = riscv_iommu_pmu_set_counter c s.pmu i
          (toU64 (-L0.left) &&& s.pmu.mask_counter) := by
    rw [riscv_iommu_pmu_set_period, set_period_program_pmu, hloc, hs1p]
    simp only []
    rw [hlidx, hidx, toU32_natCast i h3]
  generalize (riscv_iommu_pmu_set_period c (start_clear_state s ev) ev).1 = s2
    at hf2 hne2 hst2 hpmu2 ⊢
  have hidx2 : (s2.event ev).hw.idx = (i : Int) := by rw [(hf2.2.2.2.2 ev).1]; exact hidx
  have hnc2 : NonCycle c s2 ev := by
    rw [NonCycle, get_event_congr c (s.event ev) (s2.event ev) (hf2.2.2.2.2 ev).2.1]
    exact hnc
  have hev2 : s2.pmu.events i = some ev := by rw [hf2.1]; exact hev
  have hn2 : i ≤ s2.pmu.num_counters := by rw [hf2.2.2.1]; exact h2
  obtain ⟨s', e1, e2, e3, e4, e5, e6, e7, e8⟩ :=
    start_program_regs c s2 ev i hidx2 h1 hn2 h3 hev2 hnc2
  refine ⟨s', e1, e3.trans hf2.1, e4.trans hf2.2.1, e5.trans hf2.2.2.1,
    e6.trans hf2.2.2.2.1, fun h hh => ?_, ?_, ?_, ?_⟩
  · rw [e2]; exact hne2 h hh
  · rw [e2]; exact hst2
  · rw [e7, (hf2.2.2.2.2 ev).2.2.2.1, hpmu2, set_counter_eq c s.pmu i _ h2]
    rfl
  · rw [e8, hpmu2, set_counter_eq c s.pmu i _ h2]
    rfl

/-- C19: `start` on a stopped non-cycle request recorded at a slot `i` of
`[1, num_counters)`, for a bank of at most 32 slots whose counter array ends
before the selector array and whose selector overflow bit is bit 63.  After the
call the selector of slot `i` holds bits 0-62 of the descriptor with bit 63
clear, the counter of slot `i` holds the load value `(-left) & mask_counter` of
`set_period`, inhibit bit `i` is clear and the request state is 0 (Running).
Every other 64-bit register (so the counter and the selector of every other
slot), every other inhibit bit, every other 32-bit register, the slot table,
the bitmap and every other request are unchanged. -/
theorem start_programs_slot (c : Consts) (s : State) (ev i flags j : Nat)
    (hst : (s.event ev).hw.state &&& c.PERF_HES_STOPPED ≠ 0)
    (hidx : (s.event ev).hw.idx = (i : Int)) (h1 : 1 ≤ i) (h2 : i < s.pmu.num_counters)
    (hn : s.pmu.num_counters ≤ 32) (hev : s.pmu.events i = some ev) (hnc : NonCycle c s ev)
    (hlay : c.RISCV_IOMMU_REG_IOHPMCYCLES + 8 * s.pmu.num_counters
      ≤ c.RISCV_IOMMU_REG_IOHPMEVT_BASE)
    (hof : c.RISCV_IOMMU_IOHPMEVT_OF = 9223372036854775808)
    (hctr : c.RISCV_IOMMU_IOHPMCTR_COUNTER = 2 ^ j - 1) (hj1 : 1 ≤ j) (hj : j ≤ 64)
    (hM : s.pmu.mask_counter ≤ c.RISCV_IOMMU_IOHPMCTR_COUNTER) :
    ∃ s', riscv_iommu_pmu_start c s ev flags = some s' ∧
      readq s'.pmu.reg (c.RISCV_IOMMU_REG_IOHPMEVT_BASE + 8 * (i - 1))
        = (s.event ev).hw.config % 9223372036854775808 ∧
      readq s'.pmu.reg (c.RISCV_IOMMU_REG_IOHPMCYCLES + 8 * i)
        = toU64 (-(set_period_locals (s.event ev).hw s.pmu.mask_counter).left)
            &&& s.pmu.mask_counter ∧
      (readl s'.pmu.reg c.RISCV_IOMMU_REG_IOCOUNTINH).testBit i = false ∧
      (s'.event ev).hw.state = 0 ∧
      (∀ b, b ≠ i → (readl s'.pmu.reg c.RISCV_IOMMU_REG_IOCOUNTINH).testBit b
        = (readl s.pmu.reg c.RISCV_IOMMU_REG_IOCOUNTINH).testBit b) ∧
      (∀ a, a ≠ c.RISCV_IOMMU_REG_IOHPMCYCLES + 8 * i →
        a ≠ c.RISCV_IOMMU_REG_IOHPMEVT_BASE + 8 * (i - 1) → s'.pmu.reg.q a = s.pmu.reg.q a) ∧
      (∀ b, b < s.pmu.num_counters → b ≠ i →
        readq s'.pmu.reg (c.RISCV_IOMMU_REG_IOHPMCYCLES + 8 * b)
          = readq s.pmu.reg (c.RISCV_IOMMU_REG_IOHPMCYCLES + 8 * b) ∧
        (1 ≤ b → readq s'.pmu.reg (c.RISCV_IOMMU_REG_IOHPMEVT_BASE + 8 * (b - 1))
          = readq s.pmu.reg (c.RISCV_IOMMU_REG_IOHPMEVT_BASE + 8 * (b - 1)))) ∧
      (∀ a, a ≠ c.RISCV_IOMMU_REG_IOCOUNTINH → s'.pmu.reg.l a = s.pmu.reg.l a) ∧
      s'.pmu.events = s.pmu.events ∧ s'.pmu.used_counters = s.pmu.used_counters ∧
      (∀ h, h ≠ ev → s'.event h = s.event h) := by
  obtain ⟨L0, hL0⟩ : ∃ L0, set_period_locals (s.event ev).hw s.pmu.mask_counter = L0 :=
    ⟨_, rfl⟩
  rw [hL0]
  obtain ⟨s', e1, e2, e3, -, -, e6, e7, e8, e9⟩ :=
    start_regs c s ev i flags L0 hL0 hst hidx h1 (by omega) (by omega) hev hnc
  have hca := counter_addr_eq c i (by omega)
  have hea := event_addr_eq c i h1 (by omega)
  rw [hca, hea, hof] at e8
  have hne : c.RISCV_IOMMU_REG_IOHPMCYCLES + 8 * i
      ≠ c.RISCV_IOMMU_REG_IOHPMEVT_BASE + 8 * (i - 1) := by omega
  have hq : ∀ a, a ≠ c.RISCV_IOMMU_REG_IOHPMCYCLES + 8 * i →
      a ≠ c.RISCV_IOMMU_REG_IOHPMEVT_BASE + 8 * (i - 1) → s'.pmu.reg.q a = s.pmu.reg.q a := by
    intro a ha1 ha2
    rw [e8, Function.update_noteq ha2, Function.update_noteq ha1]
  have hbit : ∀ b, (readl s'.pmu.reg c.RISCV_IOMMU_REG_IOCOUNTINH).testBit b
      = ((readl s.pmu.reg c.RISCV_IOMMU_REG_IOCOUNTINH).testBit b && !decide (b = i)) := by
    intro b
    have h := enable_counter_bit c s.pmu i b (by omega)
    rw [riscv_iommu_pmu_enable_counter] at h
    simp only [readl_writel_same] at h
    rw [readl, e9, Function.update_same, Nat.mod_mod]
    exact h
  have hv : toU64 (-L0.left) &&& s.pmu.mask_counter < 2 ^ j := by
    have h3 : toU64 (-L0.left) &&& s.pmu.mask_counter ≤ s.pmu.mask_counter := Nat.and_le_right
    have h4 : 0 < 2 ^ j := Nat.two_pow_pos j
    omega
  have hle : 2 ^ j ≤ 2 ^ 64 := Nat.pow_le_pow_right (by norm_num) hj
  refine ⟨s', e1, ?_, ?_, ?_, e7, fun b hb => ?_, hq, fun b hb1 hb2 => ⟨?_, fun hb3 => ?_⟩,
    fun a ha => ?_, e2, e3, e6⟩
  · rw [readq, e8, Function.update_same, Nat.mod_mod, and_not_bit63]
  · rw [readq, e8, Function.update_noteq hne, Function.update_same, Nat.mod_mod, hctr,
      FIELD_PREP_low j _ hj1 hj, Nat.mod_eq_of_lt hv]
    exact Nat.mod_eq_of_lt (lt_of_lt_of_le hv hle)
  · rw [hbit i]
    simp
  · rw [hbit b]
    simp [hb]
  · rw [readq, readq, hq _ (by omega) (by omega)]
  · rw [readq, readq, hq _ (by omega) (by omega)]
  · rw [e9, Function.update_noteq ha]

/-- Witness for C19: the stopped request 2 at slot 2 of the sample bank that
holds requests 1 and 2. -/
theorem start_programs_slot_witness :
    ((sampleStateAB.event 2).hw.state &&& sampleConsts.PERF_HES_STOPPED ≠ 0 ∧
      (sampleStateAB.event 2).hw.idx = ((2 : Nat) : Int) ∧ 1 ≤ 2 ∧
      2 < sampleStateAB.pmu.num_counters ∧ sampleStateAB.pmu.num_counters ≤ 32 ∧
      sampleStateAB.pmu.events 2 = some 2 ∧ NonCycle sampleConsts sampleStateAB 2 ∧
      sampleConsts.RISCV_IOMMU_REG_IOHPMCYCLES + 8 * sampleStateAB.pmu.num_counters
        ≤ sampleConsts.RISCV_IOMMU_REG_IOHPMEVT_BASE ∧
      sampleConsts.RISCV_IOMMU_IOHPMEVT_OF = 9223372036854775808 ∧
      sampleConsts.RISCV_IOMMU_IOHPMCTR_COUNTER = 2 ^ 64 - 1 ∧
      sampleStateAB.pmu.mask_counter ≤ sampleConsts.RISCV_IOMMU_IOHPMCTR_COUNTER) ∧
    ∃ s', riscv_iommu_pmu_start sampleConsts sampleStateAB 2 0 = some s' ∧
      readq s'.pmu.reg (sampleConsts.RISCV_IOMMU_REG_IOHPMEVT_BASE + 8 * (2 - 1))
        = (sampleStateAB.event 2).hw.config % 9223372036854775808 ∧
      (readl s'.pmu.reg sampleConsts.RISCV_IOMMU_REG_IOCOUNTINH).testBit 2 = false ∧
      (s'.event 2).hw.state = 0 :=
  ⟨⟨by with_unfolding_all decide, by with_unfolding_all decide, by decide,
      by with_unfolding_all decide, by with_unfolding_all decide, by with_unfolding_all decide,
      by rw [NonCycle]; with_unfolding_all decide, by with_unfolding_all decide, by decide,
      by decide, by with_unfolding_all decide⟩,
    let ⟨s', h⟩ := start_programs_slot sampleConsts sampleStateAB 2 2 0 64
      (by with_unfolding_all decide) (by with_unfolding_all decide) (by decide)
      (by with_unfolding_all decide) (by with_unfolding_all decide)
      (by with_unfolding_all decide) (by rw [NonCycle]; with_unfolding_all decide)
      (by with_unfolding_all decide) (by decide) (by decide) (by decide) (by decide)
      (by with_unfolding_all decide)
    ⟨s', h.1, h.2.1, h.2.2.2.1, h.2.2.2.2.1⟩⟩

/-! ## The overflow handler -/

theorem mem_set_bits (bm : Nat → Bool) (size i : Nat) :
    i ∈ set_bits bm size ↔ i < size ∧ bm i = true := by
  simp [set_bits, List.mem_filter, List.mem_range]

theorem start_all_step_spec (c : Consts) (s : State) (idx ev : Nat)
    (h : s.pmu.events idx = some ev) :
    ∃ s', start_all_step c s idx = some s' ∧ Frame s s' ∧ s'.event = s.event := by
  obtain ⟨s1, h1⟩ := enable_ovf_intr_isSome c s idx ev h
  obtain ⟨f1, f2⟩ := frame_enable_ovf_intr c s s1 idx h1
  refine ⟨{ s1 with pmu := riscv_iommu_pmu_enable_counter c s1.pmu idx }, ?_, ?_, f2⟩
  · rw [start_all_step]
    simp only [h1]
  · exact f1.trans (frame_with_pmu s1 _ (frame_enable_counter c s1.pmu idx))

theorem start_all_fold (c : Consts) (is : List Nat) :
    ∀ s : State, (∀ i ∈ is, ∃ ev, s.pmu.events i = some ev) →
      ∃ s', is.foldlM (start_all_step c) s = some s' ∧ Frame s s' ∧ s'.event = s.event := by
  induction is with
  | nil => exact fun s _ => ⟨s, rfl, Frame.refl s, rfl⟩
  | cons a t ih =>
    intro s h
    obtain ⟨ev, hev⟩ := h a (List.mem_cons_self a t)
    obtain ⟨s1, h1, f1, g1⟩ := start_all_step_spec c s a ev hev
    obtain ⟨s', h2, f2, g2⟩ := ih s1 (fun i hi => by
      rw [f1.1]
      exact h i (List.mem_cons_of_mem a hi))
    refine ⟨s', ?_, f1.trans f2, g2.trans g1⟩
    rw [List.foldlM_cons, h1]
    exact h2

/-- With every occupied slot live, `start_all` runs to its end; it keeps the
slot table, the bitmap and every request. -/
theorem start_all_spec (c : Consts) (s : State) (h : OccupiedLive s) :
    ∃ s', riscv_iommu_pmu_start_all c s = some s' ∧ Frame s s' ∧ s'.event = s.event := by
  rw [riscv_iommu_pmu_start_all]
  exact start_all_fold c _ s (fun i hi => by
    rw [mem_set_bits] at hi
    exact h i hi.1 hi.2)

theorem frame_stop_all (c : Consts) (s : State) : Frame s (riscv_iommu_pmu_stop_all c s) :=
  ⟨rfl, rfl, rfl, rfl, fun _ => ⟨rfl, rfl, rfl, rfl, rfl⟩⟩

theorem frame_handle_irq_emit (c : Consts) (overflow : State → Sample → Bool)
    (samples : List Sample) (event period : Nat) (s : State) (ret : Int) :
    Frame s (handle_irq_emit c overflow samples event period s ret).st := by
  rw [handle_irq_emit]
  split_ifs
  · exact Frame.refl s
  · exact frame_stop c s event 0
  · exact Frame.refl s

theorem frame_handle_irq_step (c : Consts) (overflow : State → Sample → Bool) (l : IrqLoop)
    (idx : Nat) : Frame l.st (handle_irq_step c overflow l idx).st := by
  rw [handle_irq_step]
  split
  · exact Frame.refl _
  · split_ifs
    · exact Frame.refl _
    · rw [handle_irq_sample]
      exact ((frame_update c l.st _).trans (frame_set_period c _ _)).trans
        (frame_handle_irq_emit c overflow _ _ _ _ _)

theorem frame_handle_irq_loop (c : Consts) (overflow : State → Sample → Bool) (is : List Nat) :
    ∀ l : IrqLoop, Frame l.st (is.foldl (handle_irq_step c overflow) l).st := by
  induction is with
  | nil => exact fun l => Frame.refl _
  | cons a t ih =>
    intro l
    rw [List.foldl_cons]
    exact (frame_handle_irq_step c overflow l a).trans (ih _)

theorem occupiedLive_frame (s s' : State) (hf : Frame s s') (h : OccupiedLive s) :
    OccupiedLive s' := by
  intro i hi hu
  rw [hf.1]
  rw [hf.2.2.1] at hi
  rw [hf.2.1] at hu
  exact h i hi hu

/-- The body of the handler runs to its end on a bank whose occupied slots are
live, and keeps the slot table, the bitmap and the slots of the requests. -/
theorem handle_irq_body_spec (c : Consts) (overflow : State → Sample → Bool) (s : State)
    (ovf : Nat) (h : OccupiedLive s) :
    Frame s (handle_irq_loop c overflow s ovf).st ∧
    ∃ s', riscv_iommu_pmu_start_all c (handle_irq_loop c overflow s ovf).st = some s' ∧
      handle_irq_body c overflow s ovf
        = some { st := s', samples := (handle_irq_loop c overflow s ovf).samples } ∧
      Frame s s' ∧ s'.event = (handle_irq_loop c overflow s ovf).st.event := by
  have hf : Frame s (handle_irq_loop c overflow s ovf).st := by
    rw [handle_irq_loop]
    exact (frame_stop_all c s).trans (frame_handle_irq_loop c overflow _ _)
  obtain ⟨s', h1, h2, h3⟩ := start_all_spec c _ (occupiedLive_frame s _ hf h)
  refine ⟨hf, s', h1, ?_, hf.trans h2, h3⟩
  rw [handle_irq_body]
  simp only [h1]

/-- C12: the handler returns `IRQ_HANDLED` exactly when the overflow-status
register is non-zero at entry.  When it is zero the handler returns `IRQ_NONE`
with the state it was given (registers, inhibit register, bitmap, slot table,
requests) and no sample; when it is non-zero, on a bank whose occupied slots
are live, it runs to its end and returns `IRQ_HANDLED`. -/
theorem handle_irq_return (c : Consts) (overflow : State → Sample → Bool) (s : State)
    (h : OccupiedLive s) :
    (readl s.pmu.reg c.RISCV_IOMMU_REG_IOCOUNTOVF = 0 →
      riscv_iommu_pmu_handle_irq c overflow s
        = some ({ st := s, samples := [] }, irqreturn_t.IRQ_NONE)) ∧
    (readl s.pmu.reg c.RISCV_IOMMU_REG_IOCOUNTOVF ≠ 0 →
      ∃ l, riscv_iommu_pmu_handle_irq c overflow s = some (l, irqreturn_t.IRQ_HANDLED)) ∧
    (∃ l r, riscv_iommu_pmu_handle_irq c overflow s = some (l, r) ∧
      (r = irqreturn_t.IRQ_HANDLED ↔ readl s.pmu.reg c.RISCV_IOMMU_REG_IOCOUNTOVF ≠ 0)) := by
  have h0 : readl s.pmu.reg c.RISCV_IOMMU_REG_IOCOUNTOVF = 0 →
      riscv_iommu_pmu_handle_irq c overflow s
        = some ({ st := s, samples := [] }, irqreturn_t.IRQ_NONE) := by
    intro hz
    rw [riscv_iommu_pmu_handle_irq, if_pos hz]
  have h1 : readl s.pmu.reg c.RISCV_IOMMU_REG_IOCOUNTOVF ≠ 0 →
      ∃ l, riscv_iommu_pmu_handle_irq c overflow s = some (l, irqreturn_t.IRQ_HANDLED) := by
    intro hz
    obtain ⟨-, s', -, hl, -⟩ := handle_irq_body_spec c overflow s
      (readl s.pmu.reg c.RISCV_IOMMU_REG_IOCOUNTOVF) h
    refine ⟨{ st := s', samples := (handle_irq_loop c overflow s
      (readl s.pmu.reg c.RISCV_IOMMU_REG_IOCOUNTOVF)).samples }, ?_⟩
    rw [riscv_iommu_pmu_handle_irq, if_neg hz]
    simp only [hl]
  refine ⟨h0, h1, ?_⟩
  by_cases hz : readl s.pmu.reg c.RISCV_IOMMU_REG_IOCOUNTOVF = 0
  · exact ⟨_, _, h0 hz, by simp [hz]⟩
  · obtain ⟨l, hl⟩ := h1 hz
    exact ⟨l, _, hl, by simp [hz]⟩

theorem sampleStateOvf_live : OccupiedLive sampleStateOvf := by
  intro i hi hu
  have hn : sampleStateOvf.pmu.num_counters = 8 := by with_unfolding_all decide
  rw [hn] at hi
  interval_cases i
  all_goals first
    | exact ⟨1, by with_unfolding_all decide⟩
    | exact absurd hu (by with_unfolding_all decide)

/-- Witness for C12: the sample bank with the overflow bit of slot 1 raised. -/
theorem handle_irq_return_witness :
    OccupiedLive sampleStateOvf ∧
    readl sampleStateOvf.pmu.reg sampleConsts.RISCV_IOMMU_REG_IOCOUNTOVF ≠ 0 ∧
    ∃ l, riscv_iommu_pmu_handle_irq sampleConsts (fun _ _ => false) sampleStateOvf
      = some (l, irqreturn_t.IRQ_HANDLED) :=
  ⟨sampleStateOvf_live, by with_unfolding_all decide,
    (handle_irq_return sampleConsts (fun _ _ => false) sampleStateOvf sampleStateOvf_live).2.1
      (by with_unfolding_all decide)⟩

set_option maxRecDepth 100000 in
/-- C13, evaluated on the code: on the sample bank with the overflow bit of
slot 1 raised and a consumer that asks to stop, the handler emits the sample of
request 1 and `stop` marks the request Stopped and sets inhibit bit 1 inside the
loop; the closing `riscv_iommu_pmu_start_all` then clears the inhibit bit of
every occupied slot, so on return the request is Stopped and inhibit bit 1 is
clear. -/
theorem handle_irq_stop_then_start_all :
    (readl sampleStateOvf.pmu.reg sampleConsts.RISCV_IOMMU_REG_IOCOUNTOVF = 2 ∧
      sampleStateOvf.pmu.events 1 = some 1 ∧
      is_sampling_event (sampleStateOvf.event 1) = true ∧
      (sampleStateOvf.event 1).hw.state = 0) ∧
    ((handle_irq_loop sampleConsts (fun _ _ => true) sampleStateOvf 2).samples
        = [{ event := 1, period := 1000 }] ∧
      ((handle_irq_loop sampleConsts (fun _ _ => true) sampleStateOvf 2).st.event 1).hw.state
        = sampleConsts.PERF_HES_STOPPED ||| sampleConsts.PERF_HES_UPTODATE ∧
      (readl (handle_irq_loop sampleConsts (fun _ _ => true) sampleStateOvf 2).st.pmu.reg
        sampleConsts.RISCV_IOMMU_REG_IOCOUNTINH).testBit 1 = true) ∧
    (riscv_iommu_pmu_handle_irq sampleConsts (fun _ _ => true) sampleStateOvf).map
        (fun r => (r.2, r.1.samples, (r.1.st.event 1).hw.state,
          (readl r.1.st.pmu.reg sampleConsts.RISCV_IOMMU_REG_IOCOUNTINH).testBit 1))
      = some (irqreturn_t.IRQ_HANDLED, [{ event := 1, period := 1000 }],
          sampleConsts.PERF_HES_STOPPED ||| sampleConsts.PERF_HES_UPTODATE, false) := by
  refine ⟨⟨?_, ?_, ?_, ?_⟩, ⟨?_, ?_, ?_⟩, ?_⟩ <;> with_unfolding_all decide

/-! ## Tearing the bank down -/

/-- Arming the overflow interrupt of a slot that holds a cycle-count
request: the cycle counter register is rewritten. -/
theorem enable_ovf_intr_cycle (c : Consts) (s : State) (i ev : Nat)
    (hev : s.pmu.events i = some ev)
    (hc : get_event c (s.event ev) = c.RISCV_IOMMU_HPMEVENT_CYCLE) :
    riscv_iommu_pmu_enable_ovf_intr c s i
      = some { s with pmu := { s.pmu with reg := (writeq s.pmu.reg
          (riscv_iommu_pmu_get_counter c s.pmu i &&& u64_not c.RISCV_IOMMU_IOHPMCYCLES_OF)
          c.RISCV_IOMMU_REG_IOHPMCYCLES) } } := by
  rw [riscv_iommu_pmu_enable_ovf_intr]
  simp only [hev]
  rw [if_pos hc]

/-- Disarming the overflow interrupt of a slot that holds a cycle-count
request. -/
theorem disable_ovf_intr_cycle (c : Consts) (s : State) (i ev : Nat)
    (hev : s.pmu.events i = some ev)
    (hc : get_event c (s.event ev) = c.RISCV_IOMMU_HPMEVENT_CYCLE) :
    riscv_iommu_pmu_disable_ovf_intr c s i
      = some { s with pmu := { s.pmu with reg := (writeq s.pmu.reg
          (riscv_iommu_pmu_get_counter c s.pmu i ||| c.RISCV_IOMMU_IOHPMCYCLES_OF)
          c.RISCV_IOMMU_REG_IOHPMCYCLES) } } := by
  rw [riscv_iommu_pmu_disable_ovf_intr]
  simp only [hev]
  rw [if_pos hc]

theorem testBit_or_bit63 (x : Nat) :
    ((x ||| 9223372036854775808) % 18446744073709551616).testBit 63 = true := by
  rw [show (18446744073709551616 : Nat) = 2 ^ 64 from rfl, Nat.testBit_mod_two_pow,
    Nat.testBit_or, show (9223372036854775808 : Nat) = 2 ^ 63 from rfl,
    Nat.testBit_two_pow_self]
  simp

/-- One round of the loop of `riscv_iommu_pmu_uninit` on an occupied slot
whose request has the kind of the slot. -/
theorem uninit_step_spec (c : Consts) (s : State) (j e : Nat) (hj : j < s.pmu.num_counters)
    (hn : s.pmu.num_counters ≤ 32) (hev : s.pmu.events j = some e)
    (htyp : get_event c (s.event e) = c.RISCV_IOMMU_HPMEVENT_CYCLE ↔ j = 0)
    (hof1 : c.RISCV_IOMMU_IOHPMCYCLES_OF = 9223372036854775808)
    (hof2 : c.RISCV_IOMMU_IOHPMEVT_OF = 9223372036854775808) :
    ∃ s', uninit_step c s j = some s' ∧ s'.event = s.event ∧
      s'.pmu.events = s.pmu.events ∧ s'.pmu.used_counters = s.pmu.used_counters ∧
      s'.pmu.num_counters = s.pmu.num_counters ∧ s'.pmu.mask_counter = s.pmu.mask_counter ∧
      (∀ a, a ≠ ovf_addr c j → s'.pmu.reg.q a = s.pmu.reg.q a) ∧
      (readq s'.pmu.reg (ovf_addr c j)).testBit 63 = true ∧
      s'.pmu.reg.l = (riscv_iommu_pmu_disable_counter c s.pmu j).reg.l := by
  rw [uninit_step]
  by_cases h0 : j = 0
  · have hc := htyp.mpr h0
    rw [disable_ovf_intr_cycle c { s with pmu := riscv_iommu_pmu_disable_counter c s.pmu j } j e
      hev hc, hof1, ovf_addr, if_pos h0]
    refine ⟨_, rfl, rfl, rfl, rfl, rfl, rfl, fun a ha => ?_, ?_, rfl⟩
    · simp only [writeq]
      exact Function.update_noteq ha _ _
    · simp only [readq_writeq_same, Nat.mod_mod]
      exact testBit_or_bit63 _
  · have hc : NonCycle c { s with pmu := riscv_iommu_pmu_disable_counter c s.pmu j } e :=
      fun h => h0 (htyp.mp h)
    have h1 : 1 ≤ j := by omega
    rw [disable_ovf_intr_noncycle c { s with pmu := riscv_iommu_pmu_disable_counter c s.pmu j }
      j e h1 (Nat.le_of_lt hj) hev hc, hof2, ovf_addr, if_neg h0, event_addr_eq c j h1 (by omega)]
    refine ⟨_, rfl, rfl, rfl, rfl, rfl, rfl, fun a ha => ?_, ?_, rfl⟩
    · simp only [writeq]
      exact Function.update_noteq ha _ _
    · simp only [readq_writeq_same, Nat.mod_mod]
      exact testBit_or_bit63 _

/-- The loop of `riscv_iommu_pmu_uninit` over a list of occupied slots. -/
theorem uninit_fold (c : Consts)
    (hof1 : c.RISCV_IOMMU_IOHPMCYCLES_OF = 9223372036854775808)
    (hof2 : c.RISCV_IOMMU_IOHPMEVT_OF = 9223372036854775808) (is : List Nat) :
    ∀ s : State, s.pmu.num_counters ≤ 32 →
      (∀ j ∈ is, j < s.pmu.num_counters ∧ ∃ e, s.pmu.events j = some e ∧
        (get_event c (s.event e) = c.RISCV_IOMMU_HPMEVENT_CYCLE ↔ j = 0)) →
      ∃ s', is.foldlM (uninit_step c) s = some s' ∧ s'.event = s.event ∧
        s'.pmu.events = s.pmu.events ∧ s'.pmu.used_counters = s.pmu.used_counters ∧
        s'.pmu.num_counters = s.pmu.num_counters ∧
        s'.pmu.mask_counter = s.pmu.mask_counter ∧
        (∀ a, (∀ j ∈ is, a ≠ ovf_addr c j) → s'.pmu.reg.q a = s.pmu.reg.q a) ∧
        (∀ j ∈ is, (readq s'.pmu.reg (ovf_addr c j)).testBit 63 = true) ∧
        (∀ a, (readq s.pmu.reg a).testBit 63 = true → (readq s'.pmu.reg a).testBit 63 = true) ∧
        (∀ a, a ≠ c.RISCV_IOMMU_REG_IOCOUNTINH → s'.pmu.reg.l a = s.pmu.reg.l a) ∧
        (∀ b, (readl s'.pmu.reg c.RISCV_IOMMU_REG_IOCOUNTINH).testBit b
          = ((readl s.pmu.reg c.RISCV_IOMMU_REG_IOCOUNTINH).testBit b || decide (b ∈ is))) := by
  induction is with
  | nil =>
    intro s _ _
    exact ⟨s, rfl, rfl, rfl, rfl, rfl, rfl, fun _ _ => rfl, fun j hj => absurd hj (List.not_mem_nil j),
      fun _ h => h, fun _ _ => rfl, fun b => by simp⟩
  | cons j t ih =>
    intro s hn h
    obtain ⟨hj, e, hev, htyp⟩ := h j (List.mem_cons_self j t)
    obtain ⟨s1, a1, a2, a3, a4, a5, a6, a7, a8, a9⟩ :=
      uninit_step_spec c s j e hj hn hev htyp hof1 hof2
    have hmono1 : ∀ a, (readq s.pmu.reg a).testBit 63 = true →
        (readq s1.pmu.reg a).testBit 63 = true := by
      intro a ha
      by_cases haj : a = ovf_addr c j
      · rw [haj]; exact a8
      · rw [readq, a7 a haj]; exact ha
    have hbit1 : ∀ b, (readl s1.pmu.reg c.RISCV_IOMMU_REG_IOCOUNTINH).testBit b
        = ((readl s.pmu.reg c.RISCV_IOMMU_REG_IOCOUNTINH).testBit b || decide (b = j)) := by
      intro b
      rw [readl, a9]
      exact disable_counter_bit c s.pmu j b (by omega)
    obtain ⟨s', b1, b2, b3, b4, b5, b6, b7, b8, b9, b10, b11⟩ := ih s1 (by rw [a5]; exact hn)
      (fun i hi => by
        obtain ⟨x1, e', x2, x3⟩ := h i (List.mem_cons_of_mem j hi)
        rw [a5, a3, a2]
        exact ⟨x1, e', x2, x3⟩)
    refine ⟨s', ?_, b2.trans a2, b3.trans a3, b4.trans a4, b5.trans a5, b6.trans a6,
      fun a ha => ?_, fun i hi => ?_, fun a ha => b9 a (hmono1 a ha), fun a ha => ?_,
      fun b => ?_⟩
    · rw [List.foldlM_cons, a1]
      exact b1
    · rw [b7 a (fun i hi => ha i (List.mem_cons_of_mem j hi)), a7 a (ha j (List.mem_cons_self j t))]
    · rcases List.mem_cons.mp hi with rfl | hi
      · exact b9 _ a8
      · exact b8 i hi
    · rw [b10 a ha, a9, (disable_counter_reg c s.pmu j).2 a ha]
    · rw [b11 b, hbit1 b]
      by_cases h1 : b = j <;> by_cases h2 : b ∈ t <;> simp [h1, h2]

/-- C14: for a bank of at most 32 slots whose counter array ends before the
selector array, in which each occupied slot has a live request of the kind of
its slot (a cycle-count request at slot 0, other requests elsewhere), `uninit`
runs to its end; afterwards every occupied slot has its inhibit bit set and bit
63, the overflow bit, set in its counter register (slot 0) or event selector
(other slots), and for an unoccupied slot the inhibit bit, the counter and the
selector are as before. -/
theorem uninit_inhibits_occupied (c : Consts) (s : State) (hn : s.pmu.num_counters ≤ 32)
    (hlay : c.RISCV_IOMMU_REG_IOHPMCYCLES + 8 * s.pmu.num_counters
      ≤ c.RISCV_IOMMU_REG_IOHPMEVT_BASE)
    (hlive : OccupiedLive s) (htyp : SlotsTyped c s)
    (hof1 : c.RISCV_IOMMU_IOHPMCYCLES_OF = 9223372036854775808)
    (hof2 : c.RISCV_IOMMU_IOHPMEVT_OF = 9223372036854775808) :
    ∃ s', riscv_iommu_pmu_uninit c s = some s' ∧
      (∀ i, i < s.pmu.num_counters → s.pmu.used_counters i = true →
        (readl s'.pmu.reg c.RISCV_IOMMU_REG_IOCOUNTINH).testBit i = true ∧
        (i = 0 → (readq s'.pmu.reg c.RISCV_IOMMU_REG_IOHPMCYCLES).testBit 63 = true) ∧
        (1 ≤ i → (readq s'.pmu.reg
          (c.RISCV_IOMMU_REG_IOHPMEVT_BASE + 8 * (i - 1))).testBit 63 = true)) ∧
      (∀ i, i < s.pmu.num_counters → s.pmu.used_counters i = false →
        (readl s'.pmu.reg c.RISCV_IOMMU_REG_IOCOUNTINH).testBit i
          = (readl s.pmu.reg c.RISCV_IOMMU_REG_IOCOUNTINH).testBit i ∧
        readq s'.pmu.reg (c.RISCV_IOMMU_REG_IOHPMCYCLES + 8 * i)
          = readq s.pmu.reg (c.RISCV_IOMMU_REG_IOHPMCYCLES + 8 * i) ∧
        (1 ≤ i → readq s'.pmu.reg (c.RISCV_IOMMU_REG_IOHPMEVT_BASE + 8 * (i - 1))
          = readq s.pmu.reg (c.RISCV_IOMMU_REG_IOHPMEVT_BASE + 8 * (i - 1)))) ∧
      s'.pmu.events = s.pmu.events ∧ s'.pmu.used_counters = s.pmu.used_counters ∧
      s'.event = s.event := by
  obtain ⟨s', b1, b2, b3, b4, -, -, b7, b8, -, -, b11⟩ := uninit_fold c hof1 hof2
    (set_bits s.pmu.used_counters s.pmu.num_counters) s hn (fun j hj => by
      rw [mem_set_bits] at hj
      obtain ⟨e, he⟩ := hlive j hj.1 hj.2
      exact ⟨hj.1, e, he, htyp j e hj.1 hj.2 he⟩)
  refine ⟨s', ?_, fun i hi hu => ⟨?_, fun h0 => ?_, fun h1 => ?_⟩,
    fun i hi hu => ⟨?_, ?_, fun h1 => ?_⟩, b3, b4, b2⟩
  · rw [riscv_iommu_pmu_uninit]
    exact b1
  · rw [b11 i]
    have hm : i ∈ set_bits s.pmu.used_counters s.pmu.num_counters :=
      (mem_set_bits _ _ _).mpr ⟨hi, hu⟩
    simp [hm]
  · have h := b8 i ((mem_set_bits _ _ _).mpr ⟨hi, hu⟩)
    rw [ovf_addr, if_pos h0] at h
    exact h
  · have h := b8 i ((mem_set_bits _ _ _).mpr ⟨hi, hu⟩)
    rw [ovf_addr, if_neg (by omega)] at h
    exact h
  · rw [b11 i]
    have hm : ¬ i ∈ set_bits s.pmu.used_counters s.pmu.num_counters := by
      rw [mem_set_bits]
      intro h
      rw [hu] at h
      exact absurd h.2 (by decide)
    simp [hm]
  · rw [readq, readq, b7 _ (fun j hj => by
      rw [mem_set_bits] at hj
      have hji : j ≠ i := fun h => by
        rw [h, hu] at hj
        exact absurd hj.2 (by decide)
      rw [ovf_addr]
      split_ifs <;> omega)]
  · rw [readq, readq, b7 _ (fun j hj => by
      rw [mem_set_bits] at hj
      have hji : j ≠ i := fun h => by
        rw [h, hu] at hj
        exact absurd hj.2 (by decide)
      rw [ovf_addr]
      split_ifs <;> omega)]

theorem sampleStateABC_live : OccupiedLive sampleStateABC := by
  intro i hi hu
  have hn : sampleStateABC.pmu.num_counters = 8 := by decide
  rw [hn] at hi
  interval_cases i
  · exact ⟨0x4000, by decide⟩
  · exact ⟨1, by decide⟩
  · exact ⟨2, by decide⟩
  all_goals exact absurd hu (by decide)

theorem sampleStateABC_typed : SlotsTyped sampleConsts sampleStateABC := by
  intro i e hi hu he
  have hn : sampleStateABC.pmu.num_counters = 8 := by decide
  rw [hn] at hi
  interval_cases i
  · have h : sampleStateABC.pmu.events 0 = some 0x4000 := by decide
    obtain rfl : 0x4000 = e := Option.some.inj (h.symm.trans he)
    decide
  · have h : sampleStateABC.pmu.events 1 = some 1 := by decide
    obtain rfl : 1 = e := Option.some.inj (h.symm.trans he)
    decide
  · have h : sampleStateABC.pmu.events 2 = some 2 := by decide
    obtain rfl : 2 = e := Option.some.inj (h.symm.trans he)
    decide
  all_goals exact absurd hu (by decide)

/-- Witness for C14: the sample bank with slots 0, 1 and 2 of its 8 slots
occupied. -/
theorem uninit_inhibits_occupied_witness :
    (sampleStateABC.pmu.num_counters ≤ 32 ∧
      sampleConsts.RISCV_IOMMU_REG_IOHPMCYCLES + 8 * sampleStateABC.pmu.num_counters
        ≤ sampleConsts.RISCV_IOMMU_REG_IOHPMEVT_BASE ∧
      OccupiedLive sampleStateABC ∧ SlotsTyped sampleConsts sampleStateABC ∧
      sampleConsts.RISCV_IOMMU_IOHPMCYCLES_OF = 9223372036854775808 ∧
      sampleConsts.RISCV_IOMMU_IOHPMEVT_OF = 9223372036854775808) ∧
    ∃ s', riscv_iommu_pmu_uninit sampleConsts sampleStateABC = some s' ∧
      (readl s'.pmu.reg sampleConsts.RISCV_IOMMU_REG_IOCOUNTINH).testBit 2 = true ∧
      (readq s'.pmu.reg (sampleConsts.RISCV_IOMMU_REG_IOHPMEVT_BASE + 8 * (2 - 1))).testBit 63
        = true ∧
      (readl s'.pmu.reg sampleConsts.RISCV_IOMMU_REG_IOCOUNTINH).testBit 3
        = (readl sampleStateABC.pmu.reg sampleConsts.RISCV_IOMMU_REG_IOCOUNTINH).testBit 3 :=
  ⟨⟨by decide, by decide, sampleStateABC_live,
      sampleStateABC_typed, by decide, by decide⟩,
    let ⟨s', h⟩ := uninit_inhibits_occupied sampleConsts sampleStateABC
      (by decide) (by decide) sampleStateABC_live
      sampleStateABC_typed (by decide) (by decide)
    ⟨s', h.1, (h.2.1 2 (by decide) (by decide)).1,
      (h.2.1 2 (by decide) (by decide)).2.2 (by decide),
      (h.2.2.1 3 (by decide) (by decide)).1⟩⟩

/-! ## One overflow, end to end -/

theorem filter_range_eq (i : Nat) :
    ∀ n, (List.range n).filter (fun b => decide (i = b)) = if i < n then [i] else [] := by
  intro n
  induction n with
  | zero => simp
  | succ n ih =>
    rw [List.range_succ, List.filter_append, ih]
    by_cases h1 : i < n
    · have h2 : i ≠ n := by omega
      simp [h1, h2, Nat.lt_succ_of_lt h1]
    · by_cases h2 : i = n
      · subst h2
        simp
      · have h3 : ¬ i < n + 1 := by omega
        simp [h1, h2, h3]

/-- The set bits of the word `BIT i` below `n` are the one bit `i`. -/
theorem set_bits_BIT (i n : Nat) (h : i < n) :
    set_bits (fun b => (BIT i).testBit b) n = [i] := by
  have hf : (fun b => (BIT i).testBit b) = fun b => decide (i = b) := by
    funext b
    rw [BIT, Nat.testBit_two_pow]
  rw [set_bits, hf, filter_range_eq, if_pos h]

theorem event_addr_ge (c : Consts) (j : Nat) : c.RISCV_IOMMU_REG_IOHPMEVT_BASE ≤ event_addr c j := by
  rw [event_addr]
  exact Nat.le_add_right _ _

/-- Writing an event selector leaves every counter register of the bank. -/
theorem set_event_keeps_counter (c : Consts) (pmu : riscv_iommu_pmu) (j v i : Nat)
    (hi : i < pmu.num_counters) (hn : pmu.num_counters ≤ 32)
    (hlay : c.RISCV_IOMMU_REG_IOHPMCYCLES + 8 * pmu.num_counters
      ≤ c.RISCV_IOMMU_REG_IOHPMEVT_BASE) :
    (riscv_iommu_pmu_set_event c pmu j v).reg.q (counter_addr c i)
      = pmu.reg.q (counter_addr c i) := by
  have hne : counter_addr c i ≠ event_addr c j := by
    have h1 := event_addr_ge c j
    have h2 := counter_addr_eq c i (by omega)
    omega
  rw [riscv_iommu_pmu_set_event]
  split_ifs
  · rfl
  · rfl
  · simp only [writeq]
    exact Function.update_noteq hne _ _

theorem and_not_bit63_of_lt (x : Nat) (h : x < 9223372036854775808) :
    (x &&& u64_not 9223372036854775808) % 18446744073709551616 = x := by
  rw [u64_not_bit63, Nat.and_pow_two_sub_one_eq_mod,
    Nat.mod_eq_of_lt (show x < 2 ^ 63 from h)]
  exact Nat.mod_eq_of_lt (by omega)

/-- Arming the overflow interrupt of a slot whose request has the kind of the
slot leaves the value of every counter register, as long as the cycle counter
holds a value below bit 63 and within the counter field. -/
theorem enable_ovf_intr_keeps_counter (c : Consts) (s s' : State) (j e i jj : Nat)
    (hj : j < s.pmu.num_counters) (hi : i < s.pmu.num_counters) (hn : s.pmu.num_counters ≤ 32)
    (hlay : c.RISCV_IOMMU_REG_IOHPMCYCLES + 8 * s.pmu.num_counters
      ≤ c.RISCV_IOMMU_REG_IOHPMEVT_BASE)
    (hev : s.pmu.events j = some e)
    (htyp : get_event c (s.event e) = c.RISCV_IOMMU_HPMEVENT_CYCLE ↔ j = 0)
    (hof1 : c.RISCV_IOMMU_IOHPMCYCLES_OF = 9223372036854775808)
    (hctr : c.RISCV_IOMMU_IOHPMCTR_COUNTER = 2 ^ jj - 1) (hjj1 : 1 ≤ jj)
    (hval : i = 0 → s.pmu.reg.q (counter_addr c 0) < 9223372036854775808 ∧
      s.pmu.reg.q (counter_addr c 0) < 2 ^ jj)
    (h : riscv_iommu_pmu_enable_ovf_intr c s j = some s') :
    s'.pmu.reg.q (counter_addr c i) = s.pmu.reg.q (counter_addr c i) ∧
    s'.pmu.reg.l = s.pmu.reg.l := by
  have hci := counter_addr_eq c i (by omega)
  have hc0 : counter_addr c 0 = c.RISCV_IOMMU_REG_IOHPMCYCLES := by
    rw [counter_addr_eq c 0 (by omega), Nat.mul_zero, Nat.add_zero]
  by_cases h0 : j = 0
  · have hc := htyp.mpr h0
    rw [enable_ovf_intr_cycle c s j e hev hc] at h
    have hs := Option.some.inj h
    rw [← hs]
    refine ⟨?_, rfl⟩
    simp only [writeq]
    by_cases hi0 : i = 0
    · obtain ⟨v1, v2⟩ := hval hi0
      subst hi0
      subst h0
      rw [hc0] at v1 v2 ⊢
      rw [Function.update_same, get_counter_eq c s.pmu 0 (by omega), hctr,
        FIELD_GET_low jj _ hjj1, hc0, hof1, readq]
      have hlt : s.pmu.reg.q c.RISCV_IOMMU_REG_IOHPMCYCLES < 18446744073709551616 := by omega
      rw [Nat.mod_eq_of_lt hlt, Nat.mod_eq_of_lt v2]
      exact and_not_bit63_of_lt _ v1
    · exact Function.update_noteq (by omega) _ _
  · have hc : NonCycle c s e := fun h => h0 (htyp.mp h)
    rw [enable_ovf_intr_noncycle c s j e (by omega) (Nat.le_of_lt hj) hev hc] at h
    have hs := Option.some.inj h
    rw [← hs]
    refine ⟨?_, rfl⟩
    simp only [writeq]
    have h1 := event_addr_ge c j
    exact Function.update_noteq (by omega) _ _

/-- The loop of `riscv_iommu_pmu_start_all` over a list of occupied slots
keeps the slot table, the bitmap, the requests and counter `i`. -/
theorem start_all_fold_counter (c : Consts) (i jj : Nat)
    (hof1 : c.RISCV_IOMMU_IOHPMCYCLES_OF = 9223372036854775808)
    (hctr : c.RISCV_IOMMU_IOHPMCTR_COUNTER = 2 ^ jj - 1) (hjj1 : 1 ≤ jj) (is : List Nat) :
    ∀ s : State, s.pmu.num_counters ≤ 32 → i < s.pmu.num_counters →
      c.RISCV_IOMMU_REG_IOHPMCYCLES + 8 * s.pmu.num_counters
        ≤ c.RISCV_IOMMU_REG_IOHPMEVT_BASE →
      (i = 0 → s.pmu.reg.q (counter_addr c 0) < 9223372036854775808 ∧
        s.pmu.reg.q (counter_addr c 0) < 2 ^ jj) →
      (∀ j ∈ is, j < s.pmu.num_counters ∧ ∃ e, s.pmu.events j = some e ∧
        (get_event c (s.event e) = c.RISCV_IOMMU_HPMEVENT_CYCLE ↔ j = 0)) →
      ∃ s', is.foldlM (start_all_step c) s = some s' ∧ Frame s s' ∧ s'.event = s.event ∧
        s'.pmu.reg.q (counter_addr c i) = s.pmu.reg.q (counter_addr c i) := by
  induction is with
  | nil => exact fun s _ _ _ _ _ => ⟨s, rfl, Frame.refl s, rfl, rfl⟩
  | cons j t ih =>
    intro s hn hi hlay hval h
    obtain ⟨hj, e, hev, htyp⟩ := h j (List.mem_cons_self j t)
    obtain ⟨s1, h1⟩ := enable_ovf_intr_isSome c s j e hev
    obtain ⟨f1, g1⟩ := frame_enable_ovf_intr c s s1 j h1
    obtain ⟨k1, -⟩ := enable_ovf_intr_keeps_counter c s s1 j e i jj hj hi hn hlay hev htyp hof1
      hctr hjj1 hval h1
    have hstep : start_all_step c s j
        = some { s1 with pmu := riscv_iommu_pmu_enable_counter c s1.pmu j } := by
      rw [start_all_step]
      simp only [h1]
    have f2 : Frame s { s1 with pmu := riscv_iommu_pmu_enable_counter c s1.pmu j } :=
      f1.trans (frame_with_pmu s1 _ (frame_enable_counter c s1.pmu j))
    have k2 : (riscv_iommu_pmu_enable_counter c s1.pmu j).reg.q = s1.pmu.reg.q :=
      (enable_counter_reg c s1.pmu j).1
    obtain ⟨s', b1, b2, b3, b4⟩ := ih { s1 with pmu := riscv_iommu_pmu_enable_counter c s1.pmu j }
      (by rw [f2.2.2.1]; exact hn) (by rw [f2.2.2.1]; exact hi) (by rw [f2.2.2.1]; exact hlay)
      (fun h0 => by
        have hv := hval h0
        subst h0
        simp only [k2, k1]
        exact hv)
      (fun m hm => by
        obtain ⟨x1, e', x2, x3⟩ := h m (List.mem_cons_of_mem j hm)
        rw [f2.2.2.1, f2.1]
        simp only [g1]
        exact ⟨x1, e', x2, x3⟩)
    refine ⟨s', ?_, f2.trans b2, b3.trans g1, ?_⟩
    · rw [List.foldlM_cons, hstep]
      exact b1
    · rw [b4]
      simp only [k2, k1]

/-- With flags 0 `stop` never calls `update`: the counters and the totals of
all requests are as before. -/
theorem stop_flags_zero (c : Consts) (s : State) (ev i : Nat) (hi : i < s.pmu.num_counters)
    (hn : s.pmu.num_counters ≤ 32)
    (hlay : c.RISCV_IOMMU_REG_IOHPMCYCLES + 8 * s.pmu.num_counters
      ≤ c.RISCV_IOMMU_REG_IOHPMEVT_BASE) :
    (riscv_iommu_pmu_stop c s ev 0).pmu.reg.q (counter_addr c i) = s.pmu.reg.q (counter_addr c i) ∧
    (∀ h, ((riscv_iommu_pmu_stop c s ev 0).event h).count = (s.event h).count) := by
  by_cases h1 : (s.event ev).hw.state &&& c.PERF_HES_STOPPED = 0
  · have h2 : ¬ (0 &&& c.PERF_EF_UPDATE ≠ 0 ∧
        (s.event ev).hw.state &&& c.PERF_HES_UPTODATE = 0) := by
      rw [Nat.zero_and]
      exact fun h => h.1 rfl
    rw [stop_eq_plain c s ev 0 h1 h2]
    refine ⟨?_, fun h => ?_⟩
    · rw [stop_mark_pmu, stop_quiesce]
      simp only []
      rw [(disable_counter_reg c _ _).1]
      exact set_event_keeps_counter c s.pmu _ _ i hi hn hlay
    · by_cases hh : h = ev
      · subst hh
        rw [stop_mark_event_same]
        rfl
      · rw [stop_mark]
        simp only []
        rw [Function.update_noteq hh]
        rfl
  · rw [stop_eq_stopped c s ev 0 h1]
    exact ⟨rfl, fun _ => rfl⟩

theorem toU64_neg_neg (p : Nat) (hp1 : 1 ≤ p) (hp2 : p < 18446744073709551616) :
    toU64 (((0 : Nat) : Int) - ((toU64 (-(p : Int)) : Nat) : Int)) = p := by
  simp only [toU64]
  omega

/-- The delta `update` computes when the counter of the slot has wrapped to 0
from the load value of a period `p`. -/
theorem update_delta_wrapped (c : Consts) (s : State) (ev i k jj p : Nat)
    (hidx : (s.event ev).hw.idx = (i : Int)) (hi : i < s.pmu.num_counters)
    (hn : s.pmu.num_counters ≤ 32)
    (hctr : c.RISCV_IOMMU_IOHPMCTR_COUNTER = 2 ^ jj - 1) (hjj1 : 1 ≤ jj) (hjj : jj ≤ 64)
    (hk : k ≤ jj) (hmask : s.pmu.mask_counter = 2 ^ k - 1) (hp1 : 1 ≤ p) (hp2 : p < 2 ^ k)
    (hprev : (s.event ev).hw.prev_count = toU64 (-(p : Int)))
    (hcnt : s.pmu.reg.q (counter_addr c i) = 0) :
    update_delta c s ev = p ∧
    riscv_iommu_pmu_get_counter c s.pmu (toU32 (s.event ev).hw.idx) = 0 := by
  have hkj : 2 ^ k ≤ 2 ^ jj := Nat.pow_le_pow_right (by norm_num) hk
  have hj64 : 2 ^ jj ≤ 2 ^ 64 := Nat.pow_le_pow_right (by norm_num) hjj
  have hp64 : p < 18446744073709551616 := lt_of_lt_of_le hp2 (le_trans hkj hj64)
  have hg : riscv_iommu_pmu_get_counter c s.pmu (toU32 (s.event ev).hw.idx) = 0 := by
    rw [hidx, toU32_natCast i (by omega), get_counter_eq c s.pmu i (Nat.le_of_lt hi), readq,
      hcnt, hctr, FIELD_GET_low jj _ hjj1, Nat.zero_mod]
  refine ⟨?_, hg⟩
  rw [update_delta, hg, hprev, toU64_neg_neg p hp1 hp64, hctr, FIELD_GET_low jj _ hjj1, hmask,
    Nat.and_pow_two_sub_one_eq_mod, Nat.mod_eq_of_lt (lt_of_lt_of_le hp2 hkj),
    Nat.mod_eq_of_lt hp2]

/-- What `set_period` does for a request whose `period_left` has run down to 0
exactly: the period `p` is rearmed, the counter of the slot is loaded with
`2 ^ k - p` and 1 is returned. -/
theorem set_period_rearmed (c : Consts) (s : State) (ev i k jj p : Nat)
    (hidx : (s.event ev).hw.idx = (i : Int)) (hi : i < s.pmu.num_counters)
    (hn : s.pmu.num_counters ≤ 32)
    (hctr : c.RISCV_IOMMU_IOHPMCTR_COUNTER = 2 ^ jj - 1) (hjj1 : 1 ≤ jj) (hjj : jj ≤ 64)
    (hk : k ≤ jj) (hk64 : k ≤ 64) (hmask : s.pmu.mask_counter = 2 ^ k - 1)
    (hp1 : 1 ≤ p) (hp2 : p ≤ (2 ^ k - 1) / 2)
    (hper : (s.event ev).hw.sample_period = p) (hleft : (s.event ev).hw.period_left = 0) :
    (riscv_iommu_pmu_set_period c s ev).2 = 1 ∧
    ((riscv_iommu_pmu_set_period c s ev).1.event ev).count = (s.event ev).count ∧
    ((riscv_iommu_pmu_set_period c s ev).1.event ev).hw.period_left = p ∧
    ((riscv_iommu_pmu_set_period c s ev).1.event ev).hw.last_period = p ∧
    (riscv_iommu_pmu_set_period c s ev).1.pmu.reg.q (counter_addr c i) = 2 ^ k - p ∧
    (riscv_iommu_pmu_set_period c s ev).1.pmu.reg.l = s.pmu.reg.l := by
  have hpos : 0 < 2 ^ k := Nat.two_pow_pos k
  have hk2 : 2 ^ k ≤ 2 ^ 64 := Nat.pow_le_pow_right (by norm_num) hk64
  have h63 : (2 : Nat) ^ 63 = 9223372036854775808 := by norm_num
  have hkj : 2 ^ k ≤ 2 ^ jj := Nat.pow_le_pow_right (by norm_num) hk
  have hj64 : 2 ^ jj ≤ 2 ^ 64 := Nat.pow_le_pow_right (by norm_num) hjj
  have h64 : (2 : Nat) ^ 64 = 18446744073709551616 := by norm_num
  have hpk : p < 2 ^ k := by omega
  obtain ⟨l, hl, l1, l2, l3, -, l5, -⟩ := set_period_rearm_cases (s.event ev).hw p 0 hper hleft
    hp1 (by omega) (by omega) (by omega)
  obtain ⟨m1, m2, m3, m4⟩ := l5 (by omega) (le_refl 0)
  rw [zero_add] at m1 m4
  obtain ⟨c1, c2, -, c4⟩ := set_period_clamp_left s.pmu.mask_counter l l1 l2 (by rw [hmask]; omega)
  have hc4 := c4 (by rw [m4, hmask]; exact_mod_cast hp2)
  have hloc : set_period_locals (s.event ev).hw s.pmu.mask_counter
      = set_period_clamp s.pmu.mask_counter l := by
    rw [set_period_locals_eq, hl]
  obtain ⟨r1, r2, -, -, r5, r6⟩ := set_period_result c s ev _ hloc
  have hcount : ((riscv_iommu_pmu_set_period c s ev).1.event ev).count = (s.event ev).count := by
    rw [riscv_iommu_pmu_set_period, set_period_program_event_same]
  have hload : toU64 (-(set_period_clamp s.pmu.mask_counter l).left) &&& s.pmu.mask_counter
      = 2 ^ k - p := by
    rw [hc4, m4, hmask, neg_and_mask k (p : Int) (by omega) (by omega) (by exact_mod_cast hpk),
      Int.toNat_ofNat]
  rw [c1, l3, hidx, toU32_natCast i (by omega), hload] at r6
  refine ⟨?_, hcount, ?_, ?_, ?_, ?_⟩
  · rw [r5, c2, m3]
  · rw [r1, c1, m1]
  · rw [r2, c1, m2]
  · have hv : 2 ^ k - p < 2 ^ jj := by omega
    rw [r6, set_counter_eq c s.pmu i _ (Nat.le_of_lt hi), hctr]
    simp only [writeq, Function.update_same]
    rw [FIELD_PREP_low jj _ hjj1 hjj, Nat.mod_eq_of_lt hv]
    exact Nat.mod_eq_of_lt (by omega)
  · rw [r6, set_counter_eq c s.pmu i _ (Nat.le_of_lt hi)]
    rfl

theorem irqLoop_st (a : State) (b : List Sample) : (IrqLoop.mk a b).st = a := rfl

/-- One round of the loop of the handler on a slot whose counter has wrapped
to 0 from the load value of the period `p`: one sample carrying `p` is emitted,
the total grows by `p` and the counter is loaded with `2 ^ k - p` again. -/
theorem handle_irq_step_wrapped (c : Consts) (overflow : State → Sample → Bool) (s : State)
    (smp : List Sample) (ev i k jj p : Nat)
    (hev : s.pmu.events i = some ev) (hsamp : (s.event ev).attr_sample_period ≠ 0)
    (hidx : (s.event ev).hw.idx = (i : Int)) (hi : i < s.pmu.num_counters)
    (hn : s.pmu.num_counters ≤ 32)
    (hlay : c.RISCV_IOMMU_REG_IOHPMCYCLES + 8 * s.pmu.num_counters
      ≤ c.RISCV_IOMMU_REG_IOHPMEVT_BASE)
    (hctr : c.RISCV_IOMMU_IOHPMCTR_COUNTER = 2 ^ jj - 1) (hjj1 : 1 ≤ jj) (hjj : jj ≤ 64)
    (hk : k ≤ jj) (hk64 : k ≤ 64) (hmask : s.pmu.mask_counter = 2 ^ k - 1)
    (hp1 : 1 ≤ p) (hp2 : p ≤ (2 ^ k - 1) / 2)
    (hper : (s.event ev).hw.sample_period = p)
    (hleft : (s.event ev).hw.period_left = p)
    (hprev : (s.event ev).hw.prev_count = toU64 (-(p : Int)))
    (hcnt : s.pmu.reg.q (counter_addr c i) = 0) :
    (handle_irq_step c overflow { st := s, samples := smp } i).samples
      = smp ++ [{ event := ev, period := (s.event ev).hw.last_period }] ∧
    ((handle_irq_step c overflow { st := s, samples := smp } i).st.event ev).count
      = ((s.event ev).count + p) % 18446744073709551616 ∧
    (handle_irq_step c overflow { st := s, samples := smp } i).st.pmu.reg.q (counter_addr c i)
      = 2 ^ k - p := by
  have hpos : 0 < 2 ^ k := Nat.two_pow_pos k
  have hpk : p < 2 ^ k := by omega
  have hsam : ¬ is_sampling_event (s.event ev) = false := by
    simp [is_sampling_event, hsamp]
  obtain ⟨hd, -⟩ := update_delta_wrapped c s ev i k jj p hidx hi hn hctr hjj1 hjj hk hmask hp1 hpk
    hprev hcnt
  rw [handle_irq_step]
  simp only [hev]
  rw [if_neg hsam, handle_irq_sample]
  have u1 : ((riscv_iommu_pmu_update c s ev).event ev).hw.idx = (i : Int) := by
    rw [update_event_same]; exact hidx
  have u2 : ((riscv_iommu_pmu_update c s ev).event ev).hw.sample_period = p := by
    rw [update_event_same]; exact hper
  have u3 : ((riscv_iommu_pmu_update c s ev).event ev).hw.last_period
      = (s.event ev).hw.last_period := by
    rw [update_event_same]
  have u4 : ((riscv_iommu_pmu_update c s ev).event ev).hw.period_left = 0 := by
    rw [update_event_same]
    have h0 : toS64 ((s.event ev).hw.period_left - (update_delta c s ev : Nat)) = 0 := by
      rw [hleft, hd, sub_self]
      exact toS64_of_range 0 (by norm_num) (by norm_num)
    exact h0
  have u5 : ((riscv_iommu_pmu_update c s ev).event ev).count
      = ((s.event ev).count + p) % 18446744073709551616 := by
    rw [update_event_same, ← hd]
  have u6 : (riscv_iommu_pmu_update c s ev).pmu = s.pmu := update_pmu c s ev
  obtain ⟨r1, r2, -, -, r5, -⟩ := set_period_rearmed c (riscv_iommu_pmu_update c s ev) ev i k jj
    p u1 (by rw [u6]; exact hi) (by rw [u6]; exact hn) hctr hjj1 hjj hk hk64
    (by rw [u6]; exact hmask) hp1 hp2 u2 u4
  have hf := frame_set_period c (riscv_iommu_pmu_update c s ev) ev
  rw [u3]
  rw [u5] at r2
  generalize riscv_iommu_pmu_set_period c (riscv_iommu_pmu_update c s ev) ev = X at r1 r2 r5 hf ⊢
  have hnum : X.1.pmu.num_counters = s.pmu.num_counters := by rw [hf.2.2.1, u6]
  rw [handle_irq_emit, r1, if_neg (by norm_num)]
  split_ifs
  · obtain ⟨q1, q2⟩ := stop_flags_zero c X.1 ev i (by rw [hnum]; exact hi)
      (by rw [hnum]; exact hn) (by rw [hnum]; exact hlay)
    rw [irqLoop_st, q1, r5, q2 ev, r2]
    exact ⟨rfl, rfl, rfl⟩
  · rw [irqLoop_st, r5, r2]
    exact ⟨rfl, rfl, rfl⟩

theorem stop_all_fields (c : Consts) (s : State) :
    (riscv_iommu_pmu_stop_all c s).event = s.event ∧
    (riscv_iommu_pmu_stop_all c s).pmu.events = s.pmu.events ∧
    (riscv_iommu_pmu_stop_all c s).pmu.num_counters = s.pmu.num_counters ∧
    (riscv_iommu_pmu_stop_all c s).pmu.mask_counter = s.pmu.mask_counter ∧
    (riscv_iommu_pmu_stop_all c s).pmu.reg.q = s.pmu.reg.q :=
  ⟨rfl, rfl, rfl, rfl, rfl⟩

theorem handle_irq_loop_BIT (c : Consts) (overflow : State → Sample → Bool) (s : State) (i : Nat)
    (hi : i < s.pmu.num_counters) :
    handle_irq_loop c overflow s (BIT i)
      = handle_irq_step c overflow { st := riscv_iommu_pmu_stop_all c s, samples := [] } i := by
  rw [handle_irq_loop, set_bits_BIT i _ hi, List.foldl_cons, List.foldl_nil]

/-- The handler on a bank in which the counter of slot `i` has wrapped to 0
from the load value of the period `p` and the overflow status reports slot `i`
alone: one sample carrying `last_period`, the total grows by `p`, and the
counter is loaded with `2 ^ k - p` again.  For slot 0 the mask has at most 63
bits, bit 63 of the cycle counter being its overflow flag. -/
theorem handle_irq_wrapped (c : Consts) (overflow : State → Sample → Bool) (s : State)
    (ev i k jj p : Nat) (hn : s.pmu.num_counters ≤ 32)
    (hlay : c.RISCV_IOMMU_REG_IOHPMCYCLES + 8 * s.pmu.num_counters
      ≤ c.RISCV_IOMMU_REG_IOHPMEVT_BASE)
    (hlive : OccupiedLive s) (htyp : SlotsTyped c s)
    (hof1 : c.RISCV_IOMMU_IOHPMCYCLES_OF = 9223372036854775808)
    (hctr : c.RISCV_IOMMU_IOHPMCTR_COUNTER = 2 ^ jj - 1) (hjj1 : 1 ≤ jj) (hjj : jj ≤ 64)
    (hk : k ≤ jj) (hk64 : k ≤ 64) (hslot : i = 0 → k ≤ 63)
    (hmask : s.pmu.mask_counter = 2 ^ k - 1)
    (hp1 : 1 ≤ p) (hp2 : p ≤ (2 ^ k - 1) / 2)
    (hev : s.pmu.events i = some ev) (hsamp : (s.event ev).attr_sample_period ≠ 0)
    (hidx : (s.event ev).hw.idx = (i : Int)) (hi : i < s.pmu.num_counters)
    (hper : (s.event ev).hw.sample_period = p)
    (hleft : (s.event ev).hw.period_left = p)
    (hprev : (s.event ev).hw.prev_count = toU64 (-(p : Int)))
    (hcnt : s.pmu.reg.q (counter_addr c i) = 0)
    (hovf : readl s.pmu.reg c.RISCV_IOMMU_REG_IOCOUNTOVF = BIT i) :
    ∃ r, riscv_iommu_pmu_handle_irq c overflow s = some (r, irqreturn_t.IRQ_HANDLED) ∧
      r.samples = [{ event := ev, period := (s.event ev).hw.last_period }] ∧
      (r.st.event ev).count = ((s.event ev).count + p) % 18446744073709551616 ∧
      r.st.pmu.reg.q (counter_addr c i) = 2 ^ k - p := by
  have hpos : 0 < 2 ^ k := Nat.two_pow_pos k
  have hval : i = 0 → 2 ^ k - p < 9223372036854775808 ∧ 2 ^ k - p < 2 ^ jj := fun h0 => by
    have hk3 : 2 ^ k ≤ 2 ^ 63 := Nat.pow_le_pow_right (by norm_num) (hslot h0)
    have hk4 : 2 ^ k ≤ 2 ^ jj := Nat.pow_le_pow_right (by norm_num) hk
    have h63 : (2 : Nat) ^ 63 = 9223372036854775808 := by norm_num
    omega
  have hkj : 2 ^ k ≤ 2 ^ jj := Nat.pow_le_pow_right (by norm_num) hk
  have h63 : (2 : Nat) ^ 63 = 9223372036854775808 := by norm_num
  have hne : ¬ BIT i = 0 := by
    rw [BIT]
    exact Nat.pos_iff_ne_zero.mp (Nat.two_pow_pos i)
  obtain ⟨a1, a2, a3, a4, a5⟩ := stop_all_fields c s
  obtain ⟨t1, t2, t3⟩ := handle_irq_step_wrapped c overflow (riscv_iommu_pmu_stop_all c s) [] ev i
    k jj p (by rw [a2]; exact hev) (by rw [a1]; exact hsamp) (by rw [a1]; exact hidx)
    (by rw [a3]; exact hi) (by rw [a3]; exact hn) (by rw [a3]; exact hlay) hctr hjj1 hjj hk hk64
    (by rw [a4]; exact hmask) hp1 hp2 (by rw [a1]; exact hper)
    (by rw [a1]; exact hleft) (by rw [a1]; exact hprev) (by rw [a5]; exact hcnt)
  have hf : Frame s (handle_irq_step c overflow
      { st := riscv_iommu_pmu_stop_all c s, samples := [] } i).st :=
    (frame_stop_all c s).trans (frame_handle_irq_step c overflow _ i)
  rw [a1] at t1 t2
  rw [← handle_irq_loop_BIT c overflow s i hi] at t1 t2 t3 hf
  rw [List.nil_append] at t1
  obtain ⟨L, hL⟩ : ∃ L, handle_irq_loop c overflow s (BIT i) = L := ⟨_, rfl⟩
  rw [hL] at t1 t2 t3 hf
  obtain ⟨s', b1, b2, b3, b4⟩ := start_all_fold_counter c i jj hof1 hctr hjj1
    (set_bits L.st.pmu.used_counters L.st.pmu.num_counters) L.st
    (by rw [hf.2.2.1]; exact hn) (by rw [hf.2.2.1]; exact hi) (by rw [hf.2.2.1]; exact hlay)
    (fun h0 => by
      have h := hval h0
      subst h0
      rw [t3]
      exact h)
    (fun j hj => by
      rw [mem_set_bits, hf.2.2.1, hf.2.1] at hj
      obtain ⟨e, he⟩ := hlive j hj.1 hj.2
      rw [hf.2.2.1, hf.1]
      refine ⟨hj.1, e, he, ?_⟩
      rw [get_event_congr c (s.event e) (L.st.event e) (hf.2.2.2.2 e).2.1]
      exact htyp j e hj.1 hj.2 he)
  refine ⟨{ st := s', samples := L.samples }, ?_, ?_, ?_, ?_⟩
  · have b1' : riscv_iommu_pmu_start_all c L.st = some s' := by
      rw [riscv_iommu_pmu_start_all]
      exact b1
    rw [riscv_iommu_pmu_handle_irq, hovf, if_neg hne, handle_irq_body, hL]
    simp only [b1']
  · rw [← t1]
  · rw [irqLoop_st, b3, t2]
  · rw [irqLoop_st, b4, t3]

/-- What `set_period` does for a request with a full period `p` left: nothing
is rearmed, the counter of the slot is loaded with `2 ^ k - p`, the snapshot is
the 64-bit two's complement of `p` and 0 is returned. -/
theorem set_period_fresh (c : Consts) (s : State) (ev i k jj p : Nat)
    (hidx : (s.event ev).hw.idx = (i : Int)) (hi : i < s.pmu.num_counters)
    (hn : s.pmu.num_counters ≤ 32)
    (hctr : c.RISCV_IOMMU_IOHPMCTR_COUNTER = 2 ^ jj - 1) (hjj1 : 1 ≤ jj) (hjj : jj ≤ 64)
    (hk : k ≤ jj) (hk64 : k ≤ 64) (hmask : s.pmu.mask_counter = 2 ^ k - 1)
    (hp1 : 1 ≤ p) (hp2 : p ≤ (2 ^ k - 1) / 2)
    (hper : (s.event ev).hw.sample_period = p) (hleft : (s.event ev).hw.period_left = p) :
    (riscv_iommu_pmu_set_period c s ev).2 = 0 ∧
    ((riscv_iommu_pmu_set_period c s ev).1.event ev).count = (s.event ev).count ∧
    ((riscv_iommu_pmu_set_period c s ev).1.event ev).hw.period_left = p ∧
    ((riscv_iommu_pmu_set_period c s ev).1.event ev).hw.last_period
      = (s.event ev).hw.last_period ∧
    ((riscv_iommu_pmu_set_period c s ev).1.event ev).hw.prev_count = toU64 (-(p : Int)) ∧
    (riscv_iommu_pmu_set_period c s ev).1.pmu.reg.q (counter_addr c i) = 2 ^ k - p ∧
    (riscv_iommu_pmu_set_period c s ev).1.pmu.reg.l = s.pmu.reg.l := by
  have hpos : 0 < 2 ^ k := Nat.two_pow_pos k
  have hk2 : 2 ^ k ≤ 2 ^ 64 := Nat.pow_le_pow_right (by norm_num) hk64
  have h63 : (2 : Nat) ^ 63 = 9223372036854775808 := by norm_num
  have hkj : 2 ^ k ≤ 2 ^ jj := Nat.pow_le_pow_right (by norm_num) hk
  have hj64 : 2 ^ jj ≤ 2 ^ 64 := Nat.pow_le_pow_right (by norm_num) hjj
  have h64 : (2 : Nat) ^ 64 = 18446744073709551616 := by norm_num
  have hpk : p < 2 ^ k := by omega
  obtain ⟨l, hl, l1, l2, l3, -, -, l6⟩ := set_period_rearm_cases (s.event ev).hw p p hper hleft
    hp1 (by omega) (by omega) (by omega)
  obtain ⟨m1, m2, m3, m4⟩ := l6 (by omega)
  obtain ⟨c1, c2, -, c4⟩ := set_period_clamp_left s.pmu.mask_counter l l1 l2 (by rw [hmask]; omega)
  have hc4 := c4 (by rw [m4, hmask]; exact_mod_cast hp2)
  have hloc : set_period_locals (s.event ev).hw s.pmu.mask_counter
      = set_period_clamp s.pmu.mask_counter l := by
    rw [set_period_locals_eq, hl]
  obtain ⟨r1, r2, r3, -, r5, r6⟩ := set_period_result c s ev _ hloc
  have hcount : ((riscv_iommu_pmu_set_period c s ev).1.event ev).count = (s.event ev).count := by
    rw [riscv_iommu_pmu_set_period, set_period_program_event_same]
  have hload : toU64 (-(set_period_clamp s.pmu.mask_counter l).left) &&& s.pmu.mask_counter
      = 2 ^ k - p := by
    rw [hc4, m4, hmask, neg_and_mask k (p : Int) (by omega) (by omega) (by exact_mod_cast hpk),
      Int.toNat_ofNat]
  rw [c1, l3, hidx, toU32_natCast i (by omega), hload] at r6
  refine ⟨?_, hcount, ?_, ?_, ?_, ?_, ?_⟩
  · rw [r5, c2, m3]
  · rw [r1, c1, m1]
  · rw [r2, c1, m2]
  · rw [r3, hc4, m4]
  · have hv : 2 ^ k - p < 2 ^ jj := by omega
    rw [r6, set_counter_eq c s.pmu i _ (Nat.le_of_lt hi), hctr]
    simp only [writeq, Function.update_same]
    rw [FIELD_PREP_low jj _ hjj1 hjj, Nat.mod_eq_of_lt hv]
    exact Nat.mod_eq_of_lt (by omega)
  · rw [r6, set_counter_eq c s.pmu i _ (Nat.le_of_lt hi)]
    rfl

/-- The register part of `start` keeps the requests and the counter of the
slot, for a request of the kind of its slot; the cycle counter of slot 0 is
kept when its bit 63 is clear. -/
theorem start_program_keeps (c : Consts) (s : State) (ev i jj : Nat)
    (hidx : (s.event ev).hw.idx = (i : Int)) (hi : i < s.pmu.num_counters)
    (hn : s.pmu.num_counters ≤ 32)
    (hlay : c.RISCV_IOMMU_REG_IOHPMCYCLES + 8 * s.pmu.num_counters
      ≤ c.RISCV_IOMMU_REG_IOHPMEVT_BASE)
    (hev : s.pmu.events i = some ev)
    (htyp : get_event c (s.event ev) = c.RISCV_IOMMU_HPMEVENT_CYCLE ↔ i = 0)
    (hof1 : c.RISCV_IOMMU_IOHPMCYCLES_OF = 9223372036854775808)
    (hctr : c.RISCV_IOMMU_IOHPMCTR_COUNTER = 2 ^ jj - 1) (hjj1 : 1 ≤ jj)
    (hval : i = 0 → s.pmu.reg.q (counter_addr c 0) < 9223372036854775808 ∧
      s.pmu.reg.q (counter_addr c 0) < 2 ^ jj) :
    ∃ s', start_program c s ev = some s' ∧ Frame s s' ∧ s'.event = s.event ∧
      s'.pmu.reg.q (counter_addr c i) = s.pmu.reg.q (counter_addr c i) ∧
      (∀ a, a ≠ c.RISCV_IOMMU_REG_IOCOUNTINH → s'.pmu.reg.l a = s.pmu.reg.l a) := by
  have hi32 : toU32 (s.event ev).hw.idx = i := by
    rw [hidx]
    exact toU32_natCast i (by omega)
  have k3 := set_event_keeps_counter c s.pmu i (s.event ev).hw.config i hi hn hlay
  obtain ⟨g1, g2, g3, g4⟩ := frame_set_event c s.pmu i (s.event ev).hw.config
  have l3 : (riscv_iommu_pmu_set_event c s.pmu i (s.event ev).hw.config).reg.l = s.pmu.reg.l := by
    rw [riscv_iommu_pmu_set_event]
    split_ifs <;> rfl
  obtain ⟨s3, hs3⟩ : ∃ s3 : State,
      s3 = { s with pmu := riscv_iommu_pmu_set_event c s.pmu i (s.event ev).hw.config } :=
    ⟨_, rfl⟩
  have p3 : s3.pmu = riscv_iommu_pmu_set_event c s.pmu i (s.event ev).hw.config := by rw [hs3]
  have e3 : s3.event = s.event := by rw [hs3]
  have f3 : Frame s s3 := by
    rw [hs3]
    exact frame_with_pmu s _ ⟨g1, g2, g3, g4⟩
  obtain ⟨s4, h4⟩ := enable_ovf_intr_isSome c s3 i ev (by rw [p3, g1]; exact hev)
  obtain ⟨f4, e4⟩ := frame_enable_ovf_intr c s3 s4 i h4
  obtain ⟨k4, l4⟩ := enable_ovf_intr_keeps_counter c s3 s4 i ev i jj (by rw [p3, g3]; exact hi)
    (by rw [p3, g3]; exact hi) (by rw [p3, g3]; exact hn) (by rw [p3, g3]; exact hlay)
    (by rw [p3, g1]; exact hev) (by rw [e3]; exact htyp) hof1 hctr hjj1
    (fun h0 => by
      subst h0
      rw [p3, k3]
      exact hval rfl) h4
  refine ⟨{ s4 with pmu := riscv_iommu_pmu_enable_counter c s4.pmu i }, ?_,
    (f3.trans f4).trans (frame_with_pmu s4 _ (frame_enable_counter c s4.pmu i)),
    e4.trans e3, ?_, fun a ha => ?_⟩
  · rw [start_program]
    simp only [hi32]
    rw [← hs3]
    simp only [h4]
  · have h := (enable_counter_reg c s4.pmu i).1
    simp only [h, k4, p3, k3]
  · have h := (enable_counter_reg c s4.pmu i).2 a ha
    simp only [h, l4, p3, l3]

theorem set_period_program_state (c : Consts) (s : State) (ev : Nat) (l : PeriodLocals) :
    ((set_period_program c s ev l).1.event ev).hw.state = l.hwc.state := by
  rw [set_period_program_event_same]

theorem slotsTyped_frame (c : Consts) (s s' : State) (hf : Frame s s') (h : SlotsTyped c s) :
    SlotsTyped c s' := by
  intro i e hi hu he
  rw [hf.2.2.1] at hi
  rw [hf.2.1] at hu
  rw [hf.1] at he
  rw [get_event_congr c (s.event e) (s'.event e) (hf.2.2.2.2 e).2.1]
  exact h i e hi hu he

/-- What `start` leaves for a stopped request with a full period `p` left,
recorded at its slot `i` and of the kind of that slot; for slot 0 the mask has
at most 63 bits. -/
theorem start_fresh (c : Consts) (s : State) (ev i k jj p flags : Nat)
    (hst : (s.event ev).hw.state &&& c.PERF_HES_STOPPED ≠ 0)
    (hidx : (s.event ev).hw.idx = (i : Int)) (hi : i < s.pmu.num_counters)
    (hn : s.pmu.num_counters ≤ 32)
    (hlay : c.RISCV_IOMMU_REG_IOHPMCYCLES + 8 * s.pmu.num_counters
      ≤ c.RISCV_IOMMU_REG_IOHPMEVT_BASE)
    (hev : s.pmu.events i = some ev)
    (htyp : get_event c (s.event ev) = c.RISCV_IOMMU_HPMEVENT_CYCLE ↔ i = 0)
    (hof1 : c.RISCV_IOMMU_IOHPMCYCLES_OF = 9223372036854775808)
    (hctr : c.RISCV_IOMMU_IOHPMCTR_COUNTER = 2 ^ jj - 1) (hjj1 : 1 ≤ jj) (hjj : jj ≤ 64)
    (hk : k ≤ jj) (hk64 : k ≤ 64) (hslot : i = 0 → k ≤ 63)
    (hmask : s.pmu.mask_counter = 2 ^ k - 1)
    (hp1 : 1 ≤ p) (hp2 : p ≤ (2 ^ k - 1) / 2)
    (hper : (s.event ev).hw.sample_period = p) (hleft : (s.event ev).hw.period_left = p) :
    ∃ s1, riscv_iommu_pmu_start c s ev flags = some s1 ∧ Frame s s1 ∧
      (s1.event ev).count = (s.event ev).count ∧
      (s1.event ev).hw.period_left = p ∧
      (s1.event ev).hw.last_period = (s.event ev).hw.last_period ∧
      (s1.event ev).hw.prev_count = toU64 (-(p : Int)) ∧
      (s1.event ev).hw.state = 0 ∧
      s1.pmu.reg.q (counter_addr c i) = 2 ^ k - p ∧
      (∀ a, a ≠ c.RISCV_IOMMU_REG_IOCOUNTINH → s1.pmu.reg.l a = s.pmu.reg.l a) := by
  have hpos : 0 < 2 ^ k := Nat.two_pow_pos k
  have h63 : (2 : Nat) ^ 63 = 9223372036854775808 := by norm_num
  have hkj : 2 ^ k ≤ 2 ^ jj := Nat.pow_le_pow_right (by norm_num) hk
  have hval : i = 0 → 2 ^ k - p < 9223372036854775808 ∧ 2 ^ k - p < 2 ^ jj := fun h0 => by
    have hk3 : 2 ^ k ≤ 2 ^ 63 := Nat.pow_le_pow_right (by norm_num) (hslot h0)
    omega
  rw [riscv_iommu_pmu_start, if_neg hst]
  have hs1e : (start_clear_state s ev).event ev
      = { s.event ev with hw := { (s.event ev).hw with state := 0 } } :=
    Function.update_same _ _ _
  have hs1p : (start_clear_state s ev).pmu = s.pmu := rfl
  have hf1 : Frame s (start_clear_state s ev) := frame_with_state s ev 0
  have hf2 := hf1.trans (frame_set_period c (start_clear_state s ev) ev)
  have v1 : ((start_clear_state s ev).event ev).hw.idx = (i : Int) := by rw [hs1e]; exact hidx
  have v2 : ((start_clear_state s ev).event ev).hw.sample_period = p := by rw [hs1e]; exact hper
  have v3 : ((start_clear_state s ev).event ev).hw.period_left = p := by rw [hs1e]; exact hleft
  have v4 : ((start_clear_state s ev).event ev).count = (s.event ev).count := by rw [hs1e]
  have v5 : ((start_clear_state s ev).event ev).hw.last_period = (s.event ev).hw.last_period := by
    rw [hs1e]
  have v6 : ((start_clear_state s ev).event ev).hw.state = 0 := by rw [hs1e]
  obtain ⟨-, r2, r3, r4, r5, r6, r7⟩ := set_period_fresh c (start_clear_state s ev) ev i k jj p v1
    (by rw [hs1p]; exact hi) (by rw [hs1p]; exact hn) hctr hjj1 hjj hk hk64
    (by rw [hs1p]; exact hmask) hp1 hp2 v2 v3
  have r8 : ((riscv_iommu_pmu_set_period c (start_clear_state s ev) ev).1.event ev).hw.state
      = 0 := by
    rw [riscv_iommu_pmu_set_period, set_period_program_state,
      (set_period_locals_fields _ _).2.2.2.1, v6]
  rw [v4] at r2
  rw [v5] at r4
  rw [hs1p] at r7
  generalize (riscv_iommu_pmu_set_period c (start_clear_state s ev) ev).1 = s2
    at hf2 r2 r3 r4 r5 r6 r7 r8 ⊢
  obtain ⟨s', e1, e2, e3, e4, e5⟩ := start_program_keeps c s2 ev i jj
    (by rw [(hf2.2.2.2.2 ev).1]; exact hidx) (by rw [hf2.2.2.1]; exact hi)
    (by rw [hf2.2.2.1]; exact hn) (by rw [hf2.2.2.1]; exact hlay) (by rw [hf2.1]; exact hev)
    (by rw [get_event_congr c (s.event ev) (s2.event ev) (hf2.2.2.2.2 ev).2.1]; exact htyp)
    hof1 hctr hjj1
    (fun h0 => by
      have h := hval h0
      subst h0
      rw [r6]
      exact h)
  refine ⟨s', e1, hf2.trans e2, ?_, ?_, ?_, ?_, ?_, e4.trans r6, fun a ha => ?_⟩
  · rw [e3, r2]
  · rw [e3, r3]
  · rw [e3, r4]
  · rw [e3, r5]
  · rw [e3, r8]
  · rw [e5 a ha, r7]

theorem counter_advance_fields (c : Consts) (s : State) (idx p : Nat) :
    (counter_advance c s idx p).event = s.event ∧
    (counter_advance c s idx p).pmu.events = s.pmu.events ∧
    (counter_advance c s idx p).pmu.used_counters = s.pmu.used_counters ∧
    (counter_advance c s idx p).pmu.num_counters = s.pmu.num_counters ∧
    (counter_advance c s idx p).pmu.mask_counter = s.pmu.mask_counter ∧
    (counter_advance c s idx p).pmu.reg.q (counter_addr c idx)
      = ((readq s.pmu.reg (counter_addr c idx) + p) &&& s.pmu.mask_counter)
          % 18446744073709551616 ∧
    readl (counter_advance c s idx p).pmu.reg c.RISCV_IOMMU_REG_IOCOUNTOVF
      = BIT idx % 4294967296 := by
  refine ⟨rfl, rfl, rfl, rfl, rfl, ?_, ?_⟩
  · simp only [counter_advance, writel, writeq, Function.update_same]
  · simp only [counter_advance, readl_writel_same]

theorem frame_counter_advance (c : Consts) (s : State) (idx p : Nat) :
    Frame s (counter_advance c s idx p) :=
  ⟨rfl, rfl, rfl, rfl, fun _ => ⟨rfl, rfl, rfl, rfl, rfl⟩⟩

/-! ## The round trip of the cycle counter with a 64-bit mask -/

set_option maxRecDepth 100000 in
/-- C11, evaluated on the code: on an empty bank of 8 slots with the 64-bit
mask a cycle-count request with period 1000 is added (slot 0) and started.
`set_period` loads `(-1000) & M = 2 ^ 64 - 1000`, but arming the overflow
interrupt of slot 0 clears bit 63 of the cycle counter (lines 188-189), so
`start` leaves `2 ^ 63 - 1000` in it.  After 1000 events the counter reads
`2 ^ 63`, not 0, and the handler leaves the total at `2 ^ 63 + 1000`, not at
1000. -/
theorem overflow_round_trip_cycle64 :
    (riscv_iommu_pmu_add sampleConsts sampleState64 0x4000 0).map (fun r => r.2) = some 0 ∧
    sampleStateCycle64.pmu.mask_counter = 2 ^ 64 - 1 ∧
    sampleStateCycle64.pmu.events 0 = some 0x4000 ∧
    (sampleStateCycle64.event 0x4000).hw.idx = 0 ∧
    (sampleStateCycle64.event 0x4000).hw.state &&& sampleConsts.PERF_HES_STOPPED ≠ 0 ∧
    (sampleStateCycle64.event 0x4000).attr_sample_period = 1000 ∧
    (sampleStateCycle64.event 0x4000).hw.sample_period = 1000 ∧
    (sampleStateCycle64.event 0x4000).hw.period_left = 1000 ∧
    (sampleStateCycle64.event 0x4000).hw.last_period = 1000 ∧
    (sampleStateCycle64.event 0x4000).count = 0 ∧
    1000 ≤ sampleStateCycle64.pmu.mask_counter / 2 ∧
    toU64 (-1000) &&& sampleStateCycle64.pmu.mask_counter = 2 ^ 64 - 1000 ∧
    (riscv_iommu_pmu_start sampleConsts sampleStateCycle64 0x4000 0).map
        (fun s1 => (readq s1.pmu.reg 0x60,
          readq (counter_advance sampleConsts s1 0 1000).pmu.reg 0x60))
      = some (2 ^ 63 - 1000, 2 ^ 63) ∧
    (riscv_iommu_pmu_handle_irq sampleConsts (fun _ _ => false)
        (counter_advance sampleConsts sampleStateCycle64Run 0 1000)).map
        (fun r => (r.2, (r.1.st.event 0x4000).count, r.1.samples,
          readq r.1.st.pmu.reg 0x60))
      = some (irqreturn_t.IRQ_HANDLED, 2 ^ 63 + 1000,
          [{ event := 0x4000, period := 1000 }], 2 ^ 63 - 1000) := by
  refine ⟨?_, ?_, ?_, ?_, ?_, ?_, ?_, ?_, ?_, ?_, ?_, ?_, ?_, ?_⟩ <;> decide!

/-- C11 as the code has it: a bank of at most 32 slots with counter mask
`M = 2 ^ k - 1`, `k ≤ 64`, its occupied slots live and of the kind of their
request; a stopped sampling request with period `p`, `1 ≤ p ≤ M / 2`, recorded
at its slot `i`, with `period_left = p` and total 0; and either the slot is
not slot 0 or `k ≤ 63`, so that bit 63 of the cycle counter, its overflow flag,
is not part of the load.  `start` loads the counter of the slot with
`(-p) & M = M + 1 - p`.  When the counter then advances by `p`, it wraps to 0;
with the overflow bit of the slot raised, one call of the handler returns
`IRQ_HANDLED`, leaves the total at `p`, emits exactly one sample, which carries
the `last_period` the request had before `start`, and loads the counter with
`(-p) & M` again. -/
theorem overflow_round_trip (c : Consts) (overflow : State → Sample → Bool) (s : State)
    (ev i k jj p flags : Nat) (hn : s.pmu.num_counters ≤ 32)
    (hlay : c.RISCV_IOMMU_REG_IOHPMCYCLES + 8 * s.pmu.num_counters
      ≤ c.RISCV_IOMMU_REG_IOHPMEVT_BASE)
    (hlive : OccupiedLive s) (htyp : SlotsTyped c s)
    (hof1 : c.RISCV_IOMMU_IOHPMCYCLES_OF = 9223372036854775808)
    (hctr : c.RISCV_IOMMU_IOHPMCTR_COUNTER = 2 ^ jj - 1) (hjj : jj ≤ 64)
    (hk : k ≤ jj) (hk64 : k ≤ 64) (hslot : i = 0 → k ≤ 63)
    (hmask : s.pmu.mask_counter = 2 ^ k - 1)
    (hp1 : 1 ≤ p) (hp2 : p ≤ s.pmu.mask_counter / 2)
    (hi : i < s.pmu.num_counters) (hused : s.pmu.used_counters i = true)
    (hev : s.pmu.events i = some ev) (hidx : (s.event ev).hw.idx = (i : Int))
    (hst : (s.event ev).hw.state &&& c.PERF_HES_STOPPED ≠ 0)
    (hsamp : (s.event ev).attr_sample_period = p)
    (hper : (s.event ev).hw.sample_period = p)
    (hleft : (s.event ev).hw.period_left = p) (hcount : (s.event ev).count = 0) :
    ∃ s1, riscv_iommu_pmu_start c s ev flags = some s1 ∧
      toU64 (-(p : Int)) &&& s.pmu.mask_counter = s.pmu.mask_counter + 1 - p ∧
      readq s1.pmu.reg (c.RISCV_IOMMU_REG_IOHPMCYCLES + 8 * i)
        = toU64 (-(p : Int)) &&& s.pmu.mask_counter ∧
      readq (counter_advance c s1 i p).pmu.reg (c.RISCV_IOMMU_REG_IOHPMCYCLES + 8 * i) = 0 ∧
      ∃ r, riscv_iommu_pmu_handle_irq c overflow (counter_advance c s1 i p)
          = some (r, irqreturn_t.IRQ_HANDLED) ∧
        (r.st.event ev).count = p ∧
        r.samples = [{ event := ev, period := (s.event ev).hw.last_period }] ∧
        readq r.st.pmu.reg (c.RISCV_IOMMU_REG_IOHPMCYCLES + 8 * i)
          = toU64 (-(p : Int)) &&& s.pmu.mask_counter := by
  have hpos : 0 < 2 ^ k := Nat.two_pow_pos k
  have hk2 : 2 ^ k ≤ 2 ^ 64 := Nat.pow_le_pow_right (by norm_num) hk64
  have h64 : (2 : Nat) ^ 64 = 18446744073709551616 := by norm_num
  have hjj1 : 1 ≤ jj := by
    rcases Nat.eq_zero_or_pos k with h0 | h0
    · rw [hmask, h0] at hp2
      simp at hp2
      omega
    · omega
  rw [hmask] at hp2
  have hpk : p < 2 ^ k := by omega
  have hp64 : p < 18446744073709551616 := by omega
  have hload : toU64 (-(p : Int)) &&& s.pmu.mask_counter = 2 ^ k - p := by
    rw [hmask, neg_and_mask k (p : Int) (by omega) (by omega) (by exact_mod_cast hpk),
      Int.toNat_ofNat]
  have hca := counter_addr_eq c i (by omega)
  have hp0 : p ≠ 0 := by omega
  have hlt : 2 ^ k - p < 18446744073709551616 := by omega
  have hld : 2 ^ k - p = 2 ^ k - 1 + 1 - p := by omega
  have hbit : BIT i % 4294967296 = BIT i := by
    rw [BIT]
    apply Nat.mod_eq_of_lt
    have h1 : 2 ^ i < 2 ^ 32 := Nat.pow_lt_pow_right (by norm_num) (by omega)
    omega
  obtain ⟨s1, a1, a2, a3, a4, a5, a6, -, a8, -⟩ := start_fresh c s ev i k jj p flags hst hidx hi
    hn hlay hev (htyp i ev hi hused hev) hof1 hctr hjj1 hjj hk hk64 hslot hmask hp1 hp2 hper
    hleft
  obtain ⟨b1, b2, b3, b4, b5, b6, b7⟩ := counter_advance_fields c s1 i p
  have hwrap : (counter_advance c s1 i p).pmu.reg.q (counter_addr c i) = 0 := by
    rw [b6, readq, a8, Nat.mod_eq_of_lt hlt,
      a2.2.2.2.1, hmask, Nat.and_pow_two_sub_one_eq_mod, Nat.sub_add_cancel (Nat.le_of_lt hpk),
      Nat.mod_self, Nat.zero_mod]
  have hf3 := a2.trans (frame_counter_advance c s1 i p)
  obtain ⟨r, c1, c2, c3, c4⟩ := handle_irq_wrapped c overflow (counter_advance c s1 i p) ev i k jj
    p (by rw [b4, a2.2.2.1]; exact hn) (by rw [b4, a2.2.2.1]; exact hlay)
    (occupiedLive_frame s _ hf3 hlive) (slotsTyped_frame c s _ hf3 htyp) hof1 hctr hjj1 hjj hk
    hk64 hslot (by rw [b5, a2.2.2.2.1]; exact hmask) hp1 hp2
    (by rw [b2, a2.1]; exact hev)
    (by rw [b1, (a2.2.2.2.2 ev).2.2.1, hsamp]; exact hp0)
    (by rw [b1, (a2.2.2.2.2 ev).1]; exact hidx)
    (by rw [b4, a2.2.2.1]; exact hi)
    (by rw [b1, (a2.2.2.2.2 ev).2.2.2.2]; exact hper)
    (by rw [b1]; exact a4)
    (by rw [b1]; exact a6)
    hwrap
    (by rw [b7, hbit])
  rw [b1, a3, hcount, Nat.zero_add, Nat.mod_eq_of_lt hp64] at c3
  rw [b1, a5] at c2
  refine ⟨s1, a1, ?_, ?_, ?_, r, c1, c3, c2, ?_⟩
  · rw [hload, hmask]
    exact hld
  · rw [hload, ← hca, readq, a8]
    exact Nat.mod_eq_of_lt hlt
  · rw [← hca, readq, hwrap]
  · rw [hload, ← hca, readq, c4]
    exact Nat.mod_eq_of_lt hlt

theorem sampleStateAB_live : OccupiedLive sampleStateAB := by
  intro i hi hu
  have hn : sampleStateAB.pmu.num_counters = 8 := by decide
  rw [hn] at hi
  interval_cases i
  · exact absurd hu (by decide)
  · exact ⟨1, by decide⟩
  · exact ⟨2, by decide⟩
  all_goals exact absurd hu (by decide)

theorem sampleStateAB_typed : SlotsTyped sampleConsts sampleStateAB := by
  intro i e hi hu he
  have hn : sampleStateAB.pmu.num_counters = 8 := by decide
  rw [hn] at hi
  interval_cases i
  · exact absurd hu (by decide)
  · have h : sampleStateAB.pmu.events 1 = some 1 := by decide
    obtain rfl : 1 = e := Option.some.inj (h.symm.trans he)
    decide
  · have h : sampleStateAB.pmu.events 2 = some 2 := by decide
    obtain rfl : 2 = e := Option.some.inj (h.symm.trans he)
    decide
  all_goals exact absurd hu (by decide)

/-- Witness for C11: the sample bank of 8 slots with mask `0xFFFFFFFF`, the
stopped request 1 with period 1000 at slot 1. -/
theorem overflow_round_trip_witness :
    (sampleStateAB.pmu.num_counters = 8 ∧ sampleStateAB.pmu.mask_counter = 0xFFFFFFFF ∧
      (sampleStateAB.event 1).hw.sample_period = 1000 ∧
      (sampleStateAB.event 1).hw.period_left = 1000 ∧
      (sampleStateAB.event 1).hw.last_period = 1000 ∧ (sampleStateAB.event 1).count = 0 ∧
      (sampleStateAB.event 1).hw.state &&& sampleConsts.PERF_HES_STOPPED ≠ 0) ∧
    ∃ s1, riscv_iommu_pmu_start sampleConsts sampleStateAB 1 0 = some s1 ∧
      toU64 (-((1000 : Nat) : Int)) &&& sampleStateAB.pmu.mask_counter
        = sampleStateAB.pmu.mask_counter + 1 - 1000 ∧
      readq s1.pmu.reg (sampleConsts.RISCV_IOMMU_REG_IOHPMCYCLES + 8 * 1)
        = toU64 (-((1000 : Nat) : Int)) &&& sampleStateAB.pmu.mask_counter ∧
      readq (counter_advance sampleConsts s1 1 1000).pmu.reg
        (sampleConsts.RISCV_IOMMU_REG_IOHPMCYCLES + 8 * 1) = 0 ∧
      ∃ r, riscv_iommu_pmu_handle_irq sampleConsts (fun _ _ => false)
            (counter_advance sampleConsts s1 1 1000)
          = some (r, irqreturn_t.IRQ_HANDLED) ∧
        (r.st.event 1).count = 1000 ∧
        r.samples = [{ event := 1, period := (sampleStateAB.event 1).hw.last_period }] ∧
        readq r.st.pmu.reg (sampleConsts.RISCV_IOMMU_REG_IOHPMCYCLES + 8 * 1)
          = toU64 (-((1000 : Nat) : Int)) &&& sampleStateAB.pmu.mask_counter :=
  ⟨⟨by decide, by decide, by decide, by decide, by decide, by decide, by decide⟩,
    overflow_round_trip sampleConsts (fun _ _ => false) sampleStateAB 1 1 32 64 1000 0
      (by decide) (by decide) sampleStateAB_live sampleStateAB_typed (by decide) (by decide)
      (by decide) (by decide) (by decide) (by decide) (by decide) (by decide) (by decide)
      (by decide) (by decide) (by decide) (by decide) (by decide) (by decide) (by decide)
      (by decide) (by decide)⟩

/-! ## Occupied slots of a reachable bank -/

theorem reach_num (c : Consts) (s : State) (opn : List Nat) (hr : Reach c s opn) :
    s.pmu.num_counters < 2147483648 := by
  induction hr with
  | empty s hnum _ _ => exact hnum
  | add_ok s s' opn ev flags _ _ hadd ih =>
    by_cases hb : add_slot c s ev = s.pmu.num_counters
    · rw [add_busy c s ev flags ih hb] at hadd
      simp only [Option.some.injEq, Prod.mk.injEq] at hadd
      rw [← hadd.1]
      exact ih
    · obtain ⟨s0, h0, -, -, hnum, -⟩ := add_ok_view c s ev flags ih hb
      rw [h0] at hadd
      simp only [Option.some.injEq, Prod.mk.injEq, and_true] at hadd
      rw [← hadd, hnum]
      exact ih
  | add_fail s s' opn ev flags r _ _ hadd hret ih =>
    rw [add_fail_same c s s' ev flags r ih hadd hret]
    exact ih
  | del s s' opn ev flags _ _ hdel ih =>
    by_cases hneg : (s.event ev).hw.idx < 0
    · rw [riscv_iommu_pmu_del] at hdel
      simp only [if_pos hneg] at hdel
      exact absurd hdel (by simp)
    · obtain ⟨s0, h0, -, -, hnum, -⟩ := del_view c s ev flags (not_lt.mp hneg)
      rw [h0] at hdel
      simp only [Option.some.injEq] at hdel
      rw [← hdel, hnum]
      exact ih

/-- In every bank state reachable by `add` and `del` from an empty bank, each
occupied slot has a live request, and the request is a cycle-count request
exactly when the slot is slot 0. -/
theorem reach_slots (c : Consts) (s : State) (opn : List Nat) (hr : Reach c s opn) :
    ∀ i, s.pmu.used_counters i = true →
      ∃ e, s.pmu.events i = some e ∧
        (get_event c (s.event e) = c.RISCV_IOMMU_HPMEVENT_CYCLE ↔ i = 0) := by
  induction hr with
  | empty s hnum hused _ =>
    intro i hi
    rw [hused i] at hi
    exact absurd hi (by decide)
  | add_ok s s' opn ev flags hr _ hadd ih =>
    have hn := (reach_num c s opn hr)
    by_cases hb : add_slot c s ev = s.pmu.num_counters
    · rw [add_busy c s ev flags hn hb] at hadd
      simp only [Option.some.injEq, Prod.mk.injEq] at hadd
      rw [← hadd.1]
      exact ih
    · obtain ⟨s0, h0, hu, he, -, -, -, hcfg⟩ := add_ok_view c s ev flags hn hb
      rw [h0] at hadd
      simp only [Option.some.injEq, Prod.mk.injEq, and_true] at hadd
      subst hadd
      intro i hi
      by_cases his : i = add_slot c s ev
      · refine ⟨ev, by rw [he, his, Function.update_same], ?_⟩
        rw [get_event_congr c (s.event ev) (s0.event ev) (hcfg ev), his]
        constructor
        · intro hc
          exact add_slot_cycle c s ev (fun h => h hc)
        · intro h0s
          by_contra hnc
          have := (add_slot_nonCycle c s ev hnc hb).1
          omega
      · rw [hu, Function.update_noteq his] at hi
        obtain ⟨e, h1, h2⟩ := ih i hi
        refine ⟨e, by rw [he, Function.update_noteq his]; exact h1, ?_⟩
        rw [get_event_congr c (s.event e) (s0.event e) (hcfg e)]
        exact h2
  | add_fail s s' opn ev flags r hr _ hadd hret ih =>
    rw [add_fail_same c s s' ev flags r (reach_num c s opn hr) hadd hret]
    exact ih
  | del s s' opn ev flags _ _ hdel ih =>
    by_cases hneg : (s.event ev).hw.idx < 0
    · rw [riscv_iommu_pmu_del] at hdel
      simp only [if_pos hneg] at hdel
      exact absurd hdel (by simp)
    · obtain ⟨s0, h0, hu, he, -, -, hcfg⟩ := del_view c s ev flags (not_lt.mp hneg)
      rw [h0] at hdel
      simp only [Option.some.injEq] at hdel
      subst hdel
      intro i hi
      by_cases his : i = (s.event ev).hw.idx.toNat
      · rw [hu, his, Function.update_same] at hi
        exact absurd hi (by decide)
      · rw [hu, Function.update_noteq his] at hi
        obtain ⟨e, h1, h2⟩ := ih i hi
        refine ⟨e, by rw [he, Function.update_noteq his]; exact h1, ?_⟩
        rw [get_event_congr c (s.event e) (s0.event e) (hcfg e)]
        exact h2

/-- The occupied slots of a reachable bank are live and typed. -/
theorem reach_occupied (c : Consts) (s : State) (opn : List Nat) (hr : Reach c s opn) :
    OccupiedLive s ∧ SlotsTyped c s := by
  have h := reach_slots c s opn hr
  refine ⟨fun i _ hu => ?_, fun i e _ hu he => ?_⟩
  · obtain ⟨e, he, -⟩ := h i hu
    exact ⟨e, he⟩
  · obtain ⟨e', he', ht⟩ := h i hu
    obtain rfl : e' = e := Option.some.inj (he'.symm.trans he)
    exact ht

/-! ## Reading, closing and a busy bank -/

/-- C22: `read` changes nothing but the accumulated total, the previous
snapshot and `period_left` of its request: the bank (every register, the
inhibit register, the bitmap, the slot table) is the same, every other request
is the same, and the slot, the descriptor, the state flags, the sample period
and `last_period` of the request are the same. -/
theorem read_changes_totals_only (c : Consts) (s : State) (ev : Nat) :
    (riscv_iommu_pmu_read c s ev).pmu = s.pmu ∧
    (∀ h, h ≠ ev → (riscv_iommu_pmu_read c s ev).event h = s.event h) ∧
    ((riscv_iommu_pmu_read c s ev).event ev).hw.state = (s.event ev).hw.state ∧
    ((riscv_iommu_pmu_read c s ev).event ev).hw.idx = (s.event ev).hw.idx ∧
    ((riscv_iommu_pmu_read c s ev).event ev).hw.config = (s.event ev).hw.config ∧
    ((riscv_iommu_pmu_read c s ev).event ev).hw.sample_period
      = (s.event ev).hw.sample_period ∧
    ((riscv_iommu_pmu_read c s ev).event ev).hw.last_period = (s.event ev).hw.last_period ∧
    ((riscv_iommu_pmu_read c s ev).event ev).attr_config = (s.event ev).attr_config ∧
    ((riscv_iommu_pmu_read c s ev).event ev).attr_sample_period
      = (s.event ev).attr_sample_period := by
  rw [riscv_iommu_pmu_read]
  refine ⟨update_pmu c s ev, fun h hh => update_event_ne c s ev h hh, ?_⟩
  rw [update_event_same]
  exact ⟨rfl, rfl, rfl, rfl, rfl, rfl, rfl⟩

/-- C23: for a request assigned to slot `i`, `del` returns, and afterwards
bit `i` of the bitmap is clear and entry `i` of the slot table is empty, while
the bit and the entry of every other slot are as before. -/
theorem del_releases_its_slot (c : Consts) (s : State) (ev flags i : Nat)
    (hidx : (s.event ev).hw.idx = (i : Int)) :
    ∃ s', riscv_iommu_pmu_del c s ev flags = some s' ∧
      s'.pmu.used_counters i = false ∧ s'.pmu.events i = none ∧
      (∀ j, j ≠ i → s'.pmu.used_counters j = s.pmu.used_counters j ∧
        s'.pmu.events j = s.pmu.events j) := by
  obtain ⟨s', h0, hu, he, -⟩ := del_view c s ev flags (by rw [hidx]; exact Int.natCast_nonneg i)
  rw [hidx, Int.toNat_ofNat] at hu he
  refine ⟨s', h0, ?_, ?_, fun j hj => ⟨?_, ?_⟩⟩
  · rw [hu, Function.update_same]
  · rw [he, Function.update_same]
  · rw [hu, Function.update_noteq hj]
  · rw [he, Function.update_noteq hj]

/-- Witness for C23: request 2 at slot 2 of the sample bank. -/
theorem del_releases_its_slot_witness :
    (sampleStateAB.event 2).hw.idx = ((2 : Nat) : Int) ∧
    ∃ s', riscv_iommu_pmu_del sampleConsts sampleStateAB 2 0 = some s' ∧
      s'.pmu.used_counters 2 = false ∧ s'.pmu.events 2 = none ∧
      (∀ j, j ≠ 2 → s'.pmu.used_counters j = sampleStateAB.pmu.used_counters j ∧
        s'.pmu.events j = sampleStateAB.pmu.events j) :=
  ⟨by decide, del_releases_its_slot sampleConsts sampleStateAB 2 0 2 (by decide)⟩

/-- C30: `add` returns `-EAGAIN` exactly when no slot is left for the request,
and then the state it returns is the state it was given: the bitmap, the slot
table, every register and every field of every request are unchanged. -/
theorem add_busy_changes_nothing (c : Consts) (s : State) (ev flags : Nat)
    (hn : s.pmu.num_counters < 2147483648) (hE : 0 < c.EAGAIN) :
    (add_slot c s ev = s.pmu.num_counters →
      riscv_iommu_pmu_add c s ev flags = some (s, -(c.EAGAIN : Int))) ∧
    (∀ s', riscv_iommu_pmu_add c s ev flags = some (s', -(c.EAGAIN : Int)) →
      s' = s ∧ add_slot c s ev = s.pmu.num_counters) := by
  refine ⟨fun h => add_busy c s ev flags hn h, fun s' h => ?_⟩
  have hne : -(c.EAGAIN : Int) ≠ 0 := by omega
  refine ⟨add_fail_same c s s' ev flags _ hn h hne, ?_⟩
  by_contra hb
  obtain ⟨s0, h0, -⟩ := add_ok c s ev flags hn hb
  rw [h0] at h
  simp only [Option.some.injEq, Prod.mk.injEq] at h
  omega

/-- Witness for C30: request 9 on the full sample bank. -/
theorem add_busy_changes_nothing_witness :
    (sampleStateFull.pmu.num_counters < 2147483648 ∧ 0 < sampleConsts.EAGAIN ∧
      add_slot sampleConsts sampleStateFull 9 = sampleStateFull.pmu.num_counters) ∧
    riscv_iommu_pmu_add sampleConsts sampleStateFull 9 0
      = some (sampleStateFull, -(sampleConsts.EAGAIN : Int)) :=
  ⟨⟨by decide, by decide, by decide⟩,
    (add_busy_changes_nothing sampleConsts sampleStateFull 9 0 (by decide) (by decide)).1
      (by decide)⟩

/-! ## The overflow bit of a slot -/

theorem and_not63_bits (y b : Nat) :
    ((y &&& u64_not 9223372036854775808) % 18446744073709551616).testBit b
      = (decide (b < 63) && y.testBit b) := by
  rw [u64_not_bit63, show (18446744073709551616 : Nat) = 2 ^ 64 from rfl,
    Nat.testBit_mod_two_pow, Nat.testBit_and, Nat.testBit_two_pow_sub_one]
  by_cases h : b < 63
  · have h2 : b < 64 := by omega
    simp [h, h2]
  · simp [h]

theorem or_63_bits (y b : Nat) :
    ((y ||| 9223372036854775808) % 18446744073709551616).testBit b
      = (decide (b < 64) && (y.testBit b || decide (b = 63))) := by
  rw [show (18446744073709551616 : Nat) = 2 ^ 64 from rfl, Nat.testBit_mod_two_pow,
    Nat.testBit_or, show (9223372036854775808 : Nat) = 2 ^ 63 from rfl, Nat.testBit_two_pow]
  by_cases h : b = 63
  · simp [h]
  · have h2 : ¬ 63 = b := fun e => h e.symm
    simp [h, h2]

theorem field_bits (x jj b : Nat) (hjj : 63 ≤ jj) (hb : b < 63) :
    (FIELD_GET (2 ^ jj - 1) (x % 18446744073709551616)).testBit b = x.testBit b := by
  rw [FIELD_GET_low jj _ (by omega), Nat.testBit_mod_two_pow,
    show (18446744073709551616 : Nat) = 2 ^ 64 from rfl, Nat.testBit_mod_two_pow]
  have h1 : b < jj := by omega
  have h2 : b < 64 := by omega
  simp [h1, h2]

theorem readq_bits (r : Regs) (a b : Nat) (hb : b < 64) :
    (readq r a).testBit b = (r.q a).testBit b := by
  rw [readq, show (18446744073709551616 : Nat) = 2 ^ 64 from rfl, Nat.testBit_mod_two_pow]
  simp [hb]

/-- Arming and disarming on a slot whose request has the kind of the slot, as
one 64-bit write to the register that carries the overflow bit of the slot. -/
theorem ovf_intr_write (c : Consts) (s : State) (i ev jj : Nat)
    (hi : i < s.pmu.num_counters) (hn : s.pmu.num_counters ≤ 32)
    (hev : s.pmu.events i = some ev)
    (htyp : get_event c (s.event ev) = c.RISCV_IOMMU_HPMEVENT_CYCLE ↔ i = 0)
    (hof1 : c.RISCV_IOMMU_IOHPMCYCLES_OF = 9223372036854775808)
    (hof2 : c.RISCV_IOMMU_IOHPMEVT_OF = 9223372036854775808)
    (hctr : c.RISCV_IOMMU_IOHPMCTR_COUNTER = 2 ^ jj - 1) (hjj : 63 ≤ jj) :
    ∃ v, (∀ b, b < 63 → v.testBit b = (s.pmu.reg.q (ovf_addr c i)).testBit b) ∧
      riscv_iommu_pmu_enable_ovf_intr c s i
        = some { s with pmu := { s.pmu with reg := (writeq s.pmu.reg
            (v &&& u64_not 9223372036854775808) (ovf_addr c i)) } } ∧
      riscv_iommu_pmu_disable_ovf_intr c s i
        = some { s with pmu := { s.pmu with reg := (writeq s.pmu.reg
            (v ||| 9223372036854775808) (ovf_addr c i)) } } := by
  by_cases h0 : i = 0
  · have hc := htyp.mpr h0
    have hc0 : counter_addr c i = c.RISCV_IOMMU_REG_IOHPMCYCLES := by
      rw [h0, counter_addr_eq c 0 (by omega), Nat.mul_zero, Nat.add_zero]
    have ha : ovf_addr c i = c.RISCV_IOMMU_REG_IOHPMCYCLES := by rw [ovf_addr, if_pos h0]
    refine ⟨riscv_iommu_pmu_get_counter c s.pmu i, fun b hb => ?_, ?_, ?_⟩
    · rw [get_counter_eq c s.pmu i (Nat.le_of_lt hi), hctr, hc0, ha, readq]
      exact field_bits _ jj b hjj hb
    · rw [enable_ovf_intr_cycle c s i ev hev hc, hof1, ha]
    · rw [disable_ovf_intr_cycle c s i ev hev hc, hof1, ha]
  · have hc : NonCycle c s ev := fun h => h0 (htyp.mp h)
    have h1 : 1 ≤ i := by omega
    have ha : ovf_addr c i = event_addr c i := by
      rw [ovf_addr, if_neg h0, event_addr_eq c i h1 (by omega)]
    refine ⟨readq s.pmu.reg (event_addr c i), fun b hb => ?_, ?_, ?_⟩
    · rw [ha]
      exact readq_bits _ _ b (by omega)
    · rw [enable_ovf_intr_noncycle c s i ev h1 (Nat.le_of_lt hi) hev hc, hof2, ha]
    · rw [disable_ovf_intr_noncycle c s i ev h1 (Nat.le_of_lt hi) hev hc, hof2, ha]

/-- C28: for an occupied slot whose request has the kind of the slot (the
cycle-count request at slot 0, another request at a slot `i ≥ 1`), arming
clears and disarming sets bit 63 of the register of the slot, the counter
register for slot 0 and event selector `i` otherwise; bits 0-62 of that
register, every other 64-bit register, the 32-bit registers, the slot table,
the bitmap and the requests are unchanged. -/
theorem ovf_intr_touches_bit63_only (c : Consts) (s : State) (i ev jj : Nat)
    (hi : i < s.pmu.num_counters) (hn : s.pmu.num_counters ≤ 32)
    (hev : s.pmu.events i = some ev)
    (htyp : get_event c (s.event ev) = c.RISCV_IOMMU_HPMEVENT_CYCLE ↔ i = 0)
    (hof1 : c.RISCV_IOMMU_IOHPMCYCLES_OF = 9223372036854775808)
    (hof2 : c.RISCV_IOMMU_IOHPMEVT_OF = 9223372036854775808)
    (hctr : c.RISCV_IOMMU_IOHPMCTR_COUNTER = 2 ^ jj - 1) (hjj : 63 ≤ jj) :
    ∃ s1 s2, riscv_iommu_pmu_enable_ovf_intr c s i = some s1 ∧
      riscv_iommu_pmu_disable_ovf_intr c s i = some s2 ∧
      (readq s1.pmu.reg (ovf_addr c i)).testBit 63 = false ∧
      (readq s2.pmu.reg (ovf_addr c i)).testBit 63 = true ∧
      (∀ b, b < 63 →
        (readq s1.pmu.reg (ovf_addr c i)).testBit b
          = (readq s.pmu.reg (ovf_addr c i)).testBit b ∧
        (readq s2.pmu.reg (ovf_addr c i)).testBit b
          = (readq s.pmu.reg (ovf_addr c i)).testBit b) ∧
      (∀ a, a ≠ ovf_addr c i →
        s1.pmu.reg.q a = s.pmu.reg.q a ∧ s2.pmu.reg.q a = s.pmu.reg.q a) ∧
      s1.pmu.reg.l = s.pmu.reg.l ∧ s2.pmu.reg.l = s.pmu.reg.l ∧
      s1.pmu.events = s.pmu.events ∧ s2.pmu.events = s.pmu.events ∧
      s1.pmu.used_counters = s.pmu.used_counters ∧
      s2.pmu.used_counters = s.pmu.used_counters ∧
      s1.event = s.event ∧ s2.event = s.event := by
  obtain ⟨v, hv, h1, h2⟩ := ovf_intr_write c s i ev jj hi hn hev htyp hof1 hof2 hctr hjj
  refine ⟨_, _, h1, h2, ?_, ?_, fun b hb => ⟨?_, ?_⟩, fun a ha => ⟨?_, ?_⟩,
    rfl, rfl, rfl, rfl, rfl, rfl, rfl, rfl⟩
  · simp only [readq_writeq_same, Nat.mod_mod]
    rw [and_not63_bits]
    simp
  · simp only [readq_writeq_same, Nat.mod_mod]
    rw [or_63_bits]
    simp
  · simp only [readq_writeq_same, Nat.mod_mod]
    rw [and_not63_bits, readq_bits _ _ b (by omega), hv b hb]
    simp [hb]
  · have hb64 : b < 64 := by omega
    have hne : ¬ b = 63 := by omega
    simp only [readq_writeq_same, Nat.mod_mod]
    rw [or_63_bits, readq_bits _ _ b (by omega), hv b hb]
    simp [hb64, hne]
  · simp only [writeq]
    exact Function.update_noteq ha _ _
  · simp only [writeq]
    exact Function.update_noteq ha _ _

/-- Witness for C28: the cycle-count request at slot 0 of the sample bank
with three occupied slots. -/
theorem ovf_intr_touches_bit63_only_witness :
    (0 < sampleStateABC.pmu.num_counters ∧ sampleStateABC.pmu.num_counters ≤ 32 ∧
      sampleStateABC.pmu.events 0 = some 0x4000 ∧
      (get_event sampleConsts (sampleStateABC.event 0x4000)
        = sampleConsts.RISCV_IOMMU_HPMEVENT_CYCLE ↔ 0 = 0) ∧
      sampleConsts.RISCV_IOMMU_IOHPMCYCLES_OF = 9223372036854775808 ∧
      sampleConsts.RISCV_IOMMU_IOHPMEVT_OF = 9223372036854775808 ∧
      sampleConsts.RISCV_IOMMU_IOHPMCTR_COUNTER = 2 ^ 64 - 1) ∧
    ∃ s1 s2, riscv_iommu_pmu_enable_ovf_intr sampleConsts sampleStateABC 0 = some s1 ∧
      riscv_iommu_pmu_disable_ovf_intr sampleConsts sampleStateABC 0 = some s2 ∧
      (readq s1.pmu.reg (ovf_addr sampleConsts 0)).testBit 63 = false ∧
      (readq s2.pmu.reg (ovf_addr sampleConsts 0)).testBit 63 = true :=
  ⟨⟨by decide, by decide, by decide, by decide, by decide, by decide, by decide⟩,
    let ⟨s1, s2, h⟩ := ovf_intr_touches_bit63_only sampleConsts sampleStateABC 0 0x4000 64
      (by decide) (by decide) (by decide) (by decide) (by decide) (by decide) (by decide)
      (by decide)
    ⟨s1, s2, h.1, h.2.1, h.2.2.1, h.2.2.2.1⟩⟩

/-! ## Stopping a request -/

/-- What lines 333-334 of `riscv_iommu_pmu_stop` leave for a request at a slot
`i ≥ 1`: the selector of the slot holds the do-not-count event and the inhibit
bit of the slot is set. -/
theorem stop_quiesce_regs (c : Consts) (s : State) (ev i : Nat)
    (hidx : (s.event ev).hw.idx = (i : Int)) (h1 : 1 ≤ i) (hi : i < s.pmu.num_counters)
    (hn : s.pmu.num_counters ≤ 32) :
    (stop_quiesce c s ev).event = s.event ∧
    (stop_quiesce c s ev).pmu.events = s.pmu.events ∧
    (stop_quiesce c s ev).pmu.used_counters = s.pmu.used_counters ∧
    (stop_quiesce c s ev).pmu.num_counters = s.pmu.num_counters ∧
    (stop_quiesce c s ev).pmu.mask_counter = s.pmu.mask_counter ∧
    (stop_quiesce c s ev).pmu.reg.q = Function.update s.pmu.reg.q (event_addr c i)
      (c.RISCV_IOMMU_HPMEVENT_INVALID % 18446744073709551616) ∧
    (stop_quiesce c s ev).pmu.reg.l = Function.update s.pmu.reg.l c.RISCV_IOMMU_REG_IOCOUNTINH
      ((readl s.pmu.reg c.RISCV_IOMMU_REG_IOCOUNTINH ||| BIT i) % 4294967296) := by
  have hi32 : toU32 (s.event ev).hw.idx = i := by
    rw [hidx]
    exact toU32_natCast i (by omega)
  rw [stop_quiesce, hi32, set_event_eq c s.pmu i _ h1 (Nat.le_of_lt hi)]
  refine ⟨rfl, rfl, rfl, rfl, rfl, ?_, ?_⟩
  · simp only [riscv_iommu_pmu_disable_counter, writeq, writel]
  · simp only [riscv_iommu_pmu_disable_counter, writeq, writel, readl]

/-- The delta `update` computes depends on the request, the mask and the
counter of its slot only. -/
theorem update_delta_congr (c : Consts) (s s' : State) (ev : Nat)
    (he : s'.event ev = s.event ev) (hm : s'.pmu.mask_counter = s.pmu.mask_counter)
    (hg : riscv_iommu_pmu_get_counter c s'.pmu (toU32 (s.event ev).hw.idx)
      = riscv_iommu_pmu_get_counter c s.pmu (toU32 (s.event ev).hw.idx)) :
    update_delta c s' ev = update_delta c s ev := by
  rw [update_delta, update_delta, he, hm, hg]

/-- C21: `stop` on a running request (neither `PERF_HES_STOPPED` nor
`PERF_HES_UPTODATE` set) at a slot `i` of `[1, num_counters)`, for a bank of at
most 32 slots whose counter array ends before the selector array.  Afterwards
selector `i` holds the do-not-count event, inhibit bit `i` is set and the
request has the STOPPED and UPTODATE flags; the accumulated total has grown, in
64-bit arithmetic, by the delta of `update` when `PERF_EF_UPDATE` was passed and
is unchanged when it was not; every other 64-bit register, every other inhibit
bit, every other 32-bit register, the slot table, the bitmap and the other
requests are unchanged. -/
theorem stop_running_slot (c : Consts) (s : State) (ev i flags : Nat)
    (hrun : (s.event ev).hw.state &&& c.PERF_HES_STOPPED = 0)
    (hutd : (s.event ev).hw.state &&& c.PERF_HES_UPTODATE = 0)
    (hidx : (s.event ev).hw.idx = (i : Int)) (h1 : 1 ≤ i) (hi : i < s.pmu.num_counters)
    (hn : s.pmu.num_counters ≤ 32)
    (hlay : c.RISCV_IOMMU_REG_IOHPMCYCLES + 8 * s.pmu.num_counters
      ≤ c.RISCV_IOMMU_REG_IOHPMEVT_BASE)
    (hinv : c.RISCV_IOMMU_HPMEVENT_INVALID < 18446744073709551616) :
    readq (riscv_iommu_pmu_stop c s ev flags).pmu.reg
        (c.RISCV_IOMMU_REG_IOHPMEVT_BASE + 8 * (i - 1)) = c.RISCV_IOMMU_HPMEVENT_INVALID ∧
    (readl (riscv_iommu_pmu_stop c s ev flags).pmu.reg
        c.RISCV_IOMMU_REG_IOCOUNTINH).testBit i = true ∧
    ((riscv_iommu_pmu_stop c s ev flags).event ev).hw.state
      = (s.event ev).hw.state ||| (c.PERF_HES_STOPPED ||| c.PERF_HES_UPTODATE) ∧
    ((riscv_iommu_pmu_stop c s ev flags).event ev).hw.state &&& c.PERF_HES_STOPPED
      = c.PERF_HES_STOPPED ∧
    (flags &&& c.PERF_EF_UPDATE ≠ 0 →
      ((riscv_iommu_pmu_stop c s ev flags).event ev).count
        = ((s.event ev).count + update_delta c s ev) % 18446744073709551616) ∧
    (flags &&& c.PERF_EF_UPDATE = 0 →
      ((riscv_iommu_pmu_stop c s ev flags).event ev).count = (s.event ev).count) ∧
    (∀ b, b ≠ i →
      (readl (riscv_iommu_pmu_stop c s ev flags).pmu.reg c.RISCV_IOMMU_REG_IOCOUNTINH).testBit b
        = (readl s.pmu.reg c.RISCV_IOMMU_REG_IOCOUNTINH).testBit b) ∧
    (∀ a, a ≠ c.RISCV_IOMMU_REG_IOHPMEVT_BASE + 8 * (i - 1) →
      (riscv_iommu_pmu_stop c s ev flags).pmu.reg.q a = s.pmu.reg.q a) ∧
    (∀ a, a ≠ c.RISCV_IOMMU_REG_IOCOUNTINH →
      (riscv_iommu_pmu_stop c s ev flags).pmu.reg.l a = s.pmu.reg.l a) ∧
    (riscv_iommu_pmu_stop c s ev flags).pmu.events = s.pmu.events ∧
    (riscv_iommu_pmu_stop c s ev flags).pmu.used_counters = s.pmu.used_counters ∧
    (∀ h, h ≠ ev → (riscv_iommu_pmu_stop c s ev flags).event h = s.event h) := by
  obtain ⟨q1, q2, q3, q4, q5, q6, q7⟩ := stop_quiesce_regs c s ev i hidx h1 hi hn
  have hea := event_addr_eq c i h1 (by omega)
  rw [hea] at q6
  have hi32 : toU32 (s.event ev).hw.idx = i := by
    rw [hidx]
    exact toU32_natCast i (by omega)
  have hg : riscv_iommu_pmu_get_counter c (stop_quiesce c s ev).pmu (toU32 (s.event ev).hw.idx)
      = riscv_iommu_pmu_get_counter c s.pmu (toU32 (s.event ev).hw.idx) := by
    have hne : counter_addr c i ≠ c.RISCV_IOMMU_REG_IOHPMEVT_BASE + 8 * (i - 1) := by
      rw [counter_addr_eq c i (by omega)]
      omega
    rw [hi32, get_counter_eq c _ i (by rw [q4]; exact Nat.le_of_lt hi),
      get_counter_eq c s.pmu i (Nat.le_of_lt hi), readq, readq, q6, Function.update_noteq hne]
  have hd : update_delta c (stop_quiesce c s ev) ev = update_delta c s ev :=
    update_delta_congr c s _ ev (by rw [q1]) q5 hg
  have hbit : ∀ b, (readl (stop_quiesce c s ev).pmu.reg c.RISCV_IOMMU_REG_IOCOUNTINH).testBit b
      = ((readl s.pmu.reg c.RISCV_IOMMU_REG_IOCOUNTINH).testBit b || decide (b = i)) := by
    intro b
    have h := disable_counter_bit c s.pmu i b (by omega)
    rw [riscv_iommu_pmu_disable_counter] at h
    simp only [readl_writel_same] at h
    rw [readl, q7, Function.update_same, Nat.mod_mod]
    exact h
  have hor := or_or_and_self (s.event ev).hw.state c.PERF_HES_STOPPED c.PERF_HES_UPTODATE
  have hpmu : ∃ s2 : State, (riscv_iommu_pmu_stop c s ev flags) = stop_mark c s2 ev ∧
      s2.pmu = (stop_quiesce c s ev).pmu ∧ (s2.event ev).hw.state = (s.event ev).hw.state ∧
      (∀ h, h ≠ ev → s2.event h = s.event h) ∧
      (flags &&& c.PERF_EF_UPDATE ≠ 0 →
        (s2.event ev).count
          = ((s.event ev).count + update_delta c s ev) % 18446744073709551616) ∧
      (flags &&& c.PERF_EF_UPDATE = 0 → (s2.event ev).count = (s.event ev).count) := by
    by_cases hu : flags &&& c.PERF_EF_UPDATE ≠ 0
    · refine ⟨riscv_iommu_pmu_update c (stop_quiesce c s ev) ev,
        stop_eq_update c s ev flags hrun hu hutd, update_pmu c _ ev, ?_, fun h hh => ?_,
        fun _ => ?_, fun h0 => absurd h0 hu⟩
      · rw [update_event_same, q1]
      · rw [update_event_ne c _ ev h hh, q1]
      · rw [update_event_same, hd, q1]
    · refine ⟨stop_quiesce c s ev, stop_eq_plain c s ev flags hrun (fun h => hu h.1), rfl, ?_,
        fun h hh => ?_, fun h0 => absurd h0 hu, fun _ => ?_⟩
      · rw [q1]
      · rw [q1]
      · rw [q1]
  obtain ⟨s2, e0, e1, e2, e3, e4, e5⟩ := hpmu
  have hst : ((stop_mark c s2 ev).event ev).hw.state
      = (s.event ev).hw.state ||| (c.PERF_HES_STOPPED ||| c.PERF_HES_UPTODATE) := by
    rw [stop_mark_event_same, ← e2]
  have hcnt : ((stop_mark c s2 ev).event ev).count = (s2.event ev).count := by
    rw [stop_mark_event_same]
  have hoth : ∀ h, h ≠ ev → (stop_mark c s2 ev).event h = s.event h := by
    intro h hh
    rw [stop_mark]
    simp only []
    rw [Function.update_noteq hh]
    exact e3 h hh
  rw [e0, stop_mark_pmu, e1]
  refine ⟨?_, ?_, hst, ?_, fun hu => ?_, fun hu => ?_, fun b hb => ?_, fun a ha => ?_,
    fun a ha => ?_, q2, q3, hoth⟩
  · rw [readq, q6, Function.update_same, Nat.mod_mod]
    exact Nat.mod_eq_of_lt hinv
  · rw [hbit i]
    simp
  · rw [hst]
    exact hor
  · rw [hcnt]
    exact e4 hu
  · rw [hcnt]
    exact e5 hu
  · rw [hbit b]
    simp [hb]
  · rw [q6, Function.update_noteq ha]
  · rw [q7, Function.update_noteq ha]

/-- Witness for C21: the running request 1 at slot 1 of the sample bank,
stopped with `PERF_EF_UPDATE`. -/
theorem stop_running_slot_witness :
    ((sampleStateRun.event 1).hw.state &&& sampleConsts.PERF_HES_STOPPED = 0 ∧
      (sampleStateRun.event 1).hw.state &&& sampleConsts.PERF_HES_UPTODATE = 0 ∧
      (sampleStateRun.event 1).hw.idx = ((1 : Nat) : Int) ∧ 1 ≤ 1 ∧
      1 < sampleStateRun.pmu.num_counters ∧ sampleStateRun.pmu.num_counters ≤ 32 ∧
      sampleConsts.RISCV_IOMMU_REG_IOHPMCYCLES + 8 * sampleStateRun.pmu.num_counters
        ≤ sampleConsts.RISCV_IOMMU_REG_IOHPMEVT_BASE ∧
      sampleConsts.RISCV_IOMMU_HPMEVENT_INVALID < 18446744073709551616 ∧
      sampleConsts.PERF_EF_UPDATE &&& sampleConsts.PERF_EF_UPDATE ≠ 0) ∧
    readq (riscv_iommu_pmu_stop sampleConsts sampleStateRun 1 sampleConsts.PERF_EF_UPDATE).pmu.reg
        (sampleConsts.RISCV_IOMMU_REG_IOHPMEVT_BASE + 8 * (1 - 1))
      = sampleConsts.RISCV_IOMMU_HPMEVENT_INVALID ∧
    (readl (riscv_iommu_pmu_stop sampleConsts sampleStateRun 1 sampleConsts.PERF_EF_UPDATE).pmu.reg
        sampleConsts.RISCV_IOMMU_REG_IOCOUNTINH).testBit 1 = true ∧
    ((riscv_iommu_pmu_stop sampleConsts sampleStateRun 1 sampleConsts.PERF_EF_UPDATE).event
        1).count
      = ((sampleStateRun.event 1).count + update_delta sampleConsts sampleStateRun 1)
          % 18446744073709551616 :=
  ⟨⟨by with_unfolding_all decide, by with_unfolding_all decide, by with_unfolding_all decide,
      by decide, by with_unfolding_all decide, by with_unfolding_all decide,
      by with_unfolding_all decide, by decide, by decide⟩,
    (stop_running_slot sampleConsts sampleStateRun 1 1 sampleConsts.PERF_EF_UPDATE
      (by with_unfolding_all decide) (by with_unfolding_all decide)
      (by with_unfolding_all decide) (by decide) (by with_unfolding_all decide)
      (by with_unfolding_all decide) (by with_unfolding_all decide) (by decide)).1,
    (stop_running_slot sampleConsts sampleStateRun 1 1 sampleConsts.PERF_EF_UPDATE
      (by with_unfolding_all decide) (by with_unfolding_all decide)
      (by with_unfolding_all decide) (by decide) (by with_unfolding_all decide)
      (by with_unfolding_all decide) (by with_unfolding_all decide) (by decide)).2.1,
    (stop_running_slot sampleConsts sampleStateRun 1 1 sampleConsts.PERF_EF_UPDATE
      (by with_unfolding_all decide) (by with_unfolding_all decide)
      (by with_unfolding_all decide) (by decide) (by with_unfolding_all decide)
      (by with_unfolding_all decide) (by with_unfolding_all decide) (by decide)).2.2.2.2.1
      (by decide)⟩

/-! ## The clamp of the period programmer -/

/-- C26, evaluated on the code: with the mask `0xFFFFFFFF` (half of it is
`0x7FFFFFFF`) and a request whose `period_left` is `0xC0000000`, `set_period`
loads the counter with `(-0x7FFFFFFF) & 0xFFFFFFFF = 0x80000001`, so the clamp
has acted on the local `left`, while the recorded `period_left` is still
`0xC0000000`, above half the mask. -/
theorem set_period_keeps_long_period_left :
    sampleStateLong.pmu.mask_counter / 2 = 0x7FFFFFFF ∧
    (sampleStateLong.event 1).hw.period_left = 0xC0000000 ∧
    ((riscv_iommu_pmu_set_period sampleConsts sampleStateLong 1).1.event 1).hw.period_left
      = 0xC0000000 ∧
    ((riscv_iommu_pmu_set_period sampleConsts sampleStateLong 1).1.event 1).hw.prev_count
      = toU64 (-0x7FFFFFFF) ∧
    readq (riscv_iommu_pmu_set_period sampleConsts sampleStateLong 1).1.pmu.reg 0x68
      = 0x80000001 := by
  refine ⟨?_, ?_, ?_, ?_, ?_⟩ <;> with_unfolding_all decide

/-- C26 as the code has it: for a positive sample period the value `left`
after the rearm steps is positive and is what `set_period` records as
`period_left`; the clamp acts on the local only, so the snapshot and the value
loaded into the counter are computed from `min left (max_period / 2)`, and the
recorded `period_left` exceeds `max_period / 2` whenever `left` does. -/
theorem set_period_clamps_the_load (c : Consts) (s : State) (ev P : Nat) (L : Int)
    (hP : (s.event ev).hw.sample_period = P) (hL : (s.event ev).hw.period_left = L)
    (hP1 : 1 ≤ P) (hP2 : P < 9223372036854775808)
    (hL1 : -9223372036854775808 ≤ L) (hL2 : L < 9223372036854775808)
    (hM : s.pmu.mask_counter < 18446744073709551616) :
    ∃ left : Int, 0 < left ∧
      (L ≤ -(P : Int) → left = P) ∧ (-(P : Int) < L → L ≤ 0 → left = L + P) ∧
      (0 < L → left = L) ∧
      ((riscv_iommu_pmu_set_period c s ev).1.event ev).hw.period_left = left ∧
      ((riscv_iommu_pmu_set_period c s ev).1.event ev).hw.prev_count
        = toU64 (-(min left ((s.pmu.mask_counter / 2 : Nat) : Int))) ∧
      (riscv_iommu_pmu_set_period c s ev).1.pmu
        = riscv_iommu_pmu_set_counter c s.pmu (toU32 (s.event ev).hw.idx)
            (toU64 (-(min left ((s.pmu.mask_counter / 2 : Nat) : Int)))
              &&& s.pmu.mask_counter) ∧
      (((s.pmu.mask_counter / 2 : Nat) : Int) < left →
        ((s.pmu.mask_counter / 2 : Nat) : Int)
          < ((riscv_iommu_pmu_set_period c s ev).1.event ev).hw.period_left) := by
  obtain ⟨l, hl, l1, l2, l3, k1, k2, k3⟩ :=
    set_period_rearm_cases (s.event ev).hw P L hP hL hP1 hP2 hL1 hL2
  obtain ⟨c1, -, c3, c4⟩ := set_period_clamp_left s.pmu.mask_counter l l1 l2 hM
  have hloc : set_period_locals (s.event ev).hw s.pmu.mask_counter
      = set_period_clamp s.pmu.mask_counter l := by
    rw [set_period_locals_eq, hl]
  obtain ⟨r1, -, r3, -, -, r6⟩ := set_period_result c s ev _ hloc
  have hpl : l.hwc.period_left = l.left := by
    by_cases h1 : L ≤ -(P : Int)
    · obtain ⟨a, -, -, b⟩ := k1 h1
      rw [a, b]
    · by_cases h2 : L ≤ 0
      · obtain ⟨a, -, -, b⟩ := k2 (by omega) h2
        rw [a, b]
      · obtain ⟨a, -, -, b⟩ := k3 (by omega)
        rw [a, b]
  have hmin : (set_period_clamp s.pmu.mask_counter l).left
      = min l.left ((s.pmu.mask_counter / 2 : Nat) : Int) := by
    by_cases h : ((s.pmu.mask_counter / 2 : Nat) : Int) < l.left
    · rw [c3 h, min_eq_right (le_of_lt h)]
    · rw [c4 (not_lt.mp h), min_eq_left (not_lt.mp h)]
  rw [c1] at r1 r6
  rw [hmin] at r3 r6
  rw [l3] at r6
  refine ⟨l.left, l1, fun h => (k1 h).2.2.2, fun h1 h2 => (k2 h1 h2).2.2.2,
    fun h => (k3 h).2.2.2, r1.trans hpl, r3, r6, fun h => ?_⟩
  rw [r1, hpl]
  exact h

/-- Witness for the amended C26: request 1 of the sample bank with the long
period. -/
theorem set_period_clamps_the_load_witness :
    ((sampleStateLong.event 1).hw.sample_period = 0xC0000000 ∧
      (sampleStateLong.event 1).hw.period_left = ((0xC0000000 : Nat) : Int) ∧
      sampleStateLong.pmu.mask_counter < 18446744073709551616) ∧
    ∃ left : Int, 0 < left ∧ (0 < ((0xC0000000 : Nat) : Int) → left = ((0xC0000000 : Nat) : Int)) ∧
      ((riscv_iommu_pmu_set_period sampleConsts sampleStateLong 1).1.event 1).hw.period_left
        = left ∧
      ((riscv_iommu_pmu_set_period sampleConsts sampleStateLong 1).1.event 1).hw.prev_count
        = toU64 (-(min left ((sampleStateLong.pmu.mask_counter / 2 : Nat) : Int))) :=
  ⟨⟨by decide, by decide, by decide⟩,
    let ⟨left, h⟩ := set_period_clamps_the_load sampleConsts sampleStateLong 1 0xC0000000
      ((0xC0000000 : Nat) : Int) (by decide) (by decide) (by decide) (by decide) (by decide)
      (by decide) (by decide)
    ⟨left, h.1, h.2.2.2.1, h.2.2.2.2.1, h.2.2.2.2.2.1⟩⟩

/-! ## The accumulated total -/

theorem update_delta_le (c : Consts) (s : State) (ev : Nat) :
    update_delta c s ev ≤ s.pmu.mask_counter := by
  rw [update_delta]
  exact Nat.and_le_right

/-- The total of a request after `update`: that of the request updated has
grown by the delta in 64-bit arithmetic, the others are as before. -/
theorem update_count (c : Consts) (s : State) (ev h : Nat) :
    ((riscv_iommu_pmu_update c s ev).event h).count = (s.event h).count ∨
    ∃ d, d ≤ s.pmu.mask_counter ∧
      ((riscv_iommu_pmu_update c s ev).event h).count
        = ((s.event h).count + d) % 18446744073709551616 := by
  by_cases hh : h = ev
  · subst hh
    right
    refine ⟨update_delta c s h, update_delta_le c s h, ?_⟩
    rw [update_event_same]
  · left
    rw [update_event_ne c s ev h hh]

theorem set_period_count (c : Consts) (s : State) (ev h : Nat) :
    ((riscv_iommu_pmu_set_period c s ev).1.event h).count = (s.event h).count := by
  rw [riscv_iommu_pmu_set_period]
  by_cases hh : h = ev
  · subst hh
    rw [set_period_program_event_same]
  · rw [set_period_program_event_ne c s ev h _ hh]

theorem stop_mark_count (c : Consts) (s : State) (ev h : Nat) :
    ((stop_mark c s ev).event h).count = (s.event h).count := by
  by_cases hh : h = ev
  · subst hh
    rw [stop_mark_event_same]
  · rw [stop_mark]
    simp only []
    rw [Function.update_noteq hh]

theorem stop_quiesce_event (c : Consts) (s : State) (ev : Nat) :
    (stop_quiesce c s ev).event = s.event := rfl

/-- With flags 0 `stop` leaves every total. -/
theorem stop_zero_count (c : Consts) (s : State) (ev h : Nat) :
    ((riscv_iommu_pmu_stop c s ev 0).event h).count = (s.event h).count := by
  by_cases h1 : (s.event ev).hw.state &&& c.PERF_HES_STOPPED = 0
  · have h2 : ¬ (0 &&& c.PERF_EF_UPDATE ≠ 0 ∧
        (s.event ev).hw.state &&& c.PERF_HES_UPTODATE = 0) := by
      rw [Nat.zero_and]
      exact fun h => h.1 rfl
    rw [stop_eq_plain c s ev 0 h1 h2, stop_mark_count, stop_quiesce_event]
  · rw [stop_eq_stopped c s ev 0 h1]

theorem handle_irq_emit_count (c : Consts) (overflow : State → Sample → Bool)
    (samples : List Sample) (event period : Nat) (s : State) (ret : Int) (h : Nat) :
    ((handle_irq_emit c overflow samples event period s ret).st.event h).count
      = (s.event h).count := by
  rw [handle_irq_emit]
  split_ifs
  · rfl
  · rw [irqLoop_st, stop_zero_count]
  · rfl

/-- The total of a request after one round of the loop of the handler. -/
theorem handle_irq_step_count (c : Consts) (overflow : State → Sample → Bool) (l : IrqLoop)
    (idx h : Nat) :
    ((handle_irq_step c overflow l idx).st.event h).count = (l.st.event h).count ∨
    ∃ d, d ≤ l.st.pmu.mask_counter ∧
      ((handle_irq_step c overflow l idx).st.event h).count
        = ((l.st.event h).count + d) % 18446744073709551616 := by
  rw [handle_irq_step]
  split
  · exact Or.inl rfl
  · rename_i event _
    split_ifs
    · exact Or.inl rfl
    · rw [handle_irq_sample, handle_irq_emit_count, set_period_count]
      exact update_count c l.st event h

/-- Over a list of `m` slots the loop of the handler adds at most `m` times the
mask to a total that is that far from the 64-bit limit, and never lowers it. -/
theorem handle_irq_fold_count (c : Consts) (overflow : State → Sample → Bool) (h : Nat)
    (is : List Nat) :
    ∀ l : IrqLoop,
      (l.st.event h).count + is.length * l.st.pmu.mask_counter < 18446744073709551616 →
      (l.st.event h).count ≤ ((is.foldl (handle_irq_step c overflow) l).st.event h).count ∧
      ((is.foldl (handle_irq_step c overflow) l).st.event h).count
        ≤ (l.st.event h).count + is.length * l.st.pmu.mask_counter := by
  induction is with
  | nil =>
    intro l _
    simp
  | cons a t ih =>
    intro l hfit
    rw [List.length_cons, Nat.succ_mul] at hfit
    have hm := (frame_handle_irq_step c overflow l a).2.2.2.1
    have hstep : (l.st.event h).count ≤ ((handle_irq_step c overflow l a).st.event h).count ∧
        ((handle_irq_step c overflow l a).st.event h).count
          ≤ (l.st.event h).count + l.st.pmu.mask_counter := by
      rcases handle_irq_step_count c overflow l a h with e | ⟨d, hd, e⟩
      · rw [e]
        omega
      · rw [e, Nat.mod_eq_of_lt (by omega)]
        omega
    obtain ⟨i1, i2⟩ := ih (handle_irq_step c overflow l a) (by rw [hm]; omega)
    rw [hm] at i2
    rw [List.foldl_cons, List.length_cons, Nat.succ_mul]
    omega

theorem start_all_step_event (c : Consts) (s s' : State) (idx : Nat)
    (h : start_all_step c s idx = some s') : s'.event = s.event := by
  rw [start_all_step] at h
  split at h
  · exact absurd h (by simp)
  · rename_i s1 h1
    have e1 := (frame_enable_ovf_intr c s s1 idx h1).2
    simp only [Option.some.injEq] at h
    rw [← h]
    exact e1

theorem start_all_fold_event (c : Consts) (is : List Nat) :
    ∀ s s' : State, is.foldlM (start_all_step c) s = some s' → s'.event = s.event := by
  induction is with
  | nil =>
    intro s s' h
    simp only [List.foldlM_nil, pure, Option.some.injEq] at h
    rw [← h]
  | cons a t ih =>
    intro s s' h
    rw [List.foldlM_cons] at h
    cases h1 : start_all_step c s a with
    | none =>
      rw [h1] at h
      exact absurd h (by simp)
    | some s1 =>
      rw [h1] at h
      exact (ih s1 s' h).trans (start_all_step_event c s s1 a h1)

theorem set_bits_length (bm : Nat → Bool) (size : Nat) : (set_bits bm size).length ≤ size := by
  rw [set_bits]
  exact (List.length_filter_le _ _).trans (le_of_eq (List.length_range size))

/-- The total of a request after a handler invocation that returns. -/
theorem handle_irq_count (c : Consts) (overflow : State → Sample → Bool) (s : State) (h : Nat)
    (r : IrqLoop) (ret : irqreturn_t)
    (hfit : (s.event h).count + s.pmu.num_counters * s.pmu.mask_counter
      < 18446744073709551616)
    (hr : riscv_iommu_pmu_handle_irq c overflow s = some (r, ret)) :
    (s.event h).count ≤ (r.st.event h).count ∧
    (r.st.event h).count ≤ (s.event h).count + s.pmu.num_counters * s.pmu.mask_counter := by
  rw [riscv_iommu_pmu_handle_irq] at hr
  split_ifs at hr with h0
  · simp only [Option.some.injEq, Prod.mk.injEq] at hr
    rw [← hr.1]
    simp only [irqLoop_st]
    omega
  · have hlen := set_bits_length
      (fun i => (readl s.pmu.reg c.RISCV_IOMMU_REG_IOCOUNTOVF).testBit i) s.pmu.num_counters
    have hmul := Nat.mul_le_mul_right s.pmu.mask_counter hlen
    obtain ⟨a1, -, -, a4, -⟩ := stop_all_fields c s
    obtain ⟨i1, i2⟩ := handle_irq_fold_count c overflow h
      (set_bits (fun i => (readl s.pmu.reg c.RISCV_IOMMU_REG_IOCOUNTOVF).testBit i)
        s.pmu.num_counters)
      { st := riscv_iommu_pmu_stop_all c s, samples := [] }
      (by rw [irqLoop_st, a1, a4]; omega)
    rw [irqLoop_st, a1] at i1
    rw [irqLoop_st, a1, a4] at i2
    rw [← handle_irq_loop] at i1 i2
    rw [handle_irq_body] at hr
    cases hsa : riscv_iommu_pmu_start_all c
        (handle_irq_loop c overflow s (readl s.pmu.reg c.RISCV_IOMMU_REG_IOCOUNTOVF)).st with
    | none =>
      rw [hsa] at hr
      exact absurd hr (by simp)
    | some s1 =>
      rw [hsa] at hr
      simp only [Option.some.injEq, Prod.mk.injEq] at hr
      rw [riscv_iommu_pmu_start_all] at hsa
      have he := start_all_fold_event c _ _ s1 hsa
      rw [← hr.1, irqLoop_st, he]
      omega

set_option maxRecDepth 100000 in
/-- C25, evaluated on the code: request 1 runs at slot 1 and request 2 is
stopped at slot 2 with inhibit bit 2 set; slot 3 is free with its inhibit bit
clear.  Counter 1 overflows and the handler runs with a consumer that does not
ask to stop.  On return inhibit bit 2 is clear although request 2 is still
stopped, and inhibit bit 3 is set: `riscv_iommu_pmu_stop_all` has inhibited all
slots and `riscv_iommu_pmu_start_all` has enabled the occupied ones, whatever
their state at entry. -/
theorem handle_irq_enables_stopped_slot :
    (sampleStateStopped2.pmu.used_counters 1 = true ∧
      sampleStateStopped2.pmu.used_counters 2 = true ∧
      sampleStateStopped2.pmu.used_counters 3 = false ∧
      (sampleStateStopped2.event 1).hw.state = 0 ∧
      (sampleStateStopped2.event 2).hw.state
        = sampleConsts.PERF_HES_STOPPED ||| sampleConsts.PERF_HES_UPTODATE ∧
      (readl sampleStateStopped2.pmu.reg sampleConsts.RISCV_IOMMU_REG_IOCOUNTINH).testBit 1
        = false ∧
      (readl sampleStateStopped2.pmu.reg sampleConsts.RISCV_IOMMU_REG_IOCOUNTINH).testBit 2
        = true ∧
      (readl sampleStateStopped2.pmu.reg sampleConsts.RISCV_IOMMU_REG_IOCOUNTINH).testBit 3
        = false) ∧
    (riscv_iommu_pmu_handle_irq sampleConsts (fun _ _ => false)
        (counter_advance sampleConsts sampleStateStopped2 1 1000)).map
      (fun r => (r.2, (r.1.st.event 2).hw.state,
        (readl r.1.st.pmu.reg sampleConsts.RISCV_IOMMU_REG_IOCOUNTINH).testBit 1,
        (readl r.1.st.pmu.reg sampleConsts.RISCV_IOMMU_REG_IOCOUNTINH).testBit 2,
        (readl r.1.st.pmu.reg sampleConsts.RISCV_IOMMU_REG_IOCOUNTINH).testBit 3))
      = some (irqreturn_t.IRQ_HANDLED,
          sampleConsts.PERF_HES_STOPPED ||| sampleConsts.PERF_HES_UPTODATE,
          false, false, true) := by
  refine ⟨⟨?_, ?_, ?_, ?_, ?_, ?_, ?_, ?_⟩, ?_⟩ <;> with_unfolding_all decide

/-! ## Requests the handler skips -/

theorem stop_event_ne (c : Consts) (s : State) (ev flags h : Nat) (hh : h ≠ ev) :
    (riscv_iommu_pmu_stop c s ev flags).event h = s.event h := by
  have hm : ∀ s2 : State, (stop_mark c s2 ev).event h = s2.event h := by
    intro s2
    rw [stop_mark]
    simp only []
    rw [Function.update_noteq hh]
  by_cases h1 : (s.event ev).hw.state &&& c.PERF_HES_STOPPED = 0
  · by_cases h2 : flags &&& c.PERF_EF_UPDATE ≠ 0 ∧
        (s.event ev).hw.state &&& c.PERF_HES_UPTODATE = 0
    · rw [stop_eq_update c s ev flags h1 h2.1 h2.2, hm, update_event_ne c _ ev h hh,
        stop_quiesce_event]
    · rw [stop_eq_plain c s ev flags h1 h2, hm, stop_quiesce_event]
  · rw [stop_eq_stopped c s ev flags h1]

theorem set_period_event_ne (c : Consts) (s : State) (ev h : Nat) (hh : h ≠ ev) :
    (riscv_iommu_pmu_set_period c s ev).1.event h = s.event h := by
  rw [riscv_iommu_pmu_set_period, set_period_program_event_ne c s ev h _ hh]

theorem handle_irq_emit_spec (c : Consts) (overflow : State → Sample → Bool)
    (samples : List Sample) (event period : Nat) (s : State) (ret : Int) (h : Nat)
    (hh : h ≠ event) :
    (handle_irq_emit c overflow samples event period s ret).st.event h = s.event h ∧
    (∀ x ∈ (handle_irq_emit c overflow samples event period s ret).samples,
      x ∈ samples ∨ x.event = event) := by
  rw [handle_irq_emit]
  split_ifs
  · exact ⟨rfl, fun x hx => Or.inl hx⟩
  · refine ⟨?_, fun x hx => ?_⟩
    · rw [irqLoop_st, stop_event_ne c s event 0 h hh]
    · rcases List.mem_append.mp hx with h1 | h1
      · exact Or.inl h1
      · rw [List.mem_singleton] at h1
        rw [h1]
        exact Or.inr rfl
  · refine ⟨rfl, fun x hx => ?_⟩
    rcases List.mem_append.mp hx with h1 | h1
    · exact Or.inl h1
    · rw [List.mem_singleton] at h1
      rw [h1]
      exact Or.inr rfl

/-- One round of the loop of the handler, seen from a request `ev` that does
not sample: if the slot holds `ev` the round changes nothing at all; in every
case `ev` is as before and no sample of `ev` is added. -/
theorem handle_irq_step_skips (c : Consts) (overflow : State → Sample → Bool) (l : IrqLoop)
    (idx ev : Nat) (hns : (l.st.event ev).attr_sample_period = 0) :
    (l.st.pmu.events idx = some ev → handle_irq_step c overflow l idx = l) ∧
    (handle_irq_step c overflow l idx).st.event ev = l.st.event ev ∧
    (∀ x ∈ (handle_irq_step c overflow l idx).samples, x ∈ l.samples ∨ x.event ≠ ev) := by
  have hsam : is_sampling_event (l.st.event ev) = false := by
    simp [is_sampling_event, hns]
  refine ⟨fun he => ?_, ?_⟩
  · rw [handle_irq_step]
    simp only [he]
    rw [if_pos hsam]
  · rw [handle_irq_step]
    split
    · exact ⟨rfl, fun x hx => Or.inl hx⟩
    · rename_i e _
      split_ifs with h1
      · exact ⟨rfl, fun x hx => Or.inl hx⟩
      · have hne : ev ≠ e := by
          intro h
          rw [← h] at h1
          exact h1 hsam
        rw [handle_irq_sample]
        obtain ⟨a1, a2⟩ := handle_irq_emit_spec c overflow l.samples e
          ((riscv_iommu_pmu_update c l.st e).event e).hw.last_period
          (riscv_iommu_pmu_set_period c (riscv_iommu_pmu_update c l.st e) e).1
          (riscv_iommu_pmu_set_period c (riscv_iommu_pmu_update c l.st e) e).2 ev hne
        refine ⟨?_, fun x hx => ?_⟩
        · rw [a1, set_period_event_ne c _ e ev hne, update_event_ne c l.st e ev hne]
        · rcases a2 x hx with h2 | h2
          · exact Or.inl h2
          · right
            rw [h2]
            exact fun h => hne h.symm

/-- The loop of the handler leaves a request that does not sample and emits
no sample for it. -/
theorem handle_irq_fold_skips (c : Consts) (overflow : State → Sample → Bool) (ev : Nat)
    (is : List Nat) :
    ∀ l : IrqLoop, (l.st.event ev).attr_sample_period = 0 →
      (is.foldl (handle_irq_step c overflow) l).st.event ev = l.st.event ev ∧
      (∀ x ∈ (is.foldl (handle_irq_step c overflow) l).samples, x ∈ l.samples ∨ x.event ≠ ev) := by
  induction is with
  | nil => exact fun l _ => ⟨rfl, fun x hx => Or.inl hx⟩
  | cons a t ih =>
    intro l hns
    obtain ⟨-, s1, s2⟩ := handle_irq_step_skips c overflow l a ev hns
    obtain ⟨i1, i2⟩ := ih (handle_irq_step c overflow l a) (by rw [s1]; exact hns)
    rw [List.foldl_cons]
    refine ⟨i1.trans s1, fun x hx => ?_⟩
    rcases i2 x hx with h1 | h1
    · exact s2 x h1
    · exact Or.inr h1

/-- A handler invocation that returns leaves a request that does not sample as
it was, and emits no sample for it. -/
theorem handle_irq_skips_request (c : Consts) (overflow : State → Sample → Bool) (s : State)
    (ev : Nat) (r : IrqLoop) (ret : irqreturn_t)
    (hns : (s.event ev).attr_sample_period = 0)
    (hr : riscv_iommu_pmu_handle_irq c overflow s = some (r, ret)) :
    r.st.event ev = s.event ev ∧ (∀ x ∈ r.samples, x.event ≠ ev) := by
  rw [riscv_iommu_pmu_handle_irq] at hr
  split_ifs at hr with h0
  · simp only [Option.some.injEq, Prod.mk.injEq] at hr
    rw [← hr.1]
    exact ⟨rfl, fun x hx => absurd hx (List.not_mem_nil x)⟩
  · obtain ⟨a1, -⟩ := stop_all_fields c s
    obtain ⟨i1, i2⟩ := handle_irq_fold_skips c overflow ev
      (set_bits (fun i => (readl s.pmu.reg c.RISCV_IOMMU_REG_IOCOUNTOVF).testBit i)
        s.pmu.num_counters)
      { st := riscv_iommu_pmu_stop_all c s, samples := [] }
      (by rw [irqLoop_st, a1]; exact hns)
    rw [irqLoop_st, a1] at i1
    rw [← handle_irq_loop] at i1 i2
    rw [handle_irq_body] at hr
    cases hsa : riscv_iommu_pmu_start_all c
        (handle_irq_loop c overflow s (readl s.pmu.reg c.RISCV_IOMMU_REG_IOCOUNTOVF)).st with
    | none =>
      rw [hsa] at hr
      exact absurd hr (by simp)
    | some s1 =>
      rw [hsa] at hr
      simp only [Option.some.injEq, Prod.mk.injEq] at hr
      rw [riscv_iommu_pmu_start_all] at hsa
      have he := start_all_fold_event c _ _ s1 hsa
      rw [← hr.1]
      refine ⟨?_, fun x hx => ?_⟩
      · rw [irqLoop_st, he, i1]
      · rcases i2 x hx with h1 | h1
        · exact absurd h1 (List.not_mem_nil x)
        · exact h1

theorem slotsIndexed_frame (s s' : State) (hf : Frame s s') (h : SlotsIndexed s) :
    SlotsIndexed s' := by
  intro i e hi he
  rw [hf.2.2.1] at hi
  rw [hf.1] at he
  rw [(hf.2.2.2.2 e).1]
  exact h i e hi he

theorem counter_addr_ne (c : Consts) (i j : Nat) (hi : i < 536870912) (hj : j < 536870912)
    (h : i ≠ j) : counter_addr c i ≠ counter_addr c j := by
  rw [counter_addr_eq c i hi, counter_addr_eq c j hj]
  omega

/-- Programming the period of a request at slot `j` leaves the counter of
every other slot. -/
theorem set_period_keeps_other_counter (c : Consts) (s : State) (e i j : Nat)
    (hidx : (s.event e).hw.idx = (j : Int)) (hi : i < 536870912) (hj : j < 536870912)
    (hne : i ≠ j) :
    (riscv_iommu_pmu_set_period c s e).1.pmu.reg.q (counter_addr c i)
      = s.pmu.reg.q (counter_addr c i) := by
  rw [riscv_iommu_pmu_set_period, set_period_program_pmu,
    (set_period_locals_fields (s.event e).hw s.pmu.mask_counter).1, hidx,
    toU32_natCast j (by omega), riscv_iommu_pmu_set_counter]
  split_ifs
  · rfl
  · simp only [writeq]
    exact Function.update_noteq (counter_addr_ne c i j hi hj hne) _ _

/-- One round of the loop of the handler leaves the counter of a slot `i`
that holds a request that does not sample. -/
theorem handle_irq_step_keeps_counter (c : Consts) (overflow : State → Sample → Bool)
    (l : IrqLoop) (j i ev : Nat) (hj : j < l.st.pmu.num_counters)
    (hi : i < l.st.pmu.num_counters) (hn : l.st.pmu.num_counters ≤ 32)
    (hlay : c.RISCV_IOMMU_REG_IOHPMCYCLES + 8 * l.st.pmu.num_counters
      ≤ c.RISCV_IOMMU_REG_IOHPMEVT_BASE)
    (hev : l.st.pmu.events i = some ev) (hns : (l.st.event ev).attr_sample_period = 0)
    (hix : SlotsIndexed l.st) :
    (handle_irq_step c overflow l j).st.pmu.reg.q (counter_addr c i)
      = l.st.pmu.reg.q (counter_addr c i) := by
  have hsam : is_sampling_event (l.st.event ev) = false := by
    simp [is_sampling_event, hns]
  rw [handle_irq_step]
  split
  · rfl
  · rename_i e he
    split_ifs with h1
    · rfl
    · have hne : i ≠ j := by
        intro h
        rw [h, he] at hev
        rw [Option.some.inj hev] at h1
        exact h1 hsam
      have hidx := hix j e hj he
      have hu : ((riscv_iommu_pmu_update c l.st e).event e).hw.idx = (j : Int) := by
        rw [update_event_same]
        exact hidx
      have k1 := set_period_keeps_other_counter c (riscv_iommu_pmu_update c l.st e) e i j hu
        (by omega) (by omega) hne
      rw [update_pmu] at k1
      have hf := frame_set_period c (riscv_iommu_pmu_update c l.st e) e
      rw [handle_irq_sample]
      generalize ((riscv_iommu_pmu_update c l.st e).event e).hw.last_period = per
      generalize riscv_iommu_pmu_set_period c (riscv_iommu_pmu_update c l.st e) e = X at k1 hf ⊢
      have hnum : X.1.pmu.num_counters = l.st.pmu.num_counters := by
        rw [hf.2.2.1, update_pmu]
      rw [handle_irq_emit]
      split_ifs
      · rw [irqLoop_st, k1]
      · rw [irqLoop_st, (stop_flags_zero c X.1 e i (by rw [hnum]; exact hi)
          (by rw [hnum]; exact hn) (by rw [hnum]; exact hlay)).1, k1]
      · rw [irqLoop_st, k1]

theorem handle_irq_fold_keeps_counter (c : Consts) (overflow : State → Sample → Bool)
    (i ev : Nat) (is : List Nat) :
    ∀ l : IrqLoop, (∀ j ∈ is, j < l.st.pmu.num_counters) → i < l.st.pmu.num_counters →
      l.st.pmu.num_counters ≤ 32 →
      c.RISCV_IOMMU_REG_IOHPMCYCLES + 8 * l.st.pmu.num_counters
        ≤ c.RISCV_IOMMU_REG_IOHPMEVT_BASE →
      l.st.pmu.events i = some ev → (l.st.event ev).attr_sample_period = 0 →
      SlotsIndexed l.st →
      (is.foldl (handle_irq_step c overflow) l).st.pmu.reg.q (counter_addr c i)
        = l.st.pmu.reg.q (counter_addr c i) := by
  induction is with
  | nil => exact fun l _ _ _ _ _ _ _ => rfl
  | cons a t ih =>
    intro l hmem hi hn hlay hev hns hix
    have hf := frame_handle_irq_step c overflow l a
    have k := handle_irq_step_keeps_counter c overflow l a i ev
      (hmem a (List.mem_cons_self a t)) hi hn hlay hev hns hix
    rw [List.foldl_cons, ih (handle_irq_step c overflow l a)
      (fun j hj => by rw [hf.2.2.1]; exact hmem j (List.mem_cons_of_mem a hj))
      (by rw [hf.2.2.1]; exact hi) (by rw [hf.2.2.1]; exact hn)
      (by rw [hf.2.2.1]; exact hlay) (by rw [hf.1]; exact hev)
      (by rw [(hf.2.2.2.2 ev).2.2.1]; exact hns) (slotsIndexed_frame _ _ hf hix), k]

theorem mod63_eq_of_bits (x y : Nat) (h : ∀ b, b < 63 → x.testBit b = y.testBit b) :
    x % 9223372036854775808 = y % 9223372036854775808 := by
  rw [show (9223372036854775808 : Nat) = 2 ^ 63 from rfl]
  apply Nat.eq_of_testBit_eq
  intro b
  rw [Nat.testBit_mod_two_pow, Nat.testBit_mod_two_pow]
  by_cases hb : b < 63
  · rw [h b hb]
  · simp [hb]

/-- One round of `riscv_iommu_pmu_start_all` on an occupied slot whose request
has the kind of the slot leaves bits 0-62 of every counter register, and the
whole register of every counter but the cycle counter. -/
theorem start_all_step_payload (c : Consts) (s : State) (j e i jj : Nat)
    (hj : j < s.pmu.num_counters) (hi : i < s.pmu.num_counters) (hn : s.pmu.num_counters ≤ 32)
    (hlay : c.RISCV_IOMMU_REG_IOHPMCYCLES + 8 * s.pmu.num_counters
      ≤ c.RISCV_IOMMU_REG_IOHPMEVT_BASE)
    (hev : s.pmu.events j = some e)
    (htyp : get_event c (s.event e) = c.RISCV_IOMMU_HPMEVENT_CYCLE ↔ j = 0)
    (hof1 : c.RISCV_IOMMU_IOHPMCYCLES_OF = 9223372036854775808)
    (hof2 : c.RISCV_IOMMU_IOHPMEVT_OF = 9223372036854775808)
    (hctr : c.RISCV_IOMMU_IOHPMCTR_COUNTER = 2 ^ jj - 1) (hjj : 63 ≤ jj) :
    ∃ s1, start_all_step c s j = some s1 ∧ Frame s s1 ∧ s1.event = s.event ∧
      s1.pmu.reg.q (counter_addr c i) % 9223372036854775808
        = s.pmu.reg.q (counter_addr c i) % 9223372036854775808 ∧
      (1 ≤ i → s1.pmu.reg.q (counter_addr c i) = s.pmu.reg.q (counter_addr c i)) := by
  obtain ⟨v, hv, h1, -⟩ := ovf_intr_write c s j e jj hj hn hev htyp hof1 hof2 hctr hjj
  obtain ⟨f1, g1⟩ := frame_enable_ovf_intr c s _ j h1
  have hca := counter_addr_eq c i (by omega)
  refine ⟨_, ?_, f1.trans (frame_with_pmu _ _ (frame_enable_counter c _ j)), g1, ?_, ?_⟩
  · rw [start_all_step]
    simp only [h1]
  · rw [(enable_counter_reg c _ j).1]
    simp only [writeq]
    by_cases ha : counter_addr c i = ovf_addr c j
    · rw [ha, Function.update_same]
      apply mod63_eq_of_bits
      intro b hb
      rw [and_not63_bits, hv b hb]
      simp [hb]
    · rw [Function.update_noteq ha]
  · intro h1i
    rw [(enable_counter_reg c _ j).1]
    simp only [writeq]
    have ha : counter_addr c i ≠ ovf_addr c j := by
      rw [hca, ovf_addr]
      split_ifs <;> omega
    rw [Function.update_noteq ha]

theorem start_all_fold_payload (c : Consts) (i jj : Nat)
    (hof1 : c.RISCV_IOMMU_IOHPMCYCLES_OF = 9223372036854775808)
    (hof2 : c.RISCV_IOMMU_IOHPMEVT_OF = 9223372036854775808)
    (hctr : c.RISCV_IOMMU_IOHPMCTR_COUNTER = 2 ^ jj - 1) (hjj : 63 ≤ jj) (is : List Nat) :
    ∀ s : State, s.pmu.num_counters ≤ 32 → i < s.pmu.num_counters →
      c.RISCV_IOMMU_REG_IOHPMCYCLES + 8 * s.pmu.num_counters
        ≤ c.RISCV_IOMMU_REG_IOHPMEVT_BASE →
      (∀ j ∈ is, j < s.pmu.num_counters ∧ ∃ e, s.pmu.events j = some e ∧
        (get_event c (s.event e) = c.RISCV_IOMMU_HPMEVENT_CYCLE ↔ j = 0)) →
      ∃ s', is.foldlM (start_all_step c) s = some s' ∧ Frame s s' ∧ s'.event = s.event ∧
        s'.pmu.reg.q (counter_addr c i) % 9223372036854775808
          = s.pmu.reg.q (counter_addr c i) % 9223372036854775808 ∧
        (1 ≤ i → s'.pmu.reg.q (counter_addr c i) = s.pmu.reg.q (counter_addr c i)) := by
  induction is with
  | nil => exact fun s _ _ _ _ => ⟨s, rfl, Frame.refl s, rfl, rfl, fun _ => rfl⟩
  | cons j t ih =>
    intro s hn hi hlay h
    obtain ⟨hj, e, hev, htyp⟩ := h j (List.mem_cons_self j t)
    obtain ⟨s1, a1, a2, a3, a4, a5⟩ := start_all_step_payload c s j e i jj hj hi hn hlay hev htyp
      hof1 hof2 hctr hjj
    obtain ⟨s', b1, b2, b3, b4, b5⟩ := ih s1 (by rw [a2.2.2.1]; exact hn)
      (by rw [a2.2.2.1]; exact hi) (by rw [a2.2.2.1]; exact hlay)
      (fun m hm => by
        obtain ⟨x1, e', x2, x3⟩ := h m (List.mem_cons_of_mem j hm)
        rw [a2.2.2.1, a2.1, a3]
        exact ⟨x1, e', x2, x3⟩)
    refine ⟨s', ?_, a2.trans b2, b3.trans a3, b4.trans a4, fun h1 => (b5 h1).trans (a5 h1)⟩
    rw [List.foldlM_cons, a1]
    exact b1

/-- C29: a bank of at most 32 slots, its occupied slots live, holding
requests of the kind of their slot that know their slot; slot `i` holds a
request `ev` that does not sample (`attr.sample_period = 0`) and bit `i` of the
overflow status is set.  The round of the loop for slot `i` changes nothing at
all, and the handler returns `IRQ_HANDLED` with the request `ev` as it was
(total, snapshot, `period_left`, `last_period`, state and all), no sample for
`ev`, and counter `i` not reloaded: its bits 0-62 are as before, and for
`i ≥ 1` the whole register is. -/
theorem handle_irq_skips_non_sampling (c : Consts) (overflow : State → Sample → Bool)
    (s : State) (ev i jj : Nat) (hn : s.pmu.num_counters ≤ 32)
    (hlay : c.RISCV_IOMMU_REG_IOHPMCYCLES + 8 * s.pmu.num_counters
      ≤ c.RISCV_IOMMU_REG_IOHPMEVT_BASE)
    (hlive : OccupiedLive s) (htyp : SlotsTyped c s) (hix : SlotsIndexed s)
    (hof1 : c.RISCV_IOMMU_IOHPMCYCLES_OF = 9223372036854775808)
    (hof2 : c.RISCV_IOMMU_IOHPMEVT_OF = 9223372036854775808)
    (hctr : c.RISCV_IOMMU_IOHPMCTR_COUNTER = 2 ^ jj - 1) (hjj : 63 ≤ jj)
    (hi : i < s.pmu.num_counters) (hev : s.pmu.events i = some ev)
    (hns : (s.event ev).attr_sample_period = 0)
    (hbit : (readl s.pmu.reg c.RISCV_IOMMU_REG_IOCOUNTOVF).testBit i = true) :
    (∀ l : IrqLoop, l.st.pmu.events i = some ev → l.st.event ev = s.event ev →
      handle_irq_step c overflow l i = l) ∧
    ∃ r, riscv_iommu_pmu_handle_irq c overflow s = some (r, irqreturn_t.IRQ_HANDLED) ∧
      r.st.event ev = s.event ev ∧ (∀ x ∈ r.samples, x.event ≠ ev) ∧
      r.st.pmu.reg.q (c.RISCV_IOMMU_REG_IOHPMCYCLES + 8 * i) % 9223372036854775808
        = s.pmu.reg.q (c.RISCV_IOMMU_REG_IOHPMCYCLES + 8 * i) % 9223372036854775808 ∧
      (1 ≤ i → r.st.pmu.reg.q (c.RISCV_IOMMU_REG_IOHPMCYCLES + 8 * i)
        = s.pmu.reg.q (c.RISCV_IOMMU_REG_IOHPMCYCLES + 8 * i)) := by
  refine ⟨fun l he hl => (handle_irq_step_skips c overflow l i ev (by rw [hl]; exact hns)).1 he,
    ?_⟩
  have hne : ¬ readl s.pmu.reg c.RISCV_IOMMU_REG_IOCOUNTOVF = 0 := by
    intro h0
    rw [h0, Nat.zero_testBit] at hbit
    exact absurd hbit (by decide)
  have hca := counter_addr_eq c i (by omega)
  obtain ⟨a1, a2, a3, -, a5⟩ := stop_all_fields c s
  have hf0 := frame_stop_all c s
  obtain ⟨i1, i2⟩ := handle_irq_fold_skips c overflow ev
    (set_bits (fun b => (readl s.pmu.reg c.RISCV_IOMMU_REG_IOCOUNTOVF).testBit b)
      s.pmu.num_counters)
    { st := riscv_iommu_pmu_stop_all c s, samples := [] }
    (by rw [irqLoop_st, a1]; exact hns)
  have i3 := handle_irq_fold_keeps_counter c overflow i ev
    (set_bits (fun b => (readl s.pmu.reg c.RISCV_IOMMU_REG_IOCOUNTOVF).testBit b)
      s.pmu.num_counters)
    { st := riscv_iommu_pmu_stop_all c s, samples := [] }
    (fun j hj => by
      rw [mem_set_bits] at hj
      rw [irqLoop_st, a3]
      exact hj.1)
    (by rw [irqLoop_st, a3]; exact hi) (by rw [irqLoop_st, a3]; exact hn)
    (by rw [irqLoop_st, a3]; exact hlay) (by rw [irqLoop_st, a2]; exact hev)
    (by rw [irqLoop_st, a1]; exact hns)
    (by rw [irqLoop_st]; exact slotsIndexed_frame s _ hf0 hix)
  have hf : Frame s (handle_irq_loop c overflow s
      (readl s.pmu.reg c.RISCV_IOMMU_REG_IOCOUNTOVF)).st := by
    rw [handle_irq_loop]
    exact hf0.trans (frame_handle_irq_loop c overflow _ _)
  rw [irqLoop_st, a1] at i1
  rw [irqLoop_st, a5] at i3
  rw [← handle_irq_loop] at i1 i2 i3
  obtain ⟨L, hL⟩ : ∃ L, handle_irq_loop c overflow s
      (readl s.pmu.reg c.RISCV_IOMMU_REG_IOCOUNTOVF) = L := ⟨_, rfl⟩
  rw [hL] at i1 i2 i3 hf
  obtain ⟨s', b1, -, b3, b4, b5⟩ := start_all_fold_payload c i jj hof1 hof2 hctr hjj
    (set_bits L.st.pmu.used_counters L.st.pmu.num_counters) L.st
    (by rw [hf.2.2.1]; exact hn) (by rw [hf.2.2.1]; exact hi) (by rw [hf.2.2.1]; exact hlay)
    (fun j hj => by
      rw [mem_set_bits, hf.2.2.1, hf.2.1] at hj
      obtain ⟨e, he⟩ := hlive j hj.1 hj.2
      rw [hf.2.2.1, hf.1]
      refine ⟨hj.1, e, he, ?_⟩
      rw [get_event_congr c (s.event e) (L.st.event e) (hf.2.2.2.2 e).2.1]
      exact htyp j e hj.1 hj.2 he)
  have b1' : riscv_iommu_pmu_start_all c L.st = some s' := by
    rw [riscv_iommu_pmu_start_all]
    exact b1
  refine ⟨{ st := s', samples := L.samples }, ?_, ?_, fun x hx => ?_, ?_, fun h1 => ?_⟩
  · rw [riscv_iommu_pmu_handle_irq, if_neg hne, handle_irq_body, hL]
    simp only [b1']
  · rw [irqLoop_st, b3, i1]
  · rcases i2 x hx with h1 | h1
    · exact absurd h1 (List.not_mem_nil x)
    · exact h1
  · rw [irqLoop_st, ← hca, b4, i3]
  · rw [irqLoop_st, ← hca, b5 h1, i3]

theorem sampleStateCountOvf_slots :
    OccupiedLive sampleStateCountOvf ∧ SlotsTyped sampleConsts sampleStateCountOvf ∧
    SlotsIndexed sampleStateCountOvf := by
  have hn : sampleStateCountOvf.pmu.num_counters = 8 := by decide
  have h1 : sampleStateCountOvf.pmu.events 1 = some 1 := by decide
  refine ⟨fun i hi hu => ?_, fun i e hi hu he => ?_, fun i e hi he => ?_⟩
  · rw [hn] at hi
    interval_cases i
    · exact absurd hu (by decide)
    · exact ⟨1, h1⟩
    all_goals exact absurd hu (by decide)
  · rw [hn] at hi
    interval_cases i
    · exact absurd hu (by decide)
    · obtain rfl : 1 = e := Option.some.inj (h1.symm.trans he)
      decide
    all_goals exact absurd hu (by decide)
  · rw [hn] at hi
    have hnone : ∀ j, j < 8 → j ≠ 1 → sampleStateCountOvf.pmu.events j = none := by
      intro j hj hj1
      interval_cases j <;> first | decide | exact absurd rfl hj1
    by_cases hi1 : i = 1
    · subst hi1
      obtain rfl : 1 = e := Option.some.inj (h1.symm.trans he)
      decide
    · rw [hnone i hi hi1] at he
      exact absurd he (by simp)

/-- Witness for C29: the counting request 1 at slot 1 of the sample bank,
with its overflow-status bit raised. -/
theorem handle_irq_skips_non_sampling_witness :
    (sampleStateCountOvf.pmu.events 1 = some 1 ∧
      (sampleStateCountOvf.event 1).attr_sample_period = 0 ∧
      (readl sampleStateCountOvf.pmu.reg sampleConsts.RISCV_IOMMU_REG_IOCOUNTOVF).testBit 1
        = true) ∧
    ∃ r, riscv_iommu_pmu_handle_irq sampleConsts (fun _ _ => true) sampleStateCountOvf
        = some (r, irqreturn_t.IRQ_HANDLED) ∧
      r.st.event 1 = sampleStateCountOvf.event 1 ∧ (∀ x ∈ r.samples, x.event ≠ 1) ∧
      r.st.pmu.reg.q (sampleConsts.RISCV_IOMMU_REG_IOHPMCYCLES + 8 * 1)
        = sampleStateCountOvf.pmu.reg.q (sampleConsts.RISCV_IOMMU_REG_IOHPMCYCLES + 8 * 1) :=
  ⟨⟨by decide, by decide, by decide⟩,
    let ⟨r, h⟩ := (handle_irq_skips_non_sampling sampleConsts (fun _ _ => true)
      sampleStateCountOvf 1 1 64 (by decide) (by decide) sampleStateCountOvf_slots.1
      sampleStateCountOvf_slots.2.1 sampleStateCountOvf_slots.2.2 (by decide) (by decide)
      (by decide) (by decide) (by decide) (by decide) (by decide) (by decide)).2
    ⟨r, h.1, h.2.1, h.2.2.1, h.2.2.2.2 (by decide)⟩⟩

/-- In every bank state reachable by `add` and `del` from an empty bank, a
request recorded in the slot table is open and knows its slot. -/
theorem reach_table (c : Consts) (s : State) (opn : List Nat) (hr : Reach c s opn) :
    ∀ i e, s.pmu.events i = some e → e ∈ opn ∧ (s.event e).hw.idx = (i : Int) := by
  induction hr with
  | empty s _ _ hevents =>
    intro i e he
    rw [hevents i] at he
    exact absurd he (by simp)
  | add_ok s s' opn ev flags hr hev hadd ih =>
    have hn := reach_num c s opn hr
    by_cases hb : add_slot c s ev = s.pmu.num_counters
    · rw [add_busy c s ev flags hn hb] at hadd
      simp only [Option.some.injEq, Prod.mk.injEq] at hadd
      rw [← hadd.1]
      intro i e he
      exact ⟨List.mem_cons_of_mem ev (ih i e he).1, (ih i e he).2⟩
    · obtain ⟨s0, h0, -, he0, -, hidx, hoth, -⟩ := add_ok_view c s ev flags hn hb
      rw [h0] at hadd
      simp only [Option.some.injEq, Prod.mk.injEq, and_true] at hadd
      subst hadd
      intro i e he
      by_cases his : i = add_slot c s ev
      · rw [he0, his, Function.update_same] at he
        obtain rfl : ev = e := Option.some.inj he
        exact ⟨List.mem_cons_self _ _, by rw [hidx, his]⟩
      · rw [he0, Function.update_noteq his] at he
        obtain ⟨m1, m2⟩ := ih i e he
        have hne : e ≠ ev := fun h => hev (h ▸ m1)
        exact ⟨List.mem_cons_of_mem ev m1, by rw [hoth e hne]; exact m2⟩
  | add_fail s s' opn ev flags r hr _ hadd hret ih =>
    rw [add_fail_same c s s' ev flags r (reach_num c s opn hr) hadd hret]
    exact ih
  | del s s' opn ev flags _ _ hdel ih =>
    by_cases hneg : (s.event ev).hw.idx < 0
    · rw [riscv_iommu_pmu_del] at hdel
      simp only [if_pos hneg] at hdel
      exact absurd hdel (by simp)
    · obtain ⟨s0, h0, -, he0, -, hidx, -⟩ := del_view c s ev flags (not_lt.mp hneg)
      rw [h0] at hdel
      simp only [Option.some.injEq] at hdel
      subst hdel
      intro i e he
      by_cases his : i = (s.event ev).hw.idx.toNat
      · rw [he0, his, Function.update_same] at he
        exact absurd he (by simp)
      · rw [he0, Function.update_noteq his] at he
        obtain ⟨m1, m2⟩ := ih i e he
        have hne : e ≠ ev := by
          intro h
          rw [h] at m2
          rw [m2, Int.toNat_ofNat] at his
          exact his rfl
        exact ⟨(List.mem_erase_of_ne hne).mpr m1, by rw [hidx e]; exact m2⟩

/-- The slot table of a reachable bank is indexed. -/
theorem reach_indexed (c : Consts) (s : State) (opn : List Nat) (hr : Reach c s opn) :
    SlotsIndexed s :=
  fun i e _ he => (reach_table c s opn hr i e he).2

/-! ## When the handler emits a sample -/

theorem toS64_range (x : Int) :
    -9223372036854775808 ≤ toS64 x ∧ toS64 x < 9223372036854775808 := by
  simp only [toS64]
  omega

/-- The return value of `set_period` for a positive sample period: 1 when the
recorded `period_left` has run down to 0 or below, 0 otherwise. -/
theorem set_period_ret (c : Consts) (s : State) (ev P : Nat) (L : Int)
    (hP : (s.event ev).hw.sample_period = P) (hL : (s.event ev).hw.period_left = L)
    (hP1 : 1 ≤ P) (hP2 : P < 9223372036854775808)
    (hL1 : -9223372036854775808 ≤ L) (hL2 : L < 9223372036854775808) :
    (L ≤ 0 → (riscv_iommu_pmu_set_period c s ev).2 = 1) ∧
    (0 < L → (riscv_iommu_pmu_set_period c s ev).2 = 0) := by
  obtain ⟨l, hl, -, -, -, k1, k2, k3⟩ :=
    set_period_rearm_cases (s.event ev).hw P L hP hL hP1 hP2 hL1 hL2
  have hloc : set_period_locals (s.event ev).hw s.pmu.mask_counter
      = set_period_clamp s.pmu.mask_counter l := by
    rw [set_period_locals_eq, hl]
  obtain ⟨-, -, -, -, r5, -⟩ := set_period_result c s ev _ hloc
  rw [(set_period_clamp_hwc s.pmu.mask_counter l).2] at r5
  refine ⟨fun h => ?_, fun h => ?_⟩
  · by_cases h1 : L ≤ -(P : Int)
    · rw [r5, (k1 h1).2.2.1]
    · rw [r5, (k2 (by omega) h).2.2.1]
  · rw [r5, (k3 h).2.2.1]

/-- One round of the loop of the handler on a slot that holds a sampling
request with a positive period: the sample is emitted exactly when `set_period`
returns non-zero, that is when `period_left` less the delta of `update` is 0 or
below. -/
theorem handle_irq_step_sample (c : Consts) (overflow : State → Sample → Bool) (l : IrqLoop)
    (idx ev P : Nat) (hev : l.st.pmu.events idx = some ev)
    (hsamp : (l.st.event ev).attr_sample_period ≠ 0)
    (hP : (l.st.event ev).hw.sample_period = P) (hP1 : 1 ≤ P)
    (hP2 : P < 9223372036854775808) :
    ((riscv_iommu_pmu_update c l.st ev).event ev).hw.period_left
      = toS64 ((l.st.event ev).hw.period_left - update_delta c l.st ev) ∧
    (((riscv_iommu_pmu_update c l.st ev).event ev).hw.period_left ≤ 0 →
      (riscv_iommu_pmu_set_period c (riscv_iommu_pmu_update c l.st ev) ev).2 = 1 ∧
      (handle_irq_step c overflow l idx).samples
        = l.samples ++ [{ event := ev, period := (l.st.event ev).hw.last_period }]) ∧
    (0 < ((riscv_iommu_pmu_update c l.st ev).event ev).hw.period_left →
      (riscv_iommu_pmu_set_period c (riscv_iommu_pmu_update c l.st ev) ev).2 = 0 ∧
      (handle_irq_step c overflow l idx).samples = l.samples) := by
  have hsam : ¬ is_sampling_event (l.st.event ev) = false := by
    simp [is_sampling_event, hsamp]
  have u1 : ((riscv_iommu_pmu_update c l.st ev).event ev).hw.period_left
      = toS64 ((l.st.event ev).hw.period_left - update_delta c l.st ev) := by
    rw [update_event_same]
  have u2 : ((riscv_iommu_pmu_update c l.st ev).event ev).hw.sample_period = P := by
    rw [update_event_same]
    exact hP
  have u3 : ((riscv_iommu_pmu_update c l.st ev).event ev).hw.last_period
      = (l.st.event ev).hw.last_period := by
    rw [update_event_same]
  obtain ⟨g1, g2⟩ := toS64_range ((l.st.event ev).hw.period_left - update_delta c l.st ev)
  rw [← u1] at g1 g2
  obtain ⟨r1, r2⟩ := set_period_ret c (riscv_iommu_pmu_update c l.st ev) ev P _ u2 rfl hP1 hP2
    g1 g2
  have hstep : handle_irq_step c overflow l idx
      = handle_irq_emit c overflow l.samples ev (l.st.event ev).hw.last_period
          (riscv_iommu_pmu_set_period c (riscv_iommu_pmu_update c l.st ev) ev).1
          (riscv_iommu_pmu_set_period c (riscv_iommu_pmu_update c l.st ev) ev).2 := by
    rw [handle_irq_step]
    simp only [hev]
    rw [if_neg hsam, handle_irq_sample, u3]
  refine ⟨u1, fun h => ⟨r1 h, ?_⟩, fun h => ⟨r2 h, ?_⟩⟩
  · rw [hstep, handle_irq_emit, r1 h, if_neg (by norm_num)]
    split_ifs <;> rfl
  · rw [hstep, handle_irq_emit, r2 h, if_pos rfl]

/-- What `set_period` does for a request with a positive `period_left` `L`:
nothing is rearmed, 0 is returned, and the counter of the slot is loaded for
the smaller of `L` and `max_period / 2`. -/
theorem set_period_positive (c : Consts) (s : State) (ev i k jj P L : Nat)
    (hidx : (s.event ev).hw.idx = (i : Int)) (hi : i < s.pmu.num_counters)
    (hn : s.pmu.num_counters ≤ 32)
    (hctr : c.RISCV_IOMMU_IOHPMCTR_COUNTER = 2 ^ jj - 1) (hjj1 : 1 ≤ jj) (hjj : jj ≤ 64)
    (hk : k ≤ jj) (hk2 : 2 ≤ k) (hk63 : k ≤ 63) (hmask : s.pmu.mask_counter = 2 ^ k - 1)
    (hP1 : 1 ≤ P) (hP2 : P < 9223372036854775808)
    (hL1 : 1 ≤ L) (hL2 : L < 9223372036854775808)
    (hper : (s.event ev).hw.sample_period = P) (hleft : (s.event ev).hw.period_left = L) :
    (riscv_iommu_pmu_set_period c s ev).2 = 0 ∧
    ((riscv_iommu_pmu_set_period c s ev).1.event ev).count = (s.event ev).count ∧
    ((riscv_iommu_pmu_set_period c s ev).1.event ev).hw.period_left = L ∧
    ((riscv_iommu_pmu_set_period c s ev).1.event ev).hw.last_period
      = (s.event ev).hw.last_period ∧
    ((riscv_iommu_pmu_set_period c s ev).1.event ev).hw.prev_count
      = toU64 (-((min L ((2 ^ k - 1) / 2) : Nat) : Int)) ∧
    (riscv_iommu_pmu_set_period c s ev).1.pmu.reg.q (counter_addr c i)
      = 2 ^ k - min L ((2 ^ k - 1) / 2) ∧
    (riscv_iommu_pmu_set_period c s ev).1.pmu.reg.l = s.pmu.reg.l := by
  have hpos : 0 < 2 ^ k := Nat.two_pow_pos k
  have hk4 : 2 ^ 2 ≤ 2 ^ k := Nat.pow_le_pow_right (by norm_num) hk2
  have hk64 : 2 ^ k ≤ 2 ^ 63 := Nat.pow_le_pow_right (by norm_num) hk63
  have h63 : (2 : Nat) ^ 63 = 9223372036854775808 := by norm_num
  have hkj : 2 ^ k ≤ 2 ^ jj := Nat.pow_le_pow_right (by norm_num) hk
  have hj64 : 2 ^ jj ≤ 2 ^ 64 := Nat.pow_le_pow_right (by norm_num) hjj
  have h64 : (2 : Nat) ^ 64 = 18446744073709551616 := by norm_num
  obtain ⟨f, hf⟩ : ∃ f, f = min L ((2 ^ k - 1) / 2) := ⟨_, rfl⟩
  rw [← hf]
  have hf1 : 1 ≤ f := by
    rw [hf]
    exact Nat.le_min.mpr ⟨hL1, by omega⟩
  have hf2 : f ≤ (2 ^ k - 1) / 2 := by
    rw [hf]
    exact Nat.min_le_right _ _
  have hfk : f < 2 ^ k := by omega
  obtain ⟨l, hl, l1, l2, l3, -, -, l6⟩ := set_period_rearm_cases (s.event ev).hw P L hper hleft
    hP1 hP2 (by omega) (by omega)
  obtain ⟨m1, m2, m3, m4⟩ := l6 (by omega)
  obtain ⟨c1, c2, c3, c4⟩ := set_period_clamp_left s.pmu.mask_counter l l1 l2
    (by rw [hmask]; omega)
  have hcl : (set_period_clamp s.pmu.mask_counter l).left = (f : Int) := by
    by_cases hc : L ≤ (2 ^ k - 1) / 2
    · rw [c4 (by rw [m4, hmask]; exact_mod_cast hc), m4, hf, Nat.min_eq_left hc]
    · rw [c3 (by rw [m4, hmask]; exact_mod_cast (Nat.lt_of_not_le hc)), hmask, hf,
        Nat.min_eq_right (by omega)]
  have hloc : set_period_locals (s.event ev).hw s.pmu.mask_counter
      = set_period_clamp s.pmu.mask_counter l := by
    rw [set_period_locals_eq, hl]
  obtain ⟨r1, r2, r3, -, r5, r6⟩ := set_period_result c s ev _ hloc
  have hcount : ((riscv_iommu_pmu_set_period c s ev).1.event ev).count = (s.event ev).count := by
    rw [riscv_iommu_pmu_set_period, set_period_program_event_same]
  have hload : toU64 (-(set_period_clamp s.pmu.mask_counter l).left) &&& s.pmu.mask_counter
      = 2 ^ k - f := by
    rw [hcl, hmask, neg_and_mask k (f : Int) (by omega) (by omega) (by exact_mod_cast hfk),
      Int.toNat_ofNat]
  rw [c1, l3, hidx, toU32_natCast i (by omega), hload] at r6
  refine ⟨?_, hcount, ?_, ?_, ?_, ?_, ?_⟩
  · rw [r5, c2, m3]
  · rw [r1, c1, m1]
  · rw [r2, c1, m2]
  · rw [r3, hcl]
  · have hv : 2 ^ k - f < 2 ^ jj := by omega
    rw [r6, set_counter_eq c s.pmu i _ (Nat.le_of_lt hi), hctr]
    simp only [writeq, Function.update_same]
    rw [FIELD_PREP_low jj _ hjj1 hjj, Nat.mod_eq_of_lt hv]
    exact Nat.mod_eq_of_lt (by omega)
  · rw [r6, set_counter_eq c s.pmu i _ (Nat.le_of_lt hi)]
    rfl

/-- What `start` leaves for a stopped request with a positive `period_left`
`L`, recorded at its slot `i` and of the kind of that slot. -/
theorem start_positive (c : Consts) (s : State) (ev i k jj P L flags : Nat)
    (hst : (s.event ev).hw.state &&& c.PERF_HES_STOPPED ≠ 0)
    (hidx : (s.event ev).hw.idx = (i : Int)) (hi : i < s.pmu.num_counters)
    (hn : s.pmu.num_counters ≤ 32)
    (hlay : c.RISCV_IOMMU_REG_IOHPMCYCLES + 8 * s.pmu.num_counters
      ≤ c.RISCV_IOMMU_REG_IOHPMEVT_BASE)
    (hev : s.pmu.events i = some ev)
    (htyp : get_event c (s.event ev) = c.RISCV_IOMMU_HPMEVENT_CYCLE ↔ i = 0)
    (hof1 : c.RISCV_IOMMU_IOHPMCYCLES_OF = 9223372036854775808)
    (hctr : c.RISCV_IOMMU_IOHPMCTR_COUNTER = 2 ^ jj - 1) (hjj1 : 1 ≤ jj) (hjj : jj ≤ 64)
    (hk : k ≤ jj) (hk2 : 2 ≤ k) (hk63 : k ≤ 63) (hmask : s.pmu.mask_counter = 2 ^ k - 1)
    (hP1 : 1 ≤ P) (hP2 : P < 9223372036854775808)
    (hL1 : 1 ≤ L) (hL2 : L < 9223372036854775808)
    (hper : (s.event ev).hw.sample_period = P) (hleft : (s.event ev).hw.period_left = L) :
    ∃ s1, riscv_iommu_pmu_start c s ev flags = some s1 ∧ Frame s s1 ∧
      (s1.event ev).count = (s.event ev).count ∧
      (s1.event ev).hw.period_left = L ∧
      (s1.event ev).hw.last_period = (s.event ev).hw.last_period ∧
      (s1.event ev).hw.prev_count = toU64 (-((min L ((2 ^ k - 1) / 2) : Nat) : Int)) ∧
      (s1.event ev).hw.state = 0 ∧
      s1.pmu.reg.q (counter_addr c i) = 2 ^ k - min L ((2 ^ k - 1) / 2) ∧
      (∀ a, a ≠ c.RISCV_IOMMU_REG_IOCOUNTINH → s1.pmu.reg.l a = s.pmu.reg.l a) := by
  have hpos : 0 < 2 ^ k := Nat.two_pow_pos k
  have hk4 : 2 ^ 2 ≤ 2 ^ k := Nat.pow_le_pow_right (by norm_num) hk2
  have hk64 : 2 ^ k ≤ 2 ^ 63 := Nat.pow_le_pow_right (by norm_num) hk63
  have h63 : (2 : Nat) ^ 63 = 9223372036854775808 := by norm_num
  have hkj : 2 ^ k ≤ 2 ^ jj := Nat.pow_le_pow_right (by norm_num) hk
  have hf1 : 1 ≤ min L ((2 ^ k - 1) / 2) := Nat.le_min.mpr ⟨hL1, by omega⟩
  rw [riscv_iommu_pmu_start, if_neg hst]
  have hs1e : (start_clear_state s ev).event ev
      = { s.event ev with hw := { (s.event ev).hw with state := 0 } } :=
    Function.update_same _ _ _
  have hs1p : (start_clear_state s ev).pmu = s.pmu := rfl
  have hf1s : Frame s (start_clear_state s ev) := frame_with_state s ev 0
  have hf2 := hf1s.trans (frame_set_period c (start_clear_state s ev) ev)
  have v1 : ((start_clear_state s ev).event ev).hw.idx = (i : Int) := by rw [hs1e]; exact hidx
  have v2 : ((start_clear_state s ev).event ev).hw.sample_period = P := by rw [hs1e]; exact hper
  have v3 : ((start_clear_state s ev).event ev).hw.period_left = L := by rw [hs1e]; exact hleft
  have v4 : ((start_clear_state s ev).event ev).count = (s.event ev).count := by rw [hs1e]
  have v5 : ((start_clear_state s ev).event ev).hw.last_period = (s.event ev).hw.last_period := by
    rw [hs1e]
  have v6 : ((start_clear_state s ev).event ev).hw.state = 0 := by rw [hs1e]
  obtain ⟨-, r2, r3, r4, r5, r6, r7⟩ := set_period_positive c (start_clear_state s ev) ev i k jj
    P L v1 (by rw [hs1p]; exact hi) (by rw [hs1p]; exact hn) hctr hjj1 hjj hk hk2 hk63
    (by rw [hs1p]; exact hmask) hP1 hP2 hL1 hL2 v2 v3
  have r8 : ((riscv_iommu_pmu_set_period c (start_clear_state s ev) ev).1.event ev).hw.state
      = 0 := by
    rw [riscv_iommu_pmu_set_period, set_period_program_state,
      (set_period_locals_fields _ _).2.2.2.1, v6]
  rw [v4] at r2
  rw [v5] at r4
  rw [hs1p] at r7
  generalize (riscv_iommu_pmu_set_period c (start_clear_state s ev) ev).1 = s2
    at hf2 r2 r3 r4 r5 r6 r7 r8 ⊢
  obtain ⟨s', e1, e2, e3, e4, e5⟩ := start_program_keeps c s2 ev i jj
    (by rw [(hf2.2.2.2.2 ev).1]; exact hidx) (by rw [hf2.2.2.1]; exact hi)
    (by rw [hf2.2.2.1]; exact hn) (by rw [hf2.2.2.1]; exact hlay) (by rw [hf2.1]; exact hev)
    (by rw [get_event_congr c (s.event ev) (s2.event ev) (hf2.2.2.2.2 ev).2.1]; exact htyp)
    hof1 hctr hjj1
    (fun h0 => by
      subst h0
      rw [r6]
      omega)
  refine ⟨s', e1, hf2.trans e2, ?_, ?_, ?_, ?_, ?_, e4.trans r6, fun a ha => ?_⟩
  · rw [e3, r2]
  · rw [e3, r3]
  · rw [e3, r4]
  · rw [e3, r5]
  · rw [e3, r8]
  · rw [e5 a ha, r7]

/-- One round of the loop of the handler on a slot whose counter has wrapped
to 0 from the load value for `f` events while `period_left` was `L > f`: no
sample, the total grows by `f`, `period_left` becomes `L - f` and the counter is
loaded for the smaller of `L - f` and `max_period / 2`. -/
theorem handle_irq_step_partial (c : Consts) (overflow : State → Sample → Bool) (s : State)
    (smp : List Sample) (ev i k jj P L f : Nat)
    (hev : s.pmu.events i = some ev) (hsamp : (s.event ev).attr_sample_period ≠ 0)
    (hidx : (s.event ev).hw.idx = (i : Int)) (hi : i < s.pmu.num_counters)
    (hn : s.pmu.num_counters ≤ 32)
    (hctr : c.RISCV_IOMMU_IOHPMCTR_COUNTER = 2 ^ jj - 1) (hjj1 : 1 ≤ jj) (hjj : jj ≤ 64)
    (hk : k ≤ jj) (hk2 : 2 ≤ k) (hk63 : k ≤ 63) (hmask : s.pmu.mask_counter = 2 ^ k - 1)
    (hP1 : 1 ≤ P) (hP2 : P < 9223372036854775808)
    (hf1 : 1 ≤ f) (hf2 : f < 2 ^ k) (hfL : f < L) (hL2 : L < 9223372036854775808)
    (hper : (s.event ev).hw.sample_period = P)
    (hleft : (s.event ev).hw.period_left = L)
    (hprev : (s.event ev).hw.prev_count = toU64 (-(f : Int)))
    (hcnt : s.pmu.reg.q (counter_addr c i) = 0) :
    (handle_irq_step c overflow { st := s, samples := smp } i).samples = smp ∧
    ((handle_irq_step c overflow { st := s, samples := smp } i).st.event ev).count
      = ((s.event ev).count + f) % 18446744073709551616 ∧
    ((handle_irq_step c overflow { st := s, samples := smp } i).st.event ev).hw.period_left
      = ((L - f : Nat) : Int) ∧
    (handle_irq_step c overflow { st := s, samples := smp } i).st.pmu.reg.q (counter_addr c i)
      = 2 ^ k - min (L - f) ((2 ^ k - 1) / 2) := by
  have hsam : ¬ is_sampling_event (s.event ev) = false := by
    simp [is_sampling_event, hsamp]
  obtain ⟨hd, -⟩ := update_delta_wrapped c s ev i k jj f hidx hi hn hctr hjj1 hjj hk hmask hf1 hf2
    hprev hcnt
  rw [handle_irq_step]
  simp only [hev]
  rw [if_neg hsam, handle_irq_sample]
  have u1 : ((riscv_iommu_pmu_update c s ev).event ev).hw.idx = (i : Int) := by
    rw [update_event_same]; exact hidx
  have u2 : ((riscv_iommu_pmu_update c s ev).event ev).hw.sample_period = P := by
    rw [update_event_same]; exact hper
  have u4 : ((riscv_iommu_pmu_update c s ev).event ev).hw.period_left = ((L - f : Nat) : Int) := by
    rw [update_event_same]
    have h0 : toS64 ((s.event ev).hw.period_left - (update_delta c s ev : Nat))
        = ((L - f : Nat) : Int) := by
      rw [hleft, hd, toS64_of_range _ (by omega) (by omega)]
      omega
    exact h0
  have u5 : ((riscv_iommu_pmu_update c s ev).event ev).count
      = ((s.event ev).count + f) % 18446744073709551616 := by
    rw [update_event_same, ← hd]
  have u6 : (riscv_iommu_pmu_update c s ev).pmu = s.pmu := update_pmu c s ev
  obtain ⟨r1, r2, r3, -, -, r6, -⟩ := set_period_positive c (riscv_iommu_pmu_update c s ev) ev i
    k jj P (L - f) u1 (by rw [u6]; exact hi) (by rw [u6]; exact hn) hctr hjj1 hjj hk hk2 hk63
    (by rw [u6]; exact hmask) hP1 hP2 (by omega) (by omega) u2 u4
  rw [u5] at r2
  generalize riscv_iommu_pmu_set_period c (riscv_iommu_pmu_update c s ev) ev = X at r1 r2 r3 r6 ⊢
  rw [handle_irq_emit, r1, if_pos rfl, irqLoop_st, r2, r3, r6]
  exact ⟨rfl, rfl, rfl, rfl⟩

/-- The handler when the overflow status reports slot `i` alone: it returns
`IRQ_HANDLED`, and the samples, the requests and the counter of slot `i` are
those left by the single round of its loop. -/
theorem handle_irq_single (c : Consts) (overflow : State → Sample → Bool) (s : State)
    (i jj : Nat) (hn : s.pmu.num_counters ≤ 32)
    (hlay : c.RISCV_IOMMU_REG_IOHPMCYCLES + 8 * s.pmu.num_counters
      ≤ c.RISCV_IOMMU_REG_IOHPMEVT_BASE)
    (hlive : OccupiedLive s) (htyp : SlotsTyped c s)
    (hof1 : c.RISCV_IOMMU_IOHPMCYCLES_OF = 9223372036854775808)
    (hctr : c.RISCV_IOMMU_IOHPMCTR_COUNTER = 2 ^ jj - 1) (hjj1 : 1 ≤ jj)
    (hi : i < s.pmu.num_counters)
    (hovf : readl s.pmu.reg c.RISCV_IOMMU_REG_IOCOUNTOVF = BIT i)
    (hval : i = 0 →
      (handle_irq_step c overflow { st := riscv_iommu_pmu_stop_all c s, samples := [] }
          i).st.pmu.reg.q (counter_addr c 0) < 9223372036854775808 ∧
      (handle_irq_step c overflow { st := riscv_iommu_pmu_stop_all c s, samples := [] }
          i).st.pmu.reg.q (counter_addr c 0) < 2 ^ jj) :
    ∃ r, riscv_iommu_pmu_handle_irq c overflow s = some (r, irqreturn_t.IRQ_HANDLED) ∧
      r.samples = (handle_irq_step c overflow
        { st := riscv_iommu_pmu_stop_all c s, samples := [] } i).samples ∧
      r.st.event = (handle_irq_step c overflow
        { st := riscv_iommu_pmu_stop_all c s, samples := [] } i).st.event ∧
      r.st.pmu.reg.q (counter_addr c i) = (handle_irq_step c overflow
        { st := riscv_iommu_pmu_stop_all c s, samples := [] } i).st.pmu.reg.q
          (counter_addr c i) := by
  have hne : ¬ BIT i = 0 := by
    rw [BIT]
    exact Nat.pos_iff_ne_zero.mp (Nat.two_pow_pos i)
  have hf : Frame s (handle_irq_step c overflow
      { st := riscv_iommu_pmu_stop_all c s, samples := [] } i).st :=
    (frame_stop_all c s).trans (frame_handle_irq_step c overflow _ i)
  rw [← handle_irq_loop_BIT c overflow s i hi] at hval hf ⊢
  obtain ⟨L, hL⟩ : ∃ L, handle_irq_loop c overflow s (BIT i) = L := ⟨_, rfl⟩
  rw [hL] at hval hf ⊢
  obtain ⟨s', b1, b2, b3, b4⟩ := start_all_fold_counter c i jj hof1 hctr hjj1
    (set_bits L.st.pmu.used_counters L.st.pmu.num_counters) L.st
    (by rw [hf.2.2.1]; exact hn) (by rw [hf.2.2.1]; exact hi) (by rw [hf.2.2.1]; exact hlay)
    hval
    (fun j hj => by
      rw [mem_set_bits, hf.2.2.1, hf.2.1] at hj
      obtain ⟨e, he⟩ := hlive j hj.1 hj.2
      rw [hf.2.2.1, hf.1]
      refine ⟨hj.1, e, he, ?_⟩
      rw [get_event_congr c (s.event e) (L.st.event e) (hf.2.2.2.2 e).2.1]
      exact htyp j e hj.1 hj.2 he)
  refine ⟨{ st := s', samples := L.samples }, ?_, rfl, ?_, ?_⟩
  · have b1' : riscv_iommu_pmu_start_all c L.st = some s' := by
      rw [riscv_iommu_pmu_start_all]
      exact b1
    rw [riscv_iommu_pmu_handle_irq, hovf, if_neg hne, handle_irq_body, hL]
    simp only [b1']
  · rw [irqLoop_st, b3]
  · rw [irqLoop_st, b4]

theorem sampleStateLong_live : OccupiedLive sampleStateLong := by
  intro i hi hu
  have hn : sampleStateLong.pmu.num_counters = 8 := by decide
  rw [hn] at hi
  interval_cases i
  · exact absurd hu (by decide)
  · exact ⟨1, by decide⟩
  · exact ⟨2, by decide⟩
  all_goals exact absurd hu (by decide)

theorem sampleStateLong_typed : SlotsTyped sampleConsts sampleStateLong := by
  intro i e hi hu he
  have hn : sampleStateLong.pmu.num_counters = 8 := by decide
  rw [hn] at hi
  interval_cases i
  · exact absurd hu (by decide)
  · have h : sampleStateLong.pmu.events 1 = some 1 := by decide
    obtain rfl : 1 = e := Option.some.inj (h.symm.trans he)
    decide
  · have h : sampleStateLong.pmu.events 2 = some 2 := by decide
    obtain rfl : 2 = e := Option.some.inj (h.symm.trans he)
    decide
  all_goals exact absurd hu (by decide)

/-- C27: a bank of at most 32 slots with counter mask `M = 2 ^ k - 1`,
`2 ≤ k ≤ 63`, its occupied slots live and of the kind of their request.
First, for every round of the loop of the handler on an overflowed slot that
holds a sampling request with a positive period `P` (below `2 ^ 63`): the
`period_left` that `update` records is the old one less the delta; the round
emits a sample, carrying `last_period`, exactly when `set_period` returns
non-zero; `set_period` returns non-zero exactly when that `period_left` is 0 or
below; and otherwise the round emits nothing.
Second, for a stopped sampling request with period `p`, `M / 2 < p < 2 ^ 63`,
and `period_left = p` at its slot `i`: `start` loads the counter for `M / 2`
events; when the counter has advanced by `M / 2` it has wrapped to 0; with the
overflow bit of the slot raised, the handler returns `IRQ_HANDLED`, emits no
sample, adds `M / 2` to the total (in 64 bits), leaves `period_left = p - M / 2`
and loads the counter for the smaller of `p - M / 2` and `M / 2` events. -/
theorem handle_irq_sample_iff_period_exhausted (c : Consts)
    (overflow : State → Sample → Bool) (s : State)
    (ev i k jj p flags : Nat) (hn : s.pmu.num_counters ≤ 32)
    (hlay : c.RISCV_IOMMU_REG_IOHPMCYCLES + 8 * s.pmu.num_counters
      ≤ c.RISCV_IOMMU_REG_IOHPMEVT_BASE)
    (hlive : OccupiedLive s) (htyp : SlotsTyped c s)
    (hof1 : c.RISCV_IOMMU_IOHPMCYCLES_OF = 9223372036854775808)
    (hctr : c.RISCV_IOMMU_IOHPMCTR_COUNTER = 2 ^ jj - 1) (hjj : jj ≤ 64)
    (hk : k ≤ jj) (hk2 : 2 ≤ k) (hk63 : k ≤ 63) (hmask : s.pmu.mask_counter = 2 ^ k - 1)
    (hp1 : s.pmu.mask_counter / 2 < p) (hp2 : p < 9223372036854775808)
    (hi : i < s.pmu.num_counters) (hused : s.pmu.used_counters i = true)
    (hev : s.pmu.events i = some ev) (hidx : (s.event ev).hw.idx = (i : Int))
    (hst : (s.event ev).hw.state &&& c.PERF_HES_STOPPED ≠ 0)
    (hsamp : (s.event ev).attr_sample_period = p)
    (hper : (s.event ev).hw.sample_period = p) (hleft : (s.event ev).hw.period_left = p) :
    (∀ (l : IrqLoop) (idx e P : Nat), l.st.pmu.events idx = some e →
      (l.st.event e).attr_sample_period ≠ 0 → (l.st.event e).hw.sample_period = P →
      1 ≤ P → P < 9223372036854775808 →
      ((riscv_iommu_pmu_update c l.st e).event e).hw.period_left
        = toS64 ((l.st.event e).hw.period_left - update_delta c l.st e) ∧
      ((handle_irq_step c overflow l idx).samples
          = l.samples ++ [{ event := e, period := (l.st.event e).hw.last_period }] ↔
        (riscv_iommu_pmu_set_period c (riscv_iommu_pmu_update c l.st e) e).2 ≠ 0) ∧
      ((riscv_iommu_pmu_set_period c (riscv_iommu_pmu_update c l.st e) e).2 ≠ 0 ↔
        ((riscv_iommu_pmu_update c l.st e).event e).hw.period_left ≤ 0) ∧
      ((riscv_iommu_pmu_set_period c (riscv_iommu_pmu_update c l.st e) e).2 = 0 →
        (handle_irq_step c overflow l idx).samples = l.samples)) ∧
    ∃ s1, riscv_iommu_pmu_start c s ev flags = some s1 ∧
      readq s1.pmu.reg (c.RISCV_IOMMU_REG_IOHPMCYCLES + 8 * i)
        = s.pmu.mask_counter + 1 - s.pmu.mask_counter / 2 ∧
      readq (counter_advance c s1 i (s.pmu.mask_counter / 2)).pmu.reg
        (c.RISCV_IOMMU_REG_IOHPMCYCLES + 8 * i) = 0 ∧
      ∃ r, riscv_iommu_pmu_handle_irq c overflow
            (counter_advance c s1 i (s.pmu.mask_counter / 2))
          = some (r, irqreturn_t.IRQ_HANDLED) ∧
        r.samples = [] ∧
        (r.st.event ev).count
          = ((s.event ev).count + s.pmu.mask_counter / 2) % 18446744073709551616 ∧
        (r.st.event ev).hw.period_left = (p : Int) - ((s.pmu.mask_counter / 2 : Nat) : Int) ∧
        readq r.st.pmu.reg (c.RISCV_IOMMU_REG_IOHPMCYCLES + 8 * i)
          = toU64 (-((min (p - s.pmu.mask_counter / 2) (s.pmu.mask_counter / 2) : Nat) : Int))
              &&& s.pmu.mask_counter ∧
        readq r.st.pmu.reg (c.RISCV_IOMMU_REG_IOHPMCYCLES + 8 * i)
          = s.pmu.mask_counter + 1
              - min (p - s.pmu.mask_counter / 2) (s.pmu.mask_counter / 2) := by
  have hpos : 0 < 2 ^ k := Nat.two_pow_pos k
  have hk4 : 2 ^ 2 ≤ 2 ^ k := Nat.pow_le_pow_right (by norm_num) hk2
  have hk64 : 2 ^ k ≤ 2 ^ 63 := Nat.pow_le_pow_right (by norm_num) hk63
  have h63 : (2 : Nat) ^ 63 = 9223372036854775808 := by norm_num
  have hjj1 : 1 ≤ jj := by omega
  have hlt : ∀ x : Nat, 2 ^ k - x < 18446744073709551616 := fun x => by omega
  refine ⟨fun l idx e P he hs hP hP1 hP2 => ?_, ?_⟩
  · obtain ⟨t1, t2, t3⟩ := handle_irq_step_sample c overflow l idx e P he hs hP hP1 hP2
    generalize ((riscv_iommu_pmu_update c l.st e).event e).hw.period_left = L at t1 t2 t3 ⊢
    generalize (riscv_iommu_pmu_set_period c (riscv_iommu_pmu_update c l.st e) e).2 = ret
      at t2 t3 ⊢
    generalize (handle_irq_step c overflow l idx).samples = out at t2 t3 ⊢
    have hne : ¬ l.samples
        = l.samples ++ [({ event := e, period := (l.st.event e).hw.last_period } : Sample)] :=
      fun h => by
        have h2 := congrArg List.length h
        rw [List.length_append, List.length_singleton] at h2
        omega
    refine ⟨t1, ?_, ?_, ?_⟩
    · by_cases h0 : L ≤ 0
      · obtain ⟨a, b⟩ := t2 h0
        exact ⟨fun _ => by rw [a]; norm_num, fun _ => b⟩
      · obtain ⟨a, b⟩ := t3 (by omega)
        exact ⟨fun h => absurd (b.symm.trans h) hne, fun h => absurd a h⟩
    · by_cases h0 : L ≤ 0
      · obtain ⟨a, -⟩ := t2 h0
        exact ⟨fun _ => h0, fun _ => by rw [a]; norm_num⟩
      · obtain ⟨a, -⟩ := t3 (by omega)
        exact ⟨fun h => absurd a h, fun h => absurd h h0⟩
    · intro hr
      by_cases h0 : L ≤ 0
      · obtain ⟨a, -⟩ := t2 h0
        rw [a] at hr
        exact absurd hr (by norm_num)
      · exact (t3 (by omega)).2
  · obtain ⟨f, hf⟩ : ∃ f, f = s.pmu.mask_counter / 2 := ⟨_, rfl⟩
    rw [← hf] at hp1 ⊢
    have hfk : f = (2 ^ k - 1) / 2 := by rw [hf, hmask]
    have hf1 : 1 ≤ f := by omega
    have hf2 : f < 2 ^ k := by omega
    have hmin : min p ((2 ^ k - 1) / 2) = f := by
      rw [← hfk]
      exact Nat.min_eq_right (Nat.le_of_lt hp1)
    obtain ⟨g, hg⟩ : ∃ g, g = min (p - f) f := ⟨_, rfl⟩
    rw [← hg]
    have hg1 : 1 ≤ g := by
      rw [hg]
      exact Nat.le_min.mpr ⟨by omega, hf1⟩
    have hg2 : g ≤ f := by
      rw [hg]
      exact Nat.min_le_right _ _
    have hca := counter_addr_eq c i (by omega)
    have hp0 : p ≠ 0 := by omega
    have hp3 : 1 ≤ p := by omega
    have hgk : g < 2 ^ k := by omega
    have hval : 2 ^ k - g < 9223372036854775808 ∧ 2 ^ k - g < 2 ^ jj := by
      have hkj : 2 ^ k ≤ 2 ^ jj := Nat.pow_le_pow_right (by norm_num) hk
      omega
    have hbit : BIT i % 4294967296 = BIT i := by
      rw [BIT]
      apply Nat.mod_eq_of_lt
      have h1 : 2 ^ i < 2 ^ 32 := Nat.pow_lt_pow_right (by norm_num) (by omega)
      omega
    obtain ⟨s1, a1, a2, a3, a4, a5, a6, -, a8, -⟩ := start_positive c s ev i k jj p p flags hst
      hidx hi hn hlay hev (htyp i ev hi hused hev) hof1 hctr hjj1 hjj hk hk2 hk63 hmask
      hp3 hp2 hp3 hp2 hper hleft
    rw [hmin] at a6 a8
    obtain ⟨b1, b2, b3, b4, b5, b6, b7⟩ := counter_advance_fields c s1 i f
    have hwrap : (counter_advance c s1 i f).pmu.reg.q (counter_addr c i) = 0 := by
      rw [b6, readq, a8, Nat.mod_eq_of_lt (hlt f),
        a2.2.2.2.1, hmask, Nat.and_pow_two_sub_one_eq_mod, Nat.sub_add_cancel (Nat.le_of_lt hf2),
        Nat.mod_self, Nat.zero_mod]
    have hf3 := a2.trans (frame_counter_advance c s1 i f)
    obtain ⟨d1, d2, d3, d4, d5⟩ := stop_all_fields c (counter_advance c s1 i f)
    obtain ⟨t1, t2, t3, t4⟩ := handle_irq_step_partial c overflow
      (riscv_iommu_pmu_stop_all c (counter_advance c s1 i f)) [] ev i k jj p p f
      (by rw [d2, b2, a2.1]; exact hev)
      (by rw [d1, b1, (a2.2.2.2.2 ev).2.2.1, hsamp]; exact hp0)
      (by rw [d1, b1, (a2.2.2.2.2 ev).1]; exact hidx)
      (by rw [d3, b4, a2.2.2.1]; exact hi)
      (by rw [d3, b4, a2.2.2.1]; exact hn) hctr hjj1 hjj hk hk2 hk63
      (by rw [d4, b5, a2.2.2.2.1]; exact hmask) hp3 hp2 hf1 hf2 hp1 hp2
      (by rw [d1, b1, (a2.2.2.2.2 ev).2.2.2.2]; exact hper)
      (by rw [d1, b1]; exact a4)
      (by rw [d1, b1]; exact a6)
      (by rw [d5]; exact hwrap)
    rw [← hfk, ← hg] at t4
    rw [d1, b1, a3] at t2
    obtain ⟨r, c1, c2, c3, c4⟩ := handle_irq_single c overflow (counter_advance c s1 i f) i jj
      (by rw [b4, a2.2.2.1]; exact hn) (by rw [b4, a2.2.2.1]; exact hlay)
      (occupiedLive_frame s _ hf3 hlive) (slotsTyped_frame c s _ hf3 htyp) hof1 hctr hjj1
      (by rw [b4, a2.2.2.1]; exact hi) (by rw [b7, hbit])
      (fun h0 => by
        subst h0
        rw [t4]
        exact hval)
    have hload : toU64 (-(g : Int)) &&& s.pmu.mask_counter = 2 ^ k - g := by
      rw [hmask, neg_and_mask k (g : Int) (by omega) (by exact_mod_cast hg1)
        (by exact_mod_cast hgk), Int.toNat_ofNat]
    refine ⟨s1, a1, ?_, ?_, r, c1, ?_, ?_, ?_, ?_, ?_⟩
    · rw [← hca, readq, a8, hmask, Nat.sub_add_cancel hpos]
      exact Nat.mod_eq_of_lt (hlt f)
    · rw [← hca, readq, hwrap]
    · rw [c2, t1]
    · rw [c3, t2]
    · rw [c3, t3]
      exact Int.ofNat_sub (Nat.le_of_lt hp1)
    · rw [hload, ← hca, readq, c4, t4]
      exact Nat.mod_eq_of_lt (hlt g)
    · rw [← hca, readq, c4, t4, hmask, Nat.sub_add_cancel hpos]
      exact Nat.mod_eq_of_lt (hlt g)

set_option maxRecDepth 100000 in
/-- Witness for C27: the sample bank of 8 slots with mask `0xFFFFFFFF`, the
stopped request 1 with period `0xC0000000` at slot 1. -/
theorem handle_irq_sample_iff_period_exhausted_witness :
    (sampleStateLong.pmu.num_counters = 8 ∧ sampleStateLong.pmu.mask_counter = 0xFFFFFFFF ∧
      (sampleStateLong.event 1).hw.sample_period = 0xC0000000 ∧
      (sampleStateLong.event 1).hw.period_left = 0xC0000000 ∧
      (sampleStateLong.event 1).count = 0 ∧
      (sampleStateLong.event 1).hw.state &&& sampleConsts.PERF_HES_STOPPED ≠ 0) ∧
    ∃ s1, riscv_iommu_pmu_start sampleConsts sampleStateLong 1 0 = some s1 ∧
      ∃ r, riscv_iommu_pmu_handle_irq sampleConsts (fun _ _ => false)
            (counter_advance sampleConsts s1 1 (sampleStateLong.pmu.mask_counter / 2))
          = some (r, irqreturn_t.IRQ_HANDLED) ∧
        r.samples = [] ∧
        (r.st.event 1).count
          = ((sampleStateLong.event 1).count + sampleStateLong.pmu.mask_counter / 2)
              % 18446744073709551616 ∧
        (r.st.event 1).hw.period_left
          = ((0xC0000000 : Nat) : Int) - ((sampleStateLong.pmu.mask_counter / 2 : Nat) : Int) ∧
        readq r.st.pmu.reg (sampleConsts.RISCV_IOMMU_REG_IOHPMCYCLES + 8 * 1)
          = sampleStateLong.pmu.mask_counter + 1
              - min (0xC0000000 - sampleStateLong.pmu.mask_counter / 2)
                  (sampleStateLong.pmu.mask_counter / 2) :=
  ⟨⟨by decide, by decide, by decide, by decide, by decide, by decide⟩,
    match handle_irq_sample_iff_period_exhausted sampleConsts (fun _ _ => false)
      sampleStateLong 1 1 32 64 0xC0000000 0
      (by decide) (by decide) sampleStateLong_live sampleStateLong_typed (by decide) (by decide)
      (by decide) (by decide) (by decide) (by decide) (by decide) (by decide) (by decide)
      (by decide) (by decide) (by decide) (by decide) (by decide) (by decide) (by decide)
      (by decide) with
    | ⟨_, s1, a1, _, _, r, c1, c2, c3, c4, _, c6⟩ => ⟨s1, a1, r, c1, c2, c3, c4, c6⟩⟩

/-! ## The bitmap and the slot table -/

/-- Whatever `add` returns, the bitmap agrees with the slot table afterwards
if it did before: lines 358-360 set the bit and the entry of one slot. -/
theorem bitmapMatchesTable_add (c : Consts) (s s' : State) (ev flags : Nat) (r : Int)
    (hn : s.pmu.num_counters < 2147483648) (h : BitmapMatchesTable s)
    (hadd : riscv_iommu_pmu_add c s ev flags = some (s', r)) : BitmapMatchesTable s' := by
  by_cases hb : add_slot c s ev = s.pmu.num_counters
  · rw [add_busy c s ev flags hn hb] at hadd
    simp only [Option.some.injEq, Prod.mk.injEq] at hadd
    rw [← hadd.1]
    exact h
  · obtain ⟨s0, h0, hu, he, hnum, -⟩ := add_ok_view c s ev flags hn hb
    rw [h0] at hadd
    simp only [Option.some.injEq, Prod.mk.injEq] at hadd
    rw [← hadd.1]
    intro i hi
    rw [hnum] at hi
    rw [hu, he]
    by_cases his : i = add_slot c s ev
    · rw [his, Function.update_same, Function.update_same]
      exact ⟨fun _ => by simp, fun _ => rfl⟩
    · rw [Function.update_noteq his, Function.update_noteq his]
      exact h i hi

/-- Whatever `del` returns, the bitmap agrees with the slot table afterwards
if it did before: lines 385-386 clear the entry and the bit of one slot. -/
theorem bitmapMatchesTable_del (c : Consts) (s s' : State) (ev flags : Nat)
    (h : BitmapMatchesTable s) (hdel : riscv_iommu_pmu_del c s ev flags = some s') :
    BitmapMatchesTable s' := by
  by_cases hneg : (s.event ev).hw.idx < 0
  · rw [riscv_iommu_pmu_del] at hdel
    simp only [if_pos hneg] at hdel
    exact absurd hdel (by simp)
  · obtain ⟨s0, h0, hu, he, hnum, -⟩ := del_view c s ev flags (not_lt.mp hneg)
    rw [h0] at hdel
    simp only [Option.some.injEq] at hdel
    rw [← hdel]
    intro i hi
    rw [hnum] at hi
    rw [hu, he]
    by_cases his : i = (s.event ev).hw.idx.toNat
    · rw [his, Function.update_same, Function.update_same]
      exact ⟨fun hf => absurd hf (by decide), fun hf => absurd rfl hf⟩
    · rw [Function.update_noteq his, Function.update_noteq his]
      exact h i hi

/-- In every bank state reachable by `add` and `del` from an empty bank the
bitmap agrees with the slot table. -/
theorem reach_bitmapMatchesTable (c : Consts) (s : State) (opn : List Nat)
    (hr : Reach c s opn) : BitmapMatchesTable s := by
  induction hr with
  | empty s _ hused hevents =>
    intro i _
    rw [hused i, hevents i]
    exact ⟨fun hf => absurd hf (by decide), fun hf => absurd rfl hf⟩
  | add_ok s s' opn ev flags hr _ hadd ih =>
    exact bitmapMatchesTable_add c s s' ev flags 0 (reach_num c s opn hr) ih hadd
  | add_fail s s' opn ev flags r hr _ hadd _ ih =>
    exact bitmapMatchesTable_add c s s' ev flags r (reach_num c s opn hr) ih hadd
  | del s s' opn ev flags _ _ hdel ih =>
    exact bitmapMatchesTable_del c s s' ev flags ih hdel

/-- `add` returns for every bank whose number of slots fits a C `int`. -/
theorem add_returns (c : Consts) (s : State) (ev flags : Nat)
    (hn : s.pmu.num_counters < 2147483648) :
    ∃ s' r, riscv_iommu_pmu_add c s ev flags = some (s', r) := by
  by_cases hb : add_slot c s ev = s.pmu.num_counters
  · exact ⟨s, _, add_busy c s ev flags hn hb⟩
  · obtain ⟨s0, h0, -⟩ := add_ok_view c s ev flags hn hb
    exact ⟨s0, 0, h0⟩

/-- In every bank state reachable by `add` and `del` from an empty bank, with
`EAGAIN` positive, every open request has a slot: its `hw.idx` is not
negative, so `del` on it returns. -/
theorem reach_open_idx (c : Consts) (s : State) (opn : List Nat) (hE : 0 < c.EAGAIN)
    (hr : Reach c s opn) : ∀ e ∈ opn, 0 ≤ (s.event e).hw.idx := by
  induction hr with
  | empty s _ _ _ =>
    intro e he
    exact absurd he (List.not_mem_nil e)
  | add_ok s s' opn ev flags hr _ hadd ih =>
    have hn := reach_num c s opn hr
    by_cases hb : add_slot c s ev = s.pmu.num_counters
    · rw [add_busy c s ev flags hn hb] at hadd
      simp only [Option.some.injEq, Prod.mk.injEq] at hadd
      omega
    · obtain ⟨s0, h0, -, -, -, hidx, hoth, -⟩ := add_ok_view c s ev flags hn hb
      rw [h0] at hadd
      simp only [Option.some.injEq, Prod.mk.injEq, and_true] at hadd
      rw [← hadd]
      intro e he
      by_cases hee : e = ev
      · rw [hee, hidx]
        exact Int.natCast_nonneg _
      · rw [hoth e hee]
        rcases List.mem_cons.mp he with h1 | h1
        · exact absurd h1 hee
        · exact ih e h1
  | add_fail s s' opn ev flags r hr _ hadd hret ih =>
    rw [add_fail_same c s s' ev flags r (reach_num c s opn hr) hadd hret]
    exact ih
  | del s s' opn ev flags _ _ hdel ih =>
    by_cases hneg : (s.event ev).hw.idx < 0
    · rw [riscv_iommu_pmu_del] at hdel
      simp only [if_pos hneg] at hdel
      exact absurd hdel (by simp)
    · obtain ⟨s0, h0, -, -, -, hidx, -⟩ := del_view c s ev flags (not_lt.mp hneg)
      rw [h0] at hdel
      simp only [Option.some.injEq] at hdel
      rw [← hdel]
      intro e he
      rw [hidx e]
      exact ih e (List.mem_of_mem_erase he)

/-- C31: in every bank state reachable from an empty bank by `add` and `del`
calls, for every slot `i` below `num_counters`, bit `i` of `used_counters` is
set exactly when entry `i` of the slot table is not NULL; from such a state
`add` returns for every request and, `EAGAIN` being positive, `del` returns for
every open request.  `add` and `del` each preserve the agreement, from any
bank state `t` in which it holds, reachable or not: `add` returns (the number
of slots fits a C `int`) and `del` returns (the request has a slot,
`hw.idx ≥ 0`), and in whatever state they return the bit and the entry of
every slot agree again. -/
theorem reach_bit_iff_entry (c : Consts) (s : State) (opn : List Nat) (hr : Reach c s opn) :
    (∀ i, i < s.pmu.num_counters →
      (s.pmu.used_counters i = true ↔ s.pmu.events i ≠ none)) ∧
    (∀ ev flags, ∃ s' r, riscv_iommu_pmu_add c s ev flags = some (s', r)) ∧
    (0 < c.EAGAIN → ∀ ev ∈ opn, ∀ flags, ∃ s', riscv_iommu_pmu_del c s ev flags = some s') ∧
    (∀ (t : State) (ev flags : Nat), BitmapMatchesTable t →
      t.pmu.num_counters < 2147483648 →
      (∃ t' r, riscv_iommu_pmu_add c t ev flags = some (t', r)) ∧
      ∀ t' r, riscv_iommu_pmu_add c t ev flags = some (t', r) →
        ∀ i, i < t'.pmu.num_counters →
          (t'.pmu.used_counters i = true ↔ t'.pmu.events i ≠ none)) ∧
    (∀ (t : State) (ev flags : Nat), BitmapMatchesTable t → 0 ≤ (t.event ev).hw.idx →
      (∃ t', riscv_iommu_pmu_del c t ev flags = some t') ∧
      ∀ t', riscv_iommu_pmu_del c t ev flags = some t' →
        ∀ i, i < t'.pmu.num_counters →
          (t'.pmu.used_counters i = true ↔ t'.pmu.events i ≠ none)) := by
  refine ⟨reach_bitmapMatchesTable c s opn hr,
    fun ev flags => add_returns c s ev flags (reach_num c s opn hr),
    fun hE ev hev flags => ?_, fun t ev flags ht hn => ⟨?_, ?_⟩,
    fun t ev flags ht hidx => ⟨?_, ?_⟩⟩
  · obtain ⟨s', h0, -⟩ := del_view c s ev flags (reach_open_idx c s opn hE hr ev hev)
    exact ⟨s', h0⟩
  · exact add_returns c t ev flags hn
  · intro t' r hadd
    exact bitmapMatchesTable_add c t t' ev flags r hn ht hadd
  · obtain ⟨t', h0, -⟩ := del_view c t ev flags hidx
    exact ⟨t', h0⟩
  · intro t' hdel
    exact bitmapMatchesTable_del c t t' ev flags ht hdel

/-- Witness for C31: the sample bank after `add` of the requests 1 and 2,
where the slots 1 and 2 are occupied and the others are free. -/
theorem reach_bit_iff_entry_witness :
    Reach sampleConsts sampleStateAB [2, 1] ∧
    (sampleStateAB.pmu.used_counters 1 = true ∧ sampleStateAB.pmu.events 1 = some 1 ∧
      sampleStateAB.pmu.used_counters 3 = false ∧ sampleStateAB.pmu.events 3 = none) ∧
    (∀ i, i < sampleStateAB.pmu.num_counters →
      (sampleStateAB.pmu.used_counters i = true ↔ sampleStateAB.pmu.events i ≠ none)) ∧
    ∃ s', riscv_iommu_pmu_del sampleConsts sampleStateAB 1 0 = some s' :=
  ⟨sample_reach_AB, ⟨by decide, by decide, by decide, by decide⟩,
    (reach_bit_iff_entry sampleConsts sampleStateAB [2, 1] sample_reach_AB).1,
    (reach_bit_iff_entry sampleConsts sampleStateAB [2, 1] sample_reach_AB).2.2.1
      (by decide) 1 (by decide) 0⟩

end RiscvIommuPmu
